import Mathlib

/-!
# kgrapher: the expression engine (`src/expressionparser.cpp`)

A shallow embedding of `ExpressionParser`: the preprocessor (`trimmed` and the
seven `replace` calls), the recursive-descent parser working on the fields
`m_input`, `m_pos`, `m_error`, and the evaluator `evalNode`.

What the C++ code takes from outside the repository is a parameter
(`Platform`): IEEE double arithmetic with the `<cmath>` functions,
`QString::toDouble`, and the Unicode tables behind `QChar::isSpace`,
`QChar::isDigit` and case-insensitive comparison for characters beyond ASCII.
On ASCII characters the three character functions are fixed by Qt and are
written out below.

A `QChar` is modelled by a `Char`, a `QString` by a `List Char` (the public
entry point `parse` takes a `String`).  A `Node *` is a `Node`: either
`nullptr` or a record with the four fields of `struct Node`.

The parsing functions recurse on a fuel argument; `parse` supplies
`parseFuel`, and the theorems show that this is always enough.
-/

namespace KGrapher

/-- What `QChar::isSpace` and `QChar::isDigit` read off the Unicode category of a
character: a separator (or one of the control characters counted as space), a decimal
digit, or anything else. -/
inductive CharClass
  | space | digit | other
  deriving DecidableEq, Repr

/-- Library code the engine is linked against: the type `double` with its
operations, comparisons against zero, `QString::toDouble`, and the Unicode
tables of Qt for characters above U+007F. -/
structure Platform where
  /-- The type `double`. -/
  Double : Type
  /-- The value returned by `qQNaN()`. -/
  qQNaN : Double
  /-- Conversion of an integer constant to `double`. -/
  ofInt : Int → Double
  add : Double → Double → Double
  sub : Double → Double → Double
  mul : Double → Double → Double
  div : Double → Double → Double
  /-- The function `std::pow`. -/
  pow : Double → Double → Double
  neg : Double → Double
  sin : Double → Double
  cos : Double → Double
  tan : Double → Double
  sqrt : Double → Double
  exp : Double → Double
  log : Double → Double
  /-- The comparison `d == 0`. -/
  eqZero : Double → Bool
  /-- The comparison `x < 0`. -/
  ltZero : Double → Bool
  /-- The comparison `x <= 0`. -/
  leZero : Double → Bool
  /-- `QString::toDouble(&ok)` on texts other than one ASCII digit: `none` is `ok == false`. -/
  toDoubleLib : List Char → Option Double
  /-- The class of a character above U+007F. -/
  classU : Char → CharClass
  /-- Unicode case folding above U+007F. -/
  foldCaseU : Char → Char

variable {A : Platform}

/-! ## Qt character and string functions -/

/-- `QChar::isSpace`: U+0020 and U+0009..U+000D among ASCII, the platform table elsewhere. -/
def isSpace (A : Platform) (c : Char) : Bool :=
  if c.toNat < 128 then decide (c.toNat = 32 ∨ (9 ≤ c.toNat ∧ c.toNat ≤ 13)) else decide (A.classU c = .space)

/-- `QChar::isDigit`: `0`..`9` among ASCII, the platform table elsewhere. -/
def isDigit (A : Platform) (c : Char) : Bool :=
  if c.toNat < 128 then decide (48 ≤ c.toNat ∧ c.toNat ≤ 57) else decide (A.classU c = .digit)

/-- Case folding as used by `Qt::CaseInsensitive`: `A`..`Z` go to lower case, other
ASCII characters are unchanged; above U+007F a space folds to itself (separators have no
case) and the platform table decides for the rest. -/
def foldCase (A : Platform) (c : Char) : Char :=
  if c.toNat < 128 then (if 65 ≤ c.toNat ∧ c.toNat ≤ 90 then Char.ofNat (c.toNat + 32) else c)
  else if A.classU c = .space then c else A.foldCaseU c

/-- `QString::toDouble(&ok)`.  A text that is one ASCII digit converts to that digit;
every other text is decided by the platform. -/
def toDouble (A : Platform) (s : List Char) : Option A.Double :=
  match s with
  | [c] => if 48 ≤ c.toNat ∧ c.toNat ≤ 57 then some (A.ofInt (c.toNat - 48 : Nat)) else A.toDoubleLib s
  | _ => A.toDoubleLib s

/-- `QString::trimmed`: whitespace removed from both ends. -/
def trimmed (A : Platform) (s : List Char) : List Char :=
  List.rdropWhile (isSpace A) (List.dropWhile (isSpace A) s)

/-- Worker of `replace`: `skip` characters of a match just replaced are still to be dropped. -/
def replaceFrom (before after : List Char) : Nat → List Char → List Char
  | _, [] => []
  | skip + 1, _ :: cs => replaceFrom before after skip cs
  | 0, c :: cs =>
    if before.isPrefixOf (c :: cs) then after ++ replaceFrom before after (before.length - 1) cs
    else c :: replaceFrom before after 0 cs

/-- `QString::replace(before, after)`: every occurrence found scanning from the left,
case-sensitively and without overlap, is replaced. -/
def replace (before after : String) (s : List Char) : List Char :=
  replaceFrom before.data after.data 0 s

/-- The test `rest.startsWith(QLatin1String(name), Qt::CaseInsensitive)`. -/
def startsWithCI (A : Platform) (rest : List Char) (name : String) : Bool :=
  name.length ≤ rest.length && (rest.take name.length).map (foldCase A) == name.data

/-! ## The tree -/

/-- The enumeration `Node::Type`. -/
inductive NodeType
  | Number | Variable | VariableY | Add | Sub | Mul | Div | Pow | Negate
  | Sin | Cos | Tan | Sqrt | Exp | Log
  deriving DecidableEq, Repr

/-- A value of type `Node *`: the null pointer, or a node with its `type`, `value`,
`left` and `right`. -/
inductive Node (A : Platform)
  | nullptr : Node A
  | mk (type : NodeType) (value : A.Double) (left right : Node A) : Node A

/-- The test `!n`. -/
def Node.isNull : Node A → Bool
  | .nullptr => true
  | .mk _ _ _ _ => false

/-- A node as `new Node` leaves it (`value = 0`, no children) once `type` is assigned. -/
def Node.leaf (A : Platform) (t : NodeType) : Node A := .mk t (A.ofInt 0) .nullptr .nullptr

/-- A `Number` node with `n->value = v`. -/
def Node.number (v : A.Double) : Node A := .mk .Number v .nullptr .nullptr

/-- A node with `n->left = l` and `n->right = r`. -/
def Node.binary (t : NodeType) (l r : Node A) : Node A := .mk t (A.ofInt 0) l r

/-- A node with `n->left = c` only. -/
def Node.unary (t : NodeType) (c : Node A) : Node A := .mk t (A.ofInt 0) c .nullptr

/-! ## The engine -/

/-- The data members of `ExpressionParser`.  The cursor `m_pos` is kept as `unread`, the
part of `m_input` from `m_pos` to the end (`m_input.mid(m_pos)`); see `m_pos`. -/
structure ExpressionParser (A : Platform) where
  m_input : List Char
  unread : List Char
  m_error : String
  m_parsed : Bool
  m_root : Node A

/-- A default-constructed engine. -/
def ExpressionParser.fresh (A : Platform) : ExpressionParser A :=
  { m_input := [], unread := [], m_error := "", m_parsed := false, m_root := .nullptr }

namespace ExpressionParser

/-- `m_input.size()`. -/
def size (p : ExpressionParser A) : Nat := p.m_input.length

/-- The cursor `m_pos`: what has been read is everything except `unread`. -/
def m_pos (p : ExpressionParser A) : Nat := p.m_input.length - p.unread.length

/-- The test `m_pos >= m_input.size()`. -/
def atEnd (p : ExpressionParser A) : Bool := p.unread.isEmpty

/-- `m_input[m_pos + k]`, read only when in range. -/
def peek (p : ExpressionParser A) (k : Nat) : Char := p.unread.getD k ' '

/-- `m_input[m_pos]`. -/
def cur (p : ExpressionParser A) : Char := p.unread.headD ' '

/-- `m_pos += k`. -/
def advance (p : ExpressionParser A) (k : Nat) : ExpressionParser A :=
  { p with unread := p.unread.drop k }

/-- `m_error = msg`. -/
def setError (p : ExpressionParser A) (msg : String) : ExpressionParser A :=
  { p with m_error := msg }

/-- `errorString()`. -/
def errorString (p : ExpressionParser A) : String := p.m_error

/-- `isValid()`. -/
def isValid (p : ExpressionParser A) : Bool := p.m_parsed

/-- `skipSpaces()`: the cursor moves over the run of whitespace that starts at it. -/
def skipSpaces (p : ExpressionParser A) : ExpressionParser A :=
  { p with unread := p.unread.dropWhile (isSpace A) }

/-- The loop of `parsePrimary` that consumes digits and dots. -/
def skipNumber (p : ExpressionParser A) : ExpressionParser A :=
  { p with unread := p.unread.dropWhile (fun c => isDigit A c || c == '.') }

end ExpressionParser

open ExpressionParser

/-- The table `funcs` of `parsePrimary`. -/
def funcs : List String := ["sin", "cos", "tan", "sqrt", "exp", "log"]

/-- The condition of the `for` loop of `parsePrimary` for one name. -/
def matchesFunc (p : ExpressionParser A) (fn : String) : Bool :=
  fn.length ≤ p.unread.length && (p.unread.take fn.length).map (foldCase A) == fn.data

/-- The `implicit` flag computed by `parsePower` at the current character. -/
def implicitStart (p : ExpressionParser A) : Bool :=
  let c := p.cur
  let implicit := c == 'x' || c == 'X' || c == 'y' || c == 'Y' || c == '('
    || isDigit A c || c == '.'
  if !implicit && (c == 's' || c == 'c' || c == 't' || c == 'e' || c == 'l') then
    let rest := p.unread
    startsWithCI A rest "sin" || startsWithCI A rest "cos" || startsWithCI A rest "tan"
      || startsWithCI A rest "sqrt" || startsWithCI A rest "exp" || startsWithCI A rest "log"
  else implicit

/-- The condition under which `parsePrimary` reads a number: a digit, or a dot
followed by a digit. -/
def numberStart (p : ExpressionParser A) : Prop :=
  isDigit A p.cur = true ∨ (p.cur = '.' ∧ 1 < p.unread.length ∧ isDigit A (p.peek 1) = true)

instance (p : ExpressionParser A) : Decidable (numberStart p) := by
  unfold numberStart; infer_instance

/-- The cursor after the number: `if (m_input[m_pos] == '.') ++m_pos;` and the loop over
digits and dots. -/
def scanNumber (p : ExpressionParser A) : ExpressionParser A :=
  (if p.cur = '.' then p.advance 1 else p).skipNumber

/-- The text `m_input.mid(start, m_pos - start)` between the cursor of `start` and that
of `p`. -/
def numberText (start p : ExpressionParser A) : List Char :=
  start.unread.take (start.unread.length - p.unread.length)

/-- The node type chosen by the `if` chain at the end of `parseFunction`. -/
def funcType (name : String) : Option NodeType :=
  if name = "sin" then some .Sin
  else if name = "cos" then some .Cos
  else if name = "tan" then some .Tan
  else if name = "sqrt" then some .Sqrt
  else if name = "exp" then some .Exp
  else if name = "log" then some .Log
  else none

/-- Result of a parsing function: the returned pointer and the engine afterwards;
`none` when the fuel ran out. -/
abbrev Parsed (A : Platform) := Option (Node A × ExpressionParser A)

mutual

/-- `parseExpression()`. -/
def parseExpression : Nat → ExpressionParser A → Parsed A
  | 0, _ => none
  | fuel + 1, p =>
    match parseTerm fuel p with
    | none => none
    | some (left, p) =>
      if left.isNull = true ∧ p.m_error ≠ "" then some (.nullptr, p)
      else parseExpressionLoop fuel left p.skipSpaces

/-- The `while` loop of `parseExpression`, entered with `left`. -/
def parseExpressionLoop : Nat → Node A → ExpressionParser A → Parsed A
  | 0, _, _ => none
  | fuel + 1, left, p =>
    if p.atEnd = false then
      if p.cur = '+' then
        match parseTerm fuel (p.advance 1).skipSpaces with
        | none => none
        | some (right, p) =>
          if right.isNull then some (.nullptr, p)
          else parseExpressionLoop fuel (.binary .Add left right) p.skipSpaces
      else if p.cur = '-' then
        match parseTerm fuel (p.advance 1).skipSpaces with
        | none => none
        | some (right, p) =>
          if right.isNull then some (.nullptr, p)
          else parseExpressionLoop fuel (.binary .Sub left right) p.skipSpaces
      else some (left, p)
    else some (left, p)

/-- `parseTerm()`. -/
def parseTerm : Nat → ExpressionParser A → Parsed A
  | 0, _ => none
  | fuel + 1, p =>
    match parseFactor fuel p with
    | none => none
    | some (left, p) =>
      if left.isNull = true ∧ p.m_error ≠ "" then some (.nullptr, p)
      else parseTermLoop fuel left p.skipSpaces

/-- The `while` loop of `parseTerm`, entered with `left`. -/
def parseTermLoop : Nat → Node A → ExpressionParser A → Parsed A
  | 0, _, _ => none
  | fuel + 1, left, p =>
    if p.atEnd = false then
      if p.cur = '*' then
        match parseFactor fuel (p.advance 1).skipSpaces with
        | none => none
        | some (right, p) =>
          if right.isNull then some (.nullptr, p)
          else parseTermLoop fuel (.binary .Mul left right) p.skipSpaces
      else if p.cur = '/' then
        match parseFactor fuel (p.advance 1).skipSpaces with
        | none => none
        | some (right, p) =>
          if right.isNull then some (.nullptr, p)
          else parseTermLoop fuel (.binary .Div left right) p.skipSpaces
      else some (left, p)
    else some (left, p)

/-- `parseFactor()`. -/
def parseFactor : Nat → ExpressionParser A → Parsed A
  | 0, _ => none
  | fuel + 1, p => parsePower fuel p

/-- `parsePower()`. -/
def parsePower : Nat → ExpressionParser A → Parsed A
  | 0, _ => none
  | fuel + 1, p =>
    match parseUnary fuel p with
    | none => none
    | some (base, p) =>
      if base.isNull = true ∧ p.m_error ≠ "" then some (.nullptr, p)
      else
        let p := p.skipSpaces
        if p.atEnd = false ∧ p.cur = '^' then
          match parsePower fuel (p.advance 1).skipSpaces with
          | none => none
          | some (exp, p) =>
            if exp.isNull then some (.nullptr, p)
            else some (.binary .Pow base exp, p)
        else if p.atEnd = false ∧ implicitStart p = true then
          match parseUnary fuel p with
          | none => none
          | some (right, p) =>
            if right.isNull then some (base, p)
            else some (.binary .Mul base right, p)
        else some (base, p)

/-- `parseUnary()`. -/
def parseUnary : Nat → ExpressionParser A → Parsed A
  | 0, _ => none
  | fuel + 1, p =>
    let p := p.skipSpaces
    if p.atEnd = false ∧ p.cur = '-' then
      match parseUnary fuel (p.advance 1) with
      | none => none
      | some (child, p) =>
        if child.isNull then some (.nullptr, p)
        else some (.unary .Negate child, p)
    else parsePrimary fuel p

/-- `parseFunction(name)`. -/
def parseFunction : Nat → String → ExpressionParser A → Parsed A
  | 0, _, _ => none
  | fuel + 1, name, p =>
    let p := p.skipSpaces
    if p.atEnd = true ∨ p.cur ≠ '(' then
      some (.nullptr, p.setError ("Expected '(' after '" ++ name ++ "'"))
    else
      match parseExpression fuel (p.advance 1) with
      | none => none
      | some (arg, p) =>
        if arg.isNull then some (.nullptr, p)
        else
          let p := p.skipSpaces
          if p.atEnd = true ∨ p.cur ≠ ')' then
            some (.nullptr, p.setError "Expected ')'")
          else
            let p := p.advance 1
            match funcType name with
            | some t => some (.unary t arg, p)
            | none => some (.nullptr, p.setError ("Unknown function: " ++ name))

/-- `parsePrimary()`. -/
def parsePrimary : Nat → ExpressionParser A → Parsed A
  | 0, _ => none
  | fuel + 1, p =>
    let p := p.skipSpaces
    if p.atEnd = true then
      some (.nullptr, p.setError "Unexpected end of expression")
    else if p.cur = 'x' ∨ p.cur = 'X' then
      some (.leaf A .Variable, p.advance 1)
    else if p.cur = 'y' ∨ p.cur = 'Y' then
      some (.leaf A .VariableY, p.advance 1)
    else if p.cur = '(' then
      match parseExpression fuel (p.advance 1) with
      | none => none
      | some (inner, p) =>
        if inner.isNull then some (.nullptr, p)
        else
          let p := p.skipSpaces
          if p.atEnd = true ∨ p.cur ≠ ')' then
            some (.nullptr, p.setError "Expected ')'")
          else some (inner, p.advance 1)
    else if numberStart p then
      let start := p
      let p := scanNumber p
      match toDouble A (numberText start p) with
      | none => some (.nullptr, p.setError "Invalid number")
      | some v => some (.number v, p)
    else
      match funcs.find? (matchesFunc p) with
      | some fn => parseFunction fuel fn (p.advance fn.length)
      | none =>
        some (.nullptr, p.setError ("Unexpected character '" ++ String.singleton p.cur ++ "'"))

end

/-! ## The calls by name, and the fuel each needs -/

/-- The parsing functions by name, the two `while` loops included, each with its extra
argument. -/
inductive Call (A : Platform)
  | expression | expressionLoop (left : Node A) | term | termLoop (left : Node A)
  | factor | power | unary | function (name : String) | primary

/-- The call `c` run with fuel `f` on the engine `p`. -/
def Call.run : Call A → Nat → ExpressionParser A → Parsed A
  | .expression, f, p => parseExpression f p
  | .expressionLoop left, f, p => parseExpressionLoop f left p
  | .term, f, p => parseTerm f p
  | .termLoop left, f, p => parseTermLoop f left p
  | .factor, f, p => parseFactor f p
  | .power, f, p => parsePower f p
  | .unary, f, p => parseUnary f p
  | .function name, f, p => parseFunction f name p
  | .primary, f, p => parsePrimary f p

/-- How deep a call can descend before a character is consumed, plus one. -/
def Call.rank : Call A → Nat
  | .expression => 6
  | .term => 5
  | .factor => 4
  | .power => 3
  | .unary => 2
  | .expressionLoop _ => 1
  | .termLoop _ => 1
  | .function _ => 1
  | .primary => 1

/-- Fuel that is enough for the call `c` on the engine `p`. -/
def Call.fuel (c : Call A) (p : ExpressionParser A) : Nat := 10 * p.unread.length + c.rank

/-- The result of the call `c` on the engine `p`, run with `Call.fuel`. -/
@[irreducible] def Call.result (c : Call A) (p : ExpressionParser A) : Node A × ExpressionParser A :=
  (c.run (c.fuel p) p).getD (.nullptr, p)

/-- Fuel that `parse` gives to `parseExpression` for an input of `n` characters. -/
def parseFuel (n : Nat) : Nat := 10 * n + 10

/-- The preprocessing at the head of `parse`: `trimmed` and the seven `replace` calls. -/
def normalize (A : Platform) (expr : List Char) : List Char :=
  replace "\\ln" "log" (replace "\\log" "log" (replace "\\exp" "exp"
    (replace "\\sqrt" "sqrt" (replace "\\tan" "tan" (replace "\\cos" "cos"
      (replace "\\sin" "sin" (trimmed A expr)))))))

/-- `parse(expr)` on an engine `e`: the returned flag and the engine afterwards
(`none` only if `parseExpression` ran out of fuel). -/
def parse (e : ExpressionParser A) (expr : String) : Option (Bool × ExpressionParser A) :=
  let e : ExpressionParser A :=
    { e with m_parsed := false, m_root := .nullptr, m_error := "",
             m_input := normalize A expr.data, unread := normalize A expr.data }
  match parseExpression (parseFuel e.size) e with
  | none => none
  | some (root, e) =>
    let e := e.skipSpaces
    let e := if e.atEnd = false ∧ e.m_error = "" then e.setError "Unexpected character at end" else e
    if e.m_error ≠ "" then some (false, e)
    else some (true, { e with m_root := root, m_parsed := true })

/-! ## The evaluator -/

/-- `safeLog`. -/
def safeLog (A : Platform) (x : A.Double) : A.Double :=
  if A.leZero x then A.qQNaN else A.log x

/-- `safeSqrt`. -/
def safeSqrt (A : Platform) (x : A.Double) : A.Double :=
  if A.ltZero x then A.qQNaN else A.sqrt x

/-- `evalNode(n, x, y)`. -/
def evalNode : Node A → A.Double → A.Double → A.Double
  | .nullptr, _, _ => A.qQNaN
  | .mk .Number value _ _, _, _ => value
  | .mk .Variable _ _ _, x, _ => x
  | .mk .VariableY _ _ _, _, y => y
  | .mk .Add _ l r, x, y => A.add (evalNode l x y) (evalNode r x y)
  | .mk .Sub _ l r, x, y => A.sub (evalNode l x y) (evalNode r x y)
  | .mk .Mul _ l r, x, y => A.mul (evalNode l x y) (evalNode r x y)
  | .mk .Div _ l r, x, y =>
    let d := evalNode r x y
    if A.eqZero d then A.qQNaN else A.div (evalNode l x y) d
  | .mk .Pow _ l r, x, y => A.pow (evalNode l x y) (evalNode r x y)
  | .mk .Negate _ l _, x, y => A.neg (evalNode l x y)
  | .mk .Sin _ l _, x, y => A.sin (evalNode l x y)
  | .mk .Cos _ l _, x, y => A.cos (evalNode l x y)
  | .mk .Tan _ l _, x, y => A.tan (evalNode l x y)
  | .mk .Sqrt _ l _, x, y => safeSqrt A (evalNode l x y)
  | .mk .Exp _ l _, x, y => A.exp (evalNode l x y)
  | .mk .Log _ l _, x, y => safeLog A (evalNode l x y)

/-- `eval(x, y)`. -/
def eval (e : ExpressionParser A) (x y : A.Double) : A.Double :=
  if e.m_root.isNull then A.qQNaN else evalNode e.m_root x y

/-- `eval(x)`. -/
def eval1 (e : ExpressionParser A) (x : A.Double) : A.Double := eval e x (A.ofInt 0)

/-! ## The paths through the parser -/

/-- The operator of `parseExpression` at a character: `+` builds `Add`, `-` builds `Sub`. -/
def addOp (c : Char) : Option NodeType :=
  if c = '+' then some .Add else if c = '-' then some .Sub else none

/-- The operator of `parseTerm` at a character: `*` builds `Mul`, `/` builds `Div`. -/
def mulOp (c : Char) : Option NodeType :=
  if c = '*' then some .Mul else if c = '/' then some .Div else none

/-- The paths through the parsing functions: `Step c p n p'` says that the call `c` on the
engine `p` returns the pointer `n` and leaves the engine `p'`.  One rule per path through
the body of each function, in the order of the source. -/
inductive Step : Call A → ExpressionParser A → Node A → ExpressionParser A → Prop
  | expression_fail {p left p1} :
      Step .term p left p1 → left.isNull = true → p1.m_error ≠ "" →
      Step .expression p .nullptr p1
  | expression_loop {p left p1 n p2} :
      Step .term p left p1 → ¬ (left.isNull = true ∧ p1.m_error ≠ "") →
      Step (.expressionLoop left) p1.skipSpaces n p2 → Step .expression p n p2
  | expressionLoop_stop {left p} :
      p.atEnd = true ∨ addOp p.cur = none → Step (.expressionLoop left) p left p
  | expressionLoop_fail {left p t right p1} :
      p.atEnd = false → addOp p.cur = some t →
      Step .term (p.advance 1).skipSpaces right p1 → right.isNull = true →
      Step (.expressionLoop left) p .nullptr p1
  | expressionLoop_next {left p t right p1 n p2} :
      p.atEnd = false → addOp p.cur = some t →
      Step .term (p.advance 1).skipSpaces right p1 → right.isNull = false →
      Step (.expressionLoop (.binary t left right)) p1.skipSpaces n p2 →
      Step (.expressionLoop left) p n p2
  | term_fail {p left p1} :
      Step .factor p left p1 → left.isNull = true → p1.m_error ≠ "" →
      Step .term p .nullptr p1
  | term_loop {p left p1 n p2} :
      Step .factor p left p1 → ¬ (left.isNull = true ∧ p1.m_error ≠ "") →
      Step (.termLoop left) p1.skipSpaces n p2 → Step .term p n p2
  | termLoop_stop {left p} :
      p.atEnd = true ∨ mulOp p.cur = none → Step (.termLoop left) p left p
  | termLoop_fail {left p t right p1} :
      p.atEnd = false → mulOp p.cur = some t →
      Step .factor (p.advance 1).skipSpaces right p1 → right.isNull = true →
      Step (.termLoop left) p .nullptr p1
  | termLoop_next {left p t right p1 n p2} :
      p.atEnd = false → mulOp p.cur = some t →
      Step .factor (p.advance 1).skipSpaces right p1 → right.isNull = false →
      Step (.termLoop (.binary t left right)) p1.skipSpaces n p2 →
      Step (.termLoop left) p n p2
  | factor {p n p1} : Step .power p n p1 → Step .factor p n p1
  | power_fail {p base p1} :
      Step .unary p base p1 → base.isNull = true → p1.m_error ≠ "" →
      Step .power p .nullptr p1
  | power_pow_fail {p base p1 exp p2} :
      Step .unary p base p1 → ¬ (base.isNull = true ∧ p1.m_error ≠ "") →
      p1.skipSpaces.atEnd = false → p1.skipSpaces.cur = '^' →
      Step .power (p1.skipSpaces.advance 1).skipSpaces exp p2 → exp.isNull = true →
      Step .power p .nullptr p2
  | power_pow {p base p1 exp p2} :
      Step .unary p base p1 → ¬ (base.isNull = true ∧ p1.m_error ≠ "") →
      p1.skipSpaces.atEnd = false → p1.skipSpaces.cur = '^' →
      Step .power (p1.skipSpaces.advance 1).skipSpaces exp p2 → exp.isNull = false →
      Step .power p (.binary .Pow base exp) p2
  | power_implicit_fail {p base p1 right p2} :
      Step .unary p base p1 → ¬ (base.isNull = true ∧ p1.m_error ≠ "") →
      p1.skipSpaces.atEnd = false → p1.skipSpaces.cur ≠ '^' →
      implicitStart p1.skipSpaces = true →
      Step .unary p1.skipSpaces right p2 → right.isNull = true →
      Step .power p base p2
  | power_implicit {p base p1 right p2} :
      Step .unary p base p1 → ¬ (base.isNull = true ∧ p1.m_error ≠ "") →
      p1.skipSpaces.atEnd = false → p1.skipSpaces.cur ≠ '^' →
      implicitStart p1.skipSpaces = true →
      Step .unary p1.skipSpaces right p2 → right.isNull = false →
      Step .power p (.binary .Mul base right) p2
  | power_plain {p base p1} :
      Step .unary p base p1 → ¬ (base.isNull = true ∧ p1.m_error ≠ "") →
      p1.skipSpaces.atEnd = true ∨ (p1.skipSpaces.cur ≠ '^' ∧ implicitStart p1.skipSpaces = false) →
      Step .power p base p1.skipSpaces
  | unary_neg_fail {p child p1} :
      p.skipSpaces.atEnd = false → p.skipSpaces.cur = '-' →
      Step .unary (p.skipSpaces.advance 1) child p1 → child.isNull = true →
      Step .unary p .nullptr p1
  | unary_neg {p child p1} :
      p.skipSpaces.atEnd = false → p.skipSpaces.cur = '-' →
      Step .unary (p.skipSpaces.advance 1) child p1 → child.isNull = false →
      Step .unary p (.unary .Negate child) p1
  | unary_primary {p n p1} :
      p.skipSpaces.atEnd = true ∨ p.skipSpaces.cur ≠ '-' →
      Step .primary p.skipSpaces n p1 → Step .unary p n p1
  | function_noparen {name p} :
      p.skipSpaces.atEnd = true ∨ p.skipSpaces.cur ≠ '(' →
      Step (.function name) p .nullptr
        (p.skipSpaces.setError ("Expected '(' after '" ++ name ++ "'"))
  | function_arg_fail {name p arg p1} :
      p.skipSpaces.atEnd = false → p.skipSpaces.cur = '(' →
      Step .expression (p.skipSpaces.advance 1) arg p1 → arg.isNull = true →
      Step (.function name) p .nullptr p1
  | function_noclose {name p arg p1} :
      p.skipSpaces.atEnd = false → p.skipSpaces.cur = '(' →
      Step .expression (p.skipSpaces.advance 1) arg p1 → arg.isNull = false →
      p1.skipSpaces.atEnd = true ∨ p1.skipSpaces.cur ≠ ')' →
      Step (.function name) p .nullptr (p1.skipSpaces.setError "Expected ')'")
  | function_ok {name p arg p1 t} :
      p.skipSpaces.atEnd = false → p.skipSpaces.cur = '(' →
      Step .expression (p.skipSpaces.advance 1) arg p1 → arg.isNull = false →
      p1.skipSpaces.atEnd = false → p1.skipSpaces.cur = ')' →
      funcType name = some t →
      Step (.function name) p (.unary t arg) (p1.skipSpaces.advance 1)
  | function_unknown {name p arg p1} :
      p.skipSpaces.atEnd = false → p.skipSpaces.cur = '(' →
      Step .expression (p.skipSpaces.advance 1) arg p1 → arg.isNull = false →
      p1.skipSpaces.atEnd = false → p1.skipSpaces.cur = ')' →
      funcType name = none →
      Step (.function name) p .nullptr
        ((p1.skipSpaces.advance 1).setError ("Unknown function: " ++ name))
  | primary_end {p} :
      p.skipSpaces.atEnd = true →
      Step .primary p .nullptr (p.skipSpaces.setError "Unexpected end of expression")
  | primary_x {p} :
      p.skipSpaces.atEnd = false → p.skipSpaces.cur = 'x' ∨ p.skipSpaces.cur = 'X' →
      Step .primary p (.leaf A .Variable) (p.skipSpaces.advance 1)
  | primary_y {p} :
      p.skipSpaces.atEnd = false → ¬ (p.skipSpaces.cur = 'x' ∨ p.skipSpaces.cur = 'X') →
      p.skipSpaces.cur = 'y' ∨ p.skipSpaces.cur = 'Y' →
      Step .primary p (.leaf A .VariableY) (p.skipSpaces.advance 1)
  | primary_paren_fail {p inner p1} :
      p.skipSpaces.atEnd = false → p.skipSpaces.cur = '(' →
      Step .expression (p.skipSpaces.advance 1) inner p1 → inner.isNull = true →
      Step .primary p .nullptr p1
  | primary_paren_noclose {p inner p1} :
      p.skipSpaces.atEnd = false → p.skipSpaces.cur = '(' →
      Step .expression (p.skipSpaces.advance 1) inner p1 → inner.isNull = false →
      p1.skipSpaces.atEnd = true ∨ p1.skipSpaces.cur ≠ ')' →
      Step .primary p .nullptr (p1.skipSpaces.setError "Expected ')'")
  | primary_paren {p inner p1} :
      p.skipSpaces.atEnd = false → p.skipSpaces.cur = '(' →
      Step .expression (p.skipSpaces.advance 1) inner p1 → inner.isNull = false →
      p1.skipSpaces.atEnd = false → p1.skipSpaces.cur = ')' →
      Step .primary p inner (p1.skipSpaces.advance 1)
  | primary_number_invalid {p} :
      p.skipSpaces.atEnd = false → ¬ (p.skipSpaces.cur = 'x' ∨ p.skipSpaces.cur = 'X') →
      ¬ (p.skipSpaces.cur = 'y' ∨ p.skipSpaces.cur = 'Y') → p.skipSpaces.cur ≠ '(' →
      numberStart p.skipSpaces →
      toDouble A (numberText p.skipSpaces (scanNumber p.skipSpaces)) = none →
      Step .primary p .nullptr ((scanNumber p.skipSpaces).setError "Invalid number")
  | primary_number {p v} :
      p.skipSpaces.atEnd = false → ¬ (p.skipSpaces.cur = 'x' ∨ p.skipSpaces.cur = 'X') →
      ¬ (p.skipSpaces.cur = 'y' ∨ p.skipSpaces.cur = 'Y') → p.skipSpaces.cur ≠ '(' →
      numberStart p.skipSpaces →
      toDouble A (numberText p.skipSpaces (scanNumber p.skipSpaces)) = some v →
      Step .primary p (.number v) (scanNumber p.skipSpaces)
  | primary_function {p fn n p1} :
      p.skipSpaces.atEnd = false → ¬ (p.skipSpaces.cur = 'x' ∨ p.skipSpaces.cur = 'X') →
      ¬ (p.skipSpaces.cur = 'y' ∨ p.skipSpaces.cur = 'Y') → p.skipSpaces.cur ≠ '(' →
      ¬ numberStart p.skipSpaces →
      funcs.find? (matchesFunc p.skipSpaces) = some fn →
      Step (.function fn) (p.skipSpaces.advance fn.length) n p1 →
      Step .primary p n p1
  | primary_unexpected {p} :
      p.skipSpaces.atEnd = false → ¬ (p.skipSpaces.cur = 'x' ∨ p.skipSpaces.cur = 'X') →
      ¬ (p.skipSpaces.cur = 'y' ∨ p.skipSpaces.cur = 'Y') → p.skipSpaces.cur ≠ '(' →
      ¬ numberStart p.skipSpaces →
      funcs.find? (matchesFunc p.skipSpaces) = none →
      Step .primary p .nullptr
        (p.skipSpaces.setError ("Unexpected character '" ++ String.singleton p.skipSpaces.cur ++ "'"))

/-! ## The two ends of `parse`, and the platform assumptions -/

/-- The engine as `parse` sets it up before calling `parseExpression`. -/
def parseStart (e : ExpressionParser A) (expr : String) : ExpressionParser A :=
  { e with m_parsed := false, m_root := .nullptr, m_error := "",
           m_input := normalize A expr.data, unread := normalize A expr.data }

/-- What `parse` does with the outcome of `parseExpression`: the returned flag and the
engine afterwards. -/
def parseFinish (r : Node A × ExpressionParser A) : Bool × ExpressionParser A :=
  let e := r.2.skipSpaces
  let e := if e.atEnd = false ∧ e.m_error = "" then e.setError "Unexpected character at end" else e
  if e.m_error ≠ "" then (false, e) else (true, { e with m_root := r.1, m_parsed := true })

/-- What the claims about computed values assume of the platform: arithmetic on integers
of magnitude up to `2^53` is exact, as it is for IEEE doubles. -/
structure Platform.Exact (A : Platform) : Prop where
  add_ofInt : ∀ a b : Int, a.natAbs ≤ 2 ^ 53 → b.natAbs ≤ 2 ^ 53 → (a + b).natAbs ≤ 2 ^ 53 →
    A.add (A.ofInt a) (A.ofInt b) = A.ofInt (a + b)
  sub_ofInt : ∀ a b : Int, a.natAbs ≤ 2 ^ 53 → b.natAbs ≤ 2 ^ 53 → (a - b).natAbs ≤ 2 ^ 53 →
    A.sub (A.ofInt a) (A.ofInt b) = A.ofInt (a - b)
  mul_ofInt : ∀ a b : Int, a.natAbs ≤ 2 ^ 53 → b.natAbs ≤ 2 ^ 53 → (a * b).natAbs ≤ 2 ^ 53 →
    (0 ≤ a ∧ 0 ≤ b) ∨ a * b ≠ 0 → A.mul (A.ofInt a) (A.ofInt b) = A.ofInt (a * b)
  neg_ofInt : ∀ a : Int, a.natAbs ≤ 2 ^ 53 → a ≠ 0 → A.neg (A.ofInt a) = A.ofInt (-a)
  pow_ofInt : ∀ (a : Int) (n : Nat), a.natAbs ≤ 2 ^ 53 → n ≤ 2 ^ 53 →
    (a ^ n).natAbs ≤ 2 ^ 53 → A.pow (A.ofInt a) (A.ofInt n) = A.ofInt (a ^ n)
  sin_zero : A.sin (A.ofInt 0) = A.ofInt 0
  sqrt_ofInt : ∀ n : Nat, n * n ≤ 2 ^ 53 → A.sqrt (A.ofInt (n * n : Nat)) = A.ofInt n
  eqZero_ofInt : ∀ a : Int, a.natAbs ≤ 2 ^ 53 → (A.eqZero (A.ofInt a) = true ↔ a = 0)
  ltZero_ofInt : ∀ a : Int, a.natAbs ≤ 2 ^ 53 → (A.ltZero (A.ofInt a) = true ↔ a < 0)
  leZero_ofInt : ∀ a : Int, a.natAbs ≤ 2 ^ 53 → (A.leZero (A.ofInt a) = true ↔ a ≤ 0)
  ofInt_inj : ∀ a b : Int, a.natAbs ≤ 2 ^ 53 → b.natAbs ≤ 2 ^ 53 → A.ofInt a = A.ofInt b → a = b

/-- A small platform to run the engine on: integers with one not-a-number value, exact
where the result is an integer and not-a-number elsewhere; texts longer than one digit
do not convert; no character above U+007F is a space or a digit. -/
def intPlatform : Platform where
  Double := Option Int
  qQNaN := none
  ofInt := fun a => some a
  add := fun x y => x.bind fun a => y.map fun b => a + b
  sub := fun x y => x.bind fun a => y.map fun b => a - b
  mul := fun x y => x.bind fun a => y.map fun b => a * b
  div := fun x y => x.bind fun a => y.bind fun b => if b ≠ 0 ∧ b ∣ a then some (a / b) else none
  pow := fun x y => x.bind fun a => y.bind fun b => if 0 ≤ b then some (a ^ b.toNat) else none
  neg := fun x => x.map fun a => -a
  sin := fun x => x.bind fun a => if a = 0 then some 0 else none
  cos := fun x => x.bind fun a => if a = 0 then some 1 else none
  tan := fun x => x.bind fun a => if a = 0 then some 0 else none
  sqrt := fun x => x.bind fun a =>
    if 0 ≤ a ∧ (Nat.sqrt a.toNat * Nat.sqrt a.toNat : Nat) = a.toNat then some (Nat.sqrt a.toNat) else none
  exp := fun x => x.bind fun a => if a = 0 then some 1 else none
  log := fun x => x.bind fun a => if a = 1 then some 0 else none
  eqZero := fun x => x == some 0
  ltZero := fun x => match x with | some a => decide (a < 0) | none => false
  leZero := fun x => match x with | some a => decide (a ≤ 0) | none => false
  toDoubleLib := fun _ => none
  classU := fun _ => .other
  foldCaseU := fun c => c

/-- A number as `parsePrimary` reads one: digits and dots only, starting with a digit or
with a dot that a digit follows. -/
structure NumberLiteral (A : Platform) (s : List Char) : Prop where
  chars : ∀ c ∈ s, isDigit A c = true ∨ c = '.'
  start : (∃ d t, s = d :: t ∧ isDigit A d = true)
    ∨ (∃ d t, s = '.' :: d :: t ∧ isDigit A d = true)

/-- The primaries of the claims, each with the node it parses to: the variables `x`, `X`,
`y`, `Y`, and the numbers that `toDouble` accepts. -/
inductive Primary (A : Platform) : List Char → Node A → Prop
  | x : Primary A ['x'] (.leaf A .Variable)
  | X : Primary A ['X'] (.leaf A .Variable)
  | y : Primary A ['y'] (.leaf A .VariableY)
  | Y : Primary A ['Y'] (.leaf A .VariableY)
  | number {s : List Char} {v : A.Double} :
      NumberLiteral A s → toDouble A s = some v → Primary A s (.number v)

/-- The text `rest` does not continue a number: it is empty or starts with a character
that is neither a digit nor a dot. -/
def Stops (A : Platform) (rest : List Char) : Prop :=
  ∀ c, rest.head? = some c → isDigit A c = false ∧ c ≠ '.'

/-- The primary `s` ends where `rest` begins: `s` is a variable, or `rest` does not
continue a number. -/
def Follows (A : Platform) (s rest : List Char) : Prop :=
  s = ['x'] ∨ s = ['X'] ∨ s = ['y'] ∨ s = ['Y'] ∨ Stops A rest

/-- A text of whitespace only. -/
def Blank (A : Platform) (ws : List Char) : Prop := ∀ c ∈ ws, isSpace A c = true

/-- The first character of a primary. -/
def PrimaryHead (A : Platform) (h : Char) : Prop :=
  h = 'x' ∨ h = 'X' ∨ h = 'y' ∨ h = 'Y' ∨ isDigit A h = true ∨ h = '.'

/-- An explicit binary operator of the grammar: one of `+ - * / ^`. -/
def IsOperator (k : Char) : Prop := k = '+' ∨ k = '-' ∨ k = '*' ∨ k = '/' ∨ k = '^'

/-- A spelling of the function name `name` in some mix of letter cases: character by
character, the letter of the name or its upper-case form. -/
def Spelling (v : List Char) (name : String) : Prop :=
  List.Forall₂ (fun k c => k = c ∨ k = c.toUpper) v name.data

/-- The letters of the six function names. -/
def nameLetters : List Char :=
  ['s', 'i', 'n', 'c', 'o', 't', 'a', 'q', 'r', 'e', 'x', 'p', 'l', 'g']

/-- The left operand that a loop call starts with, if the call is one of the two loops. -/
def Call.seedNull : Call A → Prop
  | .expressionLoop l => l.isNull = true
  | .termLoop l => l.isNull = true
  | _ => False

/-- A character at which an expression stops: no whitespace, no digit, no dot, none of
the operators, no character that starts a primary, and no letter of a function name in
either case.  The closing parenthesis is one. -/
def Terminator (A : Platform) (k : Char) : Prop :=
  isSpace A k = false ∧ isDigit A k = false ∧ foldCase A k ∉ nameLetters ∧
    k ∉ ['+', '-', '*', '/', '^', '(', '.', 'y', 'Y']

/-- A text that is empty or starts with a character at which an expression stops. -/
def StopText (A : Platform) (X : List Char) : Prop := ∀ k, X.head? = some k → Terminator A k

/-- The engine `p'` is the engine `p` with more input behind what `p` has unread:
whitespace and a text `X` that is empty or starts with a character at which an expression
stops.  The errors are the same. -/
def Within (A : Platform) (X : List Char) (p p' : ExpressionParser A) : Prop :=
  StopText A X ∧ p'.m_error = p.m_error ∧ ∃ w, Blank A w ∧ p'.unread = p.unread ++ (w ++ X)

/-- A character that may stand where the inner text ends: whitespace or a character at
which an expression stops. -/
def Closing (A : Platform) (k : Char) : Prop := isSpace A k = true ∨ Terminator A k

/-- The seven `replace` calls of `parse`, as pairs of the macro and the name it is
replaced by. -/
def macros : List (String × String) :=
  [("\\sin", "sin"), ("\\cos", "cos"), ("\\tan", "tan"), ("\\sqrt", "sqrt"), ("\\exp", "exp"),
    ("\\log", "log"), ("\\ln", "log")]

/-- The tree of the specification: a tagged variant with a payload per kind, where every
binary kind has its two children and every unary kind its child. -/
inductive Formula (A : Platform)
  | number (value : A.Double)
  | variableX
  | variableY
  | add (left right : Formula A)
  | sub (left right : Formula A)
  | mul (left right : Formula A)
  | div (left right : Formula A)
  | pow (left right : Formula A)
  | negate (child : Formula A)
  | sin (child : Formula A)
  | cos (child : Formula A)
  | tan (child : Formula A)
  | sqrt (child : Formula A)
  | exp (child : Formula A)
  | log (child : Formula A)

/-- The reference denotation of the specification: a number is its value, the variables
are the two inputs, the operators apply directly, `Div` is NaN when the right operand is
zero, `Sqrt` is NaN below zero and `Log` is NaN at zero and below. -/
def Formula.denote : Formula A → A.Double → A.Double → A.Double
  | .number v, _, _ => v
  | .variableX, x, _ => x
  | .variableY, _, y => y
  | .add a b, x, y => A.add (a.denote x y) (b.denote x y)
  | .sub a b, x, y => A.sub (a.denote x y) (b.denote x y)
  | .mul a b, x, y => A.mul (a.denote x y) (b.denote x y)
  | .div a b, x, y =>
    if A.eqZero (b.denote x y) = true then A.qQNaN else A.div (a.denote x y) (b.denote x y)
  | .pow a b, x, y => A.pow (a.denote x y) (b.denote x y)
  | .negate a, x, y => A.neg (a.denote x y)
  | .sin a, x, y => A.sin (a.denote x y)
  | .cos a, x, y => A.cos (a.denote x y)
  | .tan a, x, y => A.tan (a.denote x y)
  | .sqrt a, x, y => if A.ltZero (a.denote x y) = true then A.qQNaN else A.sqrt (a.denote x y)
  | .exp a, x, y => A.exp (a.denote x y)
  | .log a, x, y => if A.leZero (a.denote x y) = true then A.qQNaN else A.log (a.denote x y)

/-- The kinds with two children. -/
def NodeType.isBinary : NodeType → Bool
  | .Add | .Sub | .Mul | .Div | .Pow => true
  | _ => false

/-- The kinds with one child. -/
def NodeType.isUnary : NodeType → Bool
  | .Negate | .Sin | .Cos | .Tan | .Sqrt | .Exp | .Log => true
  | _ => false

/-- A tree of the engine with every required child present: `left` and `right` on the
binary kinds, `left` on the unary kinds, all the way down. -/
inductive WellFormed : Node A → Prop
  | number (v : A.Double) (l r : Node A) : WellFormed (.mk .Number v l r)
  | variableX (v : A.Double) (l r : Node A) : WellFormed (.mk .Variable v l r)
  | variableY (v : A.Double) (l r : Node A) : WellFormed (.mk .VariableY v l r)
  | binary {t : NodeType} (v : A.Double) {l r : Node A} :
      t.isBinary = true → WellFormed l → WellFormed r → WellFormed (.mk t v l r)
  | unary {t : NodeType} (v : A.Double) {l : Node A} (r : Node A) :
      t.isUnary = true → WellFormed l → WellFormed (.mk t v l r)

/-- The tree of the specification that a tree of the engine stands for; none when a
required child is absent. -/
def Node.formula : Node A → Option (Formula A)
  | .nullptr => none
  | .mk .Number v _ _ => some (.number v)
  | .mk .Variable _ _ _ => some .variableX
  | .mk .VariableY _ _ _ => some .variableY
  | .mk .Add _ l r => l.formula.bind fun a => r.formula.map fun b => .add a b
  | .mk .Sub _ l r => l.formula.bind fun a => r.formula.map fun b => .sub a b
  | .mk .Mul _ l r => l.formula.bind fun a => r.formula.map fun b => .mul a b
  | .mk .Div _ l r => l.formula.bind fun a => r.formula.map fun b => .div a b
  | .mk .Pow _ l r => l.formula.bind fun a => r.formula.map fun b => .pow a b
  | .mk .Negate _ l _ => l.formula.map .negate
  | .mk .Sin _ l _ => l.formula.map .sin
  | .mk .Cos _ l _ => l.formula.map .cos
  | .mk .Tan _ l _ => l.formula.map .tan
  | .mk .Sqrt _ l _ => l.formula.map .sqrt
  | .mk .Exp _ l _ => l.formula.map .exp
  | .mk .Log _ l _ => l.formula.map .log

/-- What a loop call assumes of the left operand it starts with: the tree is well formed. -/
def Call.seedWellFormed : Call A → Prop
  | .expressionLoop l => WellFormed l
  | .termLoop l => WellFormed l
  | _ => True

/-- Whether the call is one of the two `while` loops. -/
def Call.isLoop : Call A → Bool
  | .expressionLoop _ => true
  | .termLoop _ => true
  | _ => false

/-- The tokens of one character: the variables, the operators and the parentheses. -/
def IsSymbol (c : Char) : Prop :=
  c ∈ ['x', 'X', 'y', 'Y', '+', '-', '*', '/', '^', '(', ')']

/-- The text `s'` is the text `s` with whitespace inserted between adjacent tokens or at
either end.  The tokens are the variables, operators and parentheses, the number literals
(each the whole run of digits and dots), the spellings of the function names, and the
seven macros that the preprocessing replaces by a function name; whitespace that `s` has
stays. -/
inductive Respaced (A : Platform) : List Char → List Char → Prop
  | nil : Respaced A [] []
  | insert {c : Char} {u u' : List Char} :
      isSpace A c = true → Respaced A u u' → Respaced A u (c :: u')
  | space {c : Char} {u u' : List Char} :
      isSpace A c = true → Respaced A u u' → Respaced A (c :: u) (c :: u')
  | symbol {c : Char} {u u' : List Char} :
      IsSymbol c → Respaced A u u' → Respaced A (c :: u) (c :: u')
  | number {t u u' : List Char} :
      NumberLiteral A t → Stops A u → Respaced A u u' → Respaced A (t ++ u) (t ++ u')
  | name {v : List Char} {name : String} {u u' : List Char} :
      name ∈ funcs → Spelling v name → Respaced A u u' → Respaced A (v ++ u) (v ++ u')
  | command {m c : String} {u u' : List Char} :
      (m, c) ∈ macros → Respaced A u u' → Respaced A (m.data ++ u) (m.data ++ u')

/-- Two texts that start with the same token, or are both empty, and go on as a text and
the same text with whitespace inserted. -/
inductive Aligned (A : Platform) : List Char → List Char → Prop
  | nil : Aligned A [] []
  | symbol {c : Char} {u u' : List Char} :
      IsSymbol c → Respaced A u u' → Aligned A (c :: u) (c :: u')
  | number {t u u' : List Char} :
      NumberLiteral A t → Stops A u → Stops A u' → Respaced A u u' →
      Aligned A (t ++ u) (t ++ u')
  | name {v : List Char} {name : String} {u u' : List Char} :
      name ∈ funcs → Spelling v name → Respaced A u u' → Aligned A (v ++ u) (v ++ u')
  | command {m c : String} {u u' : List Char} :
      (m, c) ∈ macros → Respaced A u u' → Aligned A (m.data ++ u) (m.data ++ u')

/-- Two engines with the same error, the second with whitespace inserted between the
tokens of what the first has unread. -/
def RespacedStates (p p' : ExpressionParser A) : Prop :=
  p'.m_error = p.m_error ∧ Respaced A p.unread p'.unread

/-- Two engines with the same error whose unread texts are aligned. -/
def AlignedStates (p p' : ExpressionParser A) : Prop :=
  p'.m_error = p.m_error ∧ Aligned A p.unread p'.unread

/-- What the simulation assumes when a call starts: the loops start at a token, the
parsing functions start anywhere between tokens. -/
def Call.Related : Call A → ExpressionParser A → ExpressionParser A → Prop
  | .expressionLoop _, p, p' => AlignedStates p p'
  | .termLoop _, p, p' => AlignedStates p p'
  | _, p, p' => RespacedStates p p'

/-- A text is covered when, its characters being ASCII, it is a sequence of tokens and
whitespace: it is in the relation `Respaced` with itself. -/
def Covered (A : Platform) (u : List Char) : Prop :=
  (∀ c ∈ u, c.toNat < 128) → Respaced A u u

/-! ## Facts about the parser -/

theorem run_zero (c : Call A) (p : ExpressionParser A) : c.run 0 p = none := by
  cases c <;> simp [Call.run, parseExpression, parseExpressionLoop, parseTerm, parseTermLoop,
    parseFactor, parsePower, parseUnary, parseFunction, parsePrimary]

theorem addOp_plus : addOp '+' = some .Add := by decide
theorem addOp_minus : addOp '-' = some .Sub := by decide
theorem mulOp_star : mulOp '*' = some .Mul := by decide
theorem mulOp_slash : mulOp '/' = some .Div := by decide

theorem addOp_none {c : Char} (h1 : c ≠ '+') (h2 : c ≠ '-') : addOp c = none := by
  simp [addOp, h1, h2]

theorem mulOp_none {c : Char} (h1 : c ≠ '*') (h2 : c ≠ '/') : mulOp c = none := by
  simp [mulOp, h1, h2]

theorem Step.of_run : ∀ (f : Nat) (c : Call A) (p : ExpressionParser A) (n : Node A)
    (p' : ExpressionParser A), c.run f p = some (n, p') → Step c p n p' := by
  intro f
  induction f with
  | zero => intro c p n p' h; simp [run_zero] at h
  | succ f ih =>
    intro c p n p' h
    cases c with
    | expression =>
      simp only [Call.run, parseExpression] at h
      split at h
      · simp at h
      · rename_i left p1 h1
        have s1 := ih .term _ _ _ h1
        split at h
        · rename_i hc
          simp only [Option.some.injEq, Prod.mk.injEq] at h
          obtain ⟨rfl, rfl⟩ := h
          exact Step.expression_fail s1 hc.1 hc.2
        · rename_i hc
          exact Step.expression_loop s1 hc (ih (.expressionLoop left) _ _ _ h)
    | expressionLoop left =>
      simp only [Call.run, parseExpressionLoop] at h
      split at h
      · rename_i hend
        split at h
        · rename_i hc
          split at h
          · simp at h
          · rename_i right p1 h1
            have s1 := ih .term _ _ _ h1
            split at h
            · rename_i hn
              simp only [Option.some.injEq, Prod.mk.injEq] at h
              obtain ⟨rfl, rfl⟩ := h
              exact Step.expressionLoop_fail hend (hc ▸ addOp_plus) s1 hn
            · rename_i hn
              exact Step.expressionLoop_next hend (hc ▸ addOp_plus) s1 (by simpa using hn)
                (ih (.expressionLoop _) _ _ _ h)
        · rename_i hc
          split at h
          · rename_i hc2
            split at h
            · simp at h
            · rename_i right p1 h1
              have s1 := ih .term _ _ _ h1
              split at h
              · rename_i hn
                simp only [Option.some.injEq, Prod.mk.injEq] at h
                obtain ⟨rfl, rfl⟩ := h
                exact Step.expressionLoop_fail hend (hc2 ▸ addOp_minus) s1 hn
              · rename_i hn
                exact Step.expressionLoop_next hend (hc2 ▸ addOp_minus) s1 (by simpa using hn)
                  (ih (.expressionLoop _) _ _ _ h)
          · rename_i hc2
            simp only [Option.some.injEq, Prod.mk.injEq] at h
            obtain ⟨rfl, rfl⟩ := h
            exact Step.expressionLoop_stop (Or.inr (addOp_none hc hc2))
      · rename_i hend
        simp only [Option.some.injEq, Prod.mk.injEq] at h
        obtain ⟨rfl, rfl⟩ := h
        exact Step.expressionLoop_stop (Or.inl (by simpa using hend))
    | term =>
      simp only [Call.run, parseTerm] at h
      split at h
      · simp at h
      · rename_i left p1 h1
        have s1 := ih .factor _ _ _ h1
        split at h
        · rename_i hc
          simp only [Option.some.injEq, Prod.mk.injEq] at h
          obtain ⟨rfl, rfl⟩ := h
          exact Step.term_fail s1 hc.1 hc.2
        · rename_i hc
          exact Step.term_loop s1 hc (ih (.termLoop left) _ _ _ h)
    | termLoop left =>
      simp only [Call.run, parseTermLoop] at h
      split at h
      · rename_i hend
        split at h
        · rename_i hc
          split at h
          · simp at h
          · rename_i right p1 h1
            have s1 := ih .factor _ _ _ h1
            split at h
            · rename_i hn
              simp only [Option.some.injEq, Prod.mk.injEq] at h
              obtain ⟨rfl, rfl⟩ := h
              exact Step.termLoop_fail hend (hc ▸ mulOp_star) s1 hn
            · rename_i hn
              exact Step.termLoop_next hend (hc ▸ mulOp_star) s1 (by simpa using hn)
                (ih (.termLoop _) _ _ _ h)
        · rename_i hc
          split at h
          · rename_i hc2
            split at h
            · simp at h
            · rename_i right p1 h1
              have s1 := ih .factor _ _ _ h1
              split at h
              · rename_i hn
                simp only [Option.some.injEq, Prod.mk.injEq] at h
                obtain ⟨rfl, rfl⟩ := h
                exact Step.termLoop_fail hend (hc2 ▸ mulOp_slash) s1 hn
              · rename_i hn
                exact Step.termLoop_next hend (hc2 ▸ mulOp_slash) s1 (by simpa using hn)
                  (ih (.termLoop _) _ _ _ h)
          · rename_i hc2
            simp only [Option.some.injEq, Prod.mk.injEq] at h
            obtain ⟨rfl, rfl⟩ := h
            exact Step.termLoop_stop (Or.inr (mulOp_none hc hc2))
      · rename_i hend
        simp only [Option.some.injEq, Prod.mk.injEq] at h
        obtain ⟨rfl, rfl⟩ := h
        exact Step.termLoop_stop (Or.inl (by simpa using hend))
    | factor =>
      simp only [Call.run, parseFactor] at h
      exact Step.factor (ih .power _ _ _ h)
    | power =>
      simp only [Call.run, parsePower] at h
      split at h
      · simp at h
      · rename_i base p1 h1
        have s1 := ih .unary _ _ _ h1
        split at h
        · rename_i hc
          simp only [Option.some.injEq, Prod.mk.injEq] at h
          obtain ⟨rfl, rfl⟩ := h
          exact Step.power_fail s1 hc.1 hc.2
        · rename_i hc
          split at h
          · rename_i hp
            split at h
            · simp at h
            · rename_i exp p2 h2
              have s2 := ih .power _ _ _ h2
              split at h
              · rename_i hn
                simp only [Option.some.injEq, Prod.mk.injEq] at h
                obtain ⟨rfl, rfl⟩ := h
                exact Step.power_pow_fail s1 hc hp.1 hp.2 s2 hn
              · rename_i hn
                simp only [Option.some.injEq, Prod.mk.injEq] at h
                obtain ⟨rfl, rfl⟩ := h
                exact Step.power_pow s1 hc hp.1 hp.2 s2 (by simpa using hn)
          · rename_i hp
            split at h
            · rename_i hi
              have hne : p1.skipSpaces.cur ≠ '^' := fun hh => hp ⟨hi.1, hh⟩
              split at h
              · simp at h
              · rename_i right p2 h2
                have s2 := ih .unary _ _ _ h2
                split at h
                · rename_i hn
                  simp only [Option.some.injEq, Prod.mk.injEq] at h
                  obtain ⟨rfl, rfl⟩ := h
                  exact Step.power_implicit_fail s1 hc hi.1 hne hi.2 s2 hn
                · rename_i hn
                  simp only [Option.some.injEq, Prod.mk.injEq] at h
                  obtain ⟨rfl, rfl⟩ := h
                  exact Step.power_implicit s1 hc hi.1 hne hi.2 s2 (by simpa using hn)
            · rename_i hi
              simp only [Option.some.injEq, Prod.mk.injEq] at h
              obtain ⟨rfl, rfl⟩ := h
              refine Step.power_plain s1 hc ?_
              by_cases he : p1.skipSpaces.atEnd = true
              · exact Or.inl he
              · have he2 : p1.skipSpaces.atEnd = false := by simpa using he
                refine Or.inr ⟨fun hh => hp ⟨he2, hh⟩, ?_⟩
                cases hq : implicitStart p1.skipSpaces
                · rfl
                · exact absurd ⟨he2, hq⟩ hi
    | unary =>
      simp only [Call.run, parseUnary] at h
      split at h
      · rename_i hm
        split at h
        · simp at h
        · rename_i child p1 h1
          have s1 := ih .unary _ _ _ h1
          split at h
          · rename_i hn
            simp only [Option.some.injEq, Prod.mk.injEq] at h
            obtain ⟨rfl, rfl⟩ := h
            exact Step.unary_neg_fail hm.1 hm.2 s1 hn
          · rename_i hn
            simp only [Option.some.injEq, Prod.mk.injEq] at h
            obtain ⟨rfl, rfl⟩ := h
            exact Step.unary_neg hm.1 hm.2 s1 (by simpa using hn)
      · rename_i hm
        refine Step.unary_primary ?_ (ih .primary _ _ _ h)
        by_cases he : p.skipSpaces.atEnd = true
        · exact Or.inl he
        · exact Or.inr (fun hh => hm ⟨by simpa using he, hh⟩)
    | function name =>
      simp only [Call.run, parseFunction] at h
      split at h
      · rename_i hc
        simp only [Option.some.injEq, Prod.mk.injEq] at h
        obtain ⟨rfl, rfl⟩ := h
        exact Step.function_noparen (by simpa using hc)
      · rename_i hc
        have hc1 : p.skipSpaces.atEnd = false := by
          cases hq : p.skipSpaces.atEnd
          · rfl
          · exact absurd (Or.inl hq) hc
        have hc2 : p.skipSpaces.cur = '(' := by
          by_contra hq
          exact hc (Or.inr hq)
        split at h
        · simp at h
        · rename_i arg p1 h1
          have s1 := ih .expression _ _ _ h1
          split at h
          · rename_i hn
            simp only [Option.some.injEq, Prod.mk.injEq] at h
            obtain ⟨rfl, rfl⟩ := h
            exact Step.function_arg_fail hc1 hc2 s1 hn
          · rename_i hn
            have hn' : arg.isNull = false := by simpa using hn
            split at h
            · rename_i hd
              simp only [Option.some.injEq, Prod.mk.injEq] at h
              obtain ⟨rfl, rfl⟩ := h
              exact Step.function_noclose hc1 hc2 s1 hn' (by simpa using hd)
            · rename_i hd
              have hd1 : p1.skipSpaces.atEnd = false := by
                cases hq : p1.skipSpaces.atEnd
                · rfl
                · exact absurd (Or.inl hq) hd
              have hd2 : p1.skipSpaces.cur = ')' := by
                by_contra hq
                exact hd (Or.inr hq)
              split at h
              · rename_i t ht
                simp only [Option.some.injEq, Prod.mk.injEq] at h
                obtain ⟨rfl, rfl⟩ := h
                exact Step.function_ok hc1 hc2 s1 hn' hd1 hd2 ht
              · rename_i ht
                simp only [Option.some.injEq, Prod.mk.injEq] at h
                obtain ⟨rfl, rfl⟩ := h
                exact Step.function_unknown hc1 hc2 s1 hn' hd1 hd2 ht
    | primary =>
      simp only [Call.run, parsePrimary] at h
      split at h
      · rename_i he
        simp only [Option.some.injEq, Prod.mk.injEq] at h
        obtain ⟨rfl, rfl⟩ := h
        exact Step.primary_end he
      · rename_i he
        have he' : p.skipSpaces.atEnd = false := by simpa using he
        split at h
        · rename_i hx
          simp only [Option.some.injEq, Prod.mk.injEq] at h
          obtain ⟨rfl, rfl⟩ := h
          exact Step.primary_x he' hx
        · rename_i hx
          split at h
          · rename_i hy
            simp only [Option.some.injEq, Prod.mk.injEq] at h
            obtain ⟨rfl, rfl⟩ := h
            exact Step.primary_y he' hx hy
          · rename_i hy
            split at h
            · rename_i hp
              split at h
              · simp at h
              · rename_i inner p1 h1
                have s1 := ih .expression _ _ _ h1
                split at h
                · rename_i hn
                  simp only [Option.some.injEq, Prod.mk.injEq] at h
                  obtain ⟨rfl, rfl⟩ := h
                  exact Step.primary_paren_fail he' hp s1 hn
                · rename_i hn
                  have hn' : inner.isNull = false := by simpa using hn
                  split at h
                  · rename_i hd
                    simp only [Option.some.injEq, Prod.mk.injEq] at h
                    obtain ⟨rfl, rfl⟩ := h
                    exact Step.primary_paren_noclose he' hp s1 hn' (by simpa using hd)
                  · rename_i hd
                    have hd1 : p1.skipSpaces.atEnd = false := by
                      cases hq : p1.skipSpaces.atEnd
                      · rfl
                      · exact absurd (Or.inl hq) hd
                    have hd2 : p1.skipSpaces.cur = ')' := by
                      by_contra hq
                      exact hd (Or.inr hq)
                    simp only [Option.some.injEq, Prod.mk.injEq] at h
                    obtain ⟨rfl, rfl⟩ := h
                    exact Step.primary_paren he' hp s1 hn' hd1 hd2
            · rename_i hp
              split at h
              · rename_i hnum
                split at h
                · rename_i hv
                  simp only [Option.some.injEq, Prod.mk.injEq] at h
                  obtain ⟨rfl, rfl⟩ := h
                  exact Step.primary_number_invalid he' hx hy hp hnum hv
                · rename_i v hv
                  simp only [Option.some.injEq, Prod.mk.injEq] at h
                  obtain ⟨rfl, rfl⟩ := h
                  exact Step.primary_number he' hx hy hp hnum hv
              · rename_i hnum
                split at h
                · rename_i fn hfn
                  exact Step.primary_function he' hx hy hp hnum hfn (ih (.function fn) _ _ _ h)
                · rename_i hfn
                  simp only [Option.some.injEq, Prod.mk.injEq] at h
                  obtain ⟨rfl, rfl⟩ := h
                  exact Step.primary_unexpected he' hx hy hp hnum hfn

/-! ### The engine's small operations on `unread` -/

@[simp] theorem setError_unread (p : ExpressionParser A) (m : String) :
    (p.setError m).unread = p.unread := rfl

@[simp] theorem setError_error (p : ExpressionParser A) (m : String) :
    (p.setError m).m_error = m := rfl

@[simp] theorem advance_unread (p : ExpressionParser A) (k : Nat) :
    (p.advance k).unread = p.unread.drop k := rfl

@[simp] theorem advance_error (p : ExpressionParser A) (k : Nat) :
    (p.advance k).m_error = p.m_error := rfl

@[simp] theorem skipSpaces_unread (p : ExpressionParser A) :
    p.skipSpaces.unread = p.unread.dropWhile (isSpace A) := rfl

@[simp] theorem skipSpaces_error (p : ExpressionParser A) :
    p.skipSpaces.m_error = p.m_error := rfl

@[simp] theorem skipNumber_unread (p : ExpressionParser A) :
    p.skipNumber.unread = p.unread.dropWhile (fun c => isDigit A c || c == '.') := rfl

@[simp] theorem skipNumber_error (p : ExpressionParser A) :
    p.skipNumber.m_error = p.m_error := rfl

theorem length_dropWhile (q : Char → Bool) (l : List Char) :
    (l.dropWhile q).length = l.length - (l.takeWhile q).length := by
  have h := congrArg List.length (List.takeWhile_append_dropWhile q l)
  simp only [List.length_append] at h
  omega

theorem atEnd_false_iff (p : ExpressionParser A) : p.atEnd = false ↔ 0 < p.unread.length := by
  simp [atEnd, List.length_pos]

theorem atEnd_true_iff (p : ExpressionParser A) : p.atEnd = true ↔ p.unread.length = 0 := by
  simp [atEnd]

theorem scanNumber_length (p : ExpressionParser A) :
    (scanNumber p).unread.length ≤ p.unread.length := by
  unfold scanNumber
  split <;> simp only [skipNumber_unread, advance_unread, length_dropWhile, List.length_drop] <;> omega

theorem scanNumber_error (p : ExpressionParser A) : (scanNumber p).m_error = p.m_error := by
  unfold scanNumber
  split <;> rfl

theorem mem_funcs_length {fn : String} (h : fn ∈ funcs) : 3 ≤ fn.length := by
  simp only [funcs, List.mem_cons, List.mem_singleton, List.not_mem_nil, or_false] at h
  rcases h with rfl | rfl | rfl | rfl | rfl | rfl <;> decide

theorem find_funcs {p : ExpressionParser A} {fn : String}
    (h : funcs.find? (matchesFunc p) = some fn) :
    fn ∈ funcs ∧ fn.length ≤ p.unread.length := by
  have h1 := List.mem_of_find?_eq_some h
  have h2 := List.find?_some h
  simp only [matchesFunc, Bool.and_eq_true, decide_eq_true_eq] at h2
  exact ⟨h1, h2.1⟩

/-- No call moves the cursor backwards: what is left unread afterwards is no longer. -/
theorem Step.length {c : Call A} {p p' : ExpressionParser A} {n : Node A}
    (h : Step c p n p') : p'.unread.length ≤ p.unread.length := by
  induction h with
  | primary_number_invalid =>
    rename_i p _ _ _ _ _ _
    have := scanNumber_length p.skipSpaces
    simp only [setError_unread, skipSpaces_unread, length_dropWhile] at *
    omega
  | primary_number =>
    rename_i p _ _ _ _ _ _ _
    have := scanNumber_length p.skipSpaces
    simp only [setError_unread, skipSpaces_unread, length_dropWhile] at *
    omega
  | _ =>
    simp only [setError_unread, advance_unread, skipSpaces_unread, length_dropWhile,
      List.length_drop] at *
    omega

theorem run_length {f : Nat} {c : Call A} {p p' : ExpressionParser A} {n : Node A}
    (h : c.run f p = some (n, p')) : p'.unread.length ≤ p.unread.length :=
  (Step.of_run f c p n p' h).length

theorem advance_one_length {p : ExpressionParser A} (h : p.atEnd = false) :
    (p.advance 1).skipSpaces.unread.length + 1 ≤ p.unread.length := by
  rw [atEnd_false_iff] at h
  simp only [skipSpaces_unread, advance_unread, length_dropWhile, List.length_drop]
  omega

theorem advance_one_length' {p : ExpressionParser A} (h : p.atEnd = false) :
    (p.advance 1).unread.length + 1 ≤ p.unread.length := by
  rw [atEnd_false_iff] at h
  simp only [advance_unread, List.length_drop]
  omega

theorem skipSpaces_length (p : ExpressionParser A) :
    p.skipSpaces.unread.length ≤ p.unread.length := by
  simp only [skipSpaces_unread, length_dropWhile]; omega

/-- Every call returns when it is given `Call.fuel`. -/
theorem run_total : ∀ (f : Nat) (c : Call A) (p : ExpressionParser A),
    c.fuel p ≤ f → ∃ r, c.run f p = some r := by
  intro f
  induction f with
  | zero =>
    intro c p hf
    cases c <;> simp [Call.fuel, Call.rank] at hf
  | succ f ih =>
    intro c p hf
    cases c with
    | expression =>
      obtain ⟨⟨left, p1⟩, h1⟩ := ih .term p (by simp only [Call.fuel, Call.rank] at hf ⊢; omega)
      have l1 := run_length h1
      have l2 := skipSpaces_length p1
      simp only [Call.run] at h1
      simp only [Call.run, parseExpression, h1]
      split
      · exact ⟨_, rfl⟩
      · exact ih (.expressionLoop left) _ (by simp only [Call.fuel, Call.rank] at hf ⊢; omega)
    | expressionLoop left =>
      simp only [Call.run, parseExpressionLoop]
      split
      · rename_i he
        have l0 := advance_one_length he
        obtain ⟨⟨right, p1⟩, h1⟩ := ih .term (p.advance 1).skipSpaces
          (by simp only [Call.fuel, Call.rank] at hf ⊢; omega)
        have l1 := run_length h1
        have l2 := skipSpaces_length p1
        simp only [Call.run] at h1
        have hb : ∀ t, ∃ r, parseExpressionLoop f (.binary t left right) p1.skipSpaces = some r :=
          fun t => ih (.expressionLoop _) _ (by simp only [Call.fuel, Call.rank] at hf ⊢; omega)
        split
        · simp only [h1]
          split
          · exact ⟨_, rfl⟩
          · exact hb _
        · split
          · simp only [h1]
            split
            · exact ⟨_, rfl⟩
            · exact hb _
          · exact ⟨_, rfl⟩
      · exact ⟨_, rfl⟩
    | term =>
      obtain ⟨⟨left, p1⟩, h1⟩ := ih .factor p (by simp only [Call.fuel, Call.rank] at hf ⊢; omega)
      have l1 := run_length h1
      have l2 := skipSpaces_length p1
      simp only [Call.run] at h1
      simp only [Call.run, parseTerm, h1]
      split
      · exact ⟨_, rfl⟩
      · exact ih (.termLoop left) _ (by simp only [Call.fuel, Call.rank] at hf ⊢; omega)
    | termLoop left =>
      simp only [Call.run, parseTermLoop]
      split
      · rename_i he
        have l0 := advance_one_length he
        obtain ⟨⟨right, p1⟩, h1⟩ := ih .factor (p.advance 1).skipSpaces
          (by simp only [Call.fuel, Call.rank] at hf ⊢; omega)
        have l1 := run_length h1
        have l2 := skipSpaces_length p1
        simp only [Call.run] at h1
        have hb : ∀ t, ∃ r, parseTermLoop f (.binary t left right) p1.skipSpaces = some r :=
          fun t => ih (.termLoop _) _ (by simp only [Call.fuel, Call.rank] at hf ⊢; omega)
        split
        · simp only [h1]
          split
          · exact ⟨_, rfl⟩
          · exact hb _
        · split
          · simp only [h1]
            split
            · exact ⟨_, rfl⟩
            · exact hb _
          · exact ⟨_, rfl⟩
      · exact ⟨_, rfl⟩
    | factor =>
      simp only [Call.run, parseFactor]
      exact ih .power p (by simp only [Call.fuel, Call.rank] at hf ⊢; omega)
    | power =>
      obtain ⟨⟨base, p1⟩, h1⟩ := ih .unary p (by simp only [Call.fuel, Call.rank] at hf ⊢; omega)
      have l1 := run_length h1
      have l2 := skipSpaces_length p1
      simp only [Call.run] at h1
      simp only [Call.run, parsePower, h1]
      split
      · exact ⟨_, rfl⟩
      · split
        · rename_i hp
          have l0 := advance_one_length hp.1
          obtain ⟨⟨exp, p2⟩, h2⟩ := ih .power (p1.skipSpaces.advance 1).skipSpaces
            (by simp only [Call.fuel, Call.rank] at hf ⊢; omega)
          simp only [Call.run] at h2
          simp only [h2]
          split <;> exact ⟨_, rfl⟩
        · split
          · obtain ⟨⟨right, p2⟩, h2⟩ := ih .unary p1.skipSpaces
              (by simp only [Call.fuel, Call.rank] at hf ⊢; omega)
            simp only [Call.run] at h2
            simp only [h2]
            split <;> exact ⟨_, rfl⟩
          · exact ⟨_, rfl⟩
    | unary =>
      have l2 := skipSpaces_length p
      simp only [Call.run, parseUnary]
      split
      · rename_i hm
        have l0 := advance_one_length' hm.1
        obtain ⟨⟨child, p1⟩, h1⟩ := ih .unary (p.skipSpaces.advance 1)
          (by simp only [Call.fuel, Call.rank] at hf ⊢; omega)
        simp only [Call.run] at h1
        simp only [h1]
        split <;> exact ⟨_, rfl⟩
      · exact ih .primary _ (by simp only [Call.fuel, Call.rank] at hf ⊢; omega)
    | function name =>
      have l2 := skipSpaces_length p
      simp only [Call.run, parseFunction]
      split
      · exact ⟨_, rfl⟩
      · rename_i hc
        have he : p.skipSpaces.atEnd = false := by
          cases hq : p.skipSpaces.atEnd
          · rfl
          · exact absurd (Or.inl hq) hc
        have l0 := advance_one_length' he
        obtain ⟨⟨arg, p1⟩, h1⟩ := ih .expression (p.skipSpaces.advance 1)
          (by simp only [Call.fuel, Call.rank] at hf ⊢; omega)
        simp only [Call.run] at h1
        simp only [h1]
        split
        · exact ⟨_, rfl⟩
        · split
          · exact ⟨_, rfl⟩
          · split <;> exact ⟨_, rfl⟩
    | primary =>
      have l2 := skipSpaces_length p
      simp only [Call.run, parsePrimary]
      split
      · exact ⟨_, rfl⟩
      · rename_i he
        have he' : p.skipSpaces.atEnd = false := by simpa using he
        have l0 := advance_one_length' he'
        split
        · exact ⟨_, rfl⟩
        · split
          · exact ⟨_, rfl⟩
          · split
            · obtain ⟨⟨inner, p1⟩, h1⟩ := ih .expression (p.skipSpaces.advance 1)
                (by simp only [Call.fuel, Call.rank] at hf ⊢; omega)
              simp only [Call.run] at h1
              simp only [h1]
              split
              · exact ⟨_, rfl⟩
              · split <;> exact ⟨_, rfl⟩
            · split
              · split <;> exact ⟨_, rfl⟩
              · split
                · rename_i fn hfn
                  have hl := find_funcs hfn
                  have h3 := mem_funcs_length hl.1
                  refine ih (.function fn) _ ?_
                  simp only [Call.fuel, Call.rank, advance_unread, List.length_drop] at hf ⊢
                  omega
                · exact ⟨_, rfl⟩

theorem addOp_eq_none_iff {c : Char} : addOp c = none ↔ c ≠ '+' ∧ c ≠ '-' := by
  unfold addOp; split_ifs <;> simp_all

theorem addOp_eq_some_iff {c : Char} {t : NodeType} :
    addOp c = some t ↔ (c = '+' ∧ t = .Add) ∨ (c ≠ '+' ∧ c = '-' ∧ t = .Sub) := by
  unfold addOp; split_ifs <;> simp_all [eq_comm]

theorem mulOp_eq_none_iff {c : Char} : mulOp c = none ↔ c ≠ '*' ∧ c ≠ '/' := by
  unfold mulOp; split_ifs <;> simp_all

theorem mulOp_eq_some_iff {c : Char} {t : NodeType} :
    mulOp c = some t ↔ (c = '*' ∧ t = .Mul) ∨ (c ≠ '*' ∧ c = '/' ∧ t = .Div) := by
  unfold mulOp; split_ifs <;> simp_all [eq_comm]

theorem exists_succ {f k : Nat} (h : k + 1 ≤ f) : ∃ g, f = g + 1 ∧ k ≤ g :=
  ⟨f - 1, by omega, by omega⟩

/-- A path is taken by the code: with enough fuel the call returns what the path says. -/
theorem Step.run_exists {c : Call A} {p p' : ExpressionParser A} {n : Node A}
    (h : Step c p n p') : ∃ f0, ∀ f, f0 ≤ f → c.run f p = some (n, p') := by
  induction h with
  | expression_fail _ hn he ih =>
    obtain ⟨f1, h1⟩ := ih
    refine ⟨f1 + 1, fun f hf => ?_⟩
    obtain ⟨g, rfl, hg⟩ := exists_succ hf
    have h1 := h1 g hg
    simp only [Call.run] at h1 ⊢
    simp [parseExpression, h1, hn, he]
  | expression_loop _ hc _ ih1 ih2 =>
    obtain ⟨f1, h1⟩ := ih1
    obtain ⟨f2, h2⟩ := ih2
    refine ⟨max f1 f2 + 1, fun f hf => ?_⟩
    obtain ⟨g, rfl, hg⟩ := exists_succ hf
    have h1 := h1 g (by omega)
    have h2 := h2 g (by omega)
    simp only [Call.run] at h1 h2 ⊢
    simp only [parseExpression, h1, hc, if_false, h2]
  | expressionLoop_stop hc =>
    refine ⟨1, fun f hf => ?_⟩
    obtain ⟨g, rfl, hg⟩ := exists_succ hf
    simp only [Call.run, parseExpressionLoop]
    rcases hc with hc | hc
    · simp [hc]
    · rw [addOp_eq_none_iff] at hc
      simp [hc.1, hc.2]
  | expressionLoop_fail he ht _ hn ih =>
    obtain ⟨f1, h1⟩ := ih
    refine ⟨f1 + 1, fun f hf => ?_⟩
    obtain ⟨g, rfl, hg⟩ := exists_succ hf
    have h1 := h1 g hg
    simp only [Call.run] at h1 ⊢
    rw [addOp_eq_some_iff] at ht
    rcases ht with ⟨hc, rfl⟩ | ⟨hc1, hc, rfl⟩
    · simp [parseExpressionLoop, he, hc, h1, hn]
    · simp [parseExpressionLoop, he, hc, h1, hn]
  | expressionLoop_next he ht _ hn _ ih1 ih2 =>
    obtain ⟨f1, h1⟩ := ih1
    obtain ⟨f2, h2⟩ := ih2
    refine ⟨max f1 f2 + 1, fun f hf => ?_⟩
    obtain ⟨g, rfl, hg⟩ := exists_succ hf
    have h1 := h1 g (by omega)
    have h2 := h2 g (by omega)
    simp only [Call.run] at h1 h2 ⊢
    rw [addOp_eq_some_iff] at ht
    rcases ht with ⟨hc, rfl⟩ | ⟨hc1, hc, rfl⟩
    · simp [parseExpressionLoop, he, hc, h1, hn, h2]
    · simp [parseExpressionLoop, he, hc, h1, hn, h2]
  | term_fail _ hn he ih =>
    obtain ⟨f1, h1⟩ := ih
    refine ⟨f1 + 1, fun f hf => ?_⟩
    obtain ⟨g, rfl, hg⟩ := exists_succ hf
    have h1 := h1 g hg
    simp only [Call.run] at h1 ⊢
    simp [parseTerm, h1, hn, he]
  | term_loop _ hc _ ih1 ih2 =>
    obtain ⟨f1, h1⟩ := ih1
    obtain ⟨f2, h2⟩ := ih2
    refine ⟨max f1 f2 + 1, fun f hf => ?_⟩
    obtain ⟨g, rfl, hg⟩ := exists_succ hf
    have h1 := h1 g (by omega)
    have h2 := h2 g (by omega)
    simp only [Call.run] at h1 h2 ⊢
    simp only [parseTerm, h1, hc, if_false, h2]
  | termLoop_stop hc =>
    refine ⟨1, fun f hf => ?_⟩
    obtain ⟨g, rfl, hg⟩ := exists_succ hf
    simp only [Call.run, parseTermLoop]
    rcases hc with hc | hc
    · simp [hc]
    · rw [mulOp_eq_none_iff] at hc
      simp [hc.1, hc.2]
  | termLoop_fail he ht _ hn ih =>
    obtain ⟨f1, h1⟩ := ih
    refine ⟨f1 + 1, fun f hf => ?_⟩
    obtain ⟨g, rfl, hg⟩ := exists_succ hf
    have h1 := h1 g hg
    simp only [Call.run] at h1 ⊢
    rw [mulOp_eq_some_iff] at ht
    rcases ht with ⟨hc, rfl⟩ | ⟨hc1, hc, rfl⟩
    · simp [parseTermLoop, he, hc, h1, hn]
    · simp [parseTermLoop, he, hc, h1, hn]
  | termLoop_next he ht _ hn _ ih1 ih2 =>
    obtain ⟨f1, h1⟩ := ih1
    obtain ⟨f2, h2⟩ := ih2
    refine ⟨max f1 f2 + 1, fun f hf => ?_⟩
    obtain ⟨g, rfl, hg⟩ := exists_succ hf
    have h1 := h1 g (by omega)
    have h2 := h2 g (by omega)
    simp only [Call.run] at h1 h2 ⊢
    rw [mulOp_eq_some_iff] at ht
    rcases ht with ⟨hc, rfl⟩ | ⟨hc1, hc, rfl⟩
    · simp [parseTermLoop, he, hc, h1, hn, h2]
    · simp [parseTermLoop, he, hc, h1, hn, h2]
  | factor _ ih =>
    obtain ⟨f1, h1⟩ := ih
    refine ⟨f1 + 1, fun f hf => ?_⟩
    obtain ⟨g, rfl, hg⟩ := exists_succ hf
    have h1 := h1 g hg
    simp only [Call.run] at h1 ⊢
    simp [parseFactor, h1]
  | power_fail _ hn he ih =>
    obtain ⟨f1, h1⟩ := ih
    refine ⟨f1 + 1, fun f hf => ?_⟩
    obtain ⟨g, rfl, hg⟩ := exists_succ hf
    have h1 := h1 g hg
    simp only [Call.run] at h1 ⊢
    simp [parsePower, h1, hn, he]
  | power_pow_fail _ hc he hp _ hn ih1 ih2 =>
    obtain ⟨f1, h1⟩ := ih1
    obtain ⟨f2, h2⟩ := ih2
    refine ⟨max f1 f2 + 1, fun f hf => ?_⟩
    obtain ⟨g, rfl, hg⟩ := exists_succ hf
    have h1 := h1 g (by omega)
    have h2 := h2 g (by omega)
    simp only [Call.run] at h1 h2 ⊢
    simp only [parsePower, h1, hc, if_false, he, hp, and_self, if_true, h2, hn]
  | power_pow _ hc he hp _ hn ih1 ih2 =>
    obtain ⟨f1, h1⟩ := ih1
    obtain ⟨f2, h2⟩ := ih2
    refine ⟨max f1 f2 + 1, fun f hf => ?_⟩
    obtain ⟨g, rfl, hg⟩ := exists_succ hf
    have h1 := h1 g (by omega)
    have h2 := h2 g (by omega)
    simp only [Call.run] at h1 h2 ⊢
    simp [parsePower, h1, hc, he, hp, h2, hn]
  | power_implicit_fail _ hc he hp hi _ hn ih1 ih2 =>
    obtain ⟨f1, h1⟩ := ih1
    obtain ⟨f2, h2⟩ := ih2
    refine ⟨max f1 f2 + 1, fun f hf => ?_⟩
    obtain ⟨g, rfl, hg⟩ := exists_succ hf
    have h1 := h1 g (by omega)
    have h2 := h2 g (by omega)
    simp only [Call.run] at h1 h2 ⊢
    simp [parsePower, h1, hc, he, hp, hi, h2, hn]
  | power_implicit _ hc he hp hi _ hn ih1 ih2 =>
    obtain ⟨f1, h1⟩ := ih1
    obtain ⟨f2, h2⟩ := ih2
    refine ⟨max f1 f2 + 1, fun f hf => ?_⟩
    obtain ⟨g, rfl, hg⟩ := exists_succ hf
    have h1 := h1 g (by omega)
    have h2 := h2 g (by omega)
    simp only [Call.run] at h1 h2 ⊢
    simp [parsePower, h1, hc, he, hp, hi, h2, hn]
  | power_plain _ hc hs ih =>
    obtain ⟨f1, h1⟩ := ih
    refine ⟨f1 + 1, fun f hf => ?_⟩
    obtain ⟨g, rfl, hg⟩ := exists_succ hf
    have h1 := h1 g hg
    simp only [Call.run] at h1 ⊢
    rcases hs with hs | ⟨hs1, hs2⟩
    · simp [parsePower, h1, hc, hs]
    · simp [parsePower, h1, hc, hs1, hs2]
  | unary_neg_fail he hm _ hn ih =>
    obtain ⟨f1, h1⟩ := ih
    refine ⟨f1 + 1, fun f hf => ?_⟩
    obtain ⟨g, rfl, hg⟩ := exists_succ hf
    have h1 := h1 g hg
    simp only [Call.run] at h1 ⊢
    simp [parseUnary, he, hm, h1, hn]
  | unary_neg he hm _ hn ih =>
    obtain ⟨f1, h1⟩ := ih
    refine ⟨f1 + 1, fun f hf => ?_⟩
    obtain ⟨g, rfl, hg⟩ := exists_succ hf
    have h1 := h1 g hg
    simp only [Call.run] at h1 ⊢
    simp [parseUnary, he, hm, h1, hn]
  | unary_primary hc _ ih =>
    obtain ⟨f1, h1⟩ := ih
    refine ⟨f1 + 1, fun f hf => ?_⟩
    obtain ⟨g, rfl, hg⟩ := exists_succ hf
    have h1 := h1 g hg
    simp only [Call.run] at h1 ⊢
    rcases hc with hc | hc
    · simp [parseUnary, hc, h1]
    · simp [parseUnary, hc, h1]
  | function_noparen hc =>
    refine ⟨1, fun f hf => ?_⟩
    obtain ⟨g, rfl, hg⟩ := exists_succ hf
    simp only [Call.run, parseFunction]
    rcases hc with hc | hc
    · simp [hc]
    · simp [hc]
  | function_arg_fail he hp _ hn ih =>
    obtain ⟨f1, h1⟩ := ih
    refine ⟨f1 + 1, fun f hf => ?_⟩
    obtain ⟨g, rfl, hg⟩ := exists_succ hf
    have h1 := h1 g hg
    simp only [Call.run] at h1 ⊢
    simp [parseFunction, he, hp, h1, hn]
  | function_noclose he hp _ hn hd ih =>
    obtain ⟨f1, h1⟩ := ih
    refine ⟨f1 + 1, fun f hf => ?_⟩
    obtain ⟨g, rfl, hg⟩ := exists_succ hf
    have h1 := h1 g hg
    simp only [Call.run] at h1 ⊢
    rcases hd with hd | hd
    · simp [parseFunction, he, hp, h1, hn, hd]
    · simp [parseFunction, he, hp, h1, hn, hd]
  | function_ok he hp _ hn hd1 hd2 ht ih =>
    obtain ⟨f1, h1⟩ := ih
    refine ⟨f1 + 1, fun f hf => ?_⟩
    obtain ⟨g, rfl, hg⟩ := exists_succ hf
    have h1 := h1 g hg
    simp only [Call.run] at h1 ⊢
    simp [parseFunction, he, hp, h1, hn, hd1, hd2, ht]
  | function_unknown he hp _ hn hd1 hd2 ht ih =>
    obtain ⟨f1, h1⟩ := ih
    refine ⟨f1 + 1, fun f hf => ?_⟩
    obtain ⟨g, rfl, hg⟩ := exists_succ hf
    have h1 := h1 g hg
    simp only [Call.run] at h1 ⊢
    simp [parseFunction, he, hp, h1, hn, hd1, hd2, ht]
  | primary_end he =>
    refine ⟨1, fun f hf => ?_⟩
    obtain ⟨g, rfl, hg⟩ := exists_succ hf
    simp [Call.run, parsePrimary, he]
  | primary_x he hx =>
    refine ⟨1, fun f hf => ?_⟩
    obtain ⟨g, rfl, hg⟩ := exists_succ hf
    simp [Call.run, parsePrimary, he, hx]
  | primary_y he hx hy =>
    refine ⟨1, fun f hf => ?_⟩
    obtain ⟨g, rfl, hg⟩ := exists_succ hf
    simp only [Call.run, parsePrimary, he, hx, hy, if_true, if_false, Bool.false_eq_true]
  | primary_paren_fail he hp _ hn ih =>
    obtain ⟨f1, h1⟩ := ih
    refine ⟨f1 + 1, fun f hf => ?_⟩
    obtain ⟨g, rfl, hg⟩ := exists_succ hf
    have h1 := h1 g hg
    simp only [Call.run] at h1 ⊢
    simp [parsePrimary, he, hp, h1, hn]
  | primary_paren_noclose he hp _ hn hd ih =>
    obtain ⟨f1, h1⟩ := ih
    refine ⟨f1 + 1, fun f hf => ?_⟩
    obtain ⟨g, rfl, hg⟩ := exists_succ hf
    have h1 := h1 g hg
    simp only [Call.run] at h1 ⊢
    rcases hd with hd | hd
    · simp [parsePrimary, he, hp, h1, hn, hd]
    · simp [parsePrimary, he, hp, h1, hn, hd]
  | primary_paren he hp _ hn hd1 hd2 ih =>
    obtain ⟨f1, h1⟩ := ih
    refine ⟨f1 + 1, fun f hf => ?_⟩
    obtain ⟨g, rfl, hg⟩ := exists_succ hf
    have h1 := h1 g hg
    simp only [Call.run] at h1 ⊢
    simp [parsePrimary, he, hp, h1, hn, hd1, hd2]
  | primary_number_invalid he hx hy hp hnum hv =>
    refine ⟨1, fun f hf => ?_⟩
    obtain ⟨g, rfl, hg⟩ := exists_succ hf
    simp only [Call.run, parsePrimary, he, hx, hy, hp, hnum, hv, if_true, if_false,
      Bool.false_eq_true]
  | primary_number he hx hy hp hnum hv =>
    refine ⟨1, fun f hf => ?_⟩
    obtain ⟨g, rfl, hg⟩ := exists_succ hf
    simp only [Call.run, parsePrimary, he, hx, hy, hp, hnum, hv, if_true, if_false,
      Bool.false_eq_true]
  | primary_function he hx hy hp hnum hfn _ ih =>
    obtain ⟨f1, h1⟩ := ih
    refine ⟨f1 + 1, fun f hf => ?_⟩
    obtain ⟨g, rfl, hg⟩ := exists_succ hf
    have h1 := h1 g hg
    simp only [Call.run] at h1 ⊢
    simp only [parsePrimary, he, hx, hy, hp, hnum, hfn, h1, if_true, if_false,
      Bool.false_eq_true]
  | primary_unexpected he hx hy hp hnum hfn =>
    refine ⟨1, fun f hf => ?_⟩
    obtain ⟨g, rfl, hg⟩ := exists_succ hf
    simp only [Call.run, parsePrimary, he, hx, hy, hp, hnum, hfn, if_true, if_false,
      Bool.false_eq_true]

/-- The code is deterministic: a call has one outcome. -/
theorem Step.unique {c : Call A} {p p1 p2 : ExpressionParser A} {n1 n2 : Node A}
    (h1 : Step c p n1 p1) (h2 : Step c p n2 p2) : n1 = n2 ∧ p1 = p2 := by
  obtain ⟨f1, e1⟩ := h1.run_exists
  obtain ⟨f2, e2⟩ := h2.run_exists
  have a := e1 (max f1 f2) (le_max_left _ _)
  have b := e2 (max f1 f2) (le_max_right _ _)
  rw [a] at b
  simpa using b

/-- With `Call.fuel` or more, the call returns the outcome of its path. -/
theorem Step.run {c : Call A} {p p' : ExpressionParser A} {n : Node A}
    (h : Step c p n p') {f : Nat} (hf : c.fuel p ≤ f) : c.run f p = some (n, p') := by
  obtain ⟨⟨n2, p2⟩, hr⟩ := run_total f c p hf
  obtain ⟨rfl, rfl⟩ := h.unique (Step.of_run f c p n2 p2 hr)
  exact hr

theorem Step.result {c : Call A} {p p' : ExpressionParser A} {n : Node A}
    (h : Step c p n p') : c.result p = (n, p') := by
  simp [Call.result, h.run (le_refl _)]

theorem Step.of_result (c : Call A) (p : ExpressionParser A) :
    Step c p (c.result p).1 (c.result p).2 := by
  obtain ⟨⟨n2, p2⟩, hr⟩ := run_total (c.fuel p) c p (le_refl _)
  have h := Step.of_run _ c p n2 p2 hr
  rw [h.result]
  exact h

theorem step_iff_result {c : Call A} {p p' : ExpressionParser A} {n : Node A} :
    Step c p n p' ↔ c.result p = (n, p') := by
  constructor
  · exact Step.result
  · intro h
    have := Step.of_result c p
    rw [h] at this
    exact this

theorem run_eq_result {c : Call A} {p : ExpressionParser A} {f : Nat} (hf : c.fuel p ≤ f) :
    c.run f p = some (c.result p) :=
  (Step.of_result c p).run hf

/-! ### The functions without fuel -/

theorem result_expression (p : ExpressionParser A) :
    Call.expression.result p =
      if (Call.term.result p).1.isNull = true ∧ (Call.term.result p).2.m_error ≠ "" then
        (.nullptr, (Call.term.result p).2)
      else (Call.expressionLoop (Call.term.result p).1).result (Call.term.result p).2.skipSpaces := by
  have s1 := Step.of_result .term p
  split_ifs with hc
  · exact (Step.expression_fail s1 hc.1 hc.2).result
  · exact (Step.expression_loop s1 hc (Step.of_result _ _)).result

theorem result_term (p : ExpressionParser A) :
    Call.term.result p =
      if (Call.factor.result p).1.isNull = true ∧ (Call.factor.result p).2.m_error ≠ "" then
        (.nullptr, (Call.factor.result p).2)
      else (Call.termLoop (Call.factor.result p).1).result (Call.factor.result p).2.skipSpaces := by
  have s1 := Step.of_result .factor p
  split_ifs with hc
  · exact (Step.term_fail s1 hc.1 hc.2).result
  · exact (Step.term_loop s1 hc (Step.of_result _ _)).result

theorem result_factor (p : ExpressionParser A) :
    Call.factor.result p = Call.power.result p :=
  (Step.factor (Step.of_result .power p)).result

theorem result_expressionLoop (left : Node A) (p : ExpressionParser A) :
    (Call.expressionLoop left).result p =
      if p.atEnd = false then
        if p.cur = '+' then
          if (Call.term.result (p.advance 1).skipSpaces).1.isNull = true then
            (.nullptr, (Call.term.result (p.advance 1).skipSpaces).2)
          else (Call.expressionLoop (.binary .Add left
              (Call.term.result (p.advance 1).skipSpaces).1)).result
            (Call.term.result (p.advance 1).skipSpaces).2.skipSpaces
        else if p.cur = '-' then
          if (Call.term.result (p.advance 1).skipSpaces).1.isNull = true then
            (.nullptr, (Call.term.result (p.advance 1).skipSpaces).2)
          else (Call.expressionLoop (.binary .Sub left
              (Call.term.result (p.advance 1).skipSpaces).1)).result
            (Call.term.result (p.advance 1).skipSpaces).2.skipSpaces
        else (left, p)
      else (left, p) := by
  have s1 := Step.of_result .term (p.advance 1).skipSpaces
  split_ifs with he hc hn hc2 hn
  · exact (Step.expressionLoop_fail he (hc ▸ addOp_plus) s1 hn).result
  · exact (Step.expressionLoop_next he (hc ▸ addOp_plus) s1 (by simpa using hn)
      (Step.of_result _ _)).result
  · exact (Step.expressionLoop_fail he (hc2 ▸ addOp_minus) s1 hn).result
  · exact (Step.expressionLoop_next he (hc2 ▸ addOp_minus) s1 (by simpa using hn)
      (Step.of_result _ _)).result
  · exact (Step.expressionLoop_stop (Or.inr (addOp_none hc hc2))).result
  · exact (Step.expressionLoop_stop (Or.inl (by simpa using he))).result

theorem result_termLoop (left : Node A) (p : ExpressionParser A) :
    (Call.termLoop left).result p =
      if p.atEnd = false then
        if p.cur = '*' then
          if (Call.factor.result (p.advance 1).skipSpaces).1.isNull = true then
            (.nullptr, (Call.factor.result (p.advance 1).skipSpaces).2)
          else (Call.termLoop (.binary .Mul left
              (Call.factor.result (p.advance 1).skipSpaces).1)).result
            (Call.factor.result (p.advance 1).skipSpaces).2.skipSpaces
        else if p.cur = '/' then
          if (Call.factor.result (p.advance 1).skipSpaces).1.isNull = true then
            (.nullptr, (Call.factor.result (p.advance 1).skipSpaces).2)
          else (Call.termLoop (.binary .Div left
              (Call.factor.result (p.advance 1).skipSpaces).1)).result
            (Call.factor.result (p.advance 1).skipSpaces).2.skipSpaces
        else (left, p)
      else (left, p) := by
  have s1 := Step.of_result .factor (p.advance 1).skipSpaces
  split_ifs with he hc hn hc2 hn
  · exact (Step.termLoop_fail he (hc ▸ mulOp_star) s1 hn).result
  · exact (Step.termLoop_next he (hc ▸ mulOp_star) s1 (by simpa using hn)
      (Step.of_result _ _)).result
  · exact (Step.termLoop_fail he (hc2 ▸ mulOp_slash) s1 hn).result
  · exact (Step.termLoop_next he (hc2 ▸ mulOp_slash) s1 (by simpa using hn)
      (Step.of_result _ _)).result
  · exact (Step.termLoop_stop (Or.inr (mulOp_none hc hc2))).result
  · exact (Step.termLoop_stop (Or.inl (by simpa using he))).result

theorem result_power (p : ExpressionParser A) :
    Call.power.result p =
      if (Call.unary.result p).1.isNull = true ∧ (Call.unary.result p).2.m_error ≠ "" then
        (.nullptr, (Call.unary.result p).2)
      else if (Call.unary.result p).2.skipSpaces.atEnd = false
          ∧ (Call.unary.result p).2.skipSpaces.cur = '^' then
        if (Call.power.result
            ((Call.unary.result p).2.skipSpaces.advance 1).skipSpaces).1.isNull = true then
          (.nullptr, (Call.power.result
            ((Call.unary.result p).2.skipSpaces.advance 1).skipSpaces).2)
        else (.binary .Pow (Call.unary.result p).1 (Call.power.result
            ((Call.unary.result p).2.skipSpaces.advance 1).skipSpaces).1,
          (Call.power.result ((Call.unary.result p).2.skipSpaces.advance 1).skipSpaces).2)
      else if (Call.unary.result p).2.skipSpaces.atEnd = false
          ∧ implicitStart (Call.unary.result p).2.skipSpaces = true then
        if (Call.unary.result (Call.unary.result p).2.skipSpaces).1.isNull = true then
          ((Call.unary.result p).1, (Call.unary.result (Call.unary.result p).2.skipSpaces).2)
        else (.binary .Mul (Call.unary.result p).1
            (Call.unary.result (Call.unary.result p).2.skipSpaces).1,
          (Call.unary.result (Call.unary.result p).2.skipSpaces).2)
      else ((Call.unary.result p).1, (Call.unary.result p).2.skipSpaces) := by
  have s1 := Step.of_result .unary p
  have s2 := Step.of_result .power ((Call.unary.result p).2.skipSpaces.advance 1).skipSpaces
  have s3 := Step.of_result .unary (Call.unary.result p).2.skipSpaces
  split_ifs with hc hp hn hi hn
  · exact (Step.power_fail s1 hc.1 hc.2).result
  · exact (Step.power_pow_fail s1 hc hp.1 hp.2 s2 hn).result
  · exact (Step.power_pow s1 hc hp.1 hp.2 s2 (by simpa using hn)).result
  · exact (Step.power_implicit_fail s1 hc hi.1 (fun hh => hp ⟨hi.1, hh⟩) hi.2 s3 hn).result
  · exact (Step.power_implicit s1 hc hi.1 (fun hh => hp ⟨hi.1, hh⟩) hi.2 s3
      (by simpa using hn)).result
  · refine (Step.power_plain s1 hc ?_).result
    by_cases he : (Call.unary.result p).2.skipSpaces.atEnd = true
    · exact Or.inl he
    · have he2 : (Call.unary.result p).2.skipSpaces.atEnd = false := by simpa using he
      refine Or.inr ⟨fun hh => hp ⟨he2, hh⟩, ?_⟩
      cases hq : implicitStart (Call.unary.result p).2.skipSpaces
      · rfl
      · exact absurd ⟨he2, hq⟩ hi

theorem result_unary (p : ExpressionParser A) :
    Call.unary.result p =
      if p.skipSpaces.atEnd = false ∧ p.skipSpaces.cur = '-' then
        if (Call.unary.result (p.skipSpaces.advance 1)).1.isNull = true then
          (.nullptr, (Call.unary.result (p.skipSpaces.advance 1)).2)
        else (.unary .Negate (Call.unary.result (p.skipSpaces.advance 1)).1,
          (Call.unary.result (p.skipSpaces.advance 1)).2)
      else Call.primary.result p.skipSpaces := by
  have s1 := Step.of_result .unary (p.skipSpaces.advance 1)
  split_ifs with hm hn
  · exact (Step.unary_neg_fail hm.1 hm.2 s1 hn).result
  · exact (Step.unary_neg hm.1 hm.2 s1 (by simpa using hn)).result
  · refine (Step.unary_primary ?_ (Step.of_result _ _)).result
    by_cases he : p.skipSpaces.atEnd = true
    · exact Or.inl he
    · exact Or.inr (fun hh => hm ⟨by simpa using he, hh⟩)

theorem result_function (name : String) (p : ExpressionParser A) :
    (Call.function name).result p =
      if p.skipSpaces.atEnd = true ∨ p.skipSpaces.cur ≠ '(' then
        (.nullptr, p.skipSpaces.setError ("Expected '(' after '" ++ name ++ "'"))
      else if (Call.expression.result (p.skipSpaces.advance 1)).1.isNull = true then
        (.nullptr, (Call.expression.result (p.skipSpaces.advance 1)).2)
      else if (Call.expression.result (p.skipSpaces.advance 1)).2.skipSpaces.atEnd = true
          ∨ (Call.expression.result (p.skipSpaces.advance 1)).2.skipSpaces.cur ≠ ')' then
        (.nullptr,
          (Call.expression.result (p.skipSpaces.advance 1)).2.skipSpaces.setError "Expected ')'")
      else
        match funcType name with
        | some t => (.unary t (Call.expression.result (p.skipSpaces.advance 1)).1,
            (Call.expression.result (p.skipSpaces.advance 1)).2.skipSpaces.advance 1)
        | none => (.nullptr,
            ((Call.expression.result (p.skipSpaces.advance 1)).2.skipSpaces.advance 1).setError
              ("Unknown function: " ++ name)) := by
  have s1 := Step.of_result .expression (p.skipSpaces.advance 1)
  split_ifs with hc hn hd
  · exact (Step.function_noparen hc).result
  all_goals
    have hc1 : p.skipSpaces.atEnd = false := by
      cases hq : p.skipSpaces.atEnd
      · rfl
      · exact absurd (Or.inl hq) hc
    have hc2 : p.skipSpaces.cur = '(' := by
      by_contra hq
      exact hc (Or.inr hq)
  · exact (Step.function_arg_fail hc1 hc2 s1 hn).result
  · exact (Step.function_noclose hc1 hc2 s1 (by simpa using hn) hd).result
  · have hd1 : (Call.expression.result (p.skipSpaces.advance 1)).2.skipSpaces.atEnd = false := by
      cases hq : (Call.expression.result (p.skipSpaces.advance 1)).2.skipSpaces.atEnd
      · rfl
      · exact absurd (Or.inl hq) hd
    have hd2 : (Call.expression.result (p.skipSpaces.advance 1)).2.skipSpaces.cur = ')' := by
      by_contra hq
      exact hd (Or.inr hq)
    split
    · rename_i t ht
      exact (Step.function_ok hc1 hc2 s1 (by simpa using hn) hd1 hd2 ht).result
    · rename_i ht
      exact (Step.function_unknown hc1 hc2 s1 (by simpa using hn) hd1 hd2 ht).result

theorem result_primary (p : ExpressionParser A) :
    Call.primary.result p =
      if p.skipSpaces.atEnd = true then
        (.nullptr, p.skipSpaces.setError "Unexpected end of expression")
      else if p.skipSpaces.cur = 'x' ∨ p.skipSpaces.cur = 'X' then
        (.leaf A .Variable, p.skipSpaces.advance 1)
      else if p.skipSpaces.cur = 'y' ∨ p.skipSpaces.cur = 'Y' then
        (.leaf A .VariableY, p.skipSpaces.advance 1)
      else if p.skipSpaces.cur = '(' then
        if (Call.expression.result (p.skipSpaces.advance 1)).1.isNull = true then
          (.nullptr, (Call.expression.result (p.skipSpaces.advance 1)).2)
        else if (Call.expression.result (p.skipSpaces.advance 1)).2.skipSpaces.atEnd = true
            ∨ (Call.expression.result (p.skipSpaces.advance 1)).2.skipSpaces.cur ≠ ')' then
          (.nullptr,
            (Call.expression.result (p.skipSpaces.advance 1)).2.skipSpaces.setError "Expected ')'")
        else ((Call.expression.result (p.skipSpaces.advance 1)).1,
          (Call.expression.result (p.skipSpaces.advance 1)).2.skipSpaces.advance 1)
      else if numberStart p.skipSpaces then
        match toDouble A (numberText p.skipSpaces (scanNumber p.skipSpaces)) with
        | none => (.nullptr, (scanNumber p.skipSpaces).setError "Invalid number")
        | some v => (.number v, scanNumber p.skipSpaces)
      else if (funcs.find? (matchesFunc p.skipSpaces)).isSome = true then
        (Call.function ((funcs.find? (matchesFunc p.skipSpaces)).getD "")).result
          (p.skipSpaces.advance ((funcs.find? (matchesFunc p.skipSpaces)).getD "").length)
      else (.nullptr, p.skipSpaces.setError
        ("Unexpected character '" ++ String.singleton p.skipSpaces.cur ++ "'")) := by
  have s1 := Step.of_result .expression (p.skipSpaces.advance 1)
  split_ifs with he hx hy hp hn hd hnum hfn
  · exact (Step.primary_end he).result
  all_goals have he' : p.skipSpaces.atEnd = false := by simpa using he
  · exact (Step.primary_x he' hx).result
  · exact (Step.primary_y he' hx hy).result
  · exact (Step.primary_paren_fail he' hp s1 hn).result
  · exact (Step.primary_paren_noclose he' hp s1 (by simpa using hn) hd).result
  · have hd1 : (Call.expression.result (p.skipSpaces.advance 1)).2.skipSpaces.atEnd = false := by
      cases hq : (Call.expression.result (p.skipSpaces.advance 1)).2.skipSpaces.atEnd
      · rfl
      · exact absurd (Or.inl hq) hd
    have hd2 : (Call.expression.result (p.skipSpaces.advance 1)).2.skipSpaces.cur = ')' := by
      by_contra hq
      exact hd (Or.inr hq)
    exact (Step.primary_paren he' hp s1 (by simpa using hn) hd1 hd2).result
  · split
    · rename_i hv
      exact (Step.primary_number_invalid he' hx hy hp hnum hv).result
    · rename_i v hv
      exact (Step.primary_number he' hx hy hp hnum hv).result
  · obtain ⟨fn, hfn'⟩ := Option.isSome_iff_exists.mp hfn
    rw [hfn']
    exact (Step.primary_function he' hx hy hp hnum hfn' (Step.of_result _ _)).result
  · have hfn' : funcs.find? (matchesFunc p.skipSpaces) = none := by
      simpa using hfn
    exact (Step.primary_unexpected he' hx hy hp hnum hfn').result

theorem intPlatform_exact : intPlatform.Exact where
  add_ofInt := by intros; rfl
  sub_ofInt := by intros; rfl
  mul_ofInt := by intros; rfl
  neg_ofInt := by intros; rfl
  pow_ofInt := by
    intro a n _ _ _
    simp [intPlatform]
  sin_zero := by simp [intPlatform]
  sqrt_ofInt := by
    intro n _
    have h : ((n : Int) * n).toNat = n * n := by
      rw [← Nat.cast_mul, Int.toNat_natCast]
    have h0 : (0 : Int) ≤ (n : Int) * n := by positivity
    simp [intPlatform, h, Nat.sqrt_eq, h0]
  eqZero_ofInt := by
    intro a _
    simp [intPlatform]
  ltZero_ofInt := by
    intro a _
    simp [intPlatform]
  leZero_ofInt := by
    intro a _
    simp [intPlatform]
  ofInt_inj := by
    intro a b _ _ h
    simpa [intPlatform] using h

theorem parseFuel_ge (e : ExpressionParser A) (expr : String) :
    Call.expression.fuel (parseStart e expr) ≤ parseFuel (parseStart e expr).size := by
  simp only [Call.fuel, Call.rank, parseFuel, size, parseStart]
  omega

/-- `parse` always returns: the fuel it supplies is enough, and its outcome is that of
`parseExpression` handed to the end of `parse`. -/
theorem parse_eq (e : ExpressionParser A) (expr : String) :
    parse e expr = some (parseFinish (Call.expression.result (parseStart e expr))) := by
  have h := run_eq_result (parseFuel_ge e expr)
  simp only [Call.run] at h
  unfold parse
  simp only [parseStart] at h
  simp only [h]
  unfold parseFinish parseStart
  generalize Call.expression.result (A := A) _ = r
  obtain ⟨n, q⟩ := r
  by_cases ha : q.skipSpaces.atEnd = false <;> by_cases hb : q.m_error = "" <;>
    simp [ha, hb, setError]

/-! ### Evaluation on explicit engine states -/

theorem skipSpaces_mk (i u : List Char) (e : String) (pa : Bool) (ro : Node A) :
    (ExpressionParser.mk i u e pa ro).skipSpaces = ⟨i, u.dropWhile (isSpace A), e, pa, ro⟩ := rfl
theorem advance_mk (i u : List Char) (e : String) (pa : Bool) (ro : Node A) (k : Nat) :
    (ExpressionParser.mk i u e pa ro).advance k = ⟨i, u.drop k, e, pa, ro⟩ := rfl
theorem setError_mk (i u : List Char) (e : String) (pa : Bool) (ro : Node A) (m : String) :
    (ExpressionParser.mk i u e pa ro).setError m = ⟨i, u, m, pa, ro⟩ := rfl
theorem atEnd_mk (i u : List Char) (e : String) (pa : Bool) (ro : Node A) :
    (ExpressionParser.mk i u e pa ro).atEnd = u.isEmpty := rfl
theorem cur_mk (i u : List Char) (e : String) (pa : Bool) (ro : Node A) :
    (ExpressionParser.mk i u e pa ro).cur = u.headD ' ' := rfl
theorem peek_mk (i u : List Char) (e : String) (pa : Bool) (ro : Node A) (k : Nat) :
    (ExpressionParser.mk i u e pa ro).peek k = u.getD k ' ' := rfl
theorem skipNumber_mk (i u : List Char) (e : String) (pa : Bool) (ro : Node A) :
    (ExpressionParser.mk i u e pa ro).skipNumber =
      ⟨i, u.dropWhile (fun c => isDigit A c || c == '.'), e, pa, ro⟩ := rfl

theorem parseStart_mk (e : ExpressionParser A) (expr : String) :
    parseStart e expr = ⟨normalize A expr.data, normalize A expr.data, "", false, .nullptr⟩ := rfl

theorem length_sin : "sin".length = 3 := by decide
theorem length_cos : "cos".length = 3 := by decide
theorem length_tan : "tan".length = 3 := by decide
theorem length_sqrt : "sqrt".length = 4 := by decide
theorem length_exp : "exp".length = 3 := by decide
theorem length_log : "log".length = 3 := by decide

theorem scanNumber_frame (p : ExpressionParser A) :
    (scanNumber p).m_input = p.m_input ∧ (scanNumber p).m_parsed = p.m_parsed
      ∧ (scanNumber p).m_root = p.m_root := by
  unfold scanNumber
  split <;> exact ⟨rfl, rfl, rfl⟩

/-- The parsing functions touch the cursor and the error only: `m_input`, `m_parsed` and
`m_root` are as before. -/
theorem Step.frame {c : Call A} {p p' : ExpressionParser A} {n : Node A}
    (h : Step c p n p') :
    p'.m_input = p.m_input ∧ p'.m_parsed = p.m_parsed ∧ p'.m_root = p.m_root := by
  induction h with
  | primary_number_invalid =>
    rename_i p _ _ _ _ _ _
    exact scanNumber_frame p.skipSpaces
  | primary_number =>
    rename_i p _ _ _ _ _ _ _
    exact scanNumber_frame p.skipSpaces
  | _ => simp_all [skipSpaces, advance, setError]

theorem result_frame (c : Call A) (p : ExpressionParser A) :
    (c.result p).2.m_input = p.m_input ∧ (c.result p).2.m_parsed = p.m_parsed
      ∧ (c.result p).2.m_root = p.m_root :=
  (Step.of_result c p).frame

theorem parseFinish_ok {n : Node A} {q : ExpressionParser A}
    (h1 : q.skipSpaces.atEnd = true) (h2 : q.m_error = "") :
    parseFinish (n, q) = (true, { q.skipSpaces with m_root := n, m_parsed := true }) := by
  simp [parseFinish, h1, h2]

theorem parseFinish_trailing {n : Node A} {q : ExpressionParser A}
    (h1 : q.skipSpaces.atEnd = false) (h2 : q.m_error = "") :
    parseFinish (n, q) = (false, q.skipSpaces.setError "Unexpected character at end") := by
  simp [parseFinish, h1, h2]

theorem parseFinish_error {n : Node A} {q : ExpressionParser A} (h2 : q.m_error ≠ "") :
    parseFinish (n, q) = (false, q.skipSpaces) := by
  simp [parseFinish, h2]

/-- C1: `parse` always returns, and it returns true exactly when `isValid()` is true
afterwards and exactly when `errorString()` is empty afterwards, whatever the text and
whatever the engine held before. -/
theorem C1_parse_true_iff_valid_iff_no_error (e : ExpressionParser A) (text : String) :
    ∃ ok e', parse e text = some (ok, e') ∧
      (ok = true ↔ e'.isValid = true) ∧ (ok = true ↔ e'.errorString = "") ∧
      (ok = false ↔ e'.isValid = false) ∧ (ok = false ↔ e'.errorString ≠ "") := by
  refine ⟨(parseFinish (Call.expression.result (parseStart e text))).1,
    (parseFinish (Call.expression.result (parseStart e text))).2, parse_eq e text, ?_⟩
  have hp := (result_frame .expression (parseStart e text)).2.1
  generalize Call.expression.result (parseStart e text) = r at hp ⊢
  obtain ⟨n, q⟩ := r
  have hp' : q.skipSpaces.m_parsed = false := hp
  by_cases hb : q.m_error = ""
  · cases ha : q.skipSpaces.atEnd
    · rw [parseFinish_trailing ha hb]
      have hp2 : (q.skipSpaces.setError "Unexpected character at end").m_parsed = false := hp
      simp [isValid, errorString, hp2]
    · rw [parseFinish_ok ha hb]
      simp [isValid, errorString, hb]
  · rw [parseFinish_error hb]
    simp [isValid, errorString, hp', hb]

theorem parse_x (e : ExpressionParser A) :
    parse e "x" = some (true, ⟨['x'], [], "", true, .leaf A .Variable⟩) := by
  simp [parse_eq, parseStart_mk, parseFinish, normalize, trimmed, replace, replaceFrom,
    List.rdropWhile, result_expression, result_expressionLoop, result_term, result_termLoop,
    result_factor, result_power, result_unary, result_function, result_primary,
    skipSpaces_mk, advance_mk, setError_mk, atEnd_mk, cur_mk, peek_mk, skipNumber_mk,
    isSpace, isDigit, implicitStart, numberStart, scanNumber, numberText, toDouble,
    Node.isNull, Node.binary, Node.number, Node.leaf, Node.unary]

theorem parse_unclosed (e : ExpressionParser A) :
    parse e "(1+2" = some (false, ⟨['(', '1', '+', '2'], [], "Expected ')'", false, .nullptr⟩) := by
  simp [parse_eq, parseStart_mk, parseFinish, normalize, trimmed, replace, replaceFrom,
    List.rdropWhile, result_expression, result_expressionLoop, result_term, result_termLoop,
    result_factor, result_power, result_unary, result_function, result_primary,
    skipSpaces_mk, advance_mk, setError_mk, atEnd_mk, cur_mk, peek_mk, skipNumber_mk,
    isSpace, isDigit, implicitStart, numberStart, scanNumber, numberText, toDouble,
    Node.isNull, Node.binary, Node.number, Node.leaf, Node.unary]

/-- C2: without a valid tree `eval` is NaN.  On a default-constructed engine, and after
every `parse` call that returned false (whatever the engine held before, a valid tree
included), `isValid()` is false, no tree is held, and `eval(x)` and `eval(x, y)` return
the value of `qQNaN()` for every `x` and `y`. -/
theorem C2_eval_nan_without_tree (e : ExpressionParser A) (text : String)
    (e' : ExpressionParser A) (h : parse e text = some (false, e')) (x y : A.Double) :
    ((fresh A).isValid = false ∧ eval (fresh A) x y = A.qQNaN ∧ eval1 (fresh A) x = A.qQNaN) ∧
    (e'.isValid = false ∧ e'.m_root = .nullptr ∧ eval e' x y = A.qQNaN
      ∧ eval1 e' x = A.qQNaN) := by
  refine ⟨⟨rfl, rfl, rfl⟩, ?_⟩
  rw [parse_eq] at h
  have hf := result_frame .expression (parseStart e text)
  generalize Call.expression.result (parseStart e text) = r at hf h
  obtain ⟨n, q⟩ := r
  have hpa : q.m_parsed = false := hf.2.1
  have hro : q.m_root = .nullptr := hf.2.2
  have key : e'.m_parsed = false ∧ e'.m_root = .nullptr := by
    by_cases hb : q.m_error = ""
    · cases ha : q.skipSpaces.atEnd
      · rw [parseFinish_trailing ha hb] at h
        simp only [Option.some.injEq, Prod.mk.injEq, true_and] at h
        subst h
        exact ⟨hpa, hro⟩
      · rw [parseFinish_ok ha hb] at h
        simp at h
    · rw [parseFinish_error hb] at h
      simp only [Option.some.injEq, Prod.mk.injEq, true_and] at h
      subst h
      exact ⟨hpa, hro⟩
  refine ⟨key.1, key.2, ?_, ?_⟩ <;> simp [eval1, eval, key.2, Node.isNull]

/-- Witness of C2: on the integer platform, `parse("x")` succeeds on a fresh engine and
`parse("(1+2")` on the resulting engine returns false; afterwards there is no tree and
`eval` is NaN. -/
theorem C2_eval_nan_without_tree_witness :
    parse (fresh intPlatform) "x" = some (true, ⟨['x'], [], "", true, .leaf intPlatform .Variable⟩) ∧
    parse (⟨['x'], [], "", true, .leaf intPlatform .Variable⟩ : ExpressionParser intPlatform) "(1+2"
      = some (false, ⟨['(', '1', '+', '2'], [], "Expected ')'", false, .nullptr⟩) ∧
    (((fresh intPlatform).isValid = false ∧ eval (fresh intPlatform) (some 3) (some 5) = none
      ∧ eval1 (fresh intPlatform) (some 3) = none) ∧
    ((⟨['(', '1', '+', '2'], [], "Expected ')'", false, .nullptr⟩ :
        ExpressionParser intPlatform).isValid = false ∧
      (⟨['(', '1', '+', '2'], [], "Expected ')'", false, .nullptr⟩ :
        ExpressionParser intPlatform).m_root = .nullptr ∧
      eval (⟨['(', '1', '+', '2'], [], "Expected ')'", false, .nullptr⟩ :
        ExpressionParser intPlatform) (some 3) (some 5) = none ∧
      eval1 (⟨['(', '1', '+', '2'], [], "Expected ')'", false, .nullptr⟩ :
        ExpressionParser intPlatform) (some 3) = none)) :=
  ⟨parse_x (fresh intPlatform), parse_unclosed _,
    C2_eval_nan_without_tree
      (⟨['x'], [], "", true, .leaf intPlatform .Variable⟩ : ExpressionParser intPlatform) "(1+2"
      ⟨['(', '1', '+', '2'], [], "Expected ')'", false, .nullptr⟩ (parse_unclosed _)
      (some 3) (some 5)⟩

theorem parse_neg_two_pow_two (e : ExpressionParser A) :
    parse e "-2^2" = some (true, ⟨['-', '2', '^', '2'], [], "", true,
      .binary .Pow (.unary .Negate (.number (A.ofInt 2))) (.number (A.ofInt 2))⟩) := by
  simp [parse_eq, parseStart_mk, parseFinish, normalize, trimmed, replace, replaceFrom,
    List.rdropWhile, result_expression, result_expressionLoop, result_term, result_termLoop,
    result_factor, result_power, result_unary, result_function, result_primary,
    skipSpaces_mk, advance_mk, setError_mk, atEnd_mk, cur_mk, peek_mk, skipNumber_mk,
    isSpace, isDigit, implicitStart, numberStart, scanNumber, numberText, toDouble,
    Node.isNull, Node.binary, Node.number, Node.leaf, Node.unary]

/-- C3, as stated, fails: on the integer platform `parse("-2^2")` builds
`Pow(Negate(2), 2)`, not `Negate(Pow(2, 2))`, and `eval` returns 4, not -4. -/
theorem C3_counterexample :
    ∃ e', parse (fresh intPlatform) "-2^2" = some (true, e') ∧
      e'.m_root ≠ .unary .Negate (.binary .Pow (.number (intPlatform.ofInt 2))
        (.number (intPlatform.ofInt 2))) ∧
      eval e' (intPlatform.ofInt 0) (intPlatform.ofInt 0) = intPlatform.ofInt 4 ∧
      eval e' (intPlatform.ofInt 0) (intPlatform.ofInt 0) ≠ intPlatform.ofInt (-4) := by
  refine ⟨_, parse_neg_two_pow_two _, ?_, ?_, ?_⟩
  · simp [Node.unary, Node.binary]
  · simp [eval, evalNode, Node.isNull, Node.binary, Node.unary, Node.number, intPlatform]
  · simp [eval, evalNode, Node.isNull, Node.binary, Node.unary, Node.number, intPlatform]

/-- C3, amended: `parse("-2^2")` succeeds and the tree is `Pow(Negate(2), 2)`: a leading
unary minus belongs to the base of the power.  On a platform that is exact on small
integers `eval` returns 4 for every `x` and `y`. -/
theorem C3_minus_binds_tighter_than_power (hA : A.Exact) (e : ExpressionParser A)
    (x y : A.Double) :
    ∃ e', parse e "-2^2" = some (true, e') ∧
      e'.m_root = .binary .Pow (.unary .Negate (.number (A.ofInt 2))) (.number (A.ofInt 2)) ∧
      eval e' x y = A.ofInt 4 ∧ eval1 e' x = A.ofInt 4 := by
  refine ⟨_, parse_neg_two_pow_two e, rfl, ?_, ?_⟩ <;>
  · have h1 := hA.neg_ofInt 2 (by norm_num) (by norm_num)
    have h2 := hA.pow_ofInt (-2) 2 (by norm_num) (by norm_num) (by norm_num)
    simp only [Nat.cast_ofNat] at h2
    simp [eval1, eval, evalNode, Node.isNull, Node.binary, Node.unary, Node.number, h1, h2]

/-- Witness of the amended C3 on the integer platform. -/
theorem C3_minus_binds_tighter_than_power_witness :
    intPlatform.Exact ∧ ∃ e', parse (fresh intPlatform) "-2^2" = some (true, e') ∧
      e'.m_root = .binary .Pow (.unary .Negate (.number (intPlatform.ofInt 2)))
        (.number (intPlatform.ofInt 2)) ∧
      eval e' (intPlatform.ofInt 7) (intPlatform.ofInt 9) = intPlatform.ofInt 4 ∧
      eval1 e' (intPlatform.ofInt 7) = intPlatform.ofInt 4 :=
  ⟨intPlatform_exact, C3_minus_binds_tighter_than_power intPlatform_exact (fresh intPlatform)
    (intPlatform.ofInt 7) (intPlatform.ofInt 9)⟩

theorem parse_two_SIN_x (e : ExpressionParser A) :
    parse e "2SIN(x)" = some (false, ⟨['2', 'S', 'I', 'N', '(', 'x', ')'],
      ['S', 'I', 'N', '(', 'x', ')'], "Unexpected character at end", false, .nullptr⟩) := by
  simp [parse_eq, parseStart_mk, parseFinish, normalize, trimmed, replace, replaceFrom,
    List.rdropWhile, result_expression, result_expressionLoop, result_term, result_termLoop,
    result_factor, result_power, result_unary, result_function, result_primary,
    skipSpaces_mk, advance_mk, setError_mk, atEnd_mk, cur_mk, peek_mk, skipNumber_mk,
    isSpace, isDigit, implicitStart, numberStart, scanNumber, numberText, toDouble,
    funcs, matchesFunc, startsWithCI, foldCase, funcType,
    length_sin, length_cos, length_tan, length_sqrt, length_exp, length_log,
    Node.isNull, Node.binary, Node.number, Node.leaf, Node.unary]

theorem parse_two_sin_x (e : ExpressionParser A) :
    parse e "2sin(x)" = some (true, ⟨['2', 's', 'i', 'n', '(', 'x', ')'], [], "", true,
      .binary .Mul (.number (A.ofInt 2)) (.unary .Sin (.leaf A .Variable))⟩) := by
  simp [parse_eq, parseStart_mk, parseFinish, normalize, trimmed, replace, replaceFrom,
    List.rdropWhile, result_expression, result_expressionLoop, result_term, result_termLoop,
    result_factor, result_power, result_unary, result_function, result_primary,
    skipSpaces_mk, advance_mk, setError_mk, atEnd_mk, cur_mk, peek_mk, skipNumber_mk,
    isSpace, isDigit, implicitStart, numberStart, scanNumber, numberText, toDouble,
    funcs, matchesFunc, startsWithCI, foldCase, funcType,
    length_sin, length_cos, length_tan, length_sqrt, length_exp, length_log,
    Node.isNull, Node.binary, Node.number, Node.leaf, Node.unary]

theorem parse_SIN_x (e : ExpressionParser A) :
    parse e "SIN(x)" = some (true, ⟨['S', 'I', 'N', '(', 'x', ')'], [], "", true,
      .unary .Sin (.leaf A .Variable)⟩) := by
  simp [parse_eq, parseStart_mk, parseFinish, normalize, trimmed, replace, replaceFrom,
    List.rdropWhile, result_expression, result_expressionLoop, result_term, result_termLoop,
    result_factor, result_power, result_unary, result_function, result_primary,
    skipSpaces_mk, advance_mk, setError_mk, atEnd_mk, cur_mk, peek_mk, skipNumber_mk,
    isSpace, isDigit, implicitStart, numberStart, scanNumber, numberText, toDouble,
    funcs, matchesFunc, startsWithCI, foldCase, funcType,
    length_sin, length_cos, length_tan, length_sqrt, length_exp, length_log,
    Node.isNull, Node.binary, Node.number, Node.leaf, Node.unary]

/-- C8 on the code: the implicit-multiplication lookahead of `parsePower` tests the next
character against the lower-case letters `s c t e l` only, so an operand followed by a
function name that starts with a capital is not multiplied: `parse("2SIN(x)")` returns
false with "Unexpected character at end" and `SIN(x)` left unread, although
`parse("2sin(x)")` builds `Mul(2, Sin(x))` and `parse("SIN(x)")` builds `Sin(x)`. -/
theorem C8_uppercase_function_not_multiplied (e : ExpressionParser A) :
    (∃ e', parse e "2SIN(x)" = some (false, e') ∧
      e'.errorString = "Unexpected character at end" ∧ e'.unread = "SIN(x)".data) ∧
    (∃ e', parse e "2sin(x)" = some (true, e') ∧
      e'.m_root = .binary .Mul (.number (A.ofInt 2)) (.unary .Sin (.leaf A .Variable))) ∧
    (∃ e', parse e "SIN(x)" = some (true, e') ∧
      e'.m_root = .unary .Sin (.leaf A .Variable)) :=
  ⟨⟨_, parse_two_SIN_x e, rfl, rfl⟩, ⟨_, parse_two_sin_x e, rfl⟩, ⟨_, parse_SIN_x e, rfl⟩⟩

/-! ### Characters -/

theorem isDigit_not_space {c : Char} (h : isDigit A c = true) : isSpace A c = false := by
  unfold isDigit at h
  unfold isSpace
  split_ifs at h ⊢ with h1
  · simp only [decide_eq_true_eq] at h
    simp only [decide_eq_false_iff_not]
    omega
  · simp only [decide_eq_true_eq] at h
    simp [h]

theorem isSpace_not_digit {c : Char} (h : isSpace A c = true) : isDigit A c = false := by
  cases hd : isDigit A c
  · rfl
  · rw [isDigit_not_space hd] at h
    exact absurd h (by simp)

theorem isDigit_ascii {c : Char} (h : isDigit A c = true) (k : Char)
    (hk : k.toNat < 128 := by decide) (hk2 : ¬ (48 ≤ k.toNat ∧ k.toNat ≤ 57) := by decide) :
    c ≠ k := by
  rintro rfl
  simp [isDigit, hk, hk2] at h

theorem isSpace_ascii {c : Char} (h : isSpace A c = true) (k : Char)
    (hk : k.toNat < 128 := by decide)
    (hk2 : ¬ (k.toNat = 32 ∨ (9 ≤ k.toNat ∧ k.toNat ≤ 13)) := by decide) :
    c ≠ k := by
  rintro rfl
  simp [isSpace, hk, hk2] at h

theorem PrimaryHead.not_space {h : Char} (hh : PrimaryHead A h) : isSpace A h = false := by
  rcases hh with rfl | rfl | rfl | rfl | hd | rfl
  · simp [isSpace]
  · simp [isSpace]
  · simp [isSpace]
  · simp [isSpace]
  · exact isDigit_not_space hd
  · simp [isSpace]

theorem PrimaryHead.ne {h : Char} (hh : PrimaryHead A h) (k : Char)
    (hk : k.toNat < 128 := by decide) (hk2 : ¬ (48 ≤ k.toNat ∧ k.toNat ≤ 57) := by decide)
    (h1 : k ≠ 'x' := by decide) (h2 : k ≠ 'X' := by decide) (h3 : k ≠ 'y' := by decide)
    (h4 : k ≠ 'Y' := by decide) (h5 : k ≠ '.' := by decide) : h ≠ k := by
  rcases hh with rfl | rfl | rfl | rfl | hd | rfl
  · exact h1.symm
  · exact h2.symm
  · exact h3.symm
  · exact h4.symm
  · exact isDigit_ascii hd k hk hk2
  · exact h5.symm

theorem Primary.head {s : List Char} {n : Node A} (hp : Primary A s n) :
    ∃ h t, s = h :: t ∧ PrimaryHead A h := by
  cases hp with
  | x => exact ⟨_, _, rfl, Or.inl rfl⟩
  | X => exact ⟨_, _, rfl, Or.inr (Or.inl rfl)⟩
  | y => exact ⟨_, _, rfl, Or.inr (Or.inr (Or.inl rfl))⟩
  | Y => exact ⟨_, _, rfl, Or.inr (Or.inr (Or.inr (Or.inl rfl)))⟩
  | number hl _ =>
    rcases hl.start with ⟨d, t, rfl, hd⟩ | ⟨d, t, rfl, hd⟩
    · exact ⟨_, _, rfl, Or.inr (Or.inr (Or.inr (Or.inr (Or.inl hd))))⟩
    · exact ⟨_, _, rfl, Or.inr (Or.inr (Or.inr (Or.inr (Or.inr rfl))))⟩

theorem Primary.isNull {s : List Char} {n : Node A} (hp : Primary A s n) : n.isNull = false := by
  cases hp <;> rfl

theorem Primary.chars {s : List Char} {n : Node A} (hp : Primary A s n) :
    ∀ c ∈ s, PrimaryHead A c := by
  cases hp with
  | x => intro c hc; simp at hc; subst hc; exact Or.inl rfl
  | X => intro c hc; simp at hc; subst hc; exact Or.inr (Or.inl rfl)
  | y => intro c hc; simp at hc; subst hc; exact Or.inr (Or.inr (Or.inl rfl))
  | Y => intro c hc; simp at hc; subst hc; exact Or.inr (Or.inr (Or.inr (Or.inl rfl)))
  | number hl _ =>
    intro c hc
    rcases hl.chars c hc with hd | rfl
    · exact Or.inr (Or.inr (Or.inr (Or.inr (Or.inl hd))))
    · exact Or.inr (Or.inr (Or.inr (Or.inr (Or.inr rfl))))

/-! ### Lists -/

theorem dropWhile_head {q : Char → Bool} {h : Char} {t : List Char} (hq : q h = false) :
    (h :: t).dropWhile q = h :: t := by
  simp [List.dropWhile, hq]

theorem dropWhile_all_append {q : Char → Bool} {s : List Char} (hs : ∀ c ∈ s, q c = true)
    (r : List Char) : (s ++ r).dropWhile q = r.dropWhile q := by
  induction s with
  | nil => rfl
  | cons a s ih =>
    have ha : q a = true := hs a (List.mem_cons_self _ _)
    simp only [List.cons_append, List.dropWhile_cons, ha, if_true]
    exact ih (fun c hc => hs c (List.mem_cons_of_mem _ hc))

theorem dropWhile_stops {q : Char → Bool} {r : List Char}
    (hr : ∀ c, r.head? = some c → q c = false) : r.dropWhile q = r := by
  cases r with
  | nil => rfl
  | cons a r => exact dropWhile_head (hr a rfl)

theorem Primary.dropWhile_space {s : List Char} {n : Node A} (hp : Primary A s n)
    (r : List Char) : (s ++ r).dropWhile (isSpace A) = s ++ r := by
  obtain ⟨h, t, rfl, hh⟩ := hp.head
  exact dropWhile_head hh.not_space

theorem Blank.dropWhile {ws : List Char} (hw : Blank A ws) (r : List Char) :
    (ws ++ r).dropWhile (isSpace A) = r.dropWhile (isSpace A) :=
  dropWhile_all_append hw r

theorem Stops.digitOrDot {r : List Char} (hr : Stops A r) :
    ∀ c, r.head? = some c → (isDigit A c || c == '.') = false := by
  intro c hc
  obtain ⟨h1, h2⟩ := hr c hc
  simp [h1, h2]

theorem NumberLiteral.scan {s : List Char} (hl : NumberLiteral A s) {r : List Char}
    (hr : Stops A r) :
    (s ++ r).dropWhile (fun c => isDigit A c || c == '.') = r := by
  rw [dropWhile_all_append _ r, dropWhile_stops hr.digitOrDot]
  intro c hc
  rcases hl.chars c hc with h | rfl
  · simp [h]
  · simp

theorem take_length_append (s r : List Char) :
    (s ++ r).take ((s ++ r).length - r.length) = s := by
  simp

/-- `parseUnary` on a variable reads it, whatever follows. -/
theorem unary_variable (c : Char) (hc : c = 'x' ∨ c = 'X' ∨ c = 'y' ∨ c = 'Y')
    (i r : List Char) (e : String) (pa : Bool) (ro : Node A) :
    Call.unary.result ⟨i, c :: r, e, pa, ro⟩ =
      (if c = 'x' ∨ c = 'X' then .leaf A .Variable else .leaf A .VariableY, ⟨i, r, e, pa, ro⟩) := by
  rcases hc with rfl | rfl | rfl | rfl <;>
    simp [result_unary, result_primary, skipSpaces_mk, advance_mk, atEnd_mk, cur_mk, isSpace]

/-- `parseUnary` on a number followed by text that does not continue it reads the number
and stops in front of that text. -/
theorem unary_number {s : List Char} {v : A.Double} (hl : NumberLiteral A s)
    (hv : toDouble A s = some v) {r : List Char} (hr : Stops A r)
    (i : List Char) (e : String) (pa : Bool) (ro : Node A) :
    Call.unary.result ⟨i, s ++ r, e, pa, ro⟩ = (.number v, ⟨i, r, e, pa, ro⟩) := by
  have hscan := hl.scan hr
  have htake := take_length_append s r
  rcases hl.start with ⟨d, t, rfl, hd⟩ | ⟨d, t, rfl, hd⟩
  · have hsp := isDigit_not_space hd
    have h1 := isDigit_ascii hd '-'
    have h2 := isDigit_ascii hd 'x'
    have h3 := isDigit_ascii hd 'X'
    have h4 := isDigit_ascii hd 'y'
    have h5 := isDigit_ascii hd 'Y'
    have h6 := isDigit_ascii hd '('
    have h7 := isDigit_ascii hd '.'
    simp only [List.cons_append] at hscan htake ⊢
    have hs : (⟨i, d :: (t ++ r), e, pa, ro⟩ : ExpressionParser A).skipSpaces
        = ⟨i, d :: (t ++ r), e, pa, ro⟩ := by
      rw [skipSpaces_mk, dropWhile_head hsp]
    have hsc : scanNumber (⟨i, d :: (t ++ r), e, pa, ro⟩ : ExpressionParser A)
        = ⟨i, r, e, pa, ro⟩ := by
      simp only [scanNumber, cur_mk, List.headD_cons, h7, if_false, skipNumber_mk, hscan]
    rw [result_unary, hs]
    simp only [atEnd_mk, cur_mk, List.headD_cons, h1, and_false, if_false]
    rw [result_primary, hs]
    simp only [atEnd_mk, cur_mk, List.headD_cons, List.isEmpty_cons, Bool.false_eq_true,
      if_false, h2, h3, h4, h5, h6, or_self, numberStart, hd, true_or, if_true, hsc, numberText]
    simp only [List.length_cons] at htake
    simp only [List.length_cons, htake, hv]
  · have hsp : isSpace A '.' = false := by simp [isSpace]
    simp only [List.cons_append] at hscan htake ⊢
    have hs : (⟨i, '.' :: d :: (t ++ r), e, pa, ro⟩ : ExpressionParser A).skipSpaces
        = ⟨i, '.' :: d :: (t ++ r), e, pa, ro⟩ := by
      rw [skipSpaces_mk, dropWhile_head hsp]
    have hscan' : (d :: (t ++ r)).dropWhile (fun c => isDigit A c || c == '.') = r := by
      simpa [List.dropWhile] using hscan
    have hsc : scanNumber (⟨i, '.' :: d :: (t ++ r), e, pa, ro⟩ : ExpressionParser A)
        = ⟨i, r, e, pa, ro⟩ := by
      simp only [scanNumber, cur_mk, List.headD_cons, if_true, advance_mk, List.drop_succ_cons,
        List.drop_zero, skipNumber_mk, hscan']
    rw [result_unary, hs]
    simp only [atEnd_mk, cur_mk, List.headD_cons]
    rw [if_neg (by simp)]
    rw [result_primary, hs]
    simp only [atEnd_mk, cur_mk, List.headD_cons, List.isEmpty_cons, Bool.false_eq_true,
      if_false]
    rw [if_neg (by decide), if_neg (by decide), if_neg (by decide)]
    have hns : numberStart (⟨i, '.' :: d :: (t ++ r), e, pa, ro⟩ : ExpressionParser A) := by
      refine Or.inr ⟨rfl, ?_, ?_⟩
      · simp
      · simpa [peek_mk] using hd
    rw [if_pos hns, hsc]
    simp only [numberText]
    simp only [List.length_cons] at htake
    simp only [List.length_cons, htake, hv]

/-- `parseUnary` on a primary followed by text that does not continue it returns the
primary's node and stops in front of that text. -/
theorem unary_primary {s : List Char} {n : Node A} (hp : Primary A s n) {r : List Char}
    (hf : Follows A s r) (i : List Char) (e : String) (pa : Bool) (ro : Node A) :
    Call.unary.result ⟨i, s ++ r, e, pa, ro⟩ = (n, ⟨i, r, e, pa, ro⟩) := by
  cases hp with
  | x => simpa using unary_variable 'x' (by simp) i r e pa ro
  | X => simpa using unary_variable 'X' (by simp) i r e pa ro
  | y => simpa using unary_variable 'y' (by simp) i r e pa ro
  | Y => simpa using unary_variable 'Y' (by simp) i r e pa ro
  | number hl hv =>
    rcases hf with rfl | rfl | rfl | rfl | hr
    · exact absurd hl.chars (by simp [isDigit])
    · exact absurd hl.chars (by simp [isDigit])
    · exact absurd hl.chars (by simp [isDigit])
    · exact absurd hl.chars (by simp [isDigit])
    · exact unary_number hl hv hr i e pa ro

section
variable {s : List Char} {n : Node A} (hp : Primary A s n) (r i : List Char) (e : String)
  (pa : Bool) (ro : Node A)
include hp

theorem Primary.skipSpaces_self :
    (⟨i, s ++ r, e, pa, ro⟩ : ExpressionParser A).skipSpaces = ⟨i, s ++ r, e, pa, ro⟩ := by
  rw [KGrapher.skipSpaces_mk, hp.dropWhile_space]

theorem Primary.atEnd_false : (⟨i, s ++ r, e, pa, ro⟩ : ExpressionParser A).atEnd = false := by
  obtain ⟨h, t, rfl, _⟩ := hp.head
  rfl

theorem Primary.cur_ne (k : Char)
    (hk : k.toNat < 128 := by decide) (hk2 : ¬ (48 ≤ k.toNat ∧ k.toNat ≤ 57) := by decide)
    (h1 : k ≠ 'x' := by decide) (h2 : k ≠ 'X' := by decide) (h3 : k ≠ 'y' := by decide)
    (h4 : k ≠ 'Y' := by decide) (h5 : k ≠ '.' := by decide) :
    (⟨i, s ++ r, e, pa, ro⟩ : ExpressionParser A).cur ≠ k := by
  obtain ⟨h, t, rfl, hh⟩ := hp.head
  exact hh.ne k hk hk2 h1 h2 h3 h4 h5

theorem Primary.implicitStart_mk :
    implicitStart (⟨i, s ++ r, e, pa, ro⟩ : ExpressionParser A) = true := by
  obtain ⟨h, t, rfl, hh⟩ := hp.head
  rcases hh with rfl | rfl | rfl | rfl | hd | rfl
  · simp [implicitStart, cur_mk]
  · simp [implicitStart, cur_mk]
  · simp [implicitStart, cur_mk]
  · simp [implicitStart, cur_mk]
  · simp [implicitStart, cur_mk, hd]
  · simp [implicitStart, cur_mk]

end

/-! ### The preprocessing of `parse` on texts without macros -/

theorem replaceFrom_no_backslash (ps after : List Char) :
    ∀ s : List Char, '\\' ∉ s → replaceFrom ('\\' :: ps) after 0 s = s := by
  intro s
  induction s with
  | nil => intro _; rfl
  | cons c s ih =>
    intro h
    have hc : c ≠ '\\' := fun hh => h (hh ▸ List.mem_cons_self _ _)
    have hs : '\\' ∉ s := fun hh => h (List.mem_cons_of_mem _ hh)
    have hne : ('\\' == c) = false := by
      simpa using fun hh : '\\' = c => hc hh.symm
    simp [replaceFrom, List.isPrefixOf, hne, ih hs]

theorem replace_no_backslash (before after : String) (hb : ∃ ps, before.data = '\\' :: ps)
    (s : List Char) (h : '\\' ∉ s) : replace before after s = s := by
  obtain ⟨ps, hps⟩ := hb
  unfold replace
  rw [hps]
  exact replaceFrom_no_backslash ps _ s h

theorem normalize_of_no_backslash {s : List Char} (h : '\\' ∉ trimmed A s) :
    normalize A s = trimmed A s := by
  unfold normalize
  rw [replace_no_backslash "\\sin" "sin" ⟨_, rfl⟩ _ h,
    replace_no_backslash "\\cos" "cos" ⟨_, rfl⟩ _ h,
    replace_no_backslash "\\tan" "tan" ⟨_, rfl⟩ _ h,
    replace_no_backslash "\\sqrt" "sqrt" ⟨_, rfl⟩ _ h,
    replace_no_backslash "\\exp" "exp" ⟨_, rfl⟩ _ h,
    replace_no_backslash "\\log" "log" ⟨_, rfl⟩ _ h,
    replace_no_backslash "\\ln" "log" ⟨_, rfl⟩ _ h]

theorem trimmed_of_ends {h l : Char} {m : List Char} (hh : isSpace A h = false)
    (hl : isSpace A l = false) : trimmed A (h :: (m ++ [l])) = h :: (m ++ [l]) := by
  unfold trimmed
  rw [dropWhile_head hh]
  have : h :: (m ++ [l]) = (h :: m) ++ [l] := rfl
  rw [this, List.rdropWhile_concat_neg]
  simp [hl]

theorem trimmed_single {h : Char} (hh : isSpace A h = false) : trimmed A [h] = [h] := by
  unfold trimmed
  rw [dropWhile_head hh]
  have : [h] = [] ++ [h] := rfl
  rw [this, List.rdropWhile_concat_neg]
  simp [hh]

/-- A text that starts and ends with a primary and has no backslash in between is left
as it is by the preprocessing. -/
theorem normalize_between {a c : List Char} {na nc : Node A} (ha : Primary A a na)
    (hc : Primary A c nc) (m : List Char) (hm : '\\' ∉ m) :
    normalize A (a ++ (m ++ c)) = a ++ (m ++ c) := by
  obtain ⟨h, t, rfl, hh⟩ := ha.head
  have hcl : ∃ c' l, c = c' ++ [l] := by
    obtain ⟨h2, t2, rfl, _⟩ := hc.head
    rcases List.eq_nil_or_concat (h2 :: t2) with h0 | ⟨c', l, h0⟩
    · exact absurd h0 (by simp)
    · exact ⟨c', l, by simpa using h0⟩
  obtain ⟨c', l, rfl⟩ := hcl
  have hl : isSpace A l = false := (hc.chars l (by simp)).not_space
  have ht : trimmed A (h :: t ++ (m ++ (c' ++ [l]))) = h :: t ++ (m ++ (c' ++ [l])) := by
    have : h :: t ++ (m ++ (c' ++ [l])) = h :: ((t ++ m ++ c') ++ [l]) := by simp
    rw [this]
    exact trimmed_of_ends hh.not_space hl
  have hb : '\\' ∉ h :: t ++ (m ++ (c' ++ [l])) := by
    intro hmem
    simp only [List.cons_append, List.mem_cons, List.mem_append, List.mem_singleton,
      List.not_mem_nil, or_false] at hmem
    have ha' := fun c hcm => (ha.chars c hcm).ne '\\'
    have hc' := fun c hcm => (hc.chars c hcm).ne '\\'
    rcases hmem with h1 | h1 | h1 | h1 | h1
    · exact ha' '\\' (List.mem_cons.mpr (Or.inl h1)) rfl
    · exact ha' '\\' (List.mem_cons.mpr (Or.inr h1)) rfl
    · exact hm h1
    · exact hc' '\\' (List.mem_append.mpr (Or.inl h1)) rfl
    · exact hc' '\\' (List.mem_append.mpr (Or.inr (List.mem_singleton.mpr h1))) rfl
  rw [normalize_of_no_backslash (by rw [ht]; exact hb), ht]

theorem stops_nil : Stops A [] := by
  intro c hc; simp at hc

theorem stops_cons {k : Char} (r : List Char) (h1 : isDigit A k = false) (h2 : k ≠ '.') :
    Stops A (k :: r) := by
  intro c hc
  simp only [List.head?_cons, Option.some.injEq] at hc
  subst hc
  exact ⟨h1, h2⟩

theorem follows_nil (s : List Char) : Follows A s [] :=
  Or.inr (Or.inr (Or.inr (Or.inr stops_nil)))

theorem follows_cons (s : List Char) {k : Char} (r : List Char) (h1 : isDigit A k = false)
    (h2 : k ≠ '.') : Follows A s (k :: r) :=
  Or.inr (Or.inr (Or.inr (Or.inr (stops_cons r h1 h2))))

/-- `parseUnary` on a primary at the end of the input. -/
theorem unary_primary_end {s : List Char} {n : Node A} (hp : Primary A s n)
    (i : List Char) (e : String) (pa : Bool) (ro : Node A) :
    Call.unary.result ⟨i, s, e, pa, ro⟩ = (n, ⟨i, [], e, pa, ro⟩) := by
  simpa using unary_primary hp (follows_nil s) i e pa ro

/-- One ASCII digit is a primary. -/
theorem primary_digit (c : Char) (hc : 48 ≤ c.toNat ∧ c.toNat ≤ 57) :
    Primary A [c] (.number (A.ofInt (c.toNat - 48 : Nat))) := by
  have hd : isDigit A c = true := by
    have : c.toNat < 128 := by omega
    simp [isDigit, this, hc]
  refine Primary.number ⟨?_, Or.inl ⟨c, [], rfl, hd⟩⟩ ?_
  · intro d hdm
    simp only [List.mem_singleton] at hdm
    subst hdm
    exact Or.inl hd
  · simp [toDouble, hc]

/-! ### The paths on explicit engine states

The rules of `Step` with the engine written out as `⟨input, unread, error, parsed, root⟩`
and `skipSpaces` as `dropWhile`: these are the steps from which the derivations for
whole inputs are put together. -/

section Rules
variable {i : List Char} {e : String} {pa : Bool} {ro : Node A}

theorem rule_power_end {u : List Char} {n : Node A}
    (hu : Step .unary ⟨i, u, e, pa, ro⟩ n ⟨i, [], e, pa, ro⟩) (hn : n.isNull = false) :
    Step .power ⟨i, u, e, pa, ro⟩ n ⟨i, [], e, pa, ro⟩ := by
  have h := Step.power_plain hu (by simp [hn]) (Or.inl rfl)
  simpa [skipSpaces_mk] using h

theorem rule_power_stop {u r r' : List Char} {k : Char} {n : Node A} {e' : String}
    (hu : Step .unary ⟨i, u, e, pa, ro⟩ n ⟨i, r, e', pa, ro⟩) (hn : n.isNull = false)
    (hr : r.dropWhile (isSpace A) = k :: r') (hk : k ≠ '^')
    (hi : implicitStart (⟨i, k :: r', e', pa, ro⟩ : ExpressionParser A) = false) :
    Step .power ⟨i, u, e, pa, ro⟩ n ⟨i, k :: r', e', pa, ro⟩ := by
  have h := Step.power_plain hu (by simp [hn])
    (Or.inr ⟨by simpa [skipSpaces_mk, hr, cur_mk] using hk, by simpa [skipSpaces_mk, hr] using hi⟩)
  simpa [skipSpaces_mk, hr] using h

theorem rule_power_pow {u r r2 : List Char} {n m : Node A} {e' : String}
    {q : ExpressionParser A}
    (hu : Step .unary ⟨i, u, e, pa, ro⟩ n ⟨i, r, e', pa, ro⟩) (hn : n.isNull = false)
    (hr : r.dropWhile (isSpace A) = '^' :: r2)
    (he : Step .power ⟨i, r2.dropWhile (isSpace A), e', pa, ro⟩ m q) (hm : m.isNull = false) :
    Step .power ⟨i, u, e, pa, ro⟩ (.binary .Pow n m) q := by
  refine Step.power_pow hu (by simp [hn]) ?_ ?_ ?_ hm
  · simp [skipSpaces_mk, hr, atEnd_mk]
  · simp [skipSpaces_mk, hr, cur_mk]
  · simpa [skipSpaces_mk, hr, advance_mk] using he

theorem rule_power_mul {u r r' : List Char} {k : Char} {n m : Node A} {e' : String}
    {q : ExpressionParser A}
    (hu : Step .unary ⟨i, u, e, pa, ro⟩ n ⟨i, r, e', pa, ro⟩) (hn : n.isNull = false)
    (hr : r.dropWhile (isSpace A) = k :: r') (hk : k ≠ '^')
    (hi : implicitStart (⟨i, k :: r', e', pa, ro⟩ : ExpressionParser A) = true)
    (hm : Step .unary ⟨i, k :: r', e', pa, ro⟩ m q) (hmn : m.isNull = false) :
    Step .power ⟨i, u, e, pa, ro⟩ (.binary .Mul n m) q := by
  refine Step.power_implicit hu (by simp [hn]) ?_ ?_ ?_ ?_ hmn
  · simp [skipSpaces_mk, hr, atEnd_mk]
  · simpa [skipSpaces_mk, hr, cur_mk] using hk
  · simpa [skipSpaces_mk, hr] using hi
  · simpa [skipSpaces_mk, hr] using hm

theorem rule_term {u r : List Char} {n m : Node A} {e' : String} {q : ExpressionParser A}
    (hp : Step .power ⟨i, u, e, pa, ro⟩ n ⟨i, r, e', pa, ro⟩) (hn : n.isNull = false)
    (hl : Step (.termLoop n) ⟨i, r.dropWhile (isSpace A), e', pa, ro⟩ m q) :
    Step .term ⟨i, u, e, pa, ro⟩ m q :=
  Step.term_loop (Step.factor hp) (by simp [hn]) (by simpa [skipSpaces_mk] using hl)

theorem rule_termLoop_end {l : Node A} :
    Step (.termLoop l) ⟨i, [], e, pa, ro⟩ l ⟨i, [], e, pa, ro⟩ :=
  Step.termLoop_stop (Or.inl rfl)

theorem rule_termLoop_stop {l : Node A} {k : Char} {r : List Char} (h1 : k ≠ '*')
    (h2 : k ≠ '/') : Step (.termLoop l) ⟨i, k :: r, e, pa, ro⟩ l ⟨i, k :: r, e, pa, ro⟩ :=
  Step.termLoop_stop (Or.inr (mulOp_none h1 h2))

theorem rule_termLoop_next {l m n : Node A} {k : Char} {t : NodeType} {r r2 : List Char}
    {e' : String} {q : ExpressionParser A} (ht : mulOp k = some t)
    (hp : Step .power ⟨i, r.dropWhile (isSpace A), e, pa, ro⟩ m ⟨i, r2, e', pa, ro⟩)
    (hm : m.isNull = false)
    (hl : Step (.termLoop (.binary t l m)) ⟨i, r2.dropWhile (isSpace A), e', pa, ro⟩ n q) :
    Step (.termLoop l) ⟨i, k :: r, e, pa, ro⟩ n q := by
  refine @Step.termLoop_next A l _ t m ⟨i, r2, e', pa, ro⟩ n q rfl
    (by simpa [cur_mk] using ht) ?_ hm ?_
  · exact Step.factor (by simpa [skipSpaces_mk, advance_mk] using hp)
  · simpa [skipSpaces_mk] using hl

theorem rule_expression {u r : List Char} {n m : Node A} {e' : String}
    {q : ExpressionParser A}
    (hp : Step .term ⟨i, u, e, pa, ro⟩ n ⟨i, r, e', pa, ro⟩) (hn : n.isNull = false)
    (hl : Step (.expressionLoop n) ⟨i, r.dropWhile (isSpace A), e', pa, ro⟩ m q) :
    Step .expression ⟨i, u, e, pa, ro⟩ m q :=
  Step.expression_loop hp (by simp [hn]) (by simpa [skipSpaces_mk] using hl)

theorem rule_expressionLoop_end {l : Node A} :
    Step (.expressionLoop l) ⟨i, [], e, pa, ro⟩ l ⟨i, [], e, pa, ro⟩ :=
  Step.expressionLoop_stop (Or.inl rfl)

theorem rule_expressionLoop_stop {l : Node A} {k : Char} {r : List Char} (h1 : k ≠ '+')
    (h2 : k ≠ '-') :
    Step (.expressionLoop l) ⟨i, k :: r, e, pa, ro⟩ l ⟨i, k :: r, e, pa, ro⟩ :=
  Step.expressionLoop_stop (Or.inr (addOp_none h1 h2))

theorem rule_expressionLoop_next {l m n : Node A} {k : Char} {t : NodeType}
    {r r2 : List Char} {e' : String} {q : ExpressionParser A} (ht : addOp k = some t)
    (hp : Step .term ⟨i, r.dropWhile (isSpace A), e, pa, ro⟩ m ⟨i, r2, e', pa, ro⟩)
    (hm : m.isNull = false)
    (hl : Step (.expressionLoop (.binary t l m)) ⟨i, r2.dropWhile (isSpace A), e', pa, ro⟩ n q) :
    Step (.expressionLoop l) ⟨i, k :: r, e, pa, ro⟩ n q := by
  refine @Step.expressionLoop_next A l _ t m ⟨i, r2, e', pa, ro⟩ n q rfl
    (by simpa [cur_mk] using ht) ?_ hm ?_
  · simpa [skipSpaces_mk, advance_mk] using hp
  · simpa [skipSpaces_mk] using hl

end Rules

/-- `parse` succeeds when `parseExpression` reads the preprocessed text to its end, up to
whitespace, without an error. -/
theorem parse_of_step {e : ExpressionParser A} {text : String} {input r : List Char}
    {root : Node A} (hn : normalize A text.data = input)
    (hs : Step .expression ⟨input, input, "", false, .nullptr⟩ root
      ⟨input, r, "", false, .nullptr⟩)
    (hr : r.dropWhile (isSpace A) = []) :
    parse e text = some (true, ⟨input, [], "", true, root⟩) := by
  rw [parse_eq, parseStart_mk, hn, hs.result, parseFinish_ok (by simp [skipSpaces_mk, hr, atEnd_mk]) rfl]
  simp [skipSpaces_mk, hr]

/-- `parse` fails with the trailing-characters error when `parseExpression` stops without
an error in front of a character. -/
theorem parse_of_step_trailing {e : ExpressionParser A} {text : String}
    {input r r' : List Char} {k : Char} {root : Node A} (hn : normalize A text.data = input)
    (hs : Step .expression ⟨input, input, "", false, .nullptr⟩ root
      ⟨input, r, "", false, .nullptr⟩)
    (hr : r.dropWhile (isSpace A) = k :: r') :
    parse e text = some (false, ⟨input, k :: r', "Unexpected character at end", false,
      .nullptr⟩) := by
  rw [parse_eq, parseStart_mk, hn, hs.result,
    parseFinish_trailing (by simp [skipSpaces_mk, hr, atEnd_mk]) rfl]
  simp [skipSpaces_mk, hr, setError_mk]

/-- `parse` fails with the error of `parseExpression` when there is one. -/
theorem parse_of_step_error {e : ExpressionParser A} {text : String}
    {input r : List Char} {msg : String} {root : Node A}
    (hn : normalize A text.data = input)
    (hs : Step .expression ⟨input, input, "", false, .nullptr⟩ root
      ⟨input, r, msg, false, .nullptr⟩)
    (hm : msg ≠ "") :
    parse e text = some (false, ⟨input, r.dropWhile (isSpace A), msg, false, .nullptr⟩) := by
  rw [parse_eq, parseStart_mk, hn, hs.result, parseFinish_error hm]
  simp [skipSpaces_mk]

theorem no_backslash_of_primary {b : List Char} {nb : Node A} (hb : Primary A b nb) :
    '\\' ∉ b :=
  fun h => ((hb.chars _ h).ne '\\') rfl

theorem binary_isNull (t : NodeType) (l r : Node A) : (Node.binary t l r).isNull = false := rfl

theorem unary_isNull (t : NodeType) (c : Node A) : (Node.unary t c).isNull = false := rfl

/-- The derivation for `a^b^c`: the second `^` is read by the recursive call of
`parsePower` made for the exponent. -/
theorem parse_pow_pow {a b c : List Char} {na nb nc : Node A}
    (ha : Primary A a na) (hb : Primary A b nb) (hc : Primary A c nc)
    (e : ExpressionParser A) :
    parse e (String.mk (a ++ ['^'] ++ b ++ ['^'] ++ c)) =
      some (true, ⟨a ++ ['^'] ++ b ++ ['^'] ++ c, [], "", true,
        .binary .Pow na (.binary .Pow nb nc)⟩) := by
  have hn : normalize A (a ++ ['^'] ++ b ++ ['^'] ++ c) = a ++ '^' :: (b ++ '^' :: c) := by
    have h := normalize_between ha hc ('^' :: (b ++ ['^'])) (by
      have := no_backslash_of_primary hb
      simp [this])
    simpa using h
  have hsp : isSpace A '^' = false := by simp [isSpace]
  have hdg : isDigit A '^' = false := by simp [isDigit]
  have e1 : a ++ ['^'] ++ b ++ ['^'] ++ c = a ++ '^' :: (b ++ '^' :: c) := by simp
  rw [e1] at hn ⊢
  refine parse_of_step (r := []) hn ?_ rfl
  have uc := step_iff_result.mpr
    (unary_primary_end hc (a ++ '^' :: (b ++ '^' :: c)) "" false (.nullptr : Node A))
  have ub := step_iff_result.mpr (unary_primary hb (follows_cons b c hdg (by decide))
    (a ++ '^' :: (b ++ '^' :: c)) "" false (.nullptr : Node A))
  have ua := step_iff_result.mpr
    (unary_primary ha (follows_cons a (b ++ '^' :: c) hdg (by decide))
    (a ++ '^' :: (b ++ '^' :: c)) "" false (.nullptr : Node A))
  have pc := rule_power_end uc hc.isNull
  have pb := rule_power_pow ub hb.isNull (dropWhile_head hsp)
    (by rw [show c.dropWhile (isSpace A) = c by simpa using hc.dropWhile_space []]; exact pc)
    hc.isNull
  have pa := rule_power_pow ua ha.isNull (dropWhile_head hsp)
    (by rw [hb.dropWhile_space]; exact pb) (binary_isNull _ _ _)
  exact rule_expression (rule_term pa (binary_isNull _ _ _) rule_termLoop_end)
    (binary_isNull _ _ _) rule_expressionLoop_end

theorem parse_2_pow_3_pow_2 (e : ExpressionParser A) :
    parse e "2^3^2" = some (true, ⟨['2', '^', '3', '^', '2'], [], "", true,
      .binary .Pow (.number (A.ofInt 2))
        (.binary .Pow (.number (A.ofInt 3)) (.number (A.ofInt 2)))⟩) := by
  simp [parse_eq, parseStart_mk, parseFinish, normalize, trimmed, replace, replaceFrom,
    List.rdropWhile, result_expression, result_expressionLoop, result_term, result_termLoop,
    result_factor, result_power, result_unary, result_function, result_primary,
    skipSpaces_mk, advance_mk, setError_mk, atEnd_mk, cur_mk, peek_mk, skipNumber_mk,
    isSpace, isDigit, implicitStart, numberStart, scanNumber, numberText, toDouble,
    Node.isNull, Node.binary, Node.number, Node.leaf, Node.unary]

/-- C4: exponentiation is right-associative.  For all primaries `a`, `b`, `c` (variables
or numbers) `parse("a^b^c")` succeeds with the tree `Pow(a, Pow(b, c))`; `parse("2^3^2")`
builds `Pow(2, Pow(3, 2))` and, on a platform exact on small integers, evaluates to 512
and not to 64. -/
theorem C4_power_right_associative (hA : A.Exact) {a b c : List Char} {na nb nc : Node A}
    (ha : Primary A a na) (hb : Primary A b nb) (hc : Primary A c nc)
    (e : ExpressionParser A) (x y : A.Double) :
    (∃ e', parse e (String.mk (a ++ ['^'] ++ b ++ ['^'] ++ c)) = some (true, e') ∧
      e'.m_root = .binary .Pow na (.binary .Pow nb nc)) ∧
    (∃ e', parse e "2^3^2" = some (true, e') ∧
      e'.m_root = .binary .Pow (.number (A.ofInt 2))
        (.binary .Pow (.number (A.ofInt 3)) (.number (A.ofInt 2))) ∧
      eval e' x y = A.ofInt 512 ∧ eval e' x y ≠ A.ofInt 64) := by
  refine ⟨⟨_, parse_pow_pow ha hb hc e, rfl⟩, ⟨_, parse_2_pow_3_pow_2 e, rfl, ?_⟩⟩
  have h1 := hA.pow_ofInt 3 2 (by norm_num) (by norm_num) (by norm_num)
  have h2 := hA.pow_ofInt 2 9 (by norm_num) (by norm_num) (by norm_num)
  simp only [Nat.cast_ofNat] at h1 h2
  norm_num at h1 h2
  have hv : eval (⟨['2', '^', '3', '^', '2'], [], "", true,
      .binary .Pow (.number (A.ofInt 2))
        (.binary .Pow (.number (A.ofInt 3)) (.number (A.ofInt 2)))⟩ : ExpressionParser A) x y
      = A.ofInt 512 := by
    simp [eval, evalNode, Node.isNull, Node.binary, Node.number, h1, h2]
  refine ⟨hv, ?_⟩
  rw [hv]
  intro h
  have := hA.ofInt_inj 512 64 (by norm_num) (by norm_num) h
  norm_num at this

/-- Witness of C4 on the integer platform, with `a = x`, `b = 3`, `c = y`. -/
theorem C4_power_right_associative_witness :
    intPlatform.Exact ∧ Primary intPlatform ['x'] (.leaf intPlatform .Variable) ∧
    Primary intPlatform ['3'] (.number (intPlatform.ofInt 3)) ∧
    Primary intPlatform ['y'] (.leaf intPlatform .VariableY) ∧
    ((∃ e', parse (fresh intPlatform) (String.mk (['x'] ++ ['^'] ++ ['3'] ++ ['^'] ++ ['y']))
        = some (true, e') ∧
      e'.m_root = .binary .Pow (.leaf intPlatform .Variable)
        (.binary .Pow (.number (intPlatform.ofInt 3)) (.leaf intPlatform .VariableY))) ∧
    (∃ e', parse (fresh intPlatform) "2^3^2" = some (true, e') ∧
      e'.m_root = .binary .Pow (.number (intPlatform.ofInt 2))
        (.binary .Pow (.number (intPlatform.ofInt 3)) (.number (intPlatform.ofInt 2))) ∧
      eval e' (intPlatform.ofInt 1) (intPlatform.ofInt 1) = intPlatform.ofInt 512 ∧
      eval e' (intPlatform.ofInt 1) (intPlatform.ofInt 1) ≠ intPlatform.ofInt 64)) :=
  ⟨intPlatform_exact, Primary.x, primary_digit '3' (by decide), Primary.y,
    C4_power_right_associative intPlatform_exact Primary.x (primary_digit '3' (by decide))
      Primary.y (fresh intPlatform) (intPlatform.ofInt 1) (intPlatform.ofInt 1)⟩

theorem IsOperator.of_addOp {k : Char} {t : NodeType} (h : addOp k = some t) : IsOperator k := by
  rw [addOp_eq_some_iff] at h
  rcases h with ⟨rfl, _⟩ | ⟨_, rfl, _⟩
  · exact Or.inl rfl
  · exact Or.inr (Or.inl rfl)

theorem IsOperator.of_mulOp {k : Char} {t : NodeType} (h : mulOp k = some t) : IsOperator k := by
  rw [mulOp_eq_some_iff] at h
  rcases h with ⟨rfl, _⟩ | ⟨_, rfl, _⟩
  · exact Or.inr (Or.inr (Or.inl rfl))
  · exact Or.inr (Or.inr (Or.inr (Or.inl rfl)))

theorem IsOperator.pow : IsOperator '^' := Or.inr (Or.inr (Or.inr (Or.inr rfl)))

section
variable {k : Char} (hk : IsOperator k)
include hk

theorem IsOperator.isSpace_false : isSpace A k = false := by
  rcases hk with rfl | rfl | rfl | rfl | rfl <;> simp [isSpace]

theorem IsOperator.not_digit : isDigit A k = false := by
  rcases hk with rfl | rfl | rfl | rfl | rfl <;> simp [isDigit]

theorem IsOperator.ne_dot : k ≠ '.' := by
  rcases hk with rfl | rfl | rfl | rfl | rfl <;> decide

theorem IsOperator.ne_backslash : k ≠ '\\' := by
  rcases hk with rfl | rfl | rfl | rfl | rfl <;> decide

theorem IsOperator.not_implicit (i r : List Char) (e : String) (pa : Bool) (ro : Node A) :
    implicitStart (⟨i, k :: r, e, pa, ro⟩ : ExpressionParser A) = false := by
  rcases hk with rfl | rfl | rfl | rfl | rfl <;> simp [implicitStart, cur_mk, isDigit]

theorem IsOperator.follows (s r : List Char) : Follows A s (k :: r) :=
  follows_cons s r hk.not_digit hk.ne_dot

theorem IsOperator.dropWhile_cons (r : List Char) : (k :: r).dropWhile (isSpace A) = k :: r :=
  dropWhile_head hk.isSpace_false

end

theorem addOp_ne_pow {k : Char} {t : NodeType} (h : addOp k = some t) :
    k ≠ '^' ∧ k ≠ '*' ∧ k ≠ '/' := by
  rw [addOp_eq_some_iff] at h
  rcases h with ⟨rfl, _⟩ | ⟨_, rfl, _⟩ <;> decide

theorem mulOp_ne_pow {k : Char} {t : NodeType} (h : mulOp k = some t) :
    k ≠ '^' ∧ k ≠ '+' ∧ k ≠ '-' := by
  rw [mulOp_eq_some_iff] at h
  rcases h with ⟨rfl, _⟩ | ⟨_, rfl, _⟩ <;> decide

section Derivations
variable {i : List Char} {e : String} {pa : Bool} {ro : Node A}

/-- `parsePower` on a primary at the end of the input. -/
theorem power_primary_end {s : List Char} {n : Node A} (hp : Primary A s n) :
    Step .power ⟨i, s, e, pa, ro⟩ n ⟨i, [], e, pa, ro⟩ :=
  rule_power_end (step_iff_result.mpr (unary_primary_end hp i e pa ro)) hp.isNull

/-- `parsePower` on a primary followed by `+`, `-`, `*` or `/` stops in front of it. -/
theorem power_primary_stop {s : List Char} {n : Node A} (hp : Primary A s n) {k : Char}
    (hk : IsOperator k) (hk2 : k ≠ '^') (r : List Char) :
    Step .power ⟨i, s ++ k :: r, e, pa, ro⟩ n ⟨i, k :: r, e, pa, ro⟩ :=
  rule_power_stop (step_iff_result.mpr (unary_primary hp (hk.follows s r) i e pa ro))
    hp.isNull (hk.dropWhile_cons r) hk2 (hk.not_implicit i r e pa ro)

/-- `parsePower` on a primary followed by `^` and an exponent. -/
theorem power_primary_pow {s : List Char} {n m : Node A} (hp : Primary A s n)
    {r : List Char} {q : ExpressionParser A}
    (he : Step .power ⟨i, r.dropWhile (isSpace A), e, pa, ro⟩ m q) (hm : m.isNull = false) :
    Step .power ⟨i, s ++ '^' :: r, e, pa, ro⟩ (.binary .Pow n m) q :=
  rule_power_pow
    (step_iff_result.mpr (unary_primary hp (IsOperator.pow.follows s r) i e pa ro))
    hp.isNull (IsOperator.pow.dropWhile_cons r) he hm

theorem Primary.dropWhile_self {s : List Char} {n : Node A} (hp : Primary A s n) :
    s.dropWhile (isSpace A) = s := by
  simpa using hp.dropWhile_space []

end Derivations

/-- The preprocessing leaves `a k b l c` alone, for primaries `a`, `b`, `c` and operators
`k`, `l`. -/
theorem normalize_three {a b c : List Char} {na nb nc : Node A} (ha : Primary A a na)
    (hb : Primary A b nb) (hc : Primary A c nc) {k l : Char} (hk : IsOperator k)
    (hl : IsOperator l) :
    normalize A (a ++ k :: (b ++ l :: c)) = a ++ k :: (b ++ l :: c) := by
  have h := normalize_between ha hc (k :: (b ++ [l])) (by
    have h1 := no_backslash_of_primary hb
    have h2 := hk.ne_backslash
    have h3 := hl.ne_backslash
    simp [h1, h2.symm, h3.symm])
  simpa using h

section
variable {a b c : List Char} {na nb nc : Node A} (ha : Primary A a na) (hb : Primary A b nb)
  (hc : Primary A c nc) (e : ExpressionParser A)
include ha hb hc

/-- The derivation for `a k b l c` with `k` one of `+ -` and `l` one of `* /`: the
product is the right operand of the sum. -/
theorem parse_add_mul {k l : Char} {t1 t2 : NodeType} (hk : addOp k = some t1)
    (hl : mulOp l = some t2) :
    parse e (String.mk (a ++ k :: (b ++ l :: c))) =
      some (true, ⟨a ++ k :: (b ++ l :: c), [], "", true,
        .binary t1 na (.binary t2 nb nc)⟩) := by
  have ok := IsOperator.of_addOp hk
  have ol := IsOperator.of_mulOp hl
  have hn := normalize_three (A := A) ha hb hc ok ol
  refine parse_of_step (r := []) hn ?_ rfl
  have pa : Step .power ⟨a ++ k :: (b ++ l :: c), a ++ k :: (b ++ l :: c), "", false, .nullptr⟩
      na ⟨a ++ k :: (b ++ l :: c), k :: (b ++ l :: c), "", false, .nullptr⟩ :=
    power_primary_stop ha ok (addOp_ne_pow hk).1 _
  have ta := rule_term pa ha.isNull (by
    rw [ok.dropWhile_cons]
    exact rule_termLoop_stop (addOp_ne_pow hk).2.1 (addOp_ne_pow hk).2.2)
  have pb : Step .power ⟨a ++ k :: (b ++ l :: c), b ++ l :: c, "", false, .nullptr⟩
      nb ⟨a ++ k :: (b ++ l :: c), l :: c, "", false, .nullptr⟩ :=
    power_primary_stop hb ol (mulOp_ne_pow hl).1 _
  have pc : Step .power ⟨a ++ k :: (b ++ l :: c), c, "", false, .nullptr⟩
      nc ⟨a ++ k :: (b ++ l :: c), [], "", false, .nullptr⟩ := power_primary_end hc
  have tb := rule_term pb hb.isNull (by
    rw [ol.dropWhile_cons]
    exact rule_termLoop_next hl (by rw [hc.dropWhile_self]; exact pc) hc.isNull
      rule_termLoop_end)
  exact rule_expression ta ha.isNull (by
    rw [ok.dropWhile_cons]
    exact rule_expressionLoop_next hk (by rw [hb.dropWhile_space]; exact tb)
      (binary_isNull _ _ _) rule_expressionLoop_end)

/-- The derivation for `a k b ^ c` with `k` one of `* /`: the power is the right operand
of the product. -/
theorem parse_mul_pow {k : Char} {t : NodeType} (hk : mulOp k = some t) :
    parse e (String.mk (a ++ k :: (b ++ '^' :: c))) =
      some (true, ⟨a ++ k :: (b ++ '^' :: c), [], "", true,
        .binary t na (.binary .Pow nb nc)⟩) := by
  have ok := IsOperator.of_mulOp hk
  have hn := normalize_three (A := A) ha hb hc ok IsOperator.pow
  refine parse_of_step (r := []) hn ?_ rfl
  have pa : Step .power ⟨a ++ k :: (b ++ '^' :: c), a ++ k :: (b ++ '^' :: c), "", false,
      .nullptr⟩ na ⟨a ++ k :: (b ++ '^' :: c), k :: (b ++ '^' :: c), "", false, .nullptr⟩ :=
    power_primary_stop ha ok (mulOp_ne_pow hk).1 _
  have pc : Step .power ⟨a ++ k :: (b ++ '^' :: c), c, "", false, .nullptr⟩
      nc ⟨a ++ k :: (b ++ '^' :: c), [], "", false, .nullptr⟩ := power_primary_end hc
  have pb : Step .power ⟨a ++ k :: (b ++ '^' :: c), b ++ '^' :: c, "", false, .nullptr⟩
      (.binary .Pow nb nc) ⟨a ++ k :: (b ++ '^' :: c), [], "", false, .nullptr⟩ :=
    power_primary_pow hb (by rw [hc.dropWhile_self]; exact pc) hc.isNull
  have ta := rule_term pa ha.isNull (by
    rw [ok.dropWhile_cons]
    exact rule_termLoop_next hk (by rw [hb.dropWhile_space]; exact pb) (binary_isNull _ _ _)
      rule_termLoop_end)
  exact rule_expression ta (binary_isNull _ _ _) rule_expressionLoop_end

/-- The derivation for `a k b l c` with `k`, `l` among `+ -`: the loop of
`parseExpression` nests to the left. -/
theorem parse_add_add {k l : Char} {t1 t2 : NodeType} (hk : addOp k = some t1)
    (hl : addOp l = some t2) :
    parse e (String.mk (a ++ k :: (b ++ l :: c))) =
      some (true, ⟨a ++ k :: (b ++ l :: c), [], "", true,
        .binary t2 (.binary t1 na nb) nc⟩) := by
  have ok := IsOperator.of_addOp hk
  have ol := IsOperator.of_addOp hl
  have hn := normalize_three (A := A) ha hb hc ok ol
  refine parse_of_step (r := []) hn ?_ rfl
  have pa : Step .power ⟨a ++ k :: (b ++ l :: c), a ++ k :: (b ++ l :: c), "", false, .nullptr⟩
      na ⟨a ++ k :: (b ++ l :: c), k :: (b ++ l :: c), "", false, .nullptr⟩ :=
    power_primary_stop ha ok (addOp_ne_pow hk).1 _
  have ta := rule_term pa ha.isNull (by
    rw [ok.dropWhile_cons]
    exact rule_termLoop_stop (addOp_ne_pow hk).2.1 (addOp_ne_pow hk).2.2)
  have pb : Step .power ⟨a ++ k :: (b ++ l :: c), b ++ l :: c, "", false, .nullptr⟩
      nb ⟨a ++ k :: (b ++ l :: c), l :: c, "", false, .nullptr⟩ :=
    power_primary_stop hb ol (addOp_ne_pow hl).1 _
  have tb := rule_term pb hb.isNull (by
    rw [ol.dropWhile_cons]
    exact rule_termLoop_stop (addOp_ne_pow hl).2.1 (addOp_ne_pow hl).2.2)
  have pc : Step .power ⟨a ++ k :: (b ++ l :: c), c, "", false, .nullptr⟩
      nc ⟨a ++ k :: (b ++ l :: c), [], "", false, .nullptr⟩ := power_primary_end hc
  have tc := rule_term pc hc.isNull rule_termLoop_end
  exact rule_expression ta ha.isNull (by
    rw [ok.dropWhile_cons]
    exact rule_expressionLoop_next hk (by rw [hb.dropWhile_space]; exact tb) hb.isNull (by
      rw [ol.dropWhile_cons]
      exact rule_expressionLoop_next hl (by rw [hc.dropWhile_self]; exact tc) hc.isNull
        rule_expressionLoop_end))

/-- The derivation for `a k b l c` with `k`, `l` among `* /`: the loop of `parseTerm`
nests to the left. -/
theorem parse_mul_mul {k l : Char} {t1 t2 : NodeType} (hk : mulOp k = some t1)
    (hl : mulOp l = some t2) :
    parse e (String.mk (a ++ k :: (b ++ l :: c))) =
      some (true, ⟨a ++ k :: (b ++ l :: c), [], "", true,
        .binary t2 (.binary t1 na nb) nc⟩) := by
  have ok := IsOperator.of_mulOp hk
  have ol := IsOperator.of_mulOp hl
  have hn := normalize_three (A := A) ha hb hc ok ol
  refine parse_of_step (r := []) hn ?_ rfl
  have pa : Step .power ⟨a ++ k :: (b ++ l :: c), a ++ k :: (b ++ l :: c), "", false, .nullptr⟩
      na ⟨a ++ k :: (b ++ l :: c), k :: (b ++ l :: c), "", false, .nullptr⟩ :=
    power_primary_stop ha ok (mulOp_ne_pow hk).1 _
  have pb : Step .power ⟨a ++ k :: (b ++ l :: c), b ++ l :: c, "", false, .nullptr⟩
      nb ⟨a ++ k :: (b ++ l :: c), l :: c, "", false, .nullptr⟩ :=
    power_primary_stop hb ol (mulOp_ne_pow hl).1 _
  have pc : Step .power ⟨a ++ k :: (b ++ l :: c), c, "", false, .nullptr⟩
      nc ⟨a ++ k :: (b ++ l :: c), [], "", false, .nullptr⟩ := power_primary_end hc
  have ta := rule_term pa ha.isNull (by
    rw [ok.dropWhile_cons]
    exact rule_termLoop_next hk (by rw [hb.dropWhile_space]; exact pb) hb.isNull (by
      rw [ol.dropWhile_cons]
      exact rule_termLoop_next hl (by rw [hc.dropWhile_self]; exact pc) hc.isNull
        rule_termLoop_end))
  exact rule_expression ta (binary_isNull _ _ _) rule_expressionLoop_end

end

theorem parse_1_sub_2_sub_3 (e : ExpressionParser A) :
    parse e "1-2-3" = some (true, ⟨['1', '-', '2', '-', '3'], [], "", true,
      .binary .Sub (.binary .Sub (.number (A.ofInt 1)) (.number (A.ofInt 2)))
        (.number (A.ofInt 3))⟩) :=
  parse_add_add (primary_digit '1' (by decide)) (primary_digit '2' (by decide))
    (primary_digit '3' (by decide)) e (k := '-') (l := '-') rfl rfl

theorem parse_1_add_2_mul_3 (e : ExpressionParser A) :
    parse e "1+2*3" = some (true, ⟨['1', '+', '2', '*', '3'], [], "", true,
      .binary .Add (.number (A.ofInt 1))
        (.binary .Mul (.number (A.ofInt 2)) (.number (A.ofInt 3)))⟩) :=
  parse_add_mul (primary_digit '1' (by decide)) (primary_digit '2' (by decide))
    (primary_digit '3' (by decide)) e (k := '+') (l := '*') rfl rfl

/-- C5: operator precedence and left associativity.  For all primaries `a`, `b`, `c`
(variables or numbers), `a+b*c` parses to `Add(a, Mul(b, c))`, `a*b^c` to
`Mul(a, Pow(b, c))`, `a-b-c` to `Sub(Sub(a, b), c)` and `a/b/c` to `Div(Div(a, b), c)`;
on a platform exact on small integers `1-2-3` evaluates to -4 and `1+2*3` to 7. -/
theorem C5_precedence_and_left_associativity (hA : A.Exact) {a b c : List Char}
    {na nb nc : Node A} (ha : Primary A a na) (hb : Primary A b nb) (hc : Primary A c nc)
    (e : ExpressionParser A) (x y : A.Double) :
    (∃ e', parse e (String.mk (a ++ ['+'] ++ b ++ ['*'] ++ c)) = some (true, e') ∧
      e'.m_root = .binary .Add na (.binary .Mul nb nc)) ∧
    (∃ e', parse e (String.mk (a ++ ['*'] ++ b ++ ['^'] ++ c)) = some (true, e') ∧
      e'.m_root = .binary .Mul na (.binary .Pow nb nc)) ∧
    (∃ e', parse e (String.mk (a ++ ['-'] ++ b ++ ['-'] ++ c)) = some (true, e') ∧
      e'.m_root = .binary .Sub (.binary .Sub na nb) nc) ∧
    (∃ e', parse e (String.mk (a ++ ['/'] ++ b ++ ['/'] ++ c)) = some (true, e') ∧
      e'.m_root = .binary .Div (.binary .Div na nb) nc) ∧
    (∃ e', parse e "1-2-3" = some (true, e') ∧ eval e' x y = A.ofInt (-4)) ∧
    (∃ e', parse e "1+2*3" = some (true, e') ∧ eval e' x y = A.ofInt 7) := by
  have e3 : ∀ k l : Char, a ++ [k] ++ b ++ [l] ++ c = a ++ k :: (b ++ l :: c) := by
    intro k l
    simp
  have p1 := parse_add_mul ha hb hc e (k := '+') (l := '*') rfl rfl
  have p2 := parse_mul_pow ha hb hc e (k := '*') rfl
  have p3 := parse_add_add ha hb hc e (k := '-') (l := '-') rfl rfl
  have p4 := parse_mul_mul ha hb hc e (k := '/') (l := '/') rfl rfl
  rw [← e3] at p1 p2 p3 p4
  refine ⟨⟨_, p1, rfl⟩, ⟨_, p2, rfl⟩, ⟨_, p3, rfl⟩, ⟨_, p4, rfl⟩,
    ⟨_, parse_1_sub_2_sub_3 e, ?_⟩, ⟨_, parse_1_add_2_mul_3 e, ?_⟩⟩
  · have h1 := hA.sub_ofInt 1 2 (by norm_num) (by norm_num) (by norm_num)
    have h2 := hA.sub_ofInt (-1) 3 (by norm_num) (by norm_num) (by norm_num)
    norm_num at h1 h2
    simp [eval, evalNode, Node.isNull, Node.binary, Node.number, h1, h2]
  · have h1 := hA.mul_ofInt 2 3 (by norm_num) (by norm_num) (by norm_num)
      (Or.inl ⟨by norm_num, by norm_num⟩)
    have h2 := hA.add_ofInt 1 6 (by norm_num) (by norm_num) (by norm_num)
    norm_num at h1 h2
    simp [eval, evalNode, Node.isNull, Node.binary, Node.number, h1, h2]

/-- Witness of C5 on the integer platform, with `a = x`, `b = 3`, `c = y`. -/
theorem C5_precedence_and_left_associativity_witness :
    intPlatform.Exact ∧ Primary intPlatform ['x'] (.leaf intPlatform .Variable) ∧
    Primary intPlatform ['3'] (.number (intPlatform.ofInt 3)) ∧
    Primary intPlatform ['y'] (.leaf intPlatform .VariableY) ∧
    ((∃ e', parse (fresh intPlatform) (String.mk (['x'] ++ ['+'] ++ ['3'] ++ ['*'] ++ ['y']))
        = some (true, e') ∧
      e'.m_root = .binary .Add (.leaf intPlatform .Variable)
        (.binary .Mul (.number (intPlatform.ofInt 3)) (.leaf intPlatform .VariableY))) ∧
    (∃ e', parse (fresh intPlatform) (String.mk (['x'] ++ ['*'] ++ ['3'] ++ ['^'] ++ ['y']))
        = some (true, e') ∧
      e'.m_root = .binary .Mul (.leaf intPlatform .Variable)
        (.binary .Pow (.number (intPlatform.ofInt 3)) (.leaf intPlatform .VariableY))) ∧
    (∃ e', parse (fresh intPlatform) (String.mk (['x'] ++ ['-'] ++ ['3'] ++ ['-'] ++ ['y']))
        = some (true, e') ∧
      e'.m_root = .binary .Sub (.binary .Sub (.leaf intPlatform .Variable)
        (.number (intPlatform.ofInt 3))) (.leaf intPlatform .VariableY)) ∧
    (∃ e', parse (fresh intPlatform) (String.mk (['x'] ++ ['/'] ++ ['3'] ++ ['/'] ++ ['y']))
        = some (true, e') ∧
      e'.m_root = .binary .Div (.binary .Div (.leaf intPlatform .Variable)
        (.number (intPlatform.ofInt 3))) (.leaf intPlatform .VariableY)) ∧
    (∃ e', parse (fresh intPlatform) "1-2-3" = some (true, e') ∧
      eval e' (intPlatform.ofInt 1) (intPlatform.ofInt 1) = intPlatform.ofInt (-4)) ∧
    (∃ e', parse (fresh intPlatform) "1+2*3" = some (true, e') ∧
      eval e' (intPlatform.ofInt 1) (intPlatform.ofInt 1) = intPlatform.ofInt 7)) :=
  ⟨intPlatform_exact, Primary.x, primary_digit '3' (by decide), Primary.y,
    C5_precedence_and_left_associativity intPlatform_exact Primary.x
      (primary_digit '3' (by decide)) Primary.y (fresh intPlatform) (intPlatform.ofInt 1)
      (intPlatform.ofInt 1)⟩

theorem Blank.no_backslash {ws : List Char} (hw : Blank A ws) : '\\' ∉ ws := by
  intro h
  have := hw _ h
  simp [isSpace] at this

/-- The derivation for two primaries `a` and `b` with only whitespace between them, where
`a` ends before the whitespace or `b`: one implicit multiplication. -/
theorem parse_implicit {a b ws : List Char} {na nb : Node A} (ha : Primary A a na)
    (hb : Primary A b nb) (hw : Blank A ws) (hf : Follows A a (ws ++ b))
    (e : ExpressionParser A) :
    parse e (String.mk (a ++ (ws ++ b))) =
      some (true, ⟨a ++ (ws ++ b), [], "", true, .binary .Mul na nb⟩) := by
  have hn := normalize_between (A := A) ha hb ws hw.no_backslash
  refine parse_of_step (r := []) hn ?_ rfl
  have ua : Step .unary ⟨a ++ (ws ++ b), a ++ (ws ++ b), "", false, .nullptr⟩ na
      ⟨a ++ (ws ++ b), ws ++ b, "", false, .nullptr⟩ :=
    step_iff_result.mpr (unary_primary ha hf _ _ _ _)
  have ub : Step .unary ⟨a ++ (ws ++ b), b, "", false, .nullptr⟩ nb
      ⟨a ++ (ws ++ b), [], "", false, .nullptr⟩ :=
    step_iff_result.mpr (unary_primary_end hb _ _ _ _)
  have hi := hb.implicitStart_mk [] (a ++ (ws ++ b)) "" false (.nullptr : Node A)
  rw [List.append_nil] at hi
  have hd : (ws ++ b).dropWhile (isSpace A) = b := by
    rw [hw.dropWhile, hb.dropWhile_self]
  obtain ⟨h, t, rfl, hh⟩ := hb.head
  have pw := rule_power_mul ua ha.isNull hd (hh.ne '^') hi ub hb.isNull
  exact rule_expression (rule_term pw (binary_isNull _ _ _) rule_termLoop_end)
    (binary_isNull _ _ _) rule_expressionLoop_end

theorem parse_2x (e : ExpressionParser A) :
    parse e "2x" = some (true, ⟨['2', 'x'], [], "", true,
      .binary .Mul (.number (A.ofInt 2)) (.leaf A .Variable)⟩) :=
  parse_implicit (primary_digit '2' (by decide)) Primary.x
    (show Blank A [] by simp [Blank])
    (follows_cons _ _ (by simp [isDigit]) (by decide)) e

theorem parse_x_y (e : ExpressionParser A) :
    parse e "x y" = some (true, ⟨['x', ' ', 'y'], [], "", true,
      .binary .Mul (.leaf A .Variable) (.leaf A .VariableY)⟩) :=
  parse_implicit Primary.x Primary.y (show Blank A [' '] by simp [Blank, isSpace])
    (Or.inl rfl) e

theorem parse_2_paren (e : ExpressionParser A) :
    parse e "2(1+3)" = some (true, ⟨['2', '(', '1', '+', '3', ')'], [], "", true,
      .binary .Mul (.number (A.ofInt 2))
        (.binary .Add (.number (A.ofInt 1)) (.number (A.ofInt 3)))⟩) := by
  simp [parse_eq, parseStart_mk, parseFinish, normalize, trimmed, replace, replaceFrom,
    List.rdropWhile, result_expression, result_expressionLoop, result_term, result_termLoop,
    result_factor, result_power, result_unary, result_function, result_primary,
    skipSpaces_mk, advance_mk, setError_mk, atEnd_mk, cur_mk, peek_mk, skipNumber_mk,
    isSpace, isDigit, implicitStart, numberStart, scanNumber, numberText, toDouble,
    Node.isNull, Node.binary, Node.number, Node.leaf, Node.unary]

/-- C6: implicit multiplication of two adjacent primaries.  For primaries `a` and `b`
(variables or numbers) with only whitespace `ws` between them, where the operand `a` ends
before `ws ++ b` (it is a variable, or what follows does not continue the number),
`parse` succeeds and builds `Mul(a, b)`.  On a platform exact on small integers `2x` gives
`eval(3) = 6`, `2(1+3)` gives 8 for every `x` and `y`, and `x y` gives `eval(2, 5) = 10`. -/
theorem C6_implicit_multiplication (hA : A.Exact) {a b ws : List Char} {na nb : Node A}
    (ha : Primary A a na) (hb : Primary A b nb) (hw : Blank A ws)
    (hf : Follows A a (ws ++ b)) (e : ExpressionParser A) (x y : A.Double) :
    (∃ e', parse e (String.mk (a ++ ws ++ b)) = some (true, e') ∧
      e'.m_root = .binary .Mul na nb) ∧
    (∃ e', parse e "2x" = some (true, e') ∧
      e'.m_root = .binary .Mul (.number (A.ofInt 2)) (.leaf A .Variable) ∧
      eval1 e' (A.ofInt 3) = A.ofInt 6) ∧
    (∃ e', parse e "2(1+3)" = some (true, e') ∧
      e'.m_root = .binary .Mul (.number (A.ofInt 2))
        (.binary .Add (.number (A.ofInt 1)) (.number (A.ofInt 3))) ∧
      eval e' x y = A.ofInt 8 ∧ eval1 e' x = A.ofInt 8) ∧
    (∃ e', parse e "x y" = some (true, e') ∧
      e'.m_root = .binary .Mul (.leaf A .Variable) (.leaf A .VariableY) ∧
      eval e' (A.ofInt 2) (A.ofInt 5) = A.ofInt 10) := by
  have p1 := parse_implicit ha hb hw hf e
  rw [← List.append_assoc] at p1
  have m23 := hA.mul_ofInt 2 3 (by norm_num) (by norm_num) (by norm_num)
    (Or.inl ⟨by norm_num, by norm_num⟩)
  have a13 := hA.add_ofInt 1 3 (by norm_num) (by norm_num) (by norm_num)
  have m24 := hA.mul_ofInt 2 4 (by norm_num) (by norm_num) (by norm_num)
    (Or.inl ⟨by norm_num, by norm_num⟩)
  have m25 := hA.mul_ofInt 2 5 (by norm_num) (by norm_num) (by norm_num)
    (Or.inl ⟨by norm_num, by norm_num⟩)
  norm_num at m23 a13 m24 m25
  refine ⟨⟨_, p1, rfl⟩, ⟨_, parse_2x e, rfl, ?_⟩, ⟨_, parse_2_paren e, rfl, ?_, ?_⟩,
    ⟨_, parse_x_y e, rfl, ?_⟩⟩
  · simp [eval1, eval, evalNode, Node.isNull, Node.binary, Node.number, Node.leaf, m23]
  · simp [eval, evalNode, Node.isNull, Node.binary, Node.number, a13, m24]
  · simp [eval1, eval, evalNode, Node.isNull, Node.binary, Node.number, a13, m24]
  · simp [eval, evalNode, Node.isNull, Node.binary, Node.leaf, m25]

/-- Witness of C6 on the integer platform, with `a = 2`, one space, `b = 3`. -/
theorem C6_implicit_multiplication_witness :
    intPlatform.Exact ∧ Primary intPlatform ['2'] (.number (intPlatform.ofInt 2)) ∧
    Primary intPlatform ['3'] (.number (intPlatform.ofInt 3)) ∧ Blank intPlatform [' '] ∧
    Follows intPlatform ['2'] ([' '] ++ ['3']) ∧
    ((∃ e', parse (fresh intPlatform) (String.mk (['2'] ++ [' '] ++ ['3'])) = some (true, e') ∧
      e'.m_root = .binary .Mul (.number (intPlatform.ofInt 2))
        (.number (intPlatform.ofInt 3))) ∧
    (∃ e', parse (fresh intPlatform) "2x" = some (true, e') ∧
      e'.m_root = .binary .Mul (.number (intPlatform.ofInt 2)) (.leaf intPlatform .Variable) ∧
      eval1 e' (intPlatform.ofInt 3) = intPlatform.ofInt 6) ∧
    (∃ e', parse (fresh intPlatform) "2(1+3)" = some (true, e') ∧
      e'.m_root = .binary .Mul (.number (intPlatform.ofInt 2))
        (.binary .Add (.number (intPlatform.ofInt 1)) (.number (intPlatform.ofInt 3))) ∧
      eval e' (intPlatform.ofInt 7) (intPlatform.ofInt 9) = intPlatform.ofInt 8 ∧
      eval1 e' (intPlatform.ofInt 7) = intPlatform.ofInt 8) ∧
    (∃ e', parse (fresh intPlatform) "x y" = some (true, e') ∧
      e'.m_root = .binary .Mul (.leaf intPlatform .Variable) (.leaf intPlatform .VariableY) ∧
      eval e' (intPlatform.ofInt 2) (intPlatform.ofInt 5) = intPlatform.ofInt 10)) :=
  ⟨intPlatform_exact, primary_digit '2' (by decide), primary_digit '3' (by decide),
    by simp [Blank, isSpace], follows_cons _ _ (by simp [isDigit]) (by decide),
    C6_implicit_multiplication intPlatform_exact (primary_digit '2' (by decide))
      (primary_digit '3' (by decide)) (by simp [Blank, isSpace])
      (follows_cons _ _ (by simp [isDigit]) (by decide)) (fresh intPlatform)
      (intPlatform.ofInt 7) (intPlatform.ofInt 9)⟩

/-- A text without a backslash that neither starts nor ends with whitespace is left as it
is by the preprocessing. -/
theorem normalize_plain {s : List Char} (h1 : ∀ k, s.head? = some k → isSpace A k = false)
    (h2 : ∀ k, s.getLast? = some k → isSpace A k = false) (h3 : '\\' ∉ s) :
    normalize A s = s := by
  have ht : trimmed A s = s := by
    cases s with
    | nil => rfl
    | cons h t =>
      have hh := h1 h rfl
      rcases List.eq_nil_or_concat' t with rfl | ⟨m, l, rfl⟩
      · exact trimmed_single hh
      · exact trimmed_of_ends hh (h2 l (List.getLast?_concat (h :: m)))
  rw [normalize_of_no_backslash (by rw [ht]; exact h3), ht]

/-- The derivation for three primaries `a`, `b`, `c` with only whitespace between them,
whatever text `r` follows the third: `parsePower` multiplies `a` and `b` and returns,
neither loop continues at `c`, and `parse` finds `c` unread. -/
theorem parse_implicit_three {a b c ws1 ws2 r : List Char} {na nb nc : Node A}
    (ha : Primary A a na) (hb : Primary A b nb) (hc : Primary A c nc) (hw1 : Blank A ws1)
    (hw2 : Blank A ws2) (hf1 : Follows A a (ws1 ++ (b ++ (ws2 ++ (c ++ r)))))
    (hf2 : Follows A b (ws2 ++ (c ++ r))) (hr1 : '\\' ∉ r)
    (hr2 : ∀ k, r.getLast? = some k → isSpace A k = false) (e : ExpressionParser A) :
    parse e (String.mk (a ++ (ws1 ++ (b ++ (ws2 ++ (c ++ r)))))) =
      some (false, ⟨a ++ (ws1 ++ (b ++ (ws2 ++ (c ++ r)))), c ++ r,
        "Unexpected character at end", false, .nullptr⟩) := by
  have hn : normalize A (a ++ (ws1 ++ (b ++ (ws2 ++ (c ++ r))))) =
      a ++ (ws1 ++ (b ++ (ws2 ++ (c ++ r)))) := by
    refine normalize_plain ?_ ?_ ?_
    · obtain ⟨h, t, rfl, hh⟩ := ha.head
      intro k hk
      simp only [List.cons_append, List.head?_cons, Option.some.injEq] at hk
      subst hk
      exact hh.not_space
    · intro k hk
      rcases List.eq_nil_or_concat' r with rfl | ⟨m, l, rfl⟩
      · obtain ⟨h, t, rfl, _⟩ := hc.head
        rcases List.eq_nil_or_concat' (h :: t) with h0 | ⟨m, l, h0⟩
        · exact absurd h0 (by simp)
        · have hl : l ∈ h :: t := by rw [h0]; simp
          rw [h0, List.append_nil, ← List.append_assoc, ← List.append_assoc,
            ← List.append_assoc, ← List.append_assoc, List.getLast?_concat] at hk
          rw [← Option.some.inj hk]
          exact (hc.chars _ hl).not_space
      · rw [← List.append_assoc, ← List.append_assoc, ← List.append_assoc,
          ← List.append_assoc, ← List.append_assoc, List.getLast?_concat] at hk
        rw [← Option.some.inj hk]
        exact hr2 l (List.getLast?_concat m)
    · intro h
      simp only [List.mem_append] at h
      rcases h with h | h | h | h | h | h
      · exact no_backslash_of_primary ha h
      · exact hw1.no_backslash h
      · exact no_backslash_of_primary hb h
      · exact hw2.no_backslash h
      · exact no_backslash_of_primary hc h
      · exact hr1 h
  have ua : Step .unary ⟨a ++ (ws1 ++ (b ++ (ws2 ++ (c ++ r)))),
      a ++ (ws1 ++ (b ++ (ws2 ++ (c ++ r)))), "", false, .nullptr⟩ na
      ⟨a ++ (ws1 ++ (b ++ (ws2 ++ (c ++ r)))), ws1 ++ (b ++ (ws2 ++ (c ++ r))), "", false,
        .nullptr⟩ :=
    step_iff_result.mpr (unary_primary ha hf1 _ _ _ _)
  have ub : Step .unary ⟨a ++ (ws1 ++ (b ++ (ws2 ++ (c ++ r)))), b ++ (ws2 ++ (c ++ r)), "",
      false, .nullptr⟩
      nb ⟨a ++ (ws1 ++ (b ++ (ws2 ++ (c ++ r)))), ws2 ++ (c ++ r), "", false, .nullptr⟩ :=
    step_iff_result.mpr (unary_primary hb hf2 _ _ _ _)
  have hi := hb.implicitStart_mk (ws2 ++ (c ++ r)) (a ++ (ws1 ++ (b ++ (ws2 ++ (c ++ r))))) ""
    false (.nullptr : Node A)
  have hd : (ws1 ++ (b ++ (ws2 ++ (c ++ r)))).dropWhile (isSpace A) = b ++ (ws2 ++ (c ++ r)) := by
    rw [hw1.dropWhile, hb.dropWhile_space]
  have hd3 : (c ++ r).dropWhile (isSpace A) = c ++ r := hc.dropWhile_space r
  have hd2 : (ws2 ++ (c ++ r)).dropWhile (isSpace A) = c ++ r := by
    rw [hw2.dropWhile, hd3]
  obtain ⟨h, t, rfl, hh⟩ := hb.head
  obtain ⟨h2, t2, rfl, hh2⟩ := hc.head
  have hd4 : (h2 :: (t2 ++ r)).dropWhile (isSpace A) = h2 :: (t2 ++ r) := hd3
  have pw := rule_power_mul ua ha.isNull hd (hh.ne '^') hi ub hb.isNull
  have tm : Step .term _ (.binary .Mul na nb)
      ⟨_, h2 :: (t2 ++ r), "", false, (.nullptr : Node A)⟩ :=
    rule_term pw (binary_isNull _ _ _) (by
      rw [hd2]
      exact rule_termLoop_stop (hh2.ne '*') (hh2.ne '/'))
  have ex : Step .expression _ (.binary .Mul na nb)
      ⟨_, h2 :: (t2 ++ r), "", false, (.nullptr : Node A)⟩ :=
    rule_expression tm (binary_isNull _ _ _) (by
      rw [hd4]
      exact rule_expressionLoop_stop (hh2.ne '+') (hh2.ne '-'))
  exact parse_of_step_trailing hn ex hd4

theorem parse_2xy (e : ExpressionParser A) :
    parse e "2xy" = some (false, ⟨['2', 'x', 'y'], ['y'], "Unexpected character at end", false,
      .nullptr⟩) :=
  parse_implicit_three (r := []) (primary_digit '2' (by decide)) Primary.x Primary.y
    (show Blank A [] by simp [Blank]) (show Blank A [] by simp [Blank])
    (follows_cons _ _ (by simp [isDigit]) (by decide)) (Or.inl rfl) (by simp) (by simp) e

theorem parse_x_y_x (e : ExpressionParser A) :
    parse e "x y x" = some (false, ⟨['x', ' ', 'y', ' ', 'x'], ['x'],
      "Unexpected character at end", false, .nullptr⟩) :=
  parse_implicit_three (r := []) Primary.x Primary.y Primary.x
    (show Blank A [' '] by simp [Blank, isSpace]) (show Blank A [' '] by simp [Blank, isSpace])
    (Or.inl rfl) (Or.inr (Or.inr (Or.inl rfl))) (by simp) (by simp) e

/-- C7, as stated, fails: on the integer platform `parse("2xy")` and `parse("x y x")`
return false with the error `Unexpected character at end`; the engine is not valid and
`eval(3, 5)` after `parse("2xy")` is not 30. -/
theorem C7_counterexample :
    (∃ e', parse (fresh intPlatform) "2xy" = some (false, e') ∧ e'.isValid = false ∧
      e'.errorString = "Unexpected character at end" ∧
      eval e' (intPlatform.ofInt 3) (intPlatform.ofInt 5) ≠ intPlatform.ofInt 30) ∧
    (∃ e', parse (fresh intPlatform) "x y x" = some (false, e') ∧ e'.isValid = false ∧
      e'.errorString = "Unexpected character at end") := by
  refine ⟨⟨_, parse_2xy _, rfl, rfl, ?_⟩, ⟨_, parse_x_y_x _, rfl, rfl⟩⟩
  simp [eval, Node.isNull, intPlatform]

/-- C7, amended: implicit multiplication does not chain.  For primaries `a`, `b`, `c`
(variables or numbers) with only whitespace between them, where `a` and `b` end before
what follows them, and whatever text `r` without a backslash and without trailing
whitespace comes after `c`, `parse` returns false with the error
`Unexpected character at end`: the third primary is left unread, the engine is not valid
and `eval` returns the value of `qQNaN()`. -/
theorem C7_implicit_multiplication_does_not_chain {a b c ws1 ws2 r : List Char}
    {na nb nc : Node A} (ha : Primary A a na) (hb : Primary A b nb) (hc : Primary A c nc)
    (hw1 : Blank A ws1) (hw2 : Blank A ws2)
    (hf1 : Follows A a (ws1 ++ (b ++ (ws2 ++ (c ++ r))))) (hf2 : Follows A b (ws2 ++ (c ++ r)))
    (hr1 : '\\' ∉ r) (hr2 : ∀ k, r.getLast? = some k → isSpace A k = false)
    (e : ExpressionParser A) (x y : A.Double) :
    ∃ e', parse e (String.mk (a ++ ws1 ++ b ++ ws2 ++ c ++ r)) = some (false, e') ∧
      e'.errorString = "Unexpected character at end" ∧ e'.unread = c ++ r ∧
      e'.isValid = false ∧ eval e' x y = A.qQNaN ∧ eval1 e' x = A.qQNaN := by
  have p := parse_implicit_three ha hb hc hw1 hw2 hf1 hf2 hr1 hr2 e
  have e1 : a ++ ws1 ++ b ++ ws2 ++ c ++ r = a ++ (ws1 ++ (b ++ (ws2 ++ (c ++ r)))) := by
    simp
  rw [e1]
  exact ⟨_, p, rfl, rfl, rfl, by simp [eval, Node.isNull], by simp [eval1, eval, Node.isNull]⟩

/-- Witness of the amended C7 on the integer platform: `2 x y*3`. -/
theorem C7_implicit_multiplication_does_not_chain_witness :
    Primary intPlatform ['2'] (.number (intPlatform.ofInt 2)) ∧
    Primary intPlatform ['x'] (.leaf intPlatform .Variable) ∧
    Primary intPlatform ['y'] (.leaf intPlatform .VariableY) ∧
    Blank intPlatform [' '] ∧ Blank intPlatform [' '] ∧
    Follows intPlatform ['2'] ([' '] ++ (['x'] ++ ([' '] ++ (['y'] ++ ['*', '3'])))) ∧
    Follows intPlatform ['x'] ([' '] ++ (['y'] ++ ['*', '3'])) ∧
    '\\' ∉ ['*', '3'] ∧
    (∀ k, ['*', '3'].getLast? = some k → isSpace intPlatform k = false) ∧
    ∃ e', parse (fresh intPlatform)
        (String.mk (['2'] ++ [' '] ++ ['x'] ++ [' '] ++ ['y'] ++ ['*', '3'])) = some (false, e') ∧
      e'.errorString = "Unexpected character at end" ∧ e'.unread = ['y'] ++ ['*', '3'] ∧
      e'.isValid = false ∧ eval e' (intPlatform.ofInt 3) (intPlatform.ofInt 5) = intPlatform.qQNaN ∧
      eval1 e' (intPlatform.ofInt 3) = intPlatform.qQNaN :=
  ⟨primary_digit '2' (by decide), Primary.x, Primary.y, by simp [Blank, isSpace],
    by simp [Blank, isSpace], follows_cons _ _ (by simp [isDigit]) (by decide), Or.inl rfl,
    by simp, by simp [isSpace],
    C7_implicit_multiplication_does_not_chain (primary_digit '2' (by decide)) Primary.x
      Primary.y (by simp [Blank, isSpace]) (by simp [Blank, isSpace])
      (follows_cons _ _ (by simp [isDigit]) (by decide)) (Or.inl rfl) (by simp)
      (by simp [isSpace]) (fresh intPlatform) (intPlatform.ofInt 3) (intPlatform.ofInt 5)⟩

theorem funcs_letters {name : String} (h : name ∈ funcs) : ∀ c ∈ name.data, c ∈ nameLetters := by
  simp only [funcs, List.mem_cons, List.mem_singleton, List.not_mem_nil, or_false] at h
  rcases h with rfl | rfl | rfl | rfl | rfl | rfl <;> decide

/-- A letter of a function name, in lower or upper case, folds to the lower-case letter,
and is none of the characters the parser gives a meaning of their own, `x` and `X` apart. -/
theorem fold_letter {c k : Char} (hc : c ∈ nameLetters) (hk : k = c ∨ k = c.toUpper) :
    foldCase A k = c ∧ isSpace A k = false ∧ isDigit A k = false ∧ k ≠ '(' ∧ k ≠ ')' ∧
      k ≠ '-' ∧ k ≠ '.' ∧ k ≠ '\\' ∧ k ≠ 'y' ∧ k ≠ 'Y' := by
  simp only [nameLetters, List.mem_cons, List.mem_singleton, List.not_mem_nil, or_false] at hc
  rcases hc with rfl | rfl | rfl | rfl | rfl | rfl | rfl | rfl | rfl | rfl | rfl | rfl | rfl | rfl <;>
    rcases hk with rfl | rfl <;>
    simp [foldCase, isSpace, isDigit, Char.toUpper]

theorem map_fold_of_forall₂ {v cs : List Char} (hcs : ∀ c ∈ cs, c ∈ nameLetters)
    (h : List.Forall₂ (fun k c => k = c ∨ k = c.toUpper) v cs) :
    v.map (foldCase A) = cs := by
  induction h with
  | nil => rfl
  | cons hk _ ih =>
    rw [List.map_cons, (fold_letter (hcs _ (List.mem_cons_self _ _)) hk).1,
      ih (fun c hc => hcs c (List.mem_cons_of_mem _ hc))]

theorem Spelling.map_fold {v : List Char} {name : String} (hn : name ∈ funcs)
    (h : Spelling v name) : v.map (foldCase A) = name.data :=
  map_fold_of_forall₂ (funcs_letters hn) h

theorem Spelling.length_eq {v : List Char} {name : String} (h : Spelling v name) :
    v.length = name.length :=
  List.Forall₂.length_eq h

theorem Spelling.letters {v : List Char} {name : String} (hn : name ∈ funcs)
    (h : Spelling v name) :
    ∀ k ∈ v, isSpace A k = false ∧ isDigit A k = false ∧ k ≠ '(' ∧ k ≠ ')' ∧
      k ≠ '-' ∧ k ≠ '.' ∧ k ≠ '\\' ∧ k ≠ 'y' ∧ k ≠ 'Y' := by
  have hcs := funcs_letters hn
  unfold Spelling at h
  generalize name.data = cs at h hcs
  induction h with
  | nil => intro k hk; simp at hk
  | cons hk _ ih =>
    intro k' hk'
    rcases List.mem_cons.mp hk' with rfl | hk'
    · exact (fold_letter (hcs _ (List.mem_cons_self _ _)) hk).2
    · exact ih (fun c hc => hcs c (List.mem_cons_of_mem _ hc)) k' hk'

/-- The first character of a spelling of a function name. -/
theorem Spelling.first {v : List Char} {name : String} (hn : name ∈ funcs)
    (h : Spelling v name) : ∃ k t, v = k :: t ∧ k ≠ 'x' ∧ k ≠ 'X' := by
  unfold Spelling at h
  simp only [funcs, List.mem_cons, List.mem_singleton, List.not_mem_nil, or_false] at hn
  rcases hn with rfl | rfl | rfl | rfl | rfl | rfl <;>
  · cases h with
    | cons hk _ =>
      refine ⟨_, _, rfl, ?_⟩
      rcases hk with rfl | rfl <;> simp [Char.toUpper]

theorem find?_of_unique {α : Type} (q : α → Bool) (a : α) :
    ∀ l : List α, a ∈ l → q a = true → (∀ b ∈ l, q b = true → b = a) → l.find? q = some a
  | [], h, _, _ => absurd h (List.not_mem_nil _)
  | b :: l, h, ha, hu => by
    cases hb : q b
    · rw [List.find?_cons_of_neg _ (by simp [hb])]
      rcases List.mem_cons.mp h with rfl | h
      · rw [ha] at hb; cases hb
      · exact find?_of_unique q a l h ha fun b hb hq => hu b (List.mem_cons_of_mem _ hb) hq
    · rw [List.find?_cons_of_pos _ hb, hu b (List.mem_cons_self _ _) hb]

/-- Two of the six names that agree on their first two letters are the same name. -/
theorem funcs_take_two {n1 n2 : String} (h1 : n1 ∈ funcs) (h2 : n2 ∈ funcs)
    (h : n1.data.take 2 = n2.data.take 2) : n1 = n2 := by
  simp only [funcs, List.mem_cons, List.mem_singleton, List.not_mem_nil, or_false] at h1 h2
  rcases h1 with rfl | rfl | rfl | rfl | rfl | rfl <;>
    rcases h2 with rfl | rfl | rfl | rfl | rfl | rfl <;>
    first
      | rfl
      | exact absurd h (by decide)

/-- The loop over `funcs` in `parsePrimary` finds the name that the text spells. -/
theorem find_spelling {v : List Char} {name : String} (hn : name ∈ funcs)
    (h : Spelling v name) (i r : List Char) (e : String) (pa : Bool) (ro : Node A) :
    funcs.find? (matchesFunc (⟨i, v ++ r, e, pa, ro⟩ : ExpressionParser A)) = some name := by
  have hl := h.length_eq
  have hm : v.map (foldCase A) = name.data := h.map_fold hn
  refine find?_of_unique _ _ _ hn ?_ ?_
  · simp only [matchesFunc, Bool.and_eq_true, decide_eq_true_eq, beq_iff_eq]
    refine ⟨by simp [← hl], ?_⟩
    rw [← hl, List.take_left, hm]
  · intro b hb hq
    simp only [matchesFunc, Bool.and_eq_true, decide_eq_true_eq, beq_iff_eq] at hq
    refine funcs_take_two hb hn ?_
    have h3 := mem_funcs_length hb
    have h4 := mem_funcs_length hn
    rw [← hq.2, ← hm, ← List.map_take, ← List.map_take, List.take_take,
      List.take_append_of_le_length (by omega)]
    congr 2
    omega

section FunctionRules
variable {i : List Char} {e : String} {pa : Bool} {ro : Node A}

/-- `parseUnary` at a spelling of a function name: `parsePrimary` finds the name, moves
over it and calls `parseFunction`. -/
theorem rule_unary_function {v r : List Char} {name : String} {n : Node A}
    {q : ExpressionParser A} (hn : name ∈ funcs) (hv : Spelling v name)
    (hf : Step (.function name) ⟨i, r, e, pa, ro⟩ n q) :
    Step .unary ⟨i, v ++ r, e, pa, ro⟩ n q := by
  have hl := hv.length_eq
  have hfind := find_spelling hn hv i r e pa ro
  have hlet := hv.letters (A := A) hn
  obtain ⟨k, t, rfl, hx, hX⟩ := hv.first hn
  obtain ⟨hsp, hdg, hlp, _, hmi, hdot, _, hy, hY⟩ := hlet k (List.mem_cons_self _ _)
  have hs : (⟨i, k :: t ++ r, e, pa, ro⟩ : ExpressionParser A).skipSpaces
      = ⟨i, k :: t ++ r, e, pa, ro⟩ := by
    rw [skipSpaces_mk]
    exact congrArg (fun u => ExpressionParser.mk i u e pa ro) (dropWhile_head hsp)
  refine Step.unary_primary (Or.inr ?_) ?_
  · rw [hs]
    exact hmi
  · rw [hs]
    refine @Step.primary_function A _ name _ _ ?_ ?_ ?_ ?_ ?_ ?_ ?_
    · rw [hs]; rfl
    · rw [hs]
      rintro (h | h)
      · exact hx h
      · exact hX h
    · rw [hs]
      rintro (h | h)
      · exact hy h
      · exact hY h
    · rw [hs]
      exact hlp
    · rw [hs]
      rintro (h | h)
      · have : isDigit A k = true := h
        rw [hdg] at this
        cases this
      · exact hdot h.1
    · rw [hs]
      exact hfind
    · rw [hs, advance_mk, ← hl, List.drop_left]
      exact hf

/-- `parseFunction` where the input ends after the name, up to whitespace. -/
theorem rule_function_end {r : List Char} {name : String}
    (hr : r.dropWhile (isSpace A) = []) :
    Step (.function name) ⟨i, r, e, pa, ro⟩ .nullptr
      ⟨i, [], "Expected '(' after '" ++ name ++ "'", pa, ro⟩ := by
  have h := @Step.function_noparen A name ⟨i, r, e, pa, ro⟩
    (Or.inl (by simp [skipSpaces_mk, hr, atEnd_mk]))
  simpa [skipSpaces_mk, hr, setError_mk] using h

/-- `parseFunction` where the first character after the name and whitespace is not `(`. -/
theorem rule_function_other {r r' : List Char} {k : Char} {name : String}
    (hr : r.dropWhile (isSpace A) = k :: r') (hk : k ≠ '(') :
    Step (.function name) ⟨i, r, e, pa, ro⟩ .nullptr
      ⟨i, k :: r', "Expected '(' after '" ++ name ++ "'", pa, ro⟩ := by
  have h := @Step.function_noparen A name ⟨i, r, e, pa, ro⟩
    (Or.inr (by simpa [skipSpaces_mk, hr, cur_mk] using hk))
  simpa [skipSpaces_mk, hr, setError_mk] using h

/-- A failure of the first `parseUnary` goes up to `parseExpression` unchanged. -/
theorem rule_expression_fail {p q : ExpressionParser A}
    (hu : Step .unary p .nullptr q) (he : q.m_error ≠ "") :
    Step .expression p .nullptr q :=
  Step.expression_fail (Step.term_fail (Step.factor (Step.power_fail hu rfl he)) rfl he) rfl he

end FunctionRules

theorem expected_paren_ne (name : String) : "Expected '(' after '" ++ name ++ "'" ≠ "" := by
  intro h
  have := congrArg String.length h
  simp only [String.length_append] at this
  have h2 : "Expected '(' after '".length = 20 := by decide
  have h3 : "".length = 0 := rfl
  omega

theorem parse_sin_space_0 (e : ExpressionParser A) :
    parse e "sin (0)" = some (true, ⟨['s', 'i', 'n', ' ', '(', '0', ')'], [], "", true,
      .unary .Sin (.number (A.ofInt 0))⟩) := by
  simp [parse_eq, parseStart_mk, parseFinish, normalize, trimmed, replace, replaceFrom,
    List.rdropWhile, result_expression, result_expressionLoop, result_term, result_termLoop,
    result_factor, result_power, result_unary, result_function, result_primary,
    skipSpaces_mk, advance_mk, setError_mk, atEnd_mk, cur_mk, peek_mk, skipNumber_mk,
    isSpace, isDigit, implicitStart, numberStart, scanNumber, numberText, toDouble,
    funcs, matchesFunc, startsWithCI, foldCase, funcType,
    length_sin, length_cos, length_tan, length_sqrt, length_exp, length_log,
    Node.isNull, Node.binary, Node.number, Node.leaf, Node.unary]

theorem parse_2sin_plus (e : ExpressionParser A) :
    parse e "2sin+" = some (false, ⟨['2', 's', 'i', 'n', '+'], [],
      "Unexpected end of expression", false, .nullptr⟩) := by
  simp [parse_eq, parseStart_mk, parseFinish, normalize, trimmed, replace, replaceFrom,
    List.rdropWhile, result_expression, result_expressionLoop, result_term, result_termLoop,
    result_factor, result_power, result_unary, result_function, result_primary,
    skipSpaces_mk, advance_mk, setError_mk, atEnd_mk, cur_mk, peek_mk, skipNumber_mk,
    isSpace, isDigit, implicitStart, numberStart, scanNumber, numberText, toDouble,
    funcs, matchesFunc, startsWithCI, foldCase, funcType,
    length_sin, length_cos, length_tan, length_sqrt, length_exp, length_log,
    Node.isNull, Node.binary, Node.number, Node.leaf, Node.unary]

/-- The derivation for an input that starts with a spelling of a function name after
which the first character that is not whitespace is not `(`, or nothing follows. -/
theorem parse_function_no_paren {name : String} (hn : name ∈ funcs) {v rest : List Char}
    (hv : Spelling v name)
    (hp : ∀ k, (rest.dropWhile (isSpace A)).head? = some k → k ≠ '(')
    (hr1 : '\\' ∉ rest) (hr2 : ∀ k, rest.getLast? = some k → isSpace A k = false)
    (e : ExpressionParser A) :
    parse e (String.mk (v ++ rest)) = some (false, ⟨v ++ rest, rest.dropWhile (isSpace A),
      "Expected '(' after '" ++ name ++ "'", false, .nullptr⟩) := by
  have hlet := hv.letters (A := A) hn
  have hnorm : normalize A (v ++ rest) = v ++ rest := by
    refine normalize_plain ?_ ?_ ?_
    · obtain ⟨k, t, rfl, _⟩ := hv.first hn
      intro k' hk'
      simp only [List.cons_append, List.head?_cons, Option.some.injEq] at hk'
      subst hk'
      exact (hlet _ (List.mem_cons_self _ _)).1
    · intro k hk
      rcases List.eq_nil_or_concat' rest with rfl | ⟨m, l, rfl⟩
      · obtain ⟨h, t, rfl, _⟩ := hv.first hn
        rcases List.eq_nil_or_concat' (h :: t) with h0 | ⟨m, l, h0⟩
        · exact absurd h0 (by simp)
        · have hl : l ∈ h :: t := by rw [h0]; simp
          rw [h0, List.append_nil, List.getLast?_concat] at hk
          rw [← Option.some.inj hk]
          exact (hlet _ hl).1
      · rw [← List.append_assoc, List.getLast?_concat] at hk
        rw [← Option.some.inj hk]
        exact hr2 l (List.getLast?_concat m)
    · intro h
      rcases List.mem_append.mp h with h | h
      · exact (hlet _ h).2.2.2.2.2.2.1 rfl
      · exact hr1 h
  have hf : Step (.function name) ⟨v ++ rest, rest, "", false, (.nullptr : Node A)⟩ .nullptr
      ⟨v ++ rest, rest.dropWhile (isSpace A), "Expected '(' after '" ++ name ++ "'", false,
        .nullptr⟩ := by
    cases hd : rest.dropWhile (isSpace A) with
    | nil => exact rule_function_end hd
    | cons k r' => exact rule_function_other hd (hp k (by rw [hd]; rfl))
  have hx := rule_expression_fail (rule_unary_function hn hv hf) (expected_paren_ne name)
  have hres : parse e (String.mk (v ++ rest)) = _ :=
    parse_of_step_error hnorm hx (expected_paren_ne name)
  rw [hres, List.dropWhile_idempotent]

/-- C10, as stated, fails: on the integer platform `parse("sin (0)")`, where a space
follows the name, succeeds with the tree `Sin(0)` and no error; and `parse("2sin+")`, where
`+` follows the name, fails with `Unexpected end of expression`, not with the
missing-`(` error. -/
theorem C10_counterexample :
    (∃ e', parse (fresh intPlatform) "sin (0)" = some (true, e') ∧ e'.isValid = true ∧
      e'.errorString = "" ∧ e'.m_root = .unary .Sin (.number (intPlatform.ofInt 0))) ∧
    (∃ e', parse (fresh intPlatform) "2sin+" = some (false, e') ∧
      e'.errorString = "Unexpected end of expression" ∧
      e'.errorString ≠ "Expected '(' after 'sin'") :=
  ⟨⟨_, parse_sin_space_0 _, rfl, rfl, rfl⟩, ⟨_, parse_2sin_plus _, rfl, by decide⟩⟩

/-- C10, amended: a recognised function name must be followed by `(`, after optional
whitespace.  Whenever the first character after the name that is not whitespace is not
`(`, or the input ends there, `parseFunction` returns null with the error
`Expected '(' after '<name>'`; and for an input that begins with a function name, in any
mix of letter cases, followed by such a text (no backslash, no trailing whitespace),
`parse` returns false with that error. -/
theorem C10_function_name_needs_paren {name : String} (hn : name ∈ funcs)
    {v rest : List Char} (hv : Spelling v name)
    (hp : ∀ k, (rest.dropWhile (isSpace A)).head? = some k → k ≠ '(')
    (hr1 : '\\' ∉ rest) (hr2 : ∀ k, rest.getLast? = some k → isSpace A k = false)
    (e p : ExpressionParser A)
    (hq : ∀ k, (p.unread.dropWhile (isSpace A)).head? = some k → k ≠ '(') :
    (Call.function name).result p =
      (.nullptr, p.skipSpaces.setError ("Expected '(' after '" ++ name ++ "'")) ∧
    ∃ e', parse e (String.mk (v ++ rest)) = some (false, e') ∧
      e'.errorString = "Expected '(' after '" ++ name ++ "'" ∧ e'.isValid = false := by
  refine ⟨?_, _, parse_function_no_paren hn hv hp hr1 hr2 e, rfl, rfl⟩
  obtain ⟨i, u, m, pa, ro⟩ := p
  rw [result_function, if_pos]
  rw [skipSpaces_mk, atEnd_mk, cur_mk]
  cases hd : u.dropWhile (isSpace A) with
  | nil => exact Or.inl rfl
  | cons k r => exact Or.inr (hq k (by simp only [hd]; rfl))

/-- Witness of the amended C10 on the integer platform: the input `SiNx`, and
`parseFunction` on an engine with ` +1` unread. -/
theorem C10_function_name_needs_paren_witness :
    "sin" ∈ funcs ∧ Spelling ['S', 'i', 'N'] "sin" ∧
    (∀ k, (['x'].dropWhile (isSpace intPlatform)).head? = some k → k ≠ '(') ∧
    '\\' ∉ ['x'] ∧ (∀ k, ['x'].getLast? = some k → isSpace intPlatform k = false) ∧
    (∀ k, ((⟨['2', 's', 'i', 'n', ' ', '+', '1'], [' ', '+', '1'], "", false, .nullptr⟩ :
      ExpressionParser intPlatform).unread.dropWhile (isSpace intPlatform)).head? = some k →
        k ≠ '(') ∧
    ((Call.function "sin").result
        (⟨['2', 's', 'i', 'n', ' ', '+', '1'], [' ', '+', '1'], "", false, .nullptr⟩ :
          ExpressionParser intPlatform) =
      (.nullptr, (⟨['2', 's', 'i', 'n', ' ', '+', '1'], [' ', '+', '1'], "", false, .nullptr⟩ :
          ExpressionParser intPlatform).skipSpaces.setError
        ("Expected '(' after '" ++ "sin" ++ "'")) ∧
    ∃ e', parse (fresh intPlatform) (String.mk (['S', 'i', 'N'] ++ ['x'])) = some (false, e') ∧
      e'.errorString = "Expected '(' after '" ++ "sin" ++ "'" ∧ e'.isValid = false) :=
  ⟨by decide, by simp [Spelling, Char.toUpper], by simp [isSpace], by simp,
    by simp [isSpace], by simp [isSpace],
    C10_function_name_needs_paren (by decide) (by simp [Spelling, Char.toUpper])
      (by simp [isSpace]) (by simp) (by simp [isSpace]) (fresh intPlatform) _
      (by simp [isSpace])⟩

theorem unknown_function_ne (name : String) : "Unknown function: " ++ name ≠ "" := by
  intro h
  have := congrArg String.length h
  simp only [String.length_append] at this
  have h2 : "Unknown function: ".length = 18 := by decide
  have h3 : "".length = 0 := rfl
  omega

theorem unexpected_character_ne (k : Char) :
    "Unexpected character '" ++ String.singleton k ++ "'" ≠ "" := by
  intro h
  have := congrArg String.length h
  simp only [String.length_append] at this
  have h2 : "Unexpected character '".length = 22 := by decide
  have h3 : "".length = 0 := rfl
  omega

/-- The error is never cleared while parsing: a call that starts with an error ends with
one. -/
theorem Step.error_mono {c : Call A} {p q : ExpressionParser A} {n : Node A}
    (h : Step c p n q) : p.m_error ≠ "" → q.m_error ≠ "" := by
  induction h with
  | function_noparen => intro _; exact expected_paren_ne _
  | function_unknown => intro _; exact unknown_function_ne _
  | primary_unexpected => intro _; exact unexpected_character_ne _
  | _ => simp_all [scanNumber_error]

/-- A call that ends without an error started without one. -/
theorem Step.error_start {c : Call A} {p q : ExpressionParser A} {n : Node A}
    (h : Step c p n q) (hq : q.m_error = "") : p.m_error = "" := by
  by_contra hp
  exact h.error_mono hp hq

/-- A null pointer comes with an error: a call that returns null leaves an error message,
unless it is a loop that was entered with a null left operand. -/
theorem Step.null_error {c : Call A} {p q : ExpressionParser A} {n : Node A}
    (h : Step c p n q) : n.isNull = true → q.m_error ≠ "" ∨ c.seedNull := by
  induction h with
  | expression_fail _ _ he => intro _; exact Or.inl he
  | expression_loop _ hg _ ih1 ih2 =>
    intro hn
    rcases ih2 hn with h | h
    · exact Or.inl h
    · rcases ih1 h with h1 | h1
      · exact absurd ⟨h, h1⟩ hg
      · exact h1.elim
  | expressionLoop_stop => intro hn; exact Or.inr hn
  | expressionLoop_fail _ _ _ hr ih =>
    intro _
    rcases ih hr with h | h
    · exact Or.inl h
    · exact h.elim
  | expressionLoop_next _ _ _ _ _ _ ih2 =>
    intro hn
    rcases ih2 hn with h | h
    · exact Or.inl h
    · exact absurd h (by simp [Call.seedNull, binary_isNull])
  | term_fail _ _ he => intro _; exact Or.inl he
  | term_loop _ hg _ ih1 ih2 =>
    intro hn
    rcases ih2 hn with h | h
    · exact Or.inl h
    · rcases ih1 h with h1 | h1
      · exact absurd ⟨h, h1⟩ hg
      · exact h1.elim
  | termLoop_stop => intro hn; exact Or.inr hn
  | termLoop_fail _ _ _ hr ih =>
    intro _
    rcases ih hr with h | h
    · exact Or.inl h
    · exact h.elim
  | termLoop_next _ _ _ _ _ _ ih2 =>
    intro hn
    rcases ih2 hn with h | h
    · exact Or.inl h
    · exact absurd h (by simp [Call.seedNull, binary_isNull])
  | factor _ ih => intro hn; exact ih hn
  | power_fail _ _ he => intro _; exact Or.inl he
  | power_pow_fail _ _ _ _ _ hx _ ih2 => intro _; exact ih2 hx
  | power_pow => intro hn; exact absurd hn (by simp [binary_isNull])
  | power_implicit_fail _ hg _ _ _ _ _ ih1 _ =>
    intro hn
    rcases ih1 hn with h | h
    · exact absurd ⟨hn, h⟩ hg
    · exact h.elim
  | power_implicit => intro hn; exact absurd hn (by simp [binary_isNull])
  | power_plain _ hg _ ih1 =>
    intro hn
    rcases ih1 hn with h | h
    · exact absurd ⟨hn, h⟩ hg
    · exact h.elim
  | unary_neg_fail _ _ _ hc ih => intro _; exact ih hc
  | unary_neg => intro hn; exact absurd hn (by simp [unary_isNull])
  | unary_primary _ _ ih => intro hn; exact ih hn
  | function_noparen => intro _; exact Or.inl (expected_paren_ne _)
  | function_arg_fail _ _ _ ha ih => intro _; exact ih ha
  | function_noclose => intro _; exact Or.inl (by simp)
  | function_ok => intro hn; exact absurd hn (by simp [unary_isNull])
  | function_unknown => intro _; exact Or.inl (unknown_function_ne _)
  | primary_end => intro _; exact Or.inl (by simp)
  | primary_x => intro hn; exact absurd hn (by simp [Node.isNull, Node.leaf])
  | primary_y => intro hn; exact absurd hn (by simp [Node.isNull, Node.leaf])
  | primary_paren_fail _ _ _ hi ih => intro _; exact ih hi
  | primary_paren_noclose => intro _; exact Or.inl (by simp)
  | primary_paren _ _ _ _ _ _ ih =>
    intro hn
    rcases ih hn with h | h
    · exact Or.inl (by simpa using h)
    · exact h.elim
  | primary_number_invalid => intro _; exact Or.inl (by simp)
  | primary_number => intro hn; exact absurd hn (by simp [Node.isNull, Node.number])
  | primary_function _ _ _ _ _ _ _ ih => intro hn; exact ih hn
  | primary_unexpected => intro _; exact Or.inl (unexpected_character_ne _)

theorem dropWhile_append_of_ne_nil {q : Char → Bool} :
    ∀ {l : List Char} (r : List Char), l.dropWhile q ≠ [] →
      (l ++ r).dropWhile q = l.dropWhile q ++ r
  | [], _, h => absurd rfl h
  | a :: l, r, h => by
    cases ha : q a
    · simp [List.dropWhile, ha]
    · simp only [List.cons_append, List.dropWhile_cons_of_pos ha] at h ⊢
      exact dropWhile_append_of_ne_nil r h

/-- The closing parenthesis is a character at which an expression stops. -/
theorem terminator_paren : Terminator A ')' := by
  refine ⟨by simp [isSpace], by simp [isDigit], ?_, by decide⟩
  simp [foldCase, nameLetters]

theorem stopText_nil : StopText A [] := by
  intro k hk
  simp at hk

theorem stopText_cons {k : Char} (hk : Terminator A k) (T : List Char) :
    StopText A (k :: T) := by
  intro c hc
  simp only [List.head?_cons, Option.some.injEq] at hc
  subst hc
  exact hk

/-- A text of whitespace followed by a stop text is empty or starts with a closing
character. -/
theorem blank_head {w X : List Char} (hw : Blank A w) (hX : StopText A X) :
    ∀ k, (w ++ X).head? = some k → Closing A k := by
  intro k hk
  cases w with
  | nil => exact Or.inr (hX k hk)
  | cons a t =>
    simp only [List.cons_append, List.head?_cons, Option.some.injEq] at hk
    subst hk
    exact Or.inl (hw _ (List.mem_cons_self _ _))

theorem closing_not_digit {k : Char} (hk : Closing A k) : isDigit A k = false := by
  rcases hk with hk | hk
  · cases hd : isDigit A k
    · rfl
    · rw [isDigit_not_space hd] at hk; cases hk
  · exact hk.2.1

theorem Closing.fold_not_letter {k : Char} (hk : Closing A k) :
    foldCase A k ∉ nameLetters := by
  rcases hk with hk | hk
  · have hf : foldCase A k = k := by
      unfold isSpace at hk
      unfold foldCase
      split_ifs at hk ⊢ with h1 h2 h3
      · simp only [decide_eq_true_eq] at hk
        omega
      · rfl
      · rfl
      · simp only [decide_eq_true_eq] at hk
        exact absurd hk h3
    rw [hf]
    intro h
    have := (fold_letter (A := A) h (Or.inl rfl)).2.1
    rw [this] at hk
    cases hk
  · exact hk.2.2.1

/-- A closing character is none of the characters the parser gives a meaning. -/
theorem closing_ne {k : Char} (hk : Closing A k) (c : Char)
    (h1 : c.toNat < 128 := by decide)
    (h2 : ¬ (c.toNat = 32 ∨ (9 ≤ c.toNat ∧ c.toNat ≤ 13)) := by decide)
    (h3 : c ∈ ['+', '-', '*', '/', '^', '(', '.', 'y', 'Y'] ∨
      c ∈ ['x', 'X', 's', 'c', 't', 'e', 'l'] := by decide) : k ≠ c := by
  rintro rfl
  rcases h3 with h3 | h3
  · rcases hk with hk | hk
    · exact isSpace_ascii hk k h1 h2 rfl
    · exact hk.2.2.2 h3
  · apply hk.fold_not_letter
    simp only [List.mem_cons, List.mem_singleton, List.not_mem_nil, or_false] at h3
    rcases h3 with rfl | rfl | rfl | rfl | rfl | rfl | rfl <;> simp [foldCase, nameLetters]

section
variable {X : List Char} {p p' : ExpressionParser A} (h : Within A X p p')
include h

theorem Within.error_eq : p'.m_error = p.m_error := h.2.1

theorem Within.not_atEnd (he : p.atEnd = false) : p'.atEnd = false := by
  obtain ⟨_, _, w, hw, hu⟩ := h
  rw [atEnd_false_iff] at he ⊢
  rw [hu, List.length_append]
  omega

theorem Within.skip : Within A X p.skipSpaces p'.skipSpaces := by
  obtain ⟨hX, he, w, hw, hu⟩ := h
  refine ⟨hX, he, ?_⟩
  simp only [skipSpaces_unread, hu]
  cases hd : p.unread.dropWhile (isSpace A) with
  | nil =>
    refine ⟨[], by simp [Blank], ?_⟩
    have hall : ∀ c ∈ p.unread, isSpace A c = true := by
      intro c hc
      by_contra hcs
      have := List.dropWhile_eq_nil_iff.mp hd c hc
      exact hcs this
    rw [dropWhile_all_append hall, dropWhile_all_append hw]
    cases X with
    | nil => rfl
    | cons k T =>
      have hk : isSpace A k = false := (hX k rfl).1
      simp [List.dropWhile, hk]
  | cons k t =>
    refine ⟨w, hw, ?_⟩
    rw [← hd]
    exact dropWhile_append_of_ne_nil _ (by simp [hd])

end

theorem find?_congr_mem {α : Type} {f g : α → Bool} :
    ∀ l : List α, (∀ a ∈ l, f a = g a) → l.find? f = l.find? g
  | [], _ => rfl
  | a :: l, h => by
    have ha := h a (List.mem_cons_self _ _)
    have ih := find?_congr_mem l fun b hb => h b (List.mem_cons_of_mem _ hb)
    simp only [List.find?_cons, ha, ih]

theorem cur_ext {p p' : ExpressionParser A} {Y : List Char}
    (hu : p'.unread = p.unread ++ Y) (he : p.atEnd = false) :
    p'.cur = p.cur := by
  unfold ExpressionParser.cur
  rw [hu]
  cases hp : p.unread with
  | nil => simp [ExpressionParser.atEnd, hp] at he
  | cons a t => rfl

section
variable {p p' : ExpressionParser A} {Y : List Char}
  (hu : p'.unread = p.unread ++ Y) (hY : ∀ k, Y.head? = some k → Closing A k)
include hu hY

theorem cur_ext_end (he : p.atEnd = true) : p'.atEnd = true ∨ Closing A p'.cur := by
  have hp : p.unread = [] := by simpa [ExpressionParser.atEnd] using he
  rw [hp, List.nil_append] at hu
  cases Y with
  | nil => exact Or.inl (by simp [ExpressionParser.atEnd, hu])
  | cons k T =>
    refine Or.inr ?_
    unfold ExpressionParser.cur
    rw [hu]
    exact hY k rfl

/-- With a closing character or nothing behind the text, the test of the loop over
`funcs` has the same outcome. -/
theorem matchesFunc_ext {fn : String} (hfn : fn ∈ funcs) :
    matchesFunc p' fn = matchesFunc p fn := by
  unfold matchesFunc
  rw [hu]
  by_cases hl : fn.length ≤ p.unread.length
  · rw [List.take_append_of_le_length hl]
    have : fn.length ≤ (p.unread ++ Y).length := by
      rw [List.length_append]; omega
    simp only [decide_eq_true this, decide_eq_true hl]
  · have h1 : decide (fn.length ≤ p.unread.length) = false := by simp [hl]
    rw [h1, Bool.false_and]
    cases Y with
    | nil =>
      rw [List.append_nil, h1, Bool.false_and]
    | cons k T =>
      have hk := hY k rfl
      rw [Bool.and_eq_false_iff]
      right
      rw [beq_eq_false_iff_ne]
      intro h
      have hmem : k ∈ List.take fn.length (p.unread ++ k :: T) := by
        rw [List.take_append_eq_append_take, List.take_of_length_le (by omega)]
        have : fn.length - p.unread.length = (fn.length - p.unread.length - 1) + 1 := by omega
        rw [this, List.take_succ_cons]
        simp
      have h2 : foldCase A k ∈ fn.data := by
        rw [← h]
        exact List.mem_map_of_mem _ hmem
      exact hk.fold_not_letter (funcs_letters hfn _ h2)

theorem find_ext : funcs.find? (matchesFunc p') = funcs.find? (matchesFunc p) :=
  find?_congr_mem _ fun _ hfn => matchesFunc_ext hu hY hfn

theorem implicitStart_ext (he : p.atEnd = false) : implicitStart p' = implicitStart p := by
  unfold implicitStart
  simp only [cur_ext hu he]
  have e : ∀ q : ExpressionParser A, ∀ fn, startsWithCI A q.unread fn = matchesFunc q fn :=
    fun _ _ => rfl
  simp only [e, matchesFunc_ext hu hY (show "sin" ∈ funcs by decide),
    matchesFunc_ext hu hY (show "cos" ∈ funcs by decide),
    matchesFunc_ext hu hY (show "tan" ∈ funcs by decide),
    matchesFunc_ext hu hY (show "sqrt" ∈ funcs by decide),
    matchesFunc_ext hu hY (show "exp" ∈ funcs by decide),
    matchesFunc_ext hu hY (show "log" ∈ funcs by decide)]

theorem numberStart_ext (he : p.atEnd = false) : numberStart p' ↔ numberStart p := by
  unfold numberStart
  rw [cur_ext hu he]
  unfold ExpressionParser.peek
  rw [hu]
  cases hp : p.unread with
  | nil => simp [ExpressionParser.atEnd, hp] at he
  | cons a t =>
    cases t with
    | nil =>
      cases Y with
      | nil => simp
      | cons k T =>
        have hd : isDigit A k = false := closing_not_digit (hY k rfl)
        simp [hd]
    | cons b t => simp

theorem skipNumber_ext : p'.skipNumber.unread = p.skipNumber.unread ++ Y := by
  simp only [skipNumber_unread, hu]
  cases hd : p.unread.dropWhile (fun c => isDigit A c || c == '.') with
  | nil =>
    have hall : ∀ c ∈ p.unread, (fun c => isDigit A c || c == '.') c = true :=
      fun c hc => List.dropWhile_eq_nil_iff.mp hd c hc
    rw [dropWhile_all_append hall]
    cases Y with
    | nil => rfl
    | cons k T =>
      have hk := hY k rfl
      have hkq : (fun c => isDigit A c || c == '.') k = false := by
        have hd : isDigit A k = false := closing_not_digit hk
        have hdot : k ≠ '.' := closing_ne hk '.'
        simp [hd, hdot]
      rw [dropWhile_head hkq]
      rfl
  | cons a t =>
    rw [← hd]
    exact dropWhile_append_of_ne_nil _ (by simp [hd])

theorem scanNumber_ext (he : p.atEnd = false) :
    (scanNumber p').unread = (scanNumber p).unread ++ Y := by
  unfold scanNumber
  rw [cur_ext hu he]
  split_ifs with hc
  · refine skipNumber_ext ?_ hY
    simp only [advance_unread, hu]
    cases hp : p.unread with
    | nil => simp [ExpressionParser.atEnd, hp] at he
    | cons a t => rfl
  · exact skipNumber_ext hu hY

end

theorem Closing.not_addOp {k : Char} (hk : Closing A k) : addOp k = none :=
  addOp_none (closing_ne hk '+') (closing_ne hk '-')

theorem Closing.not_mulOp {k : Char} (hk : Closing A k) : mulOp k = none :=
  mulOp_none (closing_ne hk '*') (closing_ne hk '/')

theorem implicitStart_closing {p : ExpressionParser A} (hk : Closing A p.cur) :
    implicitStart p = false := by
  have hd : isDigit A p.cur = false := closing_not_digit hk
  unfold implicitStart
  simp [hd, closing_ne hk 'x', closing_ne hk 'X', closing_ne hk 'y', closing_ne hk 'Y',
    closing_ne hk '(', closing_ne hk '.', closing_ne hk 's', closing_ne hk 'c',
    closing_ne hk 't', closing_ne hk 'e', closing_ne hk 'l']

theorem numberText_ext {p p' s s' : ExpressionParser A} {X : List Char}
    (hu : p'.unread = p.unread ++ X) (hs : s'.unread = s.unread ++ X) :
    numberText p' s' = numberText p s := by
  unfold numberText
  rw [hu, hs, List.length_append, List.length_append, Nat.add_sub_add_right,
    List.take_append_of_le_length (Nat.sub_le _ _)]

section
variable {X : List Char} {p p' : ExpressionParser A} (h : Within A X p p')
include h

theorem Within.cur_eq (he : p.atEnd = false) : p'.cur = p.cur := by
  obtain ⟨_, _, w, hw, hu⟩ := h
  exact cur_ext hu he

theorem Within.cur_end (he : p.atEnd = true) : p'.atEnd = true ∨ Closing A p'.cur := by
  obtain ⟨hX, _, w, hw, hu⟩ := h
  exact cur_ext_end hu (blank_head hw hX) he

theorem Within.adv (k : Nat) (hk : k ≤ p.unread.length) :
    Within A X (p.advance k) (p'.advance k) := by
  obtain ⟨hX, he, w, hw, hu⟩ := h
  refine ⟨hX, he, w, hw, ?_⟩
  simp only [advance_unread, hu]
  exact List.drop_append_of_le_length hk

theorem Within.adv_one (he : p.atEnd = false) : Within A X (p.advance 1) (p'.advance 1) := by
  refine h.adv 1 ?_
  rw [atEnd_false_iff] at he
  exact he

theorem Within.implicitStart_eq (he : p.atEnd = false) : implicitStart p' = implicitStart p := by
  obtain ⟨hX, _, w, hw, hu⟩ := h
  exact implicitStart_ext hu (blank_head hw hX) he

theorem Within.numberStart_iff (he : p.atEnd = false) : numberStart p' ↔ numberStart p := by
  obtain ⟨hX, _, w, hw, hu⟩ := h
  exact numberStart_ext hu (blank_head hw hX) he

theorem Within.find_eq : funcs.find? (matchesFunc p') = funcs.find? (matchesFunc p) := by
  obtain ⟨hX, _, w, hw, hu⟩ := h
  exact find_ext hu (blank_head hw hX)

theorem Within.scanNumber_within (he : p.atEnd = false) :
    Within A X (scanNumber p) (scanNumber p') ∧
      numberText p' (scanNumber p') = numberText p (scanNumber p) := by
  obtain ⟨hX, herr, w, hw, hu⟩ := h
  have hs := scanNumber_ext hu (blank_head hw hX) he
  refine ⟨⟨hX, ?_, w, hw, hs⟩, numberText_ext hu hs⟩
  rw [scanNumber_error, scanNumber_error, herr]

theorem Within.not_minus (hc : p.atEnd = true ∨ p.cur ≠ '-') :
    p'.atEnd = true ∨ p'.cur ≠ '-' := by
  cases he : p.atEnd
  · rw [h.cur_eq he]
    rcases hc with hc | hc
    · rw [he] at hc; cases hc
    · exact Or.inr hc
  · exact (h.cur_end he).imp id fun hk => closing_ne hk '-'

theorem Within.stops_addOp (hc : p.atEnd = true ∨ addOp p.cur = none) :
    p'.atEnd = true ∨ addOp p'.cur = none := by
  cases he : p.atEnd
  · rw [h.cur_eq he]
    rcases hc with hc | hc
    · rw [he] at hc; cases hc
    · exact Or.inr hc
  · exact (h.cur_end he).imp id fun hk => hk.not_addOp

theorem Within.stops_mulOp (hc : p.atEnd = true ∨ mulOp p.cur = none) :
    p'.atEnd = true ∨ mulOp p'.cur = none := by
  cases he : p.atEnd
  · rw [h.cur_eq he]
    rcases hc with hc | hc
    · rw [he] at hc; cases hc
    · exact Or.inr hc
  · exact (h.cur_end he).imp id fun hk => hk.not_mulOp

theorem Within.plain (hc : p.atEnd = true ∨ (p.cur ≠ '^' ∧ implicitStart p = false)) :
    p'.atEnd = true ∨ (p'.cur ≠ '^' ∧ implicitStart p' = false) := by
  cases he : p.atEnd
  · rw [h.cur_eq he, h.implicitStart_eq he]
    rcases hc with hc | hc
    · rw [he] at hc; cases hc
    · exact Or.inr hc
  · exact (h.cur_end he).imp id fun hk => ⟨closing_ne hk '^', implicitStart_closing hk⟩

end

theorem Step.no_null {c : Call A} {p q : ExpressionParser A} {n : Node A}
    (h : Step c p n q) (hq : q.m_error = "") (hc : ¬ c.seedNull) : n.isNull = false := by
  cases hn : n.isNull
  · rfl
  · rcases h.null_error hn with h1 | h1
    · exact absurd hq h1
    · exact absurd h1 hc

/-- A call that ends without an error takes the same path, returns the same tree and
reads the same characters when its text is followed by whitespace and then by nothing or by
a character at which an expression stops, such as a closing parenthesis, and more input. -/
theorem Step.within {c : Call A} {p q : ExpressionParser A} {n : Node A} (h : Step c p n q)
    (X : List Char) :
    q.m_error = "" → ∀ p', Within A X p p' → ∃ q', Step c p' n q' ∧ Within A X q q' := by
  induction h with
  | expression_fail _ _ he => intro hq; exact absurd hq he
  | expression_loop h1 hg h2 ih1 ih2 =>
    intro hq p' hw
    obtain ⟨q1, s1, w1⟩ := ih1 (h2.error_start hq) p' hw
    obtain ⟨q2, s2, w2⟩ := ih2 hq _ w1.skip
    exact ⟨q2, Step.expression_loop s1 (by rw [w1.error_eq]; exact hg) s2, w2⟩
  | expressionLoop_stop hc =>
    intro _ p' hw
    exact ⟨p', Step.expressionLoop_stop (hw.stops_addOp hc), hw⟩
  | expressionLoop_fail _ _ h1 hr =>
    intro hq
    exact absurd (h1.no_null hq (fun h => h)) (by simp [hr])
  | expressionLoop_next he ht h1 hr h2 ih1 ih2 =>
    intro hq p' hw
    obtain ⟨q1, s1, w1⟩ := ih1 (h2.error_start hq) _ (hw.adv_one he).skip
    obtain ⟨q2, s2, w2⟩ := ih2 hq _ w1.skip
    exact ⟨q2, Step.expressionLoop_next (hw.not_atEnd he) (by rw [hw.cur_eq he]; exact ht) s1 hr s2,
      w2⟩
  | term_fail _ _ he => intro hq; exact absurd hq he
  | term_loop h1 hg h2 ih1 ih2 =>
    intro hq p' hw
    obtain ⟨q1, s1, w1⟩ := ih1 (h2.error_start hq) p' hw
    obtain ⟨q2, s2, w2⟩ := ih2 hq _ w1.skip
    exact ⟨q2, Step.term_loop s1 (by rw [w1.error_eq]; exact hg) s2, w2⟩
  | termLoop_stop hc =>
    intro _ p' hw
    exact ⟨p', Step.termLoop_stop (hw.stops_mulOp hc), hw⟩
  | termLoop_fail _ _ h1 hr =>
    intro hq
    exact absurd (h1.no_null hq (fun h => h)) (by simp [hr])
  | termLoop_next he ht h1 hr h2 ih1 ih2 =>
    intro hq p' hw
    obtain ⟨q1, s1, w1⟩ := ih1 (h2.error_start hq) _ (hw.adv_one he).skip
    obtain ⟨q2, s2, w2⟩ := ih2 hq _ w1.skip
    exact ⟨q2, Step.termLoop_next (hw.not_atEnd he) (by rw [hw.cur_eq he]; exact ht) s1 hr s2, w2⟩
  | factor _ ih =>
    intro hq p' hw
    obtain ⟨q1, s1, w1⟩ := ih hq p' hw
    exact ⟨q1, Step.factor s1, w1⟩
  | power_fail _ _ he => intro hq; exact absurd hq he
  | power_pow_fail _ _ _ _ h2 hx =>
    intro hq
    exact absurd (h2.no_null hq (fun h => h)) (by simp [hx])
  | power_pow h1 hg he hc h2 hx ih1 ih2 =>
    intro hq p' hw
    obtain ⟨q1, s1, w1⟩ := ih1 (h2.error_start hq) p' hw
    obtain ⟨q2, s2, w2⟩ := ih2 hq _ (w1.skip.adv_one he).skip
    exact ⟨q2, Step.power_pow s1 (by rw [w1.error_eq]; exact hg) (w1.skip.not_atEnd he)
      (by rw [w1.skip.cur_eq he]; exact hc) s2 hx, w2⟩
  | power_implicit_fail _ _ _ _ _ h2 hr =>
    intro hq
    exact absurd (h2.no_null hq (fun h => h)) (by simp [hr])
  | power_implicit h1 hg he hc hi h2 hr ih1 ih2 =>
    intro hq p' hw
    obtain ⟨q1, s1, w1⟩ := ih1 (h2.error_start hq) p' hw
    obtain ⟨q2, s2, w2⟩ := ih2 hq _ w1.skip
    exact ⟨q2, Step.power_implicit s1 (by rw [w1.error_eq]; exact hg) (w1.skip.not_atEnd he)
      (by rw [w1.skip.cur_eq he]; exact hc) (by rw [w1.skip.implicitStart_eq he]; exact hi)
      s2 hr, w2⟩
  | power_plain h1 hg hc ih1 =>
    intro hq p' hw
    obtain ⟨q1, s1, w1⟩ := ih1 hq p' hw
    exact ⟨_, Step.power_plain s1 (by rw [w1.error_eq]; exact hg) (w1.skip.plain hc),
      w1.skip⟩
  | unary_neg_fail _ _ h1 hc =>
    intro hq
    exact absurd (h1.no_null hq (fun h => h)) (by simp [hc])
  | unary_neg he hc h1 hn ih1 =>
    intro hq p' hw
    obtain ⟨q1, s1, w1⟩ := ih1 hq _ (hw.skip.adv_one he)
    exact ⟨q1, Step.unary_neg (hw.skip.not_atEnd he) (by rw [hw.skip.cur_eq he]; exact hc) s1 hn,
      w1⟩
  | unary_primary hc h1 ih1 =>
    intro hq p' hw
    obtain ⟨q1, s1, w1⟩ := ih1 hq _ hw.skip
    exact ⟨q1, Step.unary_primary (hw.skip.not_minus hc) s1, w1⟩
  | function_noparen => intro hq; exact absurd hq (expected_paren_ne _)
  | function_arg_fail _ _ h1 ha =>
    intro hq
    exact absurd (h1.no_null hq (fun h => h)) (by simp [ha])
  | function_noclose => intro hq; exact absurd hq (by simp)
  | function_ok he hc h1 ha he2 hc2 hft ih1 =>
    intro hq p' hw
    obtain ⟨q1, s1, w1⟩ := ih1 hq _ (hw.skip.adv_one he)
    exact ⟨_, Step.function_ok (hw.skip.not_atEnd he) (by rw [hw.skip.cur_eq he]; exact hc) s1 ha
      (w1.skip.not_atEnd he2) (by rw [w1.skip.cur_eq he2]; exact hc2) hft, w1.skip.adv_one he2⟩
  | function_unknown => intro hq; exact absurd hq (unknown_function_ne _)
  | primary_end => intro hq; exact absurd hq (by simp)
  | primary_x he hx =>
    intro _ p' hw
    exact ⟨_, Step.primary_x (hw.skip.not_atEnd he) (by rw [hw.skip.cur_eq he]; exact hx),
      hw.skip.adv_one he⟩
  | primary_y he hx hy =>
    intro _ p' hw
    exact ⟨_, Step.primary_y (hw.skip.not_atEnd he) (by rw [hw.skip.cur_eq he]; exact hx)
      (by rw [hw.skip.cur_eq he]; exact hy), hw.skip.adv_one he⟩
  | primary_paren_fail _ _ h1 hi =>
    intro hq
    exact absurd (h1.no_null hq (fun h => h)) (by simp [hi])
  | primary_paren_noclose => intro hq; exact absurd hq (by simp)
  | primary_paren he hc h1 hi he2 hc2 ih1 =>
    intro hq p' hw
    obtain ⟨q1, s1, w1⟩ := ih1 hq _ (hw.skip.adv_one he)
    exact ⟨_, Step.primary_paren (hw.skip.not_atEnd he) (by rw [hw.skip.cur_eq he]; exact hc) s1 hi
      (w1.skip.not_atEnd he2) (by rw [w1.skip.cur_eq he2]; exact hc2), w1.skip.adv_one he2⟩
  | primary_number_invalid => intro hq; exact absurd hq (by simp)
  | primary_number he hx hy hp hnum htd =>
    intro _ p' hw
    have hs := hw.skip.scanNumber_within he
    exact ⟨_, Step.primary_number (hw.skip.not_atEnd he) (by rw [hw.skip.cur_eq he]; exact hx)
      (by rw [hw.skip.cur_eq he]; exact hy) (by rw [hw.skip.cur_eq he]; exact hp)
      ((hw.skip.numberStart_iff he).mpr hnum) (by rw [hs.2]; exact htd), hs.1⟩
  | primary_function he hx hy hp hnum hfind h1 ih1 =>
    intro hq p' hw
    obtain ⟨q1, s1, w1⟩ := ih1 hq _ (hw.skip.adv _ (find_funcs hfind).2)
    exact ⟨q1, Step.primary_function (hw.skip.not_atEnd he) (by rw [hw.skip.cur_eq he]; exact hx)
      (by rw [hw.skip.cur_eq he]; exact hy) (by rw [hw.skip.cur_eq he]; exact hp)
      (fun h => hnum ((hw.skip.numberStart_iff he).mp h)) (by rw [hw.skip.find_eq]; exact hfind)
      s1, w1⟩
  | primary_unexpected => intro hq; exact absurd hq (unexpected_character_ne _)

theorem skipSpaces_idem (p : ExpressionParser A) : p.skipSpaces.skipSpaces = p.skipSpaces := by
  obtain ⟨i, u, e, pa, ro⟩ := p
  simp only [skipSpaces_mk, List.dropWhile_idempotent]

theorem result_unary_skip (p : ExpressionParser A) :
    Call.unary.result p.skipSpaces = Call.unary.result p := by
  rw [result_unary p.skipSpaces, result_unary p, skipSpaces_idem]

theorem result_power_skip (p : ExpressionParser A) :
    Call.power.result p.skipSpaces = Call.power.result p := by
  rw [result_power p.skipSpaces, result_power p, result_unary_skip]

theorem result_term_skip (p : ExpressionParser A) :
    Call.term.result p.skipSpaces = Call.term.result p := by
  rw [result_term p.skipSpaces, result_term p, result_factor, result_factor, result_power_skip]

/-- Whitespace in front of an expression is skipped: `parseExpression` returns the same
on an engine and on that engine after `skipSpaces()`. -/
theorem result_expression_skip (p : ExpressionParser A) :
    Call.expression.result p.skipSpaces = Call.expression.result p := by
  rw [result_expression p.skipSpaces, result_expression p, result_term_skip]

theorem Step.of_skip {p p' q : ExpressionParser A} {n : Node A}
    (h : Step .expression p n q) (hp : p'.skipSpaces = p.skipSpaces) :
    Step .expression p' n q := by
  rw [step_iff_result] at h ⊢
  rw [← result_expression_skip, hp, result_expression_skip, h]

/-- The whitespace that `trimmed` removes. -/
theorem trimmed_decomp (s : List Char) :
    ∃ w1 w2, Blank A w1 ∧ Blank A w2 ∧ s = w1 ++ (trimmed A s ++ w2) := by
  have key : ∀ d : List Char, ∃ w2, Blank A w2 ∧ d = List.rdropWhile (isSpace A) d ++ w2 := by
    intro d
    induction d using List.reverseRecOn with
    | nil => exact ⟨[], by simp [Blank], by simp⟩
    | append_singleton l x ih =>
      cases hx : isSpace A x
      · refine ⟨[], by simp [Blank], ?_⟩
        rw [List.rdropWhile_concat_neg _ _ _ (by simp [hx])]
        simp
      · obtain ⟨w, hw, e⟩ := ih
        refine ⟨w ++ [x], ?_, ?_⟩
        · intro c hc
          rcases List.mem_append.mp hc with hc | hc
          · exact hw c hc
          · rw [List.mem_singleton.mp hc]; exact hx
        · rw [List.rdropWhile_concat_pos _ _ _ hx, ← List.append_assoc, ← e]
  obtain ⟨w2, hw2, e2⟩ := key (s.dropWhile (isSpace A))
  refine ⟨s.takeWhile (isSpace A), w2, ?_, hw2, ?_⟩
  · intro c hc
    exact List.mem_takeWhile_imp hc
  · unfold trimmed
    rw [← e2, List.takeWhile_append_dropWhile]

theorem trimmed_no_backslash {s : List Char} (h : '\\' ∉ s) : '\\' ∉ trimmed A s := by
  intro hm
  obtain ⟨w1, w2, _, _, e⟩ := trimmed_decomp (A := A) s
  apply h
  rw [e]
  exact List.mem_append_right _ (List.mem_append_left _ hm)

/-- A successful `parse`, taken apart: `parseExpression` ran on the preprocessed text
without an error, returned the tree that `parse` keeps, and left only whitespace unread. -/
theorem parse_true_inv {e e1 : ExpressionParser A} {text : String}
    (h : parse e text = some (true, e1)) :
    ∃ q, Step .expression (parseStart e text) e1.m_root q ∧ q.m_error = ""
      ∧ q.skipSpaces.atEnd = true := by
  rw [parse_eq] at h
  have hs := Step.of_result .expression (parseStart e text)
  generalize Call.expression.result (parseStart e text) = r at hs h
  obtain ⟨n, q⟩ := r
  by_cases hb : q.m_error = ""
  · cases ha : q.skipSpaces.atEnd
    · rw [parseFinish_trailing ha hb] at h
      simp at h
    · rw [parseFinish_ok ha hb] at h
      simp only [Option.some.injEq, Prod.mk.injEq, true_and] at h
      subst h
      exact ⟨q, hs, hb, ha⟩
  · rw [parseFinish_error hb] at h
    simp at h

/-- The other direction: `parse` succeeds when `parseExpression` ends without an error
with only whitespace unread, and keeps the tree. -/
theorem parse_of_step_ok {e : ExpressionParser A} {text : String} {root : Node A}
    {q : ExpressionParser A} (hs : Step .expression (parseStart e text) root q)
    (he : q.m_error = "") (hr : q.skipSpaces.atEnd = true) :
    ∃ e', parse e text = some (true, e') ∧ e'.m_root = root ∧ e'.m_error = ""
      ∧ e'.m_parsed = true := by
  rw [parse_eq, hs.result, parseFinish_ok hr he]
  exact ⟨_, rfl, rfl, he, rfl⟩

theorem skipSpaces_of_nil {p : ExpressionParser A} (h : p.unread = []) : p.skipSpaces = p := by
  obtain ⟨i, u, e, pa, ro⟩ := p
  simp only at h
  subst h
  rfl

/-- From `parseUnary` to `parseExpression` when nothing is left to read: none of the loops
and neither branch of `parsePower` does anything. -/
theorem rule_expression_of_unary {p q : ExpressionParser A} {n : Node A}
    (hu : Step .unary p n q) (hn : n.isNull = false) (hq : q.unread = []) :
    Step .expression p n q := by
  have hs := skipSpaces_of_nil hq
  have he : q.atEnd = true := by simp [ExpressionParser.atEnd, hq]
  have hg : ¬ (n.isNull = true ∧ q.m_error ≠ "") := by simp [hn]
  have h1 : Step .power p n q.skipSpaces := Step.power_plain hu hg (Or.inl (by rw [hs]; exact he))
  rw [hs] at h1
  have h2 : Step .term p n q := by
    have := Step.term_loop (Step.factor h1) hg
      (Step.termLoop_stop (Or.inl (by rw [hs]; exact he)))
    rwa [hs] at this
  have := Step.expression_loop h2 hg (Step.expressionLoop_stop (Or.inl (by rw [hs]; exact he)))
  rwa [hs] at this

/-- A function name, in any spelling, applied to a parenthesised text that parses on its
own: `parse` succeeds and the tree is the function node over the tree of the text. -/
theorem parse_function_call {name : String} (hn : name ∈ funcs) {t : NodeType}
    (ht : funcType name = some t) {v inner : List Char} (hv : Spelling v name)
    (hb : '\\' ∉ inner) {e0 e1 : ExpressionParser A}
    (hi : parse e0 (String.mk inner) = some (true, e1)) (e : ExpressionParser A) :
    ∃ e', parse e (String.mk (v ++ '(' :: (inner ++ [')']))) = some (true, e') ∧
      e'.m_root = .unary t e1.m_root ∧ e'.m_error = "" ∧ e'.m_parsed = true := by
  obtain ⟨q0, s0, he0, ha0⟩ := parse_true_inv hi
  have hI : normalize A inner = trimmed A inner :=
    normalize_of_no_backslash (trimmed_no_backslash hb)
  rw [parseStart_mk] at s0
  simp only [hI] at s0
  obtain ⟨w1, w2, hw1, hw2, ei⟩ := trimmed_decomp (A := A) inner
  have hlet := hv.letters (A := A) hn
  -- the preprocessing leaves the whole text alone
  have hnorm : normalize A (v ++ '(' :: (inner ++ [')'])) = v ++ '(' :: (inner ++ [')']) := by
    refine normalize_plain ?_ ?_ ?_
    · obtain ⟨k, t, rfl, _⟩ := hv.first hn
      intro k' hk'
      simp only [List.cons_append, List.head?_cons, Option.some.injEq] at hk'
      subst hk'
      exact (hlet _ (List.mem_cons_self _ _)).1
    · intro k hk
      have e3 : v ++ '(' :: (inner ++ [')']) = (v ++ '(' :: inner) ++ [')'] := by simp
      rw [e3, List.getLast?_concat] at hk
      rw [← Option.some.inj hk]
      simp [isSpace]
    · intro h
      simp only [List.mem_append, List.mem_cons, List.mem_singleton, List.not_mem_nil,
        or_false] at h
      rcases h with h | h | h | h
      · exact (hlet _ h).2.2.2.2.2.2.1 rfl
      · exact absurd h (by decide)
      · exact hb h
      · exact absurd h (by decide)
  -- the inner derivation, with the closing parenthesis behind its text
  have hW : Within A [')'] (⟨trimmed A inner, trimmed A inner, "", false, .nullptr⟩ :
      ExpressionParser A)
      ⟨v ++ '(' :: (inner ++ [')']), trimmed A inner ++ (w2 ++ [')']), "", false, .nullptr⟩ :=
    ⟨stopText_cons terminator_paren [], rfl, w2, hw2, rfl⟩
  obtain ⟨q', s', wq⟩ := s0.within [')'] he0 _ hW
  have s'' : Step .expression (⟨v ++ '(' :: (inner ++ [')']), inner ++ [')'], "", false,
      .nullptr⟩ : ExpressionParser A) e1.m_root q' := by
    refine s'.of_skip ?_
    rw [skipSpaces_mk, skipSpaces_mk]
    have e4 : inner ++ [')'] = w1 ++ (trimmed A inner ++ (w2 ++ [')'])) := by
      conv_lhs => rw [ei]
      simp
    rw [e4, hw1.dropWhile]
  have hnn : e1.m_root.isNull = false := s0.no_null he0 (fun h => h)
  -- where the inner derivation ends
  have hq0 : ∀ c ∈ q0.unread, isSpace A c = true := by
    have : q0.unread.dropWhile (isSpace A) = [] := by
      simpa [ExpressionParser.atEnd] using ha0
    exact fun c hc => List.dropWhile_eq_nil_iff.mp this c hc
  obtain ⟨_, herr, w, hw, hu⟩ := wq
  have hskip : q'.skipSpaces.unread = [')'] := by
    rw [skipSpaces_unread, hu, dropWhile_all_append hq0, dropWhile_all_append hw]
    simp [List.dropWhile, isSpace]
  have hf : Step (.function name) (⟨v ++ '(' :: (inner ++ [')']), '(' :: (inner ++ [')']), "",
      false, .nullptr⟩ : ExpressionParser A) (.unary t e1.m_root) (q'.skipSpaces.advance 1) := by
    have hp : (⟨v ++ '(' :: (inner ++ [')']), '(' :: (inner ++ [')']), "", false, .nullptr⟩ :
        ExpressionParser A).skipSpaces
        = ⟨v ++ '(' :: (inner ++ [')']), '(' :: (inner ++ [')']), "", false, .nullptr⟩ := by
      rw [skipSpaces_mk, dropWhile_head (by simp [isSpace])]
    refine Step.function_ok ?_ ?_ ?_ hnn ?_ ?_ ht
    · rw [hp]; rfl
    · rw [hp]; rfl
    · rw [hp]; exact s''
    · unfold ExpressionParser.atEnd
      rw [hskip]
      rfl
    · unfold ExpressionParser.cur
      rw [hskip]
      rfl
  have hu' := rule_unary_function hn hv hf
  have hend : (q'.skipSpaces.advance 1).unread = [] := by
    rw [advance_unread, hskip]
    rfl
  have hx := rule_expression_of_unary hu' (unary_isNull _ _) hend
  refine @parse_of_step_ok A e (String.mk (v ++ '(' :: (inner ++ [')'])))
    (.unary t e1.m_root) (q'.skipSpaces.advance 1) ?_ ?_ ?_
  · rw [parseStart_mk]
    simp only [hnorm]
    exact hx
  · rw [advance_error, skipSpaces_error, herr, he0]
  · rw [skipSpaces_of_nil hend]
    unfold ExpressionParser.atEnd
    rw [hend]
    rfl

theorem parse_SIN_0 (e : ExpressionParser A) :
    parse e "SIN(0)" = some (true, ⟨['S', 'I', 'N', '(', '0', ')'], [], "", true,
      .unary .Sin (.number (A.ofInt 0))⟩) := by
  simp [parse_eq, parseStart_mk, parseFinish, normalize, trimmed, replace, replaceFrom,
    List.rdropWhile, result_expression, result_expressionLoop, result_term, result_termLoop,
    result_factor, result_power, result_unary, result_function, result_primary,
    skipSpaces_mk, advance_mk, setError_mk, atEnd_mk, cur_mk, peek_mk, skipNumber_mk,
    isSpace, isDigit, implicitStart, numberStart, scanNumber, numberText, toDouble,
    funcs, matchesFunc, startsWithCI, foldCase, funcType,
    length_sin, length_cos, length_tan, length_sqrt, length_exp, length_log,
    Node.isNull, Node.binary, Node.number, Node.leaf, Node.unary]

theorem parse_space_x_add_1 (e : ExpressionParser A) :
    parse e " x+1" = some (true, ⟨['x', '+', '1'], [], "", true,
      .binary .Add (.leaf A .Variable) (.number (A.ofInt 1))⟩) := by
  simp [parse_eq, parseStart_mk, parseFinish, normalize, trimmed, replace, replaceFrom,
    List.rdropWhile, result_expression, result_expressionLoop, result_term, result_termLoop,
    result_factor, result_power, result_unary, result_function, result_primary,
    skipSpaces_mk, advance_mk, setError_mk, atEnd_mk, cur_mk, peek_mk, skipNumber_mk,
    isSpace, isDigit, implicitStart, numberStart, scanNumber, numberText, toDouble,
    Node.isNull, Node.binary, Node.number, Node.leaf, Node.unary]

/-- The node type that `parseFunction` gives each of the six names. -/
theorem funcType_of_mem {name : String} (hn : name ∈ funcs) :
    ∃ t, funcType name = some t ∧ (name, t) ∈ [("sin", NodeType.Sin), ("cos", NodeType.Cos),
      ("tan", NodeType.Tan), ("sqrt", NodeType.Sqrt), ("exp", NodeType.Exp),
      ("log", NodeType.Log)] := by
  simp only [funcs, List.mem_cons, List.mem_singleton, List.not_mem_nil, or_false] at hn
  rcases hn with rfl | rfl | rfl | rfl | rfl | rfl
  · exact ⟨.Sin, by decide, by decide⟩
  · exact ⟨.Cos, by decide, by decide⟩
  · exact ⟨.Tan, by decide, by decide⟩
  · exact ⟨.Sqrt, by decide, by decide⟩
  · exact ⟨.Exp, by decide, by decide⟩
  · exact ⟨.Log, by decide, by decide⟩

/-- C9: function names are recognised in any letter case.  For each of the six names,
spelled in any mix of upper and lower case and followed by a parenthesised text that is
itself a valid expression (`parse` accepts it; no backslash in it), `parse` succeeds and
the tree is the node of that function over the tree of the inner expression.
`parse("SIN(0)")` builds `Sin(0)` and, on a platform where `sin 0 = 0`, `eval` returns 0
for every `x` and `y`. -/
theorem C9_function_names_case_insensitive (hA : A.Exact) {name : String}
    (hn : name ∈ funcs) {v inner : List Char} (hv : Spelling v name) (hb : '\\' ∉ inner)
    {e0 e1 : ExpressionParser A} (hi : parse e0 (String.mk inner) = some (true, e1))
    (e : ExpressionParser A) (x y : A.Double) :
    (∃ t, (name, t) ∈ [("sin", NodeType.Sin), ("cos", NodeType.Cos), ("tan", NodeType.Tan),
        ("sqrt", NodeType.Sqrt), ("exp", NodeType.Exp), ("log", NodeType.Log)] ∧
      ∃ e', parse e (String.mk (v ++ ['('] ++ inner ++ [')'])) = some (true, e') ∧
        e'.m_root = .unary t e1.m_root ∧ e'.isValid = true ∧ e'.errorString = "") ∧
    (∃ e', parse e "SIN(0)" = some (true, e') ∧
      e'.m_root = .unary .Sin (.number (A.ofInt 0)) ∧
      eval e' x y = A.ofInt 0 ∧ eval1 e' x = A.ofInt 0) := by
  obtain ⟨t, ht, hmem⟩ := funcType_of_mem hn
  obtain ⟨e', hp, hroot, herr, hpa⟩ := parse_function_call hn ht hv hb hi e
  have e3 : v ++ ['('] ++ inner ++ [')'] = v ++ '(' :: (inner ++ [')']) := by simp
  refine ⟨⟨t, hmem, e', by rw [e3]; exact hp, hroot, hpa, herr⟩,
    ⟨_, parse_SIN_0 e, rfl, ?_, ?_⟩⟩
  · simp [eval, evalNode, Node.isNull, Node.unary, Node.number, hA.sin_zero]
  · simp [eval1, eval, evalNode, Node.isNull, Node.unary, Node.number, hA.sin_zero]

/-- Witness of C9 on the integer platform: `SqRt( x+1)`. -/
theorem C9_function_names_case_insensitive_witness :
    intPlatform.Exact ∧ "sqrt" ∈ funcs ∧ Spelling ['S', 'q', 'R', 't'] "sqrt" ∧
    '\\' ∉ [' ', 'x', '+', '1'] ∧
    parse (fresh intPlatform) (String.mk [' ', 'x', '+', '1']) =
      some (true, ⟨['x', '+', '1'], [], "", true,
        .binary .Add (.leaf intPlatform .Variable) (.number (intPlatform.ofInt 1))⟩) ∧
    ((∃ t, (("sqrt" : String), t) ∈ [("sin", NodeType.Sin), ("cos", NodeType.Cos),
        ("tan", NodeType.Tan), ("sqrt", NodeType.Sqrt), ("exp", NodeType.Exp),
        ("log", NodeType.Log)] ∧
      ∃ e', parse (fresh intPlatform)
          (String.mk (['S', 'q', 'R', 't'] ++ ['('] ++ [' ', 'x', '+', '1'] ++ [')']))
          = some (true, e') ∧
        e'.m_root = .unary t
          (.binary .Add (.leaf intPlatform .Variable) (.number (intPlatform.ofInt 1))) ∧
        e'.isValid = true ∧ e'.errorString = "") ∧
    (∃ e', parse (fresh intPlatform) "SIN(0)" = some (true, e') ∧
      e'.m_root = .unary .Sin (.number (intPlatform.ofInt 0)) ∧
      eval e' (intPlatform.ofInt 7) (intPlatform.ofInt 9) = intPlatform.ofInt 0 ∧
      eval1 e' (intPlatform.ofInt 7) = intPlatform.ofInt 0)) :=
  ⟨intPlatform_exact, by decide, by simp [Spelling, Char.toUpper], by simp,
    parse_space_x_add_1 _,
    C9_function_names_case_insensitive intPlatform_exact (by decide)
      (by simp [Spelling, Char.toUpper]) (by simp) (parse_space_x_add_1 (fresh intPlatform))
      (fresh intPlatform) (intPlatform.ofInt 7) (intPlatform.ofInt 9)⟩

theorem unexpected_amp :
    "Unexpected character '" ++ String.singleton '&' ++ "'" = "Unexpected character '&'" := by
  decide

theorem unexpected_plus :
    "Unexpected character '" ++ String.singleton '+' ++ "'" = "Unexpected character '+'" := by
  decide

theorem parse_1_amp_2 (e : ExpressionParser A) :
    parse e "1 & 2" = some (false, ⟨['1', ' ', '&', ' ', '2'], ['&', ' ', '2'], "Unexpected character at end", false, .nullptr⟩) := by
  simp [parse_eq, parseStart_mk, parseFinish, normalize, trimmed, replace, replaceFrom,
    List.rdropWhile, result_expression, result_expressionLoop, result_term, result_termLoop,
    result_factor, result_power, result_unary, result_function, result_primary,
    skipSpaces_mk, advance_mk, setError_mk, atEnd_mk, cur_mk, peek_mk, skipNumber_mk,
    isSpace, isDigit, implicitStart, numberStart, scanNumber, numberText, toDouble,
    funcs, matchesFunc, startsWithCI, foldCase, funcType,
    length_sin, length_cos, length_tan, length_sqrt, length_exp, length_log,
    Node.isNull, Node.binary, Node.number, Node.leaf, Node.unary, unexpected_character_ne]

theorem parse_1_add_2_close (e : ExpressionParser A) :
    parse e "1+2)" = some (false, ⟨['1', '+', '2', ')'], [')'], "Unexpected character at end", false, .nullptr⟩) := by
  simp [parse_eq, parseStart_mk, parseFinish, normalize, trimmed, replace, replaceFrom,
    List.rdropWhile, result_expression, result_expressionLoop, result_term, result_termLoop,
    result_factor, result_power, result_unary, result_function, result_primary,
    skipSpaces_mk, advance_mk, setError_mk, atEnd_mk, cur_mk, peek_mk, skipNumber_mk,
    isSpace, isDigit, implicitStart, numberStart, scanNumber, numberText, toDouble,
    funcs, matchesFunc, startsWithCI, foldCase, funcType,
    length_sin, length_cos, length_tan, length_sqrt, length_exp, length_log,
    Node.isNull, Node.binary, Node.number, Node.leaf, Node.unary, unexpected_character_ne]

theorem parse_amp (e : ExpressionParser A) :
    parse e "&" = some (false, ⟨['&'], ['&'], "Unexpected character '" ++ String.singleton '&' ++ "'", false, .nullptr⟩) := by
  simp [parse_eq, parseStart_mk, parseFinish, normalize, trimmed, replace, replaceFrom,
    List.rdropWhile, result_expression, result_expressionLoop, result_term, result_termLoop,
    result_factor, result_power, result_unary, result_function, result_primary,
    skipSpaces_mk, advance_mk, setError_mk, atEnd_mk, cur_mk, peek_mk, skipNumber_mk,
    isSpace, isDigit, implicitStart, numberStart, scanNumber, numberText, toDouble,
    funcs, matchesFunc, startsWithCI, foldCase, funcType,
    length_sin, length_cos, length_tan, length_sqrt, length_exp, length_log,
    Node.isNull, Node.binary, Node.number, Node.leaf, Node.unary, unexpected_character_ne]

theorem parse_1_add_amp_2 (e : ExpressionParser A) :
    parse e "1 + & 2" = some (false, ⟨['1', ' ', '+', ' ', '&', ' ', '2'], ['&', ' ', '2'], "Unexpected character '" ++ String.singleton '&' ++ "'", false, .nullptr⟩) := by
  simp [parse_eq, parseStart_mk, parseFinish, normalize, trimmed, replace, replaceFrom,
    List.rdropWhile, result_expression, result_expressionLoop, result_term, result_termLoop,
    result_factor, result_power, result_unary, result_function, result_primary,
    skipSpaces_mk, advance_mk, setError_mk, atEnd_mk, cur_mk, peek_mk, skipNumber_mk,
    isSpace, isDigit, implicitStart, numberStart, scanNumber, numberText, toDouble,
    funcs, matchesFunc, startsWithCI, foldCase, funcType,
    length_sin, length_cos, length_tan, length_sqrt, length_exp, length_log,
    Node.isNull, Node.binary, Node.number, Node.leaf, Node.unary, unexpected_character_ne]

theorem parse_2_open_plus (e : ExpressionParser A) :
    parse e "2(+" = some (false, ⟨['2', '(', '+'], [], "Unexpected end of expression", false, .nullptr⟩) := by
  simp [parse_eq, parseStart_mk, parseFinish, normalize, trimmed, replace, replaceFrom,
    List.rdropWhile, result_expression, result_expressionLoop, result_term, result_termLoop,
    result_factor, result_power, result_unary, result_function, result_primary,
    skipSpaces_mk, advance_mk, setError_mk, atEnd_mk, cur_mk, peek_mk, skipNumber_mk,
    isSpace, isDigit, implicitStart, numberStart, scanNumber, numberText, toDouble,
    funcs, matchesFunc, startsWithCI, foldCase, funcType,
    length_sin, length_cos, length_tan, length_sqrt, length_exp, length_log,
    Node.isNull, Node.binary, Node.number, Node.leaf, Node.unary, unexpected_character_ne]

theorem parse_empty (e : ExpressionParser A) :
    parse e "" = some (false, ⟨[], [], "Unexpected end of expression", false, .nullptr⟩) := by
  simp [parse_eq, parseStart_mk, parseFinish, normalize, trimmed, replace, replaceFrom,
    List.rdropWhile, result_expression, result_expressionLoop, result_term, result_termLoop,
    result_factor, result_power, result_unary, result_function, result_primary,
    skipSpaces_mk, advance_mk, setError_mk, atEnd_mk, cur_mk, peek_mk, skipNumber_mk,
    isSpace, isDigit, implicitStart, numberStart, scanNumber, numberText, toDouble,
    funcs, matchesFunc, startsWithCI, foldCase, funcType,
    length_sin, length_cos, length_tan, length_sqrt, length_exp, length_log,
    Node.isNull, Node.binary, Node.number, Node.leaf, Node.unary, unexpected_character_ne]

theorem parse_1_plus (e : ExpressionParser A) :
    parse e "1+" = some (false, ⟨['1', '+'], [], "Unexpected end of expression", false, .nullptr⟩) := by
  simp [parse_eq, parseStart_mk, parseFinish, normalize, trimmed, replace, replaceFrom,
    List.rdropWhile, result_expression, result_expressionLoop, result_term, result_termLoop,
    result_factor, result_power, result_unary, result_function, result_primary,
    skipSpaces_mk, advance_mk, setError_mk, atEnd_mk, cur_mk, peek_mk, skipNumber_mk,
    isSpace, isDigit, implicitStart, numberStart, scanNumber, numberText, toDouble,
    funcs, matchesFunc, startsWithCI, foldCase, funcType,
    length_sin, length_cos, length_tan, length_sqrt, length_exp, length_log,
    Node.isNull, Node.binary, Node.number, Node.leaf, Node.unary, unexpected_character_ne]

theorem parse_open_2_open_minus (e : ExpressionParser A) :
    parse e "(2(-" = some (false, ⟨['(', '2', '(', '-'], [], "Expected ')'", false, .nullptr⟩) := by
  simp [parse_eq, parseStart_mk, parseFinish, normalize, trimmed, replace, replaceFrom,
    List.rdropWhile, result_expression, result_expressionLoop, result_term, result_termLoop,
    result_factor, result_power, result_unary, result_function, result_primary,
    skipSpaces_mk, advance_mk, setError_mk, atEnd_mk, cur_mk, peek_mk, skipNumber_mk,
    isSpace, isDigit, implicitStart, numberStart, scanNumber, numberText, toDouble,
    funcs, matchesFunc, startsWithCI, foldCase, funcType,
    length_sin, length_cos, length_tan, length_sqrt, length_exp, length_log,
    Node.isNull, Node.binary, Node.number, Node.leaf, Node.unary, unexpected_character_ne]

theorem power_2_open_plus :
    Call.power.result (⟨['2', '(', '+'], ['2', '(', '+'], "", false, .nullptr⟩ :
        ExpressionParser A) =
      (.number (A.ofInt 2), ⟨['2', '(', '+'], ['+'],
        "Unexpected character '" ++ String.singleton '+' ++ "'", false, .nullptr⟩) := by
  simp [result_expression, result_expressionLoop, result_term, result_termLoop,
    result_factor, result_power, result_unary, result_function, result_primary,
    skipSpaces_mk, advance_mk, setError_mk, atEnd_mk, cur_mk, peek_mk, skipNumber_mk,
    isSpace, isDigit, implicitStart, numberStart, scanNumber, numberText, toDouble,
    funcs, matchesFunc, startsWithCI, foldCase, funcType,
    length_sin, length_cos, length_tan, length_sqrt, length_exp, length_log,
    Node.isNull, Node.binary, Node.number, Node.leaf, Node.unary, unexpected_character_ne]

/-- `parse` reads its argument only through the preprocessed text. -/
theorem parse_congr (e : ExpressionParser A) {t1 t2 : String}
    (h : normalize A t1.data = normalize A t2.data) : parse e t1 = parse e t2 := by
  rw [parse_eq, parse_eq, parseStart_mk, parseStart_mk, h]

theorem normalize_blank {ws : List Char} (hw : Blank A ws) : normalize A ws = [] := by
  have h1 : List.dropWhile (isSpace A) ws = [] := by
    simpa using dropWhile_all_append hw []
  have ht : trimmed A ws = [] := by
    unfold trimmed
    rw [h1]
    rfl
  rw [normalize_of_no_backslash (by rw [ht]; simp), ht]

/-- A text of whitespace only is rejected like the empty text. -/
theorem parse_blank (e : ExpressionParser A) {text : String} (hw : Blank A text.data) :
    parse e text = some (false, ⟨[], [], "Unexpected end of expression", false, .nullptr⟩) := by
  rw [← parse_empty e]
  refine parse_congr e ?_
  rw [normalize_blank hw]
  exact (normalize_blank (A := A) (show Blank A [] by simp [Blank])).symm

/-- C12 on the code: the error is not latched.  On `2(+` the first error,
`Unexpected character '+'`, is raised inside the implicit right operand `(+`; `parsePower`
then returns its base `2` instead of null, with the error left set and the cursor at `+`;
`parseExpression` goes on at `+`, and the error raised at the end of the input replaces
the first one, so `parse` reports `Unexpected end of expression`. -/
theorem C12_first_error_overwritten (e : ExpressionParser A) :
    Call.power.result (⟨['2', '(', '+'], ['2', '(', '+'], "", false, .nullptr⟩ :
        ExpressionParser A) =
      (.number (A.ofInt 2), ⟨['2', '(', '+'], ['+'], "Unexpected character '+'", false,
        .nullptr⟩) ∧
    ∃ e', parse e "2(+" = some (false, e') ∧
      e'.errorString = "Unexpected end of expression" ∧
      e'.errorString ≠ "Unexpected character '+'" := by
  refine ⟨?_, _, parse_2_open_plus e, rfl,
    (by decide : "Unexpected end of expression" ≠ "Unexpected character '+'")⟩
  rw [power_2_open_plus, unexpected_plus]

/-- C13, as stated, fails: on the integer platform `parse("1 & 2")` fails with
`Unexpected character at end`, which is the error of `parse("1+2)")` and not the error
that names the character `&`. -/
theorem C13_counterexample :
    ∃ e1 e2, parse (fresh intPlatform) "1 & 2" = some (false, e1) ∧
      parse (fresh intPlatform) "1+2)" = some (false, e2) ∧
      e1.errorString = "Unexpected character at end" ∧
      e1.errorString ≠ "Unexpected character '&'" ∧
      e1.errorString = e2.errorString :=
  ⟨_, _, parse_1_amp_2 _, parse_1_add_2_close _, rfl, by decide, rfl⟩

/-- C13, amended: `parse("1 & 2")` fails with the trailing-characters error
`Unexpected character at end`, the same error as `parse("1+2)")`: the `&` follows the
complete expression `1`.  The error `Unexpected character '&'` is the one raised where a
primary is expected, as in `&` and in `1 + & 2`. -/
theorem C13_ampersand_after_operand_is_trailing (e : ExpressionParser A) :
    (∃ e', parse e "1 & 2" = some (false, e') ∧
      e'.errorString = "Unexpected character at end" ∧ e'.unread = ['&', ' ', '2'] ∧
      e'.isValid = false) ∧
    (∃ e', parse e "1+2)" = some (false, e') ∧
      e'.errorString = "Unexpected character at end" ∧ e'.unread = [')'] ∧
      e'.isValid = false) ∧
    (∃ e', parse e "&" = some (false, e') ∧ e'.errorString = "Unexpected character '&'" ∧
      e'.isValid = false) ∧
    (∃ e', parse e "1 + & 2" = some (false, e') ∧
      e'.errorString = "Unexpected character '&'" ∧ e'.isValid = false) :=
  ⟨⟨_, parse_1_amp_2 e, rfl, rfl, rfl⟩, ⟨_, parse_1_add_2_close e, rfl, rfl, rfl⟩,
    ⟨_, parse_amp e, unexpected_amp, rfl⟩, ⟨_, parse_1_add_amp_2 e, unexpected_amp, rfl⟩⟩

/-- C16 on the code: for the empty text and for `1+` the reported error is
`Unexpected end of expression`, but on `(2(-` it is not.  There the input ends after `-`,
where a primary is expected, and `parsePrimary` raises `Unexpected end of expression`; the
failed operand `(-` is an implicit right operand, `parsePower` returns its base `2` with
the error left set, and the enclosing parenthesis then replaces it by `Expected ')'`. -/
theorem C16_end_of_input_error_overwritten (e : ExpressionParser A) :
    (∃ e', parse e "" = some (false, e') ∧ e'.errorString = "Unexpected end of expression") ∧
    (∃ e', parse e "1+" = some (false, e') ∧
      e'.errorString = "Unexpected end of expression") ∧
    Call.primary.result (⟨['(', '2', '(', '-'], [], "", false, .nullptr⟩ : ExpressionParser A) =
      (.nullptr, ⟨['(', '2', '(', '-'], [], "Unexpected end of expression", false,
        .nullptr⟩) ∧
    ∃ e', parse e "(2(-" = some (false, e') ∧ e'.errorString = "Expected ')'" ∧
      e'.errorString ≠ "Unexpected end of expression" :=
  ⟨⟨_, parse_empty e, rfl⟩, ⟨_, parse_1_plus e, rfl⟩,
    by simp [result_primary, skipSpaces_mk, atEnd_mk, setError_mk],
    ⟨_, parse_open_2_open_minus e, rfl,
      (by decide : "Expected ')'" ≠ "Unexpected end of expression")⟩⟩

theorem trimmed_macro_text (m : List Char) (r : List Char) :
    trimmed A ('\\' :: (m ++ '(' :: (r ++ [')']))) = '\\' :: (m ++ '(' :: (r ++ [')'])) := by
  have e1 : '\\' :: (m ++ '(' :: (r ++ [')'])) = '\\' :: ((m ++ '(' :: r) ++ [')']) := by simp
  rw [e1]
  exact trimmed_of_ends (by simp [isSpace]) (by simp [isSpace])

/-- The preprocessing replaces a macro at the head of the text by its name and leaves
the rest, which has no backslash, alone. -/
theorem normalize_macro_head {m c : String} (hm : (m, c) ∈ macros) {r : List Char}
    (hr : '\\' ∉ r) :
    normalize A (m.data ++ '(' :: (r ++ [')'])) = c.data ++ '(' :: (r ++ [')']) := by
  have hR : '\\' ∉ '(' :: (r ++ [')']) := by
    simp only [List.mem_cons, List.mem_append, List.mem_singleton, List.not_mem_nil, or_false]
    rintro (h | h | h)
    · exact absurd h (by decide)
    · exact hr h
    · exact absurd h (by decide)
  have hrep : ∀ ps after : List Char,
      replaceFrom ('\\' :: ps) after 0 ('(' :: (r ++ [')'])) = '(' :: (r ++ [')']) :=
    fun ps after => replaceFrom_no_backslash ps after _ hR
  have hR2 : '\\' ∉ r ++ [')'] := fun h => hR (List.mem_cons_of_mem _ h)
  have hrep2 : ∀ ps after : List Char,
      replaceFrom ('\\' :: ps) after 0 (r ++ [')']) = r ++ [')'] :=
    fun ps after => replaceFrom_no_backslash ps after _ hR2
  simp only [macros, List.mem_cons, List.mem_singleton, List.not_mem_nil, or_false,
    Prod.mk.injEq] at hm
  rcases hm with ⟨rfl, rfl⟩ | ⟨rfl, rfl⟩ | ⟨rfl, rfl⟩ | ⟨rfl, rfl⟩ | ⟨rfl, rfl⟩ | ⟨rfl, rfl⟩ |
    ⟨rfl, rfl⟩
  · unfold normalize
    rw [show ("\\sin" : String).data = '\\' :: ['s', 'i', 'n'] from rfl, List.cons_append,
      trimmed_macro_text]
    simp [replace, replaceFrom, List.isPrefixOf, hrep2]
  · unfold normalize
    rw [show ("\\cos" : String).data = '\\' :: ['c', 'o', 's'] from rfl, List.cons_append,
      trimmed_macro_text]
    simp [replace, replaceFrom, List.isPrefixOf, hrep2]
  · unfold normalize
    rw [show ("\\tan" : String).data = '\\' :: ['t', 'a', 'n'] from rfl, List.cons_append,
      trimmed_macro_text]
    simp [replace, replaceFrom, List.isPrefixOf, hrep2]
  · unfold normalize
    rw [show ("\\sqrt" : String).data = '\\' :: ['s', 'q', 'r', 't'] from rfl, List.cons_append,
      trimmed_macro_text]
    simp [replace, replaceFrom, List.isPrefixOf, hrep2]
  · unfold normalize
    rw [show ("\\exp" : String).data = '\\' :: ['e', 'x', 'p'] from rfl, List.cons_append,
      trimmed_macro_text]
    simp [replace, replaceFrom, List.isPrefixOf, hrep2]
  · unfold normalize
    rw [show ("\\log" : String).data = '\\' :: ['l', 'o', 'g'] from rfl, List.cons_append,
      trimmed_macro_text]
    simp [replace, replaceFrom, List.isPrefixOf, hrep2]
  · unfold normalize
    rw [show ("\\ln" : String).data = '\\' :: ['l', 'n'] from rfl, List.cons_append,
      trimmed_macro_text]
    simp [replace, replaceFrom, List.isPrefixOf, hrep2]

theorem macros_name {m c : String} (hm : (m, c) ∈ macros) : c ∈ funcs := by
  simp only [macros, List.mem_cons, List.mem_singleton, List.not_mem_nil, or_false,
    Prod.mk.injEq] at hm
  rcases hm with ⟨_, rfl⟩ | ⟨_, rfl⟩ | ⟨_, rfl⟩ | ⟨_, rfl⟩ | ⟨_, rfl⟩ | ⟨_, rfl⟩ | ⟨_, rfl⟩ <;>
    decide

/-- The preprocessing leaves a function name applied to a parenthesised text without a
backslash alone. -/
theorem normalize_name {c : String} (hc : c ∈ funcs) {r : List Char} (hr : '\\' ∉ r) :
    normalize A (c.data ++ '(' :: (r ++ [')'])) = c.data ++ '(' :: (r ++ [')']) := by
  have hlet : ∀ k ∈ c.data, isSpace A k = false ∧ k ≠ '\\' := fun k hk =>
    ⟨(fold_letter (funcs_letters hc k hk) (Or.inl rfl)).2.1,
      (fold_letter (A := A) (funcs_letters hc k hk) (Or.inl rfl)).2.2.2.2.2.2.2.1⟩
  refine normalize_plain ?_ ?_ ?_
  · intro k hk
    have h3 := mem_funcs_length hc
    cases hd : c.data with
    | nil =>
      have : c.length = 0 := by simp [String.length, hd]
      omega
    | cons a t =>
      rw [hd] at hk hlet
      simp only [List.cons_append, List.head?_cons, Option.some.injEq] at hk
      subst hk
      exact (hlet _ (List.mem_cons_self _ _)).1
  · intro k hk
    have e3 : c.data ++ '(' :: (r ++ [')']) = (c.data ++ '(' :: r) ++ [')'] := by simp
    rw [e3, List.getLast?_concat] at hk
    rw [← Option.some.inj hk]
    simp [isSpace]
  · intro h
    simp only [List.mem_append, List.mem_cons, List.mem_singleton, List.not_mem_nil,
      or_false] at h
    rcases h with h | h | h | h
    · exact (hlet _ h).2 rfl
    · exact absurd h (by decide)
    · exact hr h
    · exact absurd h (by decide)

theorem parse_sqrt_4 (e : ExpressionParser A) :
    parse e "sqrt(4)" = some (true, ⟨['s', 'q', 'r', 't', '(', '4', ')'], [], "", true,
      .unary .Sqrt (.number (A.ofInt 4))⟩) := by
  simp [parse_eq, parseStart_mk, parseFinish, normalize, trimmed, replace, replaceFrom,
    List.rdropWhile, result_expression, result_expressionLoop, result_term, result_termLoop,
    result_factor, result_power, result_unary, result_function, result_primary,
    skipSpaces_mk, advance_mk, setError_mk, atEnd_mk, cur_mk, peek_mk, skipNumber_mk,
    isSpace, isDigit, implicitStart, numberStart, scanNumber, numberText, toDouble,
    funcs, matchesFunc, startsWithCI, foldCase, funcType,
    length_sin, length_cos, length_tan, length_sqrt, length_exp, length_log,
    Node.isNull, Node.binary, Node.number, Node.leaf, Node.unary]

/-- On a text that starts with a macro, `parse` does what it does on the text with the
name in place of the macro. -/
theorem parse_macro_text {m c : String} (hm : (m, c) ∈ macros) {arg : List Char}
    (hr : '\\' ∉ arg) (e : ExpressionParser A) :
    parse e (String.mk (m.data ++ '(' :: (arg ++ [')']))) =
      parse e (String.mk (c.data ++ '(' :: (arg ++ [')']))) :=
  parse_congr e (by rw [normalize_macro_head hm hr, normalize_name (macros_name hm) hr])

/-- C11: macro normalisation.  For each of the seven macros `m` with its name `c` and
every argument text without a backslash, `parse(m + "(" + arg + ")")` returns what
`parse(c + "(" + arg + ")")` returns and leaves the engine in the same state: the same
flag, error message and tree, so the same `eval` results.  `parse("\\sqrt(4)")` and
`parse("sqrt(4)")` both build `Sqrt(4)`, which evaluates to 2 on a platform exact on small
integers. -/
theorem C11_macro_normalisation (hA : A.Exact) {m c : String} (hm : (m, c) ∈ macros)
    {arg : List Char} (hr : '\\' ∉ arg) (e : ExpressionParser A) (x y : A.Double) :
    parse e (String.mk (m.data ++ ['('] ++ arg ++ [')'])) =
      parse e (String.mk (c.data ++ ['('] ++ arg ++ [')'])) ∧
    ∃ e', parse e "\\sqrt(4)" = some (true, e') ∧ parse e "sqrt(4)" = some (true, e') ∧
      e'.m_root = .unary .Sqrt (.number (A.ofInt 4)) ∧
      eval e' x y = A.ofInt 2 ∧ eval1 e' x = A.ofInt 2 := by
  have e3 : ∀ s : List Char, s ++ ['('] ++ arg ++ [')'] = s ++ '(' :: (arg ++ [')']) := by
    intro s; simp
  have h4 : parse e "\\sqrt(4)" = parse e "sqrt(4)" :=
    @parse_macro_text A "\\sqrt" "sqrt" (by decide) ['4'] (by decide) e
  have hlt : A.ltZero (A.ofInt 4) = false := by
    cases h : A.ltZero (A.ofInt 4)
    · rfl
    · have := (hA.ltZero_ofInt 4 (by norm_num)).mp h
      norm_num at this
  have hs : A.sqrt (A.ofInt 4) = A.ofInt 2 := by
    have := hA.sqrt_ofInt 2 (by norm_num)
    norm_num at this
    exact this
  refine ⟨by rw [e3, e3]; exact parse_macro_text hm hr e,
    _, h4.trans (parse_sqrt_4 e), parse_sqrt_4 e, rfl, ?_, ?_⟩ <;>
  simp [eval1, eval, evalNode, safeSqrt, Node.isNull, Node.unary, Node.number, hlt, hs]

/-- Witness of C11 on the integer platform: `\\ln(x+1)` and `log(x+1)`. -/
theorem C11_macro_normalisation_witness :
    intPlatform.Exact ∧ (("\\ln" : String), ("log" : String)) ∈ macros ∧
    '\\' ∉ ['x', '+', '1'] ∧
    (parse (fresh intPlatform) (String.mk (("\\ln" : String).data ++ ['('] ++ ['x', '+', '1']
        ++ [')'])) =
      parse (fresh intPlatform) (String.mk (("log" : String).data ++ ['('] ++ ['x', '+', '1']
        ++ [')'])) ∧
    ∃ e', parse (fresh intPlatform) "\\sqrt(4)" = some (true, e') ∧
      parse (fresh intPlatform) "sqrt(4)" = some (true, e') ∧
      e'.m_root = .unary .Sqrt (.number (intPlatform.ofInt 4)) ∧
      eval e' (intPlatform.ofInt 3) (intPlatform.ofInt 5) = intPlatform.ofInt 2 ∧
      eval1 e' (intPlatform.ofInt 3) = intPlatform.ofInt 2) :=
  ⟨intPlatform_exact, by decide, by decide,
    C11_macro_normalisation intPlatform_exact (by decide) (by decide) (fresh intPlatform)
      (intPlatform.ofInt 3) (intPlatform.ofInt 5)⟩

theorem parse_1_div_0 (e : ExpressionParser A) :
    parse e "1/0" = some (true, ⟨['1', '/', '0'], [], "", true,
      .binary .Div (.number (A.ofInt 1)) (.number (A.ofInt 0))⟩) := by
  simp [parse_eq, parseStart_mk, parseFinish, normalize, trimmed, replace, replaceFrom,
    List.rdropWhile, result_expression, result_expressionLoop, result_term, result_termLoop,
    result_factor, result_power, result_unary, result_function, result_primary,
    skipSpaces_mk, advance_mk, setError_mk, atEnd_mk, cur_mk, peek_mk, skipNumber_mk,
    isSpace, isDigit, implicitStart, numberStart, scanNumber, numberText, toDouble,
    Node.isNull, Node.binary, Node.number, Node.leaf, Node.unary]

theorem parse_0_div_0 (e : ExpressionParser A) :
    parse e "0/0" = some (true, ⟨['0', '/', '0'], [], "", true,
      .binary .Div (.number (A.ofInt 0)) (.number (A.ofInt 0))⟩) := by
  simp [parse_eq, parseStart_mk, parseFinish, normalize, trimmed, replace, replaceFrom,
    List.rdropWhile, result_expression, result_expressionLoop, result_term, result_termLoop,
    result_factor, result_power, result_unary, result_function, result_primary,
    skipSpaces_mk, advance_mk, setError_mk, atEnd_mk, cur_mk, peek_mk, skipNumber_mk,
    isSpace, isDigit, implicitStart, numberStart, scanNumber, numberText, toDouble,
    Node.isNull, Node.binary, Node.number, Node.leaf, Node.unary]

theorem parse_sqrt_neg_1 (e : ExpressionParser A) :
    parse e "sqrt(-1)" = some (true, ⟨['s', 'q', 'r', 't', '(', '-', '1', ')'], [], "", true,
      .unary .Sqrt (.unary .Negate (.number (A.ofInt 1)))⟩) := by
  simp [parse_eq, parseStart_mk, parseFinish, normalize, trimmed, replace, replaceFrom,
    List.rdropWhile, result_expression, result_expressionLoop, result_term, result_termLoop,
    result_factor, result_power, result_unary, result_function, result_primary,
    skipSpaces_mk, advance_mk, setError_mk, atEnd_mk, cur_mk, peek_mk, skipNumber_mk,
    isSpace, isDigit, implicitStart, numberStart, scanNumber, numberText, toDouble,
    funcs, matchesFunc, startsWithCI, foldCase, funcType,
    length_sin, length_cos, length_tan, length_sqrt, length_exp, length_log,
    Node.isNull, Node.binary, Node.number, Node.leaf, Node.unary]

theorem parse_log_0 (e : ExpressionParser A) :
    parse e "log(0)" = some (true, ⟨['l', 'o', 'g', '(', '0', ')'], [], "", true,
      .unary .Log (.number (A.ofInt 0))⟩) := by
  simp [parse_eq, parseStart_mk, parseFinish, normalize, trimmed, replace, replaceFrom,
    List.rdropWhile, result_expression, result_expressionLoop, result_term, result_termLoop,
    result_factor, result_power, result_unary, result_function, result_primary,
    skipSpaces_mk, advance_mk, setError_mk, atEnd_mk, cur_mk, peek_mk, skipNumber_mk,
    isSpace, isDigit, implicitStart, numberStart, scanNumber, numberText, toDouble,
    funcs, matchesFunc, startsWithCI, foldCase, funcType,
    length_sin, length_cos, length_tan, length_sqrt, length_exp, length_log,
    Node.isNull, Node.binary, Node.number, Node.leaf, Node.unary]

theorem parse_log_neg_5 (e : ExpressionParser A) :
    parse e "log(-5)" = some (true, ⟨['l', 'o', 'g', '(', '-', '5', ')'], [], "", true,
      .unary .Log (.unary .Negate (.number (A.ofInt 5)))⟩) := by
  simp [parse_eq, parseStart_mk, parseFinish, normalize, trimmed, replace, replaceFrom,
    List.rdropWhile, result_expression, result_expressionLoop, result_term, result_termLoop,
    result_factor, result_power, result_unary, result_function, result_primary,
    skipSpaces_mk, advance_mk, setError_mk, atEnd_mk, cur_mk, peek_mk, skipNumber_mk,
    isSpace, isDigit, implicitStart, numberStart, scanNumber, numberText, toDouble,
    funcs, matchesFunc, startsWithCI, foldCase, funcType,
    length_sin, length_cos, length_tan, length_sqrt, length_exp, length_log,
    Node.isNull, Node.binary, Node.number, Node.leaf, Node.unary]

/-- C17: `eval(x)` equals `eval(x, 0)`, for every engine, with a tree or without, and
every `x`; without a tree both are the value of `qQNaN()`. -/
theorem C17_eval_one_argument (e : ExpressionParser A) (x : A.Double) :
    eval1 e x = eval e x (A.ofInt 0) ∧
    eval1 e x = (if e.m_root.isNull then A.qQNaN else evalNode e.m_root x (A.ofInt 0)) :=
  ⟨rfl, rfl⟩

/-- C18: division by zero yields NaN whatever the numerator.  For every `Div` node whose
right operand evaluates to a value that compares equal to zero at `(x, y)`, `evalNode`
returns the value of `qQNaN()`, whatever the left operand is; `parse("1/0")` and
`parse("0/0")` succeed and evaluate to NaN for every `x` and `y`. -/
theorem C18_division_by_zero_is_nan (hA : A.Exact) (v : A.Double) (l r : Node A)
    (x y : A.Double) (hz : A.eqZero (evalNode r x y) = true) (e : ExpressionParser A) :
    evalNode (.mk .Div v l r) x y = A.qQNaN ∧
    (∃ e', parse e "1/0" = some (true, e') ∧
      e'.m_root = .binary .Div (.number (A.ofInt 1)) (.number (A.ofInt 0)) ∧
      eval e' x y = A.qQNaN ∧ eval1 e' x = A.qQNaN) ∧
    (∃ e', parse e "0/0" = some (true, e') ∧
      e'.m_root = .binary .Div (.number (A.ofInt 0)) (.number (A.ofInt 0)) ∧
      eval e' x y = A.qQNaN ∧ eval1 e' x = A.qQNaN) := by
  have h0 : A.eqZero (A.ofInt 0) = true := (hA.eqZero_ofInt 0 (by norm_num)).mpr rfl
  refine ⟨by simp [evalNode, hz], ⟨_, parse_1_div_0 e, rfl, ?_, ?_⟩,
    ⟨_, parse_0_div_0 e, rfl, ?_, ?_⟩⟩ <;>
  simp [eval1, eval, evalNode, Node.isNull, Node.binary, Node.number, h0]

/-- Witness of C18 on the integer platform: the node `Div(7, 0)`. -/
theorem C18_division_by_zero_is_nan_witness :
    intPlatform.Exact ∧
    intPlatform.eqZero (evalNode (.number (intPlatform.ofInt 0) : Node intPlatform)
      (intPlatform.ofInt 3) (intPlatform.ofInt 5)) = true ∧
    (evalNode (.mk .Div (intPlatform.ofInt 0) (.number (intPlatform.ofInt 7))
        (.number (intPlatform.ofInt 0)) : Node intPlatform) (intPlatform.ofInt 3)
        (intPlatform.ofInt 5) = intPlatform.qQNaN ∧
    (∃ e', parse (fresh intPlatform) "1/0" = some (true, e') ∧
      e'.m_root = .binary .Div (.number (intPlatform.ofInt 1)) (.number (intPlatform.ofInt 0)) ∧
      eval e' (intPlatform.ofInt 3) (intPlatform.ofInt 5) = intPlatform.qQNaN ∧
      eval1 e' (intPlatform.ofInt 3) = intPlatform.qQNaN) ∧
    (∃ e', parse (fresh intPlatform) "0/0" = some (true, e') ∧
      e'.m_root = .binary .Div (.number (intPlatform.ofInt 0)) (.number (intPlatform.ofInt 0)) ∧
      eval e' (intPlatform.ofInt 3) (intPlatform.ofInt 5) = intPlatform.qQNaN ∧
      eval1 e' (intPlatform.ofInt 3) = intPlatform.qQNaN)) :=
  ⟨intPlatform_exact, by decide,
    C18_division_by_zero_is_nan intPlatform_exact (intPlatform.ofInt 0)
      (.number (intPlatform.ofInt 7)) (.number (intPlatform.ofInt 0)) (intPlatform.ofInt 3)
      (intPlatform.ofInt 5) (by decide) (fresh intPlatform)⟩

/-- C19: the domain guard of the square root.  A `Sqrt` node evaluates to the value of
`qQNaN()` when its child evaluates to a value below zero, and to `std::sqrt` of the
child's value otherwise; `parse("sqrt(-1)")` succeeds and evaluates to NaN for every `x`
and `y`. -/
theorem C19_sqrt_domain_guard (hA : A.Exact) (v : A.Double) (c r : Node A) (x y : A.Double)
    (e : ExpressionParser A) :
    evalNode (.mk .Sqrt v c r) x y =
      (if A.ltZero (evalNode c x y) = true then A.qQNaN else A.sqrt (evalNode c x y)) ∧
    (∃ e', parse e "sqrt(-1)" = some (true, e') ∧
      e'.m_root = .unary .Sqrt (.unary .Negate (.number (A.ofInt 1))) ∧
      eval e' x y = A.qQNaN ∧ eval1 e' x = A.qQNaN) := by
  have h1 : A.neg (A.ofInt 1) = A.ofInt (-1) := hA.neg_ofInt 1 (by norm_num) (by norm_num)
  have h2 : A.ltZero (A.ofInt (-1)) = true :=
    (hA.ltZero_ofInt (-1) (by norm_num)).mpr (by norm_num)
  refine ⟨by simp [evalNode, safeSqrt], ⟨_, parse_sqrt_neg_1 e, rfl, ?_, ?_⟩⟩ <;>
  simp [eval1, eval, evalNode, safeSqrt, Node.isNull, Node.unary, Node.number, h1, h2]

/-- Witness of C19 on the integer platform: the node `Sqrt(9)` at `x = 3`, `y = 5`. -/
theorem C19_sqrt_domain_guard_witness :
    intPlatform.Exact ∧
    (evalNode (.mk .Sqrt (intPlatform.ofInt 0) (.number (intPlatform.ofInt 9)) .nullptr :
        Node intPlatform) (intPlatform.ofInt 3) (intPlatform.ofInt 5) =
      (if intPlatform.ltZero (evalNode (.number (intPlatform.ofInt 9) : Node intPlatform)
          (intPlatform.ofInt 3) (intPlatform.ofInt 5)) = true then intPlatform.qQNaN
        else intPlatform.sqrt (evalNode (.number (intPlatform.ofInt 9) : Node intPlatform)
          (intPlatform.ofInt 3) (intPlatform.ofInt 5))) ∧
    (∃ e', parse (fresh intPlatform) "sqrt(-1)" = some (true, e') ∧
      e'.m_root = .unary .Sqrt (.unary .Negate (.number (intPlatform.ofInt 1))) ∧
      eval e' (intPlatform.ofInt 3) (intPlatform.ofInt 5) = intPlatform.qQNaN ∧
      eval1 e' (intPlatform.ofInt 3) = intPlatform.qQNaN)) :=
  ⟨intPlatform_exact,
    C19_sqrt_domain_guard intPlatform_exact (intPlatform.ofInt 0)
      (.number (intPlatform.ofInt 9)) .nullptr (intPlatform.ofInt 3) (intPlatform.ofInt 5)
      (fresh intPlatform)⟩

/-- C20: the domain guard of the logarithm.  A `Log` node evaluates to the value of
`qQNaN()` when its child evaluates to a value that is zero or below, and to `std::log` of
the child's value otherwise; `parse("log(0)")` and `parse("log(-5)")` succeed and evaluate
to NaN for every `x` and `y`. -/
theorem C20_log_domain_guard (hA : A.Exact) (v : A.Double) (c r : Node A) (x y : A.Double)
    (e : ExpressionParser A) :
    evalNode (.mk .Log v c r) x y =
      (if A.leZero (evalNode c x y) = true then A.qQNaN else A.log (evalNode c x y)) ∧
    (∃ e', parse e "log(0)" = some (true, e') ∧
      e'.m_root = .unary .Log (.number (A.ofInt 0)) ∧
      eval e' x y = A.qQNaN ∧ eval1 e' x = A.qQNaN) ∧
    (∃ e', parse e "log(-5)" = some (true, e') ∧
      e'.m_root = .unary .Log (.unary .Negate (.number (A.ofInt 5))) ∧
      eval e' x y = A.qQNaN ∧ eval1 e' x = A.qQNaN) := by
  have h0 : A.leZero (A.ofInt 0) = true := (hA.leZero_ofInt 0 (by norm_num)).mpr (le_refl _)
  have h1 : A.neg (A.ofInt 5) = A.ofInt (-5) := hA.neg_ofInt 5 (by norm_num) (by norm_num)
  have h2 : A.leZero (A.ofInt (-5)) = true :=
    (hA.leZero_ofInt (-5) (by norm_num)).mpr (by norm_num)
  refine ⟨by simp [evalNode, safeLog], ⟨_, parse_log_0 e, rfl, ?_, ?_⟩,
    ⟨_, parse_log_neg_5 e, rfl, ?_, ?_⟩⟩ <;>
  simp [eval1, eval, evalNode, safeLog, Node.isNull, Node.unary, Node.number, h0, h1, h2]

/-- Witness of C20 on the integer platform: the node `Log(1)` at `x = 3`, `y = 5`. -/
theorem C20_log_domain_guard_witness :
    intPlatform.Exact ∧
    (evalNode (.mk .Log (intPlatform.ofInt 0) (.number (intPlatform.ofInt 1)) .nullptr :
        Node intPlatform) (intPlatform.ofInt 3) (intPlatform.ofInt 5) =
      (if intPlatform.leZero (evalNode (.number (intPlatform.ofInt 1) : Node intPlatform)
          (intPlatform.ofInt 3) (intPlatform.ofInt 5)) = true then intPlatform.qQNaN
        else intPlatform.log (evalNode (.number (intPlatform.ofInt 1) : Node intPlatform)
          (intPlatform.ofInt 3) (intPlatform.ofInt 5))) ∧
    (∃ e', parse (fresh intPlatform) "log(0)" = some (true, e') ∧
      e'.m_root = .unary .Log (.number (intPlatform.ofInt 0)) ∧
      eval e' (intPlatform.ofInt 3) (intPlatform.ofInt 5) = intPlatform.qQNaN ∧
      eval1 e' (intPlatform.ofInt 3) = intPlatform.qQNaN) ∧
    (∃ e', parse (fresh intPlatform) "log(-5)" = some (true, e') ∧
      e'.m_root = .unary .Log (.unary .Negate (.number (intPlatform.ofInt 5))) ∧
      eval e' (intPlatform.ofInt 3) (intPlatform.ofInt 5) = intPlatform.qQNaN ∧
      eval1 e' (intPlatform.ofInt 3) = intPlatform.qQNaN)) :=
  ⟨intPlatform_exact,
    C20_log_domain_guard intPlatform_exact (intPlatform.ofInt 0)
      (.number (intPlatform.ofInt 1)) .nullptr (intPlatform.ofInt 3) (intPlatform.ofInt 5)
      (fresh intPlatform)⟩

theorem rdropWhile_append_blank {w : List Char} (hw : Blank A w) (d : List Char) :
    List.rdropWhile (isSpace A) (d ++ w) = List.rdropWhile (isSpace A) d := by
  induction w using List.reverseRecOn with
  | nil => simp
  | append_singleton l x ih =>
    rw [← List.append_assoc, List.rdropWhile_concat_pos _ _ _ (hw x (by simp))]
    exact ih fun c hc => hw c (List.mem_append_left _ hc)

/-- Whitespace in front of a text does not change what `trimmed` returns. -/
theorem trimmed_leading_blank {w : List Char} (hw : Blank A w) (s : List Char) :
    trimmed A (w ++ s) = trimmed A s := by
  unfold trimmed
  rw [hw.dropWhile]

/-- Whitespace behind a text does not change what `trimmed` returns. -/
theorem trimmed_trailing_blank {w : List Char} (hw : Blank A w) (s : List Char) :
    trimmed A (s ++ w) = trimmed A s := by
  unfold trimmed
  cases hd : s.dropWhile (isSpace A) with
  | nil =>
    have hall : ∀ c ∈ s, isSpace A c = true := fun c hc => List.dropWhile_eq_nil_iff.mp hd c hc
    rw [dropWhile_all_append hall]
    have : w.dropWhile (isSpace A) = [] := by simpa using dropWhile_all_append hw []
    rw [this]
  | cons k t =>
    rw [dropWhile_append_of_ne_nil _ (by simp [hd]), hd, rdropWhile_append_blank hw]

theorem normalize_leading_blank {w : List Char} (hw : Blank A w) (s : List Char) :
    normalize A (w ++ s) = normalize A s := by
  unfold normalize
  rw [trimmed_leading_blank hw]

theorem normalize_trailing_blank {w : List Char} (hw : Blank A w) (s : List Char) :
    normalize A (s ++ w) = normalize A s := by
  unfold normalize
  rw [trimmed_trailing_blank hw]

/-- What `trimmed` returns does not start with whitespace. -/
theorem trimmed_head (s : List Char) :
    ∀ k, (trimmed A s).head? = some k → isSpace A k = false := by
  intro k hk
  unfold trimmed at hk
  have hp : List.rdropWhile (isSpace A) (s.dropWhile (isSpace A)) <+: s.dropWhile (isSpace A) :=
    List.rdropWhile_prefix _ _
  obtain ⟨t, ht⟩ := hp
  cases hr : List.rdropWhile (isSpace A) (s.dropWhile (isSpace A)) with
  | nil => rw [hr] at hk; simp at hk
  | cons a r =>
    rw [hr] at hk ht
    simp only [List.head?_cons, Option.some.injEq] at hk
    subst hk
    have hne : s.dropWhile (isSpace A) ≠ [] := by rw [← ht]; simp
    have := List.head_dropWhile_not (isSpace A) s hne
    simp only [← ht, List.cons_append, List.head_cons] at this
    simpa using this

/-- What `trimmed` returns does not end with whitespace. -/
theorem trimmed_last (s : List Char) :
    ∀ k, (trimmed A s).getLast? = some k → isSpace A k = false := by
  intro k hk
  unfold trimmed at hk
  by_cases hne : List.rdropWhile (isSpace A) (s.dropWhile (isSpace A)) = []
  · rw [hne] at hk; simp at hk
  · have := List.rdropWhile_last_not (isSpace A) _ hne
    rw [List.getLast?_eq_getLast _ hne] at hk
    rw [← Option.some.inj hk]
    simpa using this

/-- A text that `parse` accepts is not only whitespace. -/
theorem trimmed_ne_nil_of_parse {e0 e1 : ExpressionParser A} {inner : List Char}
    (hi : parse e0 (String.mk inner) = some (true, e1)) : trimmed A inner ≠ [] := by
  intro h
  obtain ⟨w1, w2, hw1, hw2, ei⟩ := trimmed_decomp (A := A) inner
  rw [h] at ei
  have hb : Blank A (String.mk inner).data := by
    intro c hc
    change c ∈ inner at hc
    rw [ei] at hc
    simp only [List.nil_append, List.mem_append] at hc
    rcases hc with hc | hc
    · exact hw1 c hc
    · exact hw2 c hc
  rw [parse_blank e0 hb] at hi
  simp at hi

/-- `parse` fails when `parseExpression` ends with an error, and keeps the message. -/
theorem parse_of_step_fail {e : ExpressionParser A} {text : String} {n : Node A}
    {q : ExpressionParser A} (hs : Step .expression (parseStart e text) n q)
    (he : q.m_error ≠ "") :
    parse e text = some (false, q.skipSpaces) := by
  rw [parse_eq, hs.result, parseFinish_error he]

theorem dropWhile_stopText {X : List Char} (hX : StopText A X) :
    X.dropWhile (isSpace A) = X := by
  cases X with
  | nil => rfl
  | cons k T => exact dropWhile_head (hX k rfl).1

/-- A text that `parse` accepts on its own is read in the same way inside a longer input:
with whitespace `u` in front of it, whatever the input before that, and with whitespace
`w` and a stop text `X` behind it, `parseExpression` returns the same tree without an
error and leaves exactly `X` unread once the whitespace is skipped. -/
theorem valid_in_context {inner : List Char} (hb : '\\' ∉ inner) {e0 e1 : ExpressionParser A}
    (hi : parse e0 (String.mk inner) = some (true, e1)) (J : List Char) {u w X : List Char}
    (hu : Blank A u) (hw : Blank A w) (hX : StopText A X) :
    ∃ q', Step .expression (⟨J, u ++ (trimmed A inner ++ (w ++ X)), "", false, .nullptr⟩ :
        ExpressionParser A) e1.m_root q' ∧ q'.m_error = "" ∧ q'.skipSpaces.unread = X ∧
      q'.m_root = .nullptr ∧ q'.m_parsed = false ∧ e1.m_root.isNull = false := by
  obtain ⟨q0, s0, he0, ha0⟩ := parse_true_inv hi
  have hI : normalize A inner = trimmed A inner :=
    normalize_of_no_backslash (trimmed_no_backslash hb)
  rw [parseStart_mk] at s0
  simp only [hI] at s0
  have hW : Within A X (⟨trimmed A inner, trimmed A inner, "", false, .nullptr⟩ :
      ExpressionParser A) ⟨J, trimmed A inner ++ (w ++ X), "", false, .nullptr⟩ :=
    ⟨hX, rfl, w, hw, rfl⟩
  obtain ⟨q', s', wq⟩ := s0.within X he0 _ hW
  have s'' : Step .expression (⟨J, u ++ (trimmed A inner ++ (w ++ X)), "", false, .nullptr⟩ :
      ExpressionParser A) e1.m_root q' := by
    refine s'.of_skip ?_
    rw [skipSpaces_mk, skipSpaces_mk, hu.dropWhile]
  have hq0 : ∀ c ∈ q0.unread, isSpace A c = true := by
    have : q0.unread.dropWhile (isSpace A) = [] := by
      simpa [ExpressionParser.atEnd] using ha0
    exact fun c hc => List.dropWhile_eq_nil_iff.mp this c hc
  have hfr := s''.frame
  obtain ⟨_, herr, w', hw', hu'⟩ := wq
  refine ⟨q', s'', by rw [herr, he0], ?_, hfr.2.2, hfr.2.1, s0.no_null he0 (fun h => h)⟩
  rw [skipSpaces_unread, hu', dropWhile_all_append hq0, dropWhile_all_append hw',
    dropWhile_stopText hX]

/-- After a successful `parse` nothing is left unread. -/
theorem parse_true_consumed {e e' : ExpressionParser A} {text : String}
    (h : parse e text = some (true, e')) : e'.unread = [] ∧ e'.m_pos = e'.size := by
  rw [parse_eq] at h
  generalize Call.expression.result (parseStart e text) = r at h
  obtain ⟨n, q⟩ := r
  by_cases hb : q.m_error = ""
  · cases ha : q.skipSpaces.atEnd
    · rw [parseFinish_trailing ha hb] at h
      simp at h
    · rw [parseFinish_ok ha hb] at h
      simp only [Option.some.injEq, Prod.mk.injEq, true_and] at h
      subst h
      have hu : q.skipSpaces.unread = [] := by
        simpa [ExpressionParser.atEnd] using ha
      refine ⟨hu, ?_⟩
      simp only [ExpressionParser.m_pos, ExpressionParser.size, hu]
      rfl
  · rw [parseFinish_error hb] at h
    simp at h

/-- `parse` fails with the trailing error when `parseExpression` ends without an error
and something other than whitespace is left unread. -/
theorem parse_of_step_rest {e : ExpressionParser A} {text : String} {n : Node A}
    {q : ExpressionParser A} (hs : Step .expression (parseStart e text) n q)
    (he : q.m_error = "") (hr : q.skipSpaces.atEnd = false) :
    parse e text = some (false, q.skipSpaces.setError "Unexpected character at end") := by
  rw [parse_eq, hs.result, parseFinish_trailing hr he]

/-- The preprocessing of a valid text followed by a stop text: only the whitespace in
front is removed. -/
theorem normalize_valid_rest {inner X : List Char} (hb : '\\' ∉ inner)
    (hne : trimmed A inner ≠ []) {w1 w2 : List Char} (hw1 : Blank A w1) (hw2 : Blank A w2)
    (ei : inner = w1 ++ (trimmed A inner ++ w2)) (hXne : X ≠ []) (hX1 : '\\' ∉ X)
    (hX3 : ∀ c, X.getLast? = some c → isSpace A c = false) :
    normalize A (inner ++ X) = trimmed A inner ++ (w2 ++ X) := by
  have e1 : inner ++ X = w1 ++ (trimmed A inner ++ (w2 ++ X)) := by
    conv_lhs => rw [ei]
    simp
  rw [e1, normalize_leading_blank hw1]
  refine normalize_plain ?_ ?_ ?_
  · intro k hk
    rw [List.head?_append_of_ne_nil _ hne] at hk
    exact trimmed_head inner k hk
  · intro k hk
    rw [← List.append_assoc, List.getLast?_append_of_ne_nil _ hXne] at hk
    exact hX3 k hk
  · intro h
    simp only [List.mem_append] at h
    rcases h with h | h | h
    · exact trimmed_no_backslash hb h
    · exact hw2.no_backslash h
    · exact hX1 h

/-- A valid text followed by a character at which the expression stops: `parse` reports
the rest as trailing. -/
theorem parse_valid_rest {inner : List Char} (hb : '\\' ∉ inner) {e0 e1 : ExpressionParser A}
    (hi : parse e0 (String.mk inner) = some (true, e1)) {k : Char} {T : List Char}
    (hk : Terminator A k) (hX1 : '\\' ∉ k :: T)
    (hX3 : ∀ c, (k :: T).getLast? = some c → isSpace A c = false) (e : ExpressionParser A) :
    ∃ e', parse e (String.mk (inner ++ k :: T)) = some (false, e') ∧
      e'.m_error = "Unexpected character at end" ∧ e'.unread = k :: T ∧
      e'.m_root = .nullptr ∧ e'.m_parsed = false := by
  obtain ⟨w1, w2, hw1, hw2, ei⟩ := trimmed_decomp (A := A) inner
  have hn := normalize_valid_rest hb (trimmed_ne_nil_of_parse hi) hw1 hw2 ei
    (List.cons_ne_nil k T) hX1 hX3
  obtain ⟨q', s', he', hu', hro, hpa, _⟩ := valid_in_context hb hi
    (trimmed A inner ++ (w2 ++ k :: T)) (show Blank A [] by simp [Blank]) hw2
    (stopText_cons hk T)
  have hs : Step .expression (parseStart e (String.mk (inner ++ k :: T))) e1.m_root q' := by
    rw [parseStart_mk]
    simp only [hn]
    exact s'
  have ha : q'.skipSpaces.atEnd = false := by
    unfold ExpressionParser.atEnd
    rw [hu']
    rfl
  exact ⟨_, parse_of_step_rest hs he' ha, rfl, hu', hro, hpa⟩

theorem parse_1_add_2 (e : ExpressionParser A) :
    parse e "1+2" = some (true, ⟨['1', '+', '2'], [], "", true,
      .binary .Add (.number (A.ofInt 1)) (.number (A.ofInt 2))⟩) := by
  simp [parse_eq, parseStart_mk, parseFinish, normalize, trimmed, replace, replaceFrom,
    List.rdropWhile, result_expression, result_expressionLoop, result_term, result_termLoop,
    result_factor, result_power, result_unary, result_function, result_primary,
    skipSpaces_mk, advance_mk, setError_mk, atEnd_mk, cur_mk, peek_mk, skipNumber_mk,
    isSpace, isDigit, implicitStart, numberStart, scanNumber, numberText, toDouble,
    Node.isNull, Node.binary, Node.number, Node.leaf, Node.unary]

/-- C15: trailing characters.  `parse` returns true only with the whole preprocessed
input consumed.  Whenever `parseExpression` returns without an error and something other
than whitespace is left unread, `parse` returns false with the error
`Unexpected character at end` and installs no tree; so it does for every text that
`parse` accepts followed by a character at which the expression stops and any further
text, as for `1+2)`. -/
theorem C15_trailing_characters {inner : List Char} (hb : '\\' ∉ inner)
    {e0 e1 : ExpressionParser A} (hi : parse e0 (String.mk inner) = some (true, e1))
    {k : Char} {T : List Char} (hk : Terminator A k) (hX1 : '\\' ∉ k :: T)
    (hX3 : ∀ c, (k :: T).getLast? = some c → isSpace A c = false)
    (e : ExpressionParser A) (text : String) :
    (∀ e', parse e text = some (true, e') → e'.unread = [] ∧ e'.m_pos = e'.size) ∧
    (∀ n q, Step .expression (parseStart e text) n q → q.m_error = "" →
      q.skipSpaces.atEnd = false →
      ∃ e', parse e text = some (false, e') ∧
        e'.errorString = "Unexpected character at end" ∧ e'.m_root = .nullptr ∧
        e'.isValid = false) ∧
    (∃ e', parse e (String.mk (inner ++ k :: T)) = some (false, e') ∧
      e'.errorString = "Unexpected character at end" ∧ e'.unread = k :: T ∧
      e'.m_root = .nullptr ∧ e'.isValid = false) ∧
    (∃ e', parse e "1+2)" = some (false, e') ∧
      e'.errorString = "Unexpected character at end" ∧ e'.unread = [')'] ∧
      e'.m_root = .nullptr ∧ e'.isValid = false) := by
  refine ⟨fun e' h => parse_true_consumed h, ?_, parse_valid_rest hb hi hk hX1 hX3 e,
    ⟨_, parse_1_add_2_close e, rfl, rfl, rfl, rfl⟩⟩
  intro n q hs he hr
  have hfr := hs.frame
  exact ⟨_, parse_of_step_rest hs he hr, rfl, hfr.2.2, hfr.2.1⟩

/-- Witness of C15 on the integer platform: the valid text `1+2` followed by `)`, and the
text `1+2)`. -/
theorem C15_trailing_characters_witness :
    '\\' ∉ ['1', '+', '2'] ∧
    parse (fresh intPlatform) (String.mk ['1', '+', '2']) = some (true,
      ⟨['1', '+', '2'], [], "", true,
        .binary .Add (.number (intPlatform.ofInt 1)) (.number (intPlatform.ofInt 2))⟩) ∧
    Terminator intPlatform ')' ∧ '\\' ∉ [')'] ∧
    (∀ c, [')'].getLast? = some c → isSpace intPlatform c = false) ∧
    ((∀ e', parse (fresh intPlatform) "1+2)" = some (true, e') →
      e'.unread = [] ∧ e'.m_pos = e'.size) ∧
    (∀ n q, Step .expression (parseStart (fresh intPlatform) "1+2)") n q → q.m_error = "" →
      q.skipSpaces.atEnd = false →
      ∃ e', parse (fresh intPlatform) "1+2)" = some (false, e') ∧
        e'.errorString = "Unexpected character at end" ∧ e'.m_root = .nullptr ∧
        e'.isValid = false) ∧
    (∃ e', parse (fresh intPlatform) (String.mk (['1', '+', '2'] ++ [')'])) = some (false, e') ∧
      e'.errorString = "Unexpected character at end" ∧ e'.unread = [')'] ∧
      e'.m_root = .nullptr ∧ e'.isValid = false) ∧
    (∃ e', parse (fresh intPlatform) "1+2)" = some (false, e') ∧
      e'.errorString = "Unexpected character at end" ∧ e'.unread = [')'] ∧
      e'.m_root = .nullptr ∧ e'.isValid = false)) :=
  ⟨by decide, parse_1_add_2 _, terminator_paren, by decide, by simp [isSpace],
    C15_trailing_characters (by decide) (parse_1_add_2 (fresh intPlatform)) terminator_paren
      (by decide) (by simp [isSpace]) (fresh intPlatform) "1+2)"⟩

/-- The preprocessing of a text `pre ( inner X`, where `inner` is valid and `X` is a stop
text: whitespace at the very end is removed, nothing else changes. -/
theorem normalize_open {pre inner X : List Char}
    (hp1 : ∀ k, (pre ++ ['(']).head? = some k → isSpace A k = false) (hp2 : '\\' ∉ pre)
    (hb : '\\' ∉ inner) (hne : trimmed A inner ≠ []) {w1 w2 : List Char} (hw1 : Blank A w1)
    (hw2 : Blank A w2) (ei : inner = w1 ++ (trimmed A inner ++ w2)) (hX1 : '\\' ∉ X)
    (hX3 : ∀ c, X.getLast? = some c → isSpace A c = false) :
    ∃ w, Blank A w ∧ normalize A (pre ++ '(' :: (inner ++ X)) =
      pre ++ '(' :: (w1 ++ (trimmed A inner ++ (w ++ X))) := by
  have hhead : ∀ (Y : List Char) k, (pre ++ '(' :: Y).head? = some k → isSpace A k = false := by
    intro Y k hk
    apply hp1 k
    cases pre with
    | nil => simpa using hk
    | cons a t => simpa using hk
  have hback : ∀ w : List Char, Blank A w →
      '\\' ∉ pre ++ '(' :: (w1 ++ (trimmed A inner ++ (w ++ X))) := by
    intro w hw h
    simp only [List.mem_append, List.mem_cons] at h
    rcases h with h | h | h | h | h | h
    · exact hp2 h
    · exact absurd h (by decide)
    · exact hw1.no_backslash h
    · exact trimmed_no_backslash hb h
    · exact hw.no_backslash h
    · exact hX1 h
  cases X with
  | nil =>
    refine ⟨[], by simp [Blank], ?_⟩
    have e1 : pre ++ '(' :: (inner ++ []) = (pre ++ '(' :: (w1 ++ trimmed A inner)) ++ w2 := by
      conv_lhs => rw [ei]
      simp
    rw [e1, normalize_trailing_blank hw2]
    simp only [List.nil_append, List.append_nil]
    refine normalize_plain (hhead _) ?_ ?_
    · intro k hk
      have e2 : pre ++ '(' :: (w1 ++ trimmed A inner) =
          (pre ++ '(' :: w1) ++ trimmed A inner := by simp
      rw [e2, List.getLast?_append_of_ne_nil _ hne] at hk
      exact trimmed_last inner k hk
    · have := hback [] (by simp [Blank])
      simpa using this
  | cons k T =>
    refine ⟨w2, hw2, ?_⟩
    have e1 : pre ++ '(' :: (inner ++ k :: T) =
        pre ++ '(' :: (w1 ++ (trimmed A inner ++ (w2 ++ k :: T))) := by
      conv_lhs => rw [ei]
      simp
    rw [e1]
    refine normalize_plain (hhead _) ?_ (hback w2 hw2)
    intro c hc
    have e2 : pre ++ '(' :: (w1 ++ (trimmed A inner ++ (w2 ++ k :: T))) =
        (pre ++ '(' :: (w1 ++ (trimmed A inner ++ w2))) ++ k :: T := by simp
    rw [e2, List.getLast?_append_of_ne_nil _ (List.cons_ne_nil k T)] at hc
    exact hX3 c hc

theorem not_closed {X : List Char} {q' : ExpressionParser A}
    (hu : q'.skipSpaces.unread = X) (hX2 : X.head? ≠ some ')') :
    q'.skipSpaces.atEnd = true ∨ q'.skipSpaces.cur ≠ ')' := by
  unfold ExpressionParser.atEnd ExpressionParser.cur
  rw [hu]
  cases X with
  | nil => exact Or.inl rfl
  | cons k T =>
    refine Or.inr fun h => hX2 ?_
    change k = ')' at h
    rw [h]
    rfl

section
variable {J R X : List Char} {n : Node A} {q' : ExpressionParser A}
  (hs : Step .expression (⟨J, R, "", false, .nullptr⟩ : ExpressionParser A) n q')
  (hn : n.isNull = false) (hu : q'.skipSpaces.unread = X) (hX2 : X.head? ≠ some ')')
include hs hn hu hX2

/-- `parsePrimary` at a parenthesis that is not closed. -/
theorem rule_primary_not_closed :
    Step .unary (⟨J, '(' :: R, "", false, .nullptr⟩ : ExpressionParser A) .nullptr
      (q'.skipSpaces.setError "Expected ')'") := by
  have hp : (⟨J, '(' :: R, "", false, .nullptr⟩ : ExpressionParser A).skipSpaces
      = ⟨J, '(' :: R, "", false, .nullptr⟩ := by
    rw [skipSpaces_mk, dropWhile_head (by simp [isSpace])]
  refine Step.unary_primary (Or.inr ?_) ?_
  · rw [hp]
    exact (by decide : '(' ≠ '-')
  · rw [hp]
    refine Step.primary_paren_noclose ?_ ?_ ?_ hn (not_closed hu hX2)
    · rw [hp]; rfl
    · rw [hp]; rfl
    · rw [hp]; exact hs

/-- `parseFunction` at an argument list that is not closed. -/
theorem rule_function_not_closed (name : String) :
    Step (.function name) (⟨J, '(' :: R, "", false, .nullptr⟩ : ExpressionParser A) .nullptr
      (q'.skipSpaces.setError "Expected ')'") := by
  have hp : (⟨J, '(' :: R, "", false, .nullptr⟩ : ExpressionParser A).skipSpaces
      = ⟨J, '(' :: R, "", false, .nullptr⟩ := by
    rw [skipSpaces_mk, dropWhile_head (by simp [isSpace])]
  refine Step.function_noclose ?_ ?_ ?_ hn (not_closed hu hX2)
  · rw [hp]; rfl
  · rw [hp]; rfl
  · rw [hp]; exact hs

end

section
variable {inner X : List Char} (hb : '\\' ∉ inner) {e0 e1 : ExpressionParser A}
  (hi : parse e0 (String.mk inner) = some (true, e1)) (hX : StopText A X)
  (hX2 : X.head? ≠ some ')') (hX1 : '\\' ∉ X)
  (hX3 : ∀ c, X.getLast? = some c → isSpace A c = false) (e : ExpressionParser A)
include hb hi hX hX2 hX1 hX3

/-- A group that is opened, holds a valid text and is not closed. -/
theorem parse_group_not_closed :
    ∃ e', parse e (String.mk ('(' :: (inner ++ X))) = some (false, e') ∧
      e'.m_error = "Expected ')'" ∧ e'.m_parsed = false ∧ e'.m_root = .nullptr := by
  obtain ⟨w1, w2, hw1, hw2, ei⟩ := trimmed_decomp (A := A) inner
  obtain ⟨w, hw, hn⟩ := @normalize_open A [] inner X (by simp [isSpace]) (by simp) hb
    (trimmed_ne_nil_of_parse hi) w1 w2 hw1 hw2 ei hX1 hX3
  rw [List.nil_append] at hn
  obtain ⟨q', s', _, hu', hro, hpa, hnn⟩ := valid_in_context hb hi
    ('(' :: (w1 ++ (trimmed A inner ++ (w ++ X)))) hw1 hw hX
  have hx := rule_expression_fail (rule_primary_not_closed s' hnn hu' hX2) (by simp)
  have hs : Step .expression (parseStart e (String.mk ('(' :: (inner ++ X)))) .nullptr
      (q'.skipSpaces.setError "Expected ')'") := by
    rw [parseStart_mk]
    simp only [hn]
    exact hx
  exact ⟨_, parse_of_step_fail hs (by simp), rfl, hpa, hro⟩

/-- A function call whose argument list is opened, holds a valid text and is not
closed. -/
theorem parse_call_not_closed {name : String} (hn : name ∈ funcs) {v : List Char}
    (hv : Spelling v name) :
    ∃ e', parse e (String.mk (v ++ '(' :: (inner ++ X))) = some (false, e') ∧
      e'.m_error = "Expected ')'" ∧ e'.m_parsed = false ∧ e'.m_root = .nullptr := by
  obtain ⟨w1, w2, hw1, hw2, ei⟩ := trimmed_decomp (A := A) inner
  have hlet := hv.letters (A := A) hn
  obtain ⟨w, hw, hnorm⟩ := @normalize_open A v inner X
    (by
      obtain ⟨k, t, rfl, _⟩ := hv.first hn
      intro c hc
      simp only [List.cons_append, List.head?_cons, Option.some.injEq] at hc
      subst hc
      exact (hlet _ (List.mem_cons_self _ _)).1)
    (fun h => (hlet _ h).2.2.2.2.2.2.1 rfl) hb (trimmed_ne_nil_of_parse hi) w1 w2 hw1 hw2 ei
    hX1 hX3
  obtain ⟨q', s', _, hu', hro, hpa, hnn⟩ := valid_in_context hb hi
    (v ++ '(' :: (w1 ++ (trimmed A inner ++ (w ++ X)))) hw1 hw hX
  have hx := rule_expression_fail
    (rule_unary_function hn hv (rule_function_not_closed s' hnn hu' hX2 name)) (by simp)
  have hs : Step .expression (parseStart e (String.mk (v ++ '(' :: (inner ++ X)))) .nullptr
      (q'.skipSpaces.setError "Expected ')'") := by
    rw [parseStart_mk]
    simp only [hnorm]
    exact hx
  exact ⟨_, parse_of_step_fail hs (by simp), rfl, hpa, hro⟩

end

theorem parse_sin_x_unclosed (e : ExpressionParser A) :
    parse e "sin(x" = some (false, ⟨['s', 'i', 'n', '(', 'x'], [], "Expected ')'", false,
      .nullptr⟩) := by
  simp [parse_eq, parseStart_mk, parseFinish, normalize, trimmed, replace, replaceFrom,
    List.rdropWhile, result_expression, result_expressionLoop, result_term, result_termLoop,
    result_factor, result_power, result_unary, result_function, result_primary,
    skipSpaces_mk, advance_mk, setError_mk, atEnd_mk, cur_mk, peek_mk, skipNumber_mk,
    isSpace, isDigit, implicitStart, numberStart, scanNumber, numberText, toDouble,
    funcs, matchesFunc, startsWithCI, foldCase, funcType,
    length_sin, length_cos, length_tan, length_sqrt, length_exp, length_log,
    Node.isNull, Node.binary, Node.number, Node.leaf, Node.unary]

theorem parse_1_add_2_space (e : ExpressionParser A) :
    parse e (String.mk ['1', '+', '2', ' ']) = some (true, ⟨['1', '+', '2'], [], "", true,
      .binary .Add (.number (A.ofInt 1)) (.number (A.ofInt 2))⟩) :=
  (parse_congr e (normalize_trailing_blank (s := ['1', '+', '2'])
    (show Blank A [' '] by simp [Blank, isSpace]))).trans (parse_1_add_2 e)

/-- C14: missing closing parenthesis.  Where a `(`, opening a group or the argument of a
function in any spelling, is followed by a text that is a valid expression (`parse`
accepts it; no backslash in it) and then by the end of the input or by a character other
than `)` at which the expression stops and any further text, `parse` returns false with the
error `Expected ')'` and installs no tree; so it does for `(1+2` and `sin(x`. -/
theorem C14_missing_closing_parenthesis {name : String} (hn : name ∈ funcs)
    {v inner X : List Char} (hv : Spelling v name) (hb : '\\' ∉ inner)
    {e0 e1 : ExpressionParser A} (hi : parse e0 (String.mk inner) = some (true, e1))
    (hX : StopText A X) (hX2 : X.head? ≠ some ')') (hX1 : '\\' ∉ X)
    (hX3 : ∀ c, X.getLast? = some c → isSpace A c = false) (e : ExpressionParser A) :
    (∃ e', parse e (String.mk (['('] ++ inner ++ X)) = some (false, e') ∧
      e'.errorString = "Expected ')'" ∧ e'.isValid = false ∧ e'.m_root = .nullptr) ∧
    (∃ e', parse e (String.mk (v ++ ['('] ++ inner ++ X)) = some (false, e') ∧
      e'.errorString = "Expected ')'" ∧ e'.isValid = false ∧ e'.m_root = .nullptr) ∧
    (∃ e', parse e "(1+2" = some (false, e') ∧ e'.errorString = "Expected ')'" ∧
      e'.isValid = false) ∧
    (∃ e', parse e "sin(x" = some (false, e') ∧ e'.errorString = "Expected ')'" ∧
      e'.isValid = false) := by
  have e1 : ['('] ++ inner ++ X = '(' :: (inner ++ X) := by simp
  have e2 : v ++ ['('] ++ inner ++ X = v ++ '(' :: (inner ++ X) := by simp
  rw [e1, e2]
  exact ⟨parse_group_not_closed hb hi hX hX2 hX1 hX3 e,
    parse_call_not_closed hb hi hX hX2 hX1 hX3 e hn hv,
    ⟨_, parse_unclosed e, rfl, rfl⟩, ⟨_, parse_sin_x_unclosed e, rfl, rfl⟩⟩

/-- Witness of C14 on the integer platform: `(1+2 ]` and `Log(1+2 ]`, where a space and
`]` follow the valid text `1+2`. -/
theorem C14_missing_closing_parenthesis_witness :
    "log" ∈ funcs ∧ Spelling ['L', 'o', 'g'] "log" ∧ '\\' ∉ ['1', '+', '2', ' '] ∧
    parse (fresh intPlatform) (String.mk ['1', '+', '2', ' ']) = some (true,
      ⟨['1', '+', '2'], [], "", true,
        .binary .Add (.number (intPlatform.ofInt 1)) (.number (intPlatform.ofInt 2))⟩) ∧
    StopText intPlatform [']'] ∧ [']'].head? ≠ some ')' ∧ '\\' ∉ [']'] ∧
    (∀ c, [']'].getLast? = some c → isSpace intPlatform c = false) ∧
    ((∃ e', parse (fresh intPlatform) (String.mk (['('] ++ ['1', '+', '2', ' '] ++ [']']))
        = some (false, e') ∧
      e'.errorString = "Expected ')'" ∧ e'.isValid = false ∧ e'.m_root = .nullptr) ∧
    (∃ e', parse (fresh intPlatform)
        (String.mk (['L', 'o', 'g'] ++ ['('] ++ ['1', '+', '2', ' '] ++ [']']))
        = some (false, e') ∧
      e'.errorString = "Expected ')'" ∧ e'.isValid = false ∧ e'.m_root = .nullptr) ∧
    (∃ e', parse (fresh intPlatform) "(1+2" = some (false, e') ∧
      e'.errorString = "Expected ')'" ∧ e'.isValid = false) ∧
    (∃ e', parse (fresh intPlatform) "sin(x" = some (false, e') ∧
      e'.errorString = "Expected ')'" ∧ e'.isValid = false)) :=
  ⟨by decide, by simp [Spelling, Char.toUpper], by decide,
    parse_1_add_2_space _,
    stopText_cons (by simp [Terminator, isSpace, isDigit, foldCase, nameLetters]) [],
    by decide, by decide, by simp [isSpace],
    C14_missing_closing_parenthesis (show "log" ∈ funcs by decide)
      (show Spelling ['L', 'o', 'g'] "log" by simp [Spelling, Char.toUpper]) (by decide)
      (parse_1_add_2_space (fresh intPlatform))
      (stopText_cons (by simp [Terminator, isSpace, isDigit, foldCase, nameLetters]) [])
      (by decide) (by decide) (by simp [isSpace]) (fresh intPlatform)⟩

/-- A well-formed tree stands for a tree of the specification, and `evalNode` computes the
reference denotation of that tree. -/
theorem WellFormed.eval {n : Node A} (h : WellFormed n) (x y : A.Double) :
    ∃ t, n.formula = some t ∧ evalNode n x y = t.denote x y := by
  induction h with
  | number v l r => exact ⟨_, rfl, rfl⟩
  | variableX v l r => exact ⟨_, rfl, rfl⟩
  | variableY v l r => exact ⟨_, rfl, rfl⟩
  | @binary t v l r ht _ _ ihl ihr =>
    obtain ⟨a, ha, ea⟩ := ihl
    obtain ⟨b, hb, eb⟩ := ihr
    cases t <;> simp [NodeType.isBinary] at ht <;>
      simp [Node.formula, evalNode, Formula.denote, ha, hb, ea, eb]
  | @unary t v l r ht _ ihl =>
    obtain ⟨a, ha, ea⟩ := ihl
    cases t <;> simp [NodeType.isUnary] at ht <;>
      simp [Node.formula, evalNode, Formula.denote, safeSqrt, safeLog, ha, ea]

/-- A tree that stands for a tree of the specification is well formed. -/
theorem wellFormed_of_formula : ∀ (n : Node A) (t : Formula A), n.formula = some t →
    WellFormed n
  | .nullptr, _, h => by simp [Node.formula] at h
  | .mk ty v l r, t, h => by
    cases ty
    case Number => exact .number v l r
    case Variable => exact .variableX v l r
    case VariableY => exact .variableY v l r
    case Add | Sub | Mul | Div | Pow =>
      simp only [Node.formula, Option.bind_eq_some, Option.map_eq_some'] at h
      obtain ⟨a, ha, b, hb, _⟩ := h
      exact .binary v rfl (wellFormed_of_formula l a ha) (wellFormed_of_formula r b hb)
    case Negate | Sin | Cos | Tan | Sqrt | Exp | Log =>
      simp only [Node.formula, Option.map_eq_some'] at h
      obtain ⟨a, ha, _⟩ := h
      exact .unary v r rfl (wellFormed_of_formula l a ha)

theorem addOp_isBinary {k : Char} {t : NodeType} (h : addOp k = some t) : t.isBinary = true := by
  rw [addOp_eq_some_iff] at h
  rcases h with ⟨_, rfl⟩ | ⟨_, _, rfl⟩ <;> rfl

theorem mulOp_isBinary {k : Char} {t : NodeType} (h : mulOp k = some t) : t.isBinary = true := by
  rw [mulOp_eq_some_iff] at h
  rcases h with ⟨_, rfl⟩ | ⟨_, _, rfl⟩ <;> rfl

theorem funcType_isUnary {name : String} {t : NodeType} (h : funcType name = some t) :
    t.isUnary = true := by
  unfold funcType at h
  split_ifs at h <;> simp only [Option.some.injEq] at h <;> subst h <;> rfl

/-- A call that is not a loop and whose guard let it go on returned a node. -/
theorem Step.guard_not_null {c : Call A} {p q : ExpressionParser A} {n : Node A}
    (h : Step c p n q) (hc : ¬ c.seedNull) (hg : ¬ (n.isNull = true ∧ q.m_error ≠ "")) :
    n.isNull = false := by
  cases hn : n.isNull
  · rfl
  · rcases h.null_error hn with h1 | h1
    · exact absurd ⟨hn, h1⟩ hg
    · exact absurd h1 hc

/-- Every node that a parsing function returns is well formed: a node is linked into a
tree only with the children it needs, and those are well formed themselves. -/
theorem Step.wellFormed {c : Call A} {p q : ExpressionParser A} {n : Node A}
    (h : Step c p n q) : c.seedWellFormed → n.isNull = false → WellFormed n := by
  induction h with
  | expression_fail => intro _ hn; cases hn
  | expression_loop h1 hg _ ih1 ih2 =>
    intro _ hn
    exact ih2 (ih1 trivial (h1.guard_not_null (fun h => h) hg)) hn
  | expressionLoop_stop => intro hs _; exact hs
  | expressionLoop_fail => intro _ hn; cases hn
  | expressionLoop_next _ ht _ hr _ ih1 ih2 =>
    intro hs hn
    exact ih2 (.binary _ (addOp_isBinary ht) hs (ih1 trivial hr)) hn
  | term_fail => intro _ hn; cases hn
  | term_loop h1 hg _ ih1 ih2 =>
    intro _ hn
    exact ih2 (ih1 trivial (h1.guard_not_null (fun h => h) hg)) hn
  | termLoop_stop => intro hs _; exact hs
  | termLoop_fail => intro _ hn; cases hn
  | termLoop_next _ ht _ hr _ ih1 ih2 =>
    intro hs hn
    exact ih2 (.binary _ (mulOp_isBinary ht) hs (ih1 trivial hr)) hn
  | factor _ ih => exact ih
  | power_fail => intro _ hn; cases hn
  | power_pow_fail => intro _ hn; cases hn
  | power_pow h1 hg _ _ _ hx ih1 ih2 =>
    intro _ _
    exact .binary _ rfl (ih1 trivial (h1.guard_not_null (fun h => h) hg)) (ih2 trivial hx)
  | power_implicit_fail _ _ _ _ _ _ _ ih1 _ => intro _ hn; exact ih1 trivial hn
  | power_implicit h1 hg _ _ _ _ hr ih1 ih2 =>
    intro _ _
    exact .binary _ rfl (ih1 trivial (h1.guard_not_null (fun h => h) hg)) (ih2 trivial hr)
  | power_plain _ _ _ ih1 => intro _ hn; exact ih1 trivial hn
  | unary_neg_fail => intro _ hn; cases hn
  | unary_neg _ _ _ hc ih => intro _ _; exact .unary _ _ rfl (ih trivial hc)
  | unary_primary _ _ ih => intro _ hn; exact ih trivial hn
  | function_noparen => intro _ hn; cases hn
  | function_arg_fail => intro _ hn; cases hn
  | function_noclose => intro _ hn; cases hn
  | function_ok _ _ _ ha _ _ hft ih =>
    intro _ _
    exact .unary _ _ (funcType_isUnary hft) (ih trivial ha)
  | function_unknown => intro _ hn; cases hn
  | primary_end => intro _ hn; cases hn
  | primary_x => intro _ _; exact .variableX _ _ _
  | primary_y => intro _ _; exact .variableY _ _ _
  | primary_paren_fail => intro _ hn; cases hn
  | primary_paren_noclose => intro _ hn; cases hn
  | primary_paren _ _ _ hi _ _ ih => intro _ _; exact ih trivial hi
  | primary_number_invalid => intro _ hn; cases hn
  | primary_number => intro _ _; exact .number _ _ _
  | primary_function _ _ _ _ _ _ _ ih => intro _ hn; exact ih trivial hn
  | primary_unexpected => intro _ hn; cases hn

theorem parse_y (e : ExpressionParser A) :
    parse e "y" = some (true, ⟨['y'], [], "", true, .leaf A .VariableY⟩) := by
  simp [parse_eq, parseStart_mk, parseFinish, normalize, trimmed, replace, replaceFrom,
    List.rdropWhile, result_expression, result_expressionLoop, result_term, result_termLoop,
    result_factor, result_power, result_unary, result_function, result_primary,
    skipSpaces_mk, advance_mk, setError_mk, atEnd_mk, cur_mk, peek_mk, skipNumber_mk,
    isSpace, isDigit, implicitStart, numberStart, scanNumber, numberText, toDouble,
    Node.isNull, Node.binary, Node.number, Node.leaf, Node.unary]

theorem wellFormed_x_add_2 :
    WellFormed (.binary .Add (.leaf A .Variable) (.number (A.ofInt 2))) :=
  @WellFormed.binary A .Add _ _ _ rfl (.variableX _ _ _) (.number _ _ _)

/-- C21: the evaluator computes the reference denotation.  Every well-formed tree stands
for a tree of the specification, and `evalNode` returns the denotation of that tree at
every `(x, y)`: a `Number` its value, the variables `x` and `y`, `Add`, `Sub`, `Mul` the
sum, difference and product of the values of the children, `Negate` the negation, and
`Pow`, `Sin`, `Cos`, `Tan`, `Exp` the standard function of the values of the children.
`parse("x")` evaluates to `x` and `parse("y")` to `y`. -/
theorem C21_evaluator_is_the_denotation {n : Node A} (hw : WellFormed n)
    (e : ExpressionParser A) (x y : A.Double) :
    (∃ t, n.formula = some t ∧ evalNode n x y = t.denote x y) ∧
    (∀ (v : A.Double) (l r : Node A),
      evalNode (.mk .Number v l r) x y = v ∧
      evalNode (.mk .Variable v l r) x y = x ∧
      evalNode (.mk .VariableY v l r) x y = y ∧
      evalNode (.mk .Add v l r) x y = A.add (evalNode l x y) (evalNode r x y) ∧
      evalNode (.mk .Sub v l r) x y = A.sub (evalNode l x y) (evalNode r x y) ∧
      evalNode (.mk .Mul v l r) x y = A.mul (evalNode l x y) (evalNode r x y) ∧
      evalNode (.mk .Negate v l r) x y = A.neg (evalNode l x y) ∧
      evalNode (.mk .Pow v l r) x y = A.pow (evalNode l x y) (evalNode r x y) ∧
      evalNode (.mk .Sin v l r) x y = A.sin (evalNode l x y) ∧
      evalNode (.mk .Cos v l r) x y = A.cos (evalNode l x y) ∧
      evalNode (.mk .Tan v l r) x y = A.tan (evalNode l x y) ∧
      evalNode (.mk .Exp v l r) x y = A.exp (evalNode l x y)) ∧
    (∃ e', parse e "x" = some (true, e') ∧ eval e' x y = x ∧ eval1 e' x = x) ∧
    (∃ e', parse e "y" = some (true, e') ∧ eval e' x y = y) :=
  ⟨hw.eval x y, fun _ _ _ => ⟨rfl, rfl, rfl, rfl, rfl, rfl, rfl, rfl, rfl, rfl, rfl, rfl⟩,
    ⟨_, parse_x e, rfl, rfl⟩, ⟨_, parse_y e, rfl⟩⟩

/-- Witness of C21 on the integer platform: the tree `Add(x, 2)` at `x = 3`, `y = 5`. -/
theorem C21_evaluator_is_the_denotation_witness :
    WellFormed (.binary .Add (.leaf intPlatform .Variable) (.number (intPlatform.ofInt 2))) ∧
    ((∃ t, (Node.binary .Add (.leaf intPlatform .Variable)
        (.number (intPlatform.ofInt 2))).formula = some t ∧
      evalNode (.binary .Add (.leaf intPlatform .Variable) (.number (intPlatform.ofInt 2)))
        (intPlatform.ofInt 3) (intPlatform.ofInt 5) =
        t.denote (intPlatform.ofInt 3) (intPlatform.ofInt 5)) ∧
    (∀ (v : intPlatform.Double) (l r : Node intPlatform),
      evalNode (.mk .Number v l r) (intPlatform.ofInt 3) (intPlatform.ofInt 5) = v ∧
      evalNode (.mk .Variable v l r) (intPlatform.ofInt 3) (intPlatform.ofInt 5)
        = intPlatform.ofInt 3 ∧
      evalNode (.mk .VariableY v l r) (intPlatform.ofInt 3) (intPlatform.ofInt 5)
        = intPlatform.ofInt 5 ∧
      evalNode (.mk .Add v l r) (intPlatform.ofInt 3) (intPlatform.ofInt 5) =
        intPlatform.add (evalNode l (intPlatform.ofInt 3) (intPlatform.ofInt 5))
          (evalNode r (intPlatform.ofInt 3) (intPlatform.ofInt 5)) ∧
      evalNode (.mk .Sub v l r) (intPlatform.ofInt 3) (intPlatform.ofInt 5) =
        intPlatform.sub (evalNode l (intPlatform.ofInt 3) (intPlatform.ofInt 5))
          (evalNode r (intPlatform.ofInt 3) (intPlatform.ofInt 5)) ∧
      evalNode (.mk .Mul v l r) (intPlatform.ofInt 3) (intPlatform.ofInt 5) =
        intPlatform.mul (evalNode l (intPlatform.ofInt 3) (intPlatform.ofInt 5))
          (evalNode r (intPlatform.ofInt 3) (intPlatform.ofInt 5)) ∧
      evalNode (.mk .Negate v l r) (intPlatform.ofInt 3) (intPlatform.ofInt 5) =
        intPlatform.neg (evalNode l (intPlatform.ofInt 3) (intPlatform.ofInt 5)) ∧
      evalNode (.mk .Pow v l r) (intPlatform.ofInt 3) (intPlatform.ofInt 5) =
        intPlatform.pow (evalNode l (intPlatform.ofInt 3) (intPlatform.ofInt 5))
          (evalNode r (intPlatform.ofInt 3) (intPlatform.ofInt 5)) ∧
      evalNode (.mk .Sin v l r) (intPlatform.ofInt 3) (intPlatform.ofInt 5) =
        intPlatform.sin (evalNode l (intPlatform.ofInt 3) (intPlatform.ofInt 5)) ∧
      evalNode (.mk .Cos v l r) (intPlatform.ofInt 3) (intPlatform.ofInt 5) =
        intPlatform.cos (evalNode l (intPlatform.ofInt 3) (intPlatform.ofInt 5)) ∧
      evalNode (.mk .Tan v l r) (intPlatform.ofInt 3) (intPlatform.ofInt 5) =
        intPlatform.tan (evalNode l (intPlatform.ofInt 3) (intPlatform.ofInt 5)) ∧
      evalNode (.mk .Exp v l r) (intPlatform.ofInt 3) (intPlatform.ofInt 5) =
        intPlatform.exp (evalNode l (intPlatform.ofInt 3) (intPlatform.ofInt 5))) ∧
    (∃ e', parse (fresh intPlatform) "x" = some (true, e') ∧
      eval e' (intPlatform.ofInt 3) (intPlatform.ofInt 5) = intPlatform.ofInt 3 ∧
      eval1 e' (intPlatform.ofInt 3) = intPlatform.ofInt 3) ∧
    (∃ e', parse (fresh intPlatform) "y" = some (true, e') ∧
      eval e' (intPlatform.ofInt 3) (intPlatform.ofInt 5) = intPlatform.ofInt 5)) :=
  ⟨wellFormed_x_add_2,
    C21_evaluator_is_the_denotation wellFormed_x_add_2
      (fresh intPlatform) (intPlatform.ofInt 3) (intPlatform.ofInt 5)⟩

/-- C22: tree well-formedness.  After a `parse` call that returns true the root is
present and the tree is well formed: every binary node has both children and every unary
node its child, all the way down, so the tree stands for a tree of the specification and
evaluation never reaches an absent child.  And every parsing function that returns null
has left an error message (the loops: unless they were entered with a null operand). -/
theorem C22_tree_well_formed (e : ExpressionParser A) (text : String)
    (e' : ExpressionParser A) (h : parse e text = some (true, e')) :
    e'.m_root.isNull = false ∧ WellFormed e'.m_root ∧
    (∃ t, e'.m_root.formula = some t ∧
      ∀ x y, eval e' x y = t.denote x y) ∧
    (∀ (c : Call A) (p : ExpressionParser A), ¬ c.seedNull →
      (c.result p).1.isNull = true → (c.result p).2.m_error ≠ "") := by
  obtain ⟨q, hs, he, _⟩ := parse_true_inv h
  have hn : e'.m_root.isNull = false := hs.no_null he (fun h => h)
  have hw : WellFormed e'.m_root := hs.wellFormed trivial hn
  refine ⟨hn, hw, ?_, ?_⟩
  · obtain ⟨t, ht, _⟩ := hw.eval (A.ofInt 0) (A.ofInt 0)
    refine ⟨t, ht, fun x y => ?_⟩
    obtain ⟨t', ht', et⟩ := hw.eval x y
    rw [ht] at ht'
    cases ht'
    simp only [eval, hn, Bool.false_eq_true, if_false]
    exact et
  · intro c p hc hnull
    rcases (Step.of_result c p).null_error hnull with h1 | h1
    · exact h1
    · exact absurd h1 hc

/-- Witness of C22 on the integer platform: `parse("1+2")`. -/
theorem C22_tree_well_formed_witness :
    parse (fresh intPlatform) "1+2" = some (true, ⟨['1', '+', '2'], [], "", true,
      .binary .Add (.number (intPlatform.ofInt 1)) (.number (intPlatform.ofInt 2))⟩) ∧
    ((⟨['1', '+', '2'], [], "", true,
      .binary .Add (.number (intPlatform.ofInt 1)) (.number (intPlatform.ofInt 2))⟩ :
        ExpressionParser intPlatform).m_root.isNull = false ∧
    WellFormed (⟨['1', '+', '2'], [], "", true,
      .binary .Add (.number (intPlatform.ofInt 1)) (.number (intPlatform.ofInt 2))⟩ :
        ExpressionParser intPlatform).m_root ∧
    (∃ t, (⟨['1', '+', '2'], [], "", true,
      .binary .Add (.number (intPlatform.ofInt 1)) (.number (intPlatform.ofInt 2))⟩ :
        ExpressionParser intPlatform).m_root.formula = some t ∧
      ∀ x y, eval (⟨['1', '+', '2'], [], "", true,
        .binary .Add (.number (intPlatform.ofInt 1)) (.number (intPlatform.ofInt 2))⟩ :
          ExpressionParser intPlatform) x y = t.denote x y) ∧
    (∀ (c : Call intPlatform) (p : ExpressionParser intPlatform), ¬ c.seedNull →
      (c.result p).1.isNull = true → (c.result p).2.m_error ≠ "")) :=
  ⟨parse_1_add_2 _,
    C22_tree_well_formed (fresh intPlatform) "1+2" _ (parse_1_add_2 (fresh intPlatform))⟩

theorem scanNumber_suffix (p : ExpressionParser A) : (scanNumber p).unread <:+ p.unread := by
  unfold scanNumber
  split
  · exact (List.dropWhile_suffix _).trans (List.drop_suffix _ _)
  · exact List.dropWhile_suffix _

/-- Reading a number consumes a character: the cursor is on a dot that is passed over, or
on a digit that the loop passes over. -/
theorem scanNumber_lt {p : ExpressionParser A} (h : numberStart p) :
    (scanNumber p).unread.length < p.unread.length := by
  unfold scanNumber
  split
  · rename_i hdot
    rcases h with h | ⟨_, h, _⟩
    · have h1 := (List.dropWhile_suffix (fun c => isDigit A c || c == '.')
        (l := (p.advance 1).unread)).length_le
      cases hu : p.unread with
      | nil => simp [cur, hu] at hdot
      | cons a t =>
        simp only [skipNumber_unread, advance_unread, hu, List.drop_succ_cons, List.drop_zero,
          List.length_cons] at h1 ⊢
        omega
    · have h1 := (List.dropWhile_suffix (fun c => isDigit A c || c == '.')
        (l := (p.advance 1).unread)).length_le
      simp only [skipNumber_unread, advance_unread, List.length_drop] at h1 ⊢
      omega
  · rename_i hdot
    rcases h with h | ⟨h, _, _⟩
    · cases hu : p.unread with
      | nil => simp [cur, hu, isDigit] at h
      | cons a t =>
        have ha : isDigit A a = true := by simpa [cur, hu] using h
        have h1 := (List.dropWhile_suffix (fun c => isDigit A c || c == '.') (l := t)).length_le
        simp only [skipNumber_unread, hu, List.dropWhile_cons, ha, Bool.true_or, if_true,
          List.length_cons]
        omega
    · exact absurd h hdot

/-- Every call leaves the text as it is and the cursor where it was or further on: what is
unread afterwards is an end piece of what was unread before. -/
theorem Step.suffix {c : Call A} {p q : ExpressionParser A} {n : Node A}
    (h : Step c p n q) : q.unread <:+ p.unread := by
  have sk : ∀ r : ExpressionParser A, r.skipSpaces.unread <:+ r.unread :=
    fun r => List.dropWhile_suffix _
  have ad : ∀ (r : ExpressionParser A) (k : Nat), (r.advance k).unread <:+ r.unread :=
    fun r k => List.drop_suffix _ _
  induction h with
  | expression_fail _ _ _ ih => exact ih
  | expression_loop _ _ _ ih1 ih2 => exact (ih2.trans (sk _)).trans ih1
  | expressionLoop_stop => exact List.suffix_refl _
  | expressionLoop_fail _ _ _ _ ih => exact (ih.trans (sk _)).trans (ad _ _)
  | expressionLoop_next _ _ _ _ _ ih1 ih2 =>
    exact ((ih2.trans (sk _)).trans ih1).trans ((sk _).trans (ad _ _))
  | term_fail _ _ _ ih => exact ih
  | term_loop _ _ _ ih1 ih2 => exact (ih2.trans (sk _)).trans ih1
  | termLoop_stop => exact List.suffix_refl _
  | termLoop_fail _ _ _ _ ih => exact (ih.trans (sk _)).trans (ad _ _)
  | termLoop_next _ _ _ _ _ ih1 ih2 =>
    exact ((ih2.trans (sk _)).trans ih1).trans ((sk _).trans (ad _ _))
  | factor _ ih => exact ih
  | power_fail _ _ _ ih => exact ih
  | power_pow_fail _ _ _ _ _ _ ih1 ih2 =>
    exact (ih2.trans ((sk _).trans ((ad _ _).trans (sk _)))).trans ih1
  | power_pow _ _ _ _ _ _ ih1 ih2 =>
    exact (ih2.trans ((sk _).trans ((ad _ _).trans (sk _)))).trans ih1
  | power_implicit_fail _ _ _ _ _ _ _ ih1 ih2 => exact (ih2.trans (sk _)).trans ih1
  | power_implicit _ _ _ _ _ _ _ ih1 ih2 => exact (ih2.trans (sk _)).trans ih1
  | power_plain _ _ _ ih1 => exact (sk _).trans ih1
  | unary_neg_fail _ _ _ _ ih => exact ih.trans ((ad _ _).trans (sk _))
  | unary_neg _ _ _ _ ih => exact ih.trans ((ad _ _).trans (sk _))
  | unary_primary _ _ ih => exact ih.trans (sk _)
  | function_noparen => exact sk _
  | function_arg_fail _ _ _ _ ih => exact ih.trans ((ad _ _).trans (sk _))
  | function_noclose _ _ _ _ _ ih => exact ((sk _).trans ih).trans ((ad _ _).trans (sk _))
  | function_ok _ _ _ _ _ _ _ ih =>
    exact (((ad _ _).trans (sk _)).trans ih).trans ((ad _ _).trans (sk _))
  | function_unknown _ _ _ _ _ _ _ ih =>
    exact (((ad _ _).trans (sk _)).trans ih).trans ((ad _ _).trans (sk _))
  | primary_end => exact sk _
  | primary_x => exact (ad _ _).trans (sk _)
  | primary_y => exact (ad _ _).trans (sk _)
  | primary_paren_fail _ _ _ _ ih => exact ih.trans ((ad _ _).trans (sk _))
  | primary_paren_noclose _ _ _ _ _ ih => exact ((sk _).trans ih).trans ((ad _ _).trans (sk _))
  | primary_paren _ _ _ _ _ _ ih =>
    exact (((ad _ _).trans (sk _)).trans ih).trans ((ad _ _).trans (sk _))
  | primary_number_invalid => exact (scanNumber_suffix _).trans (sk _)
  | primary_number => exact (scanNumber_suffix _).trans (sk _)
  | primary_function _ _ _ _ _ _ _ ih => exact ih.trans ((ad _ _).trans (sk _))
  | primary_unexpected => exact sk _

theorem advance_lt {p : ExpressionParser A} (h : p.atEnd = false) :
    (p.advance 1).unread.length < p.unread.length := by
  have := advance_one_length' h
  omega

/-- A parsing function that returns a node has consumed at least one character. -/
theorem Step.consumed {c : Call A} {p q : ExpressionParser A} {n : Node A}
    (h : Step c p n q) : c.isLoop = false → n.isNull = false →
      q.unread.length < p.unread.length := by
  induction h with
  | expression_fail => intro _ hn; cases hn
  | expression_loop h1 hg h2 ih1 _ =>
    intro _ _
    have a := ih1 rfl (h1.guard_not_null (fun h => h) hg)
    have b := h2.length
    simp only [setError_unread, advance_unread, skipSpaces_unread, length_dropWhile,
      List.length_drop, atEnd_false_iff] at *
    omega
  | expressionLoop_stop => intro hc; cases hc
  | expressionLoop_fail => intro hc; cases hc
  | expressionLoop_next => intro hc; cases hc
  | term_fail => intro _ hn; cases hn
  | term_loop h1 hg h2 ih1 _ =>
    intro _ _
    have a := ih1 rfl (h1.guard_not_null (fun h => h) hg)
    have b := h2.length
    simp only [setError_unread, advance_unread, skipSpaces_unread, length_dropWhile,
      List.length_drop, atEnd_false_iff] at *
    omega
  | termLoop_stop => intro hc; cases hc
  | termLoop_fail => intro hc; cases hc
  | termLoop_next => intro hc; cases hc
  | factor _ ih => intro _ hn; exact ih rfl hn
  | power_fail => intro _ hn; cases hn
  | power_pow_fail => intro _ hn; cases hn
  | power_pow h1 _ he _ h2 _ _ _ =>
    intro _ _
    have a := h1.length
    have b := h2.length
    have c := advance_one_length he
    simp only [setError_unread, advance_unread, skipSpaces_unread, length_dropWhile,
      List.length_drop, atEnd_false_iff] at *
    omega
  | power_implicit_fail h1 _ _ _ _ h2 _ ih1 _ =>
    intro _ hn
    have a := ih1 rfl hn
    have b := h2.length
    simp only [setError_unread, advance_unread, skipSpaces_unread, length_dropWhile,
      List.length_drop, atEnd_false_iff] at *
    omega
  | power_implicit h1 hg _ _ _ h2 _ ih1 _ =>
    intro _ _
    have a := ih1 rfl (h1.guard_not_null (fun h => h) hg)
    have b := h2.length
    simp only [setError_unread, advance_unread, skipSpaces_unread, length_dropWhile,
      List.length_drop, atEnd_false_iff] at *
    omega
  | power_plain _ _ _ ih1 =>
    intro _ hn
    have a := ih1 rfl hn
    simp only [setError_unread, advance_unread, skipSpaces_unread, length_dropWhile,
      List.length_drop, atEnd_false_iff] at *
    omega
  | unary_neg_fail => intro _ hn; cases hn
  | unary_neg he _ h1 _ _ =>
    intro _ _
    have a := h1.length
    have b := advance_lt he
    simp only [setError_unread, advance_unread, skipSpaces_unread, length_dropWhile,
      List.length_drop, atEnd_false_iff] at *
    omega
  | unary_primary _ _ ih =>
    intro _ hn
    have a := ih rfl hn
    simp only [setError_unread, advance_unread, skipSpaces_unread, length_dropWhile,
      List.length_drop, atEnd_false_iff] at *
    omega
  | function_noparen => intro _ hn; cases hn
  | function_arg_fail => intro _ hn; cases hn
  | function_noclose => intro _ hn; cases hn
  | function_ok he _ h1 _ he2 _ _ _ =>
    intro _ _
    have a := h1.length
    have b := advance_lt he
    have b2 := advance_lt he2
    simp only [setError_unread, advance_unread, skipSpaces_unread, length_dropWhile,
      List.length_drop, atEnd_false_iff] at *
    omega
  | function_unknown => intro _ hn; cases hn
  | primary_end => intro _ hn; cases hn
  | primary_x he _ =>
    intro _ _
    have b := advance_lt he
    simp only [setError_unread, advance_unread, skipSpaces_unread, length_dropWhile,
      List.length_drop, atEnd_false_iff] at *
    omega
  | primary_y he _ _ =>
    intro _ _
    have b := advance_lt he
    simp only [setError_unread, advance_unread, skipSpaces_unread, length_dropWhile,
      List.length_drop, atEnd_false_iff] at *
    omega
  | primary_paren_fail => intro _ hn; cases hn
  | primary_paren_noclose => intro _ hn; cases hn
  | primary_paren he _ h1 _ he2 _ _ =>
    intro _ _
    have a := h1.length
    have b := advance_lt he
    have b2 := advance_lt he2
    simp only [setError_unread, advance_unread, skipSpaces_unread, length_dropWhile,
      List.length_drop, atEnd_false_iff] at *
    omega
  | primary_number_invalid => intro _ hn; cases hn
  | primary_number _ _ _ _ hs _ =>
    intro _ _
    have a := scanNumber_lt hs
    simp only [setError_unread, advance_unread, skipSpaces_unread, length_dropWhile,
      List.length_drop, atEnd_false_iff] at *
    omega
  | primary_function _ _ _ _ _ _ h1 ih =>
    intro _ hn
    have a := ih rfl hn
    simp only [setError_unread, advance_unread, skipSpaces_unread, length_dropWhile,
      List.length_drop, atEnd_false_iff] at *
    omega
  | primary_unexpected => intro _ hn; cases hn

theorem m_pos_of_suffix {p q : ExpressionParser A} (hi : q.m_input = p.m_input)
    (hs : q.unread <:+ p.unread) (hp : p.unread <:+ p.m_input) :
    p.m_pos ≤ q.m_pos ∧ q.m_pos ≤ p.size ∧ q.unread = p.m_input.drop q.m_pos := by
  obtain ⟨s, hs⟩ := hs
  obtain ⟨t, ht⟩ := hp
  have h1 := congrArg List.length hs
  have h2 := congrArg List.length ht
  simp only [List.length_append] at h1 h2
  refine ⟨?_, ?_, ?_⟩
  · simp only [m_pos, hi]; omega
  · simp only [m_pos, size, hi]; omega
  · have e : p.m_input = (t ++ s) ++ q.unread := by rw [← ht, ← hs, List.append_assoc]
    have l : q.m_pos = (t ++ s).length := by
      simp only [m_pos, hi, List.length_append]; omega
    rw [l, e, List.drop_left]

theorem find_funcs_lt {p : ExpressionParser A} {fn : String}
    (h : funcs.find? (matchesFunc p) = some fn) :
    (p.advance fn.length).unread.length < p.unread.length := by
  obtain ⟨h1, h2⟩ := find_funcs h
  have := mem_funcs_length h1
  simp only [advance_unread, List.length_drop]
  omega

/-- C24: `parse` terminates on every input text and `evalNode` on every tree.  `parse`
returns for every text, and every parsing function returns when it is run with fuel
`10 * (number of unread characters) + rank`, so the mutual recursion is well founded on
the remaining input length.  The reasons: no call changes the text, and what is unread
after a call is an end piece of what was unread before, so that the cursor `m_pos`, which
`parse` starts at 0, only moves forward and stays within `0..size`; a parsing function
that returns a node has consumed at least one character; and at every place where
`parseExpression`, `parsePower` or `parseUnary` is entered again (after `(`, after a
function name, after `^`, for the implicit right operand, after `-`) and where a loop
asks for its next operand, fewer characters are unread than when the calling function was
entered.  `evalNode` is defined by recursion on the tree and has a value for every tree. -/
theorem C24_parse_and_evalNode_terminate (e : ExpressionParser A) (text : String)
    (c : Call A) (p : ExpressionParser A) (n : Node A) (x y : A.Double) :
    (∃ r, parse e text = some r) ∧
    (∀ f, 10 * p.unread.length + c.rank ≤ f → c.run f p = some (c.result p)) ∧
    ((c.result p).2.m_input = p.m_input ∧ (c.result p).2.unread <:+ p.unread ∧
      (c.result p).2.unread.length ≤ p.unread.length) ∧
    ((parseStart e text).m_pos = 0 ∧
      (parseStart e text).unread <:+ (parseStart e text).m_input) ∧
    (p.unread <:+ p.m_input →
      (c.result p).2.unread <:+ (c.result p).2.m_input ∧
      p.m_pos ≤ (c.result p).2.m_pos ∧ (c.result p).2.m_pos ≤ p.size ∧
      (c.result p).2.unread = p.m_input.drop (c.result p).2.m_pos) ∧
    (c.isLoop = false → (c.result p).1.isNull = false →
      (c.result p).2.unread.length < p.unread.length) ∧
    (p.skipSpaces.atEnd = false →
      (p.skipSpaces.advance 1).unread.length < p.unread.length) ∧
    (∀ fn, funcs.find? (matchesFunc p.skipSpaces) = some fn →
      ((p.skipSpaces.advance fn.length).skipSpaces.advance 1).unread.length
        < p.unread.length) ∧
    (∀ base p1, Step .unary p base p1 → p1.skipSpaces.atEnd = false →
      (p1.skipSpaces.advance 1).skipSpaces.unread.length < p.unread.length) ∧
    (∀ base p1, Step .unary p base p1 → ¬ (base.isNull = true ∧ p1.m_error ≠ "") →
      p1.skipSpaces.unread.length < p.unread.length) ∧
    (p.atEnd = false → (p.advance 1).skipSpaces.unread.length < p.unread.length) ∧
    (∃ v, evalNode n x y = v) := by
  have hs := Step.of_result c p
  refine ⟨⟨_, parse_eq e text⟩, fun f hf => run_eq_result hf,
    ⟨hs.frame.1, hs.suffix, hs.length⟩, ⟨?_, ?_⟩, ?_, hs.consumed, ?_, ?_, ?_, ?_, ?_, ⟨_, rfl⟩⟩
  · simp [parseStart, m_pos]
  · simp [parseStart]
  · intro hp
    have h := m_pos_of_suffix hs.frame.1 hs.suffix hp
    refine ⟨?_, h⟩
    rw [hs.frame.1]
    exact hs.suffix.trans hp
  · intro he
    have a := advance_lt he
    have b := skipSpaces_length p
    omega
  · intro fn hf
    have a := find_funcs_lt hf
    have b := skipSpaces_length p
    have c : ((p.skipSpaces.advance fn.length).skipSpaces.advance 1).unread.length
        ≤ (p.skipSpaces.advance fn.length).unread.length :=
      ((List.drop_suffix _ _).trans (List.dropWhile_suffix _)).length_le
    omega
  · intro base p1 h1 he
    have a := h1.length
    have b := advance_one_length he
    have c := skipSpaces_length p1
    omega
  · intro base p1 h1 hg
    have a := h1.consumed rfl (h1.guard_not_null (fun h => h) hg)
    have c := skipSpaces_length p1
    omega
  · intro he
    have b := advance_one_length he
    omega

/-- Whitespace, then a character that is neither a digit nor a dot, does not continue a
number. -/
theorem follows_blank_cons (s : List Char) {ws : List Char} (hw : Blank A ws) {k : Char}
    (r : List Char) (h1 : isDigit A k = false) (h2 : k ≠ '.') : Follows A s (ws ++ k :: r) := by
  cases ws with
  | nil => exact follows_cons s r h1 h2
  | cons w t =>
    have hs : isSpace A w = true := hw w (List.mem_cons_self _ _)
    refine follows_cons s _ ?_ ?_
    · cases hd : isDigit A w
      · rfl
      · rw [isDigit_not_space hd] at hs
        cases hs
    · rintro rfl
      simp [isSpace] at hs

/-- The derivation for primaries `a`, `b` with only whitespace between them, then
whitespace, `^` and any text `r`: `parsePower` multiplies `a` and `b` and returns, neither
loop continues at `^`, and `parse` finds it unread. -/
theorem parse_implicit_caret {a b ws1 ws2 r : List Char} {na nb : Node A}
    (ha : Primary A a na) (hb : Primary A b nb) (hw1 : Blank A ws1)
    (hw2 : Blank A ws2) (hf1 : Follows A a (ws1 ++ (b ++ (ws2 ++ '^' :: r))))
    (hr1 : '\\' ∉ r)
    (hr2 : ∀ k, r.getLast? = some k → isSpace A k = false) (e : ExpressionParser A) :
    parse e (String.mk (a ++ (ws1 ++ (b ++ (ws2 ++ '^' :: r))))) =
      some (false, ⟨a ++ (ws1 ++ (b ++ (ws2 ++ '^' :: r))), '^' :: r,
        "Unexpected character at end", false, .nullptr⟩) := by
  have hf2 : Follows A b (ws2 ++ '^' :: r) :=
    follows_blank_cons b hw2 r (by simp [isDigit]) (by decide)
  have hn : normalize A (a ++ (ws1 ++ (b ++ (ws2 ++ '^' :: r)))) =
      a ++ (ws1 ++ (b ++ (ws2 ++ '^' :: r))) := by
    refine normalize_plain ?_ ?_ ?_
    · obtain ⟨h, t, rfl, hh⟩ := ha.head
      intro k hk
      simp only [List.cons_append, List.head?_cons, Option.some.injEq] at hk
      subst hk
      exact hh.not_space
    · intro k hk
      rcases List.eq_nil_or_concat' r with rfl | ⟨m, l, rfl⟩
      · have e1 : a ++ (ws1 ++ (b ++ (ws2 ++ ['^']))) = (a ++ (ws1 ++ (b ++ ws2))) ++ ['^'] := by
          simp
        rw [e1, List.getLast?_concat] at hk
        rw [← Option.some.inj hk]
        simp [isSpace]
      · have e1 : a ++ (ws1 ++ (b ++ (ws2 ++ '^' :: (m ++ [l])))) =
            (a ++ (ws1 ++ (b ++ (ws2 ++ '^' :: m)))) ++ [l] := by simp
        rw [e1, List.getLast?_concat] at hk
        rw [← Option.some.inj hk]
        exact hr2 l (List.getLast?_concat m)
    · intro h
      simp only [List.mem_append, List.mem_cons] at h
      rcases h with h | h | h | h | h | h
      · exact no_backslash_of_primary ha h
      · exact hw1.no_backslash h
      · exact no_backslash_of_primary hb h
      · exact hw2.no_backslash h
      · exact absurd h (by decide)
      · exact hr1 h
  have ua : Step .unary ⟨a ++ (ws1 ++ (b ++ (ws2 ++ '^' :: r))),
      a ++ (ws1 ++ (b ++ (ws2 ++ '^' :: r))), "", false, .nullptr⟩ na
      ⟨a ++ (ws1 ++ (b ++ (ws2 ++ '^' :: r))), ws1 ++ (b ++ (ws2 ++ '^' :: r)), "", false,
        .nullptr⟩ :=
    step_iff_result.mpr (unary_primary ha hf1 _ _ _ _)
  have ub : Step .unary ⟨a ++ (ws1 ++ (b ++ (ws2 ++ '^' :: r))), b ++ (ws2 ++ '^' :: r), "",
      false, .nullptr⟩
      nb ⟨a ++ (ws1 ++ (b ++ (ws2 ++ '^' :: r))), ws2 ++ '^' :: r, "", false, .nullptr⟩ :=
    step_iff_result.mpr (unary_primary hb hf2 _ _ _ _)
  have hi := hb.implicitStart_mk (ws2 ++ '^' :: r) (a ++ (ws1 ++ (b ++ (ws2 ++ '^' :: r)))) ""
    false (.nullptr : Node A)
  have hd : (ws1 ++ (b ++ (ws2 ++ '^' :: r))).dropWhile (isSpace A) = b ++ (ws2 ++ '^' :: r) := by
    rw [hw1.dropWhile, hb.dropWhile_space]
  have hd3 : ('^' :: r).dropWhile (isSpace A) = '^' :: r := by
    simp [List.dropWhile_cons, isSpace]
  have hd2 : (ws2 ++ '^' :: r).dropWhile (isSpace A) = '^' :: r := by
    rw [hw2.dropWhile, hd3]
  obtain ⟨h, t, rfl, hh⟩ := hb.head
  have pw := rule_power_mul ua ha.isNull hd (hh.ne '^') hi ub hb.isNull
  have tm : Step .term _ (.binary .Mul na nb)
      ⟨_, '^' :: r, "", false, (.nullptr : Node A)⟩ :=
    rule_term pw (binary_isNull _ _ _) (by
      rw [hd2]
      exact rule_termLoop_stop (by decide) (by decide))
  have ex : Step .expression _ (.binary .Mul na nb)
      ⟨_, '^' :: r, "", false, (.nullptr : Node A)⟩ :=
    rule_expression tm (binary_isNull _ _ _) (by
      rw [hd3]
      exact rule_expressionLoop_stop (by decide) (by decide))
  exact parse_of_step_trailing hn ex hd3

theorem parse_paren_caret (e : ExpressionParser A) :
    parse e "(1)(2)^(3)" = some (false, ⟨['(', '1', ')', '(', '2', ')', '^', '(', '3', ')'],
      ['^', '(', '3', ')'], "Unexpected character at end", false, .nullptr⟩) := by
  simp [parse_eq, parseStart_mk, parseFinish, normalize, trimmed, replace, replaceFrom,
    List.rdropWhile, result_expression, result_expressionLoop, result_term, result_termLoop,
    result_factor, result_power, result_unary, result_function, result_primary,
    skipSpaces_mk, advance_mk, setError_mk, atEnd_mk, cur_mk, peek_mk, skipNumber_mk,
    isSpace, isDigit, implicitStart, numberStart, scanNumber, numberText, toDouble,
    Node.isNull, Node.binary, Node.number, Node.leaf, Node.unary]

/-- C25: an implicit right factor cannot carry an exponent.  For primaries `a`, `b`, `c`
(variables or numbers) with `a` and `b` written without an operator between them
(whitespace or nothing, and `a` ending before what follows it), the input `a b ^ c` does
not parse: `parsePower` returns the product of `a` and `b`, and `parse` returns false with
the error `Unexpected character at end`, the text from `^` on unread; the engine is not
valid and `eval` gives the value of `qQNaN()`.  With the operator written, `a*b^c` parses
to `Mul(a, Pow(b, c))`.  So `2x^2` does not parse and `2*x^2` parses to `Mul(2, Pow(x, 2))`;
parenthesised operands fare the same: `(1)(2)^(3)` does not parse. -/
theorem C25_implicit_right_factor_takes_no_exponent {a b c ws1 ws2 : List Char}
    {na nb nc : Node A} (ha : Primary A a na) (hb : Primary A b nb) (hc : Primary A c nc)
    (hw1 : Blank A ws1) (hw2 : Blank A ws2)
    (hf : Follows A a (ws1 ++ (b ++ (ws2 ++ '^' :: c))))
    (e : ExpressionParser A) (x y : A.Double) :
    (∃ e', parse e (String.mk (a ++ ws1 ++ b ++ ws2 ++ '^' :: c)) = some (false, e') ∧
      e'.errorString = "Unexpected character at end" ∧ e'.unread = '^' :: c ∧
      e'.isValid = false ∧ eval e' x y = A.qQNaN) ∧
    (∃ e', parse e (String.mk (a ++ '*' :: (b ++ '^' :: c))) = some (true, e') ∧
      e'.m_root = .binary .Mul na (.binary .Pow nb nc) ∧ e'.errorString = "" ∧
      e'.isValid = true) ∧
    (∃ e', parse e "2x^2" = some (false, e') ∧
      e'.errorString = "Unexpected character at end") ∧
    (∃ e', parse e "2*x^2" = some (true, e') ∧
      e'.m_root = .binary .Mul (.number (A.ofInt 2))
        (.binary .Pow (.leaf A .Variable) (.number (A.ofInt 2)))) ∧
    (∃ e', parse e "(1)(2)^(3)" = some (false, e') ∧
      e'.errorString = "Unexpected character at end") := by
  have hc2 : ∀ k, c.getLast? = some k → isSpace A k = false := fun k hk =>
    (hc.chars k (List.mem_of_mem_getLast? hk)).not_space
  have p := parse_implicit_caret ha hb hw1 hw2 hf (no_backslash_of_primary hc) hc2 e
  have e1 : a ++ ws1 ++ b ++ ws2 ++ '^' :: c = a ++ (ws1 ++ (b ++ (ws2 ++ '^' :: c))) := by
    simp
  rw [e1]
  refine ⟨⟨_, p, rfl, rfl, rfl, by simp [eval, Node.isNull]⟩,
    ⟨_, parse_mul_pow ha hb hc e (k := '*') rfl, rfl, rfl, rfl⟩,
    ⟨_, parse_implicit_caret (r := ['2'])
      (primary_digit '2' (by decide)) Primary.x
      (show Blank A [] by simp [Blank]) (show Blank A [] by simp [Blank])
      (follows_cons _ _ (by simp [isDigit]) (by decide)) (by simp) (by simp [isSpace]) e, rfl⟩,
    ⟨_, parse_mul_pow (primary_digit '2' (by decide)) Primary.x
      (primary_digit '2' (by decide)) e (k := '*') rfl, rfl⟩,
    ⟨_, parse_paren_caret e, rfl⟩⟩

/-- Witness of C25 on the integer platform: `2 x^3` and `2*x^3`. -/
theorem C25_implicit_right_factor_takes_no_exponent_witness :
    Primary intPlatform ['2'] (.number (intPlatform.ofInt 2)) ∧
    Primary intPlatform ['x'] (.leaf intPlatform .Variable) ∧
    Primary intPlatform ['3'] (.number (intPlatform.ofInt 3)) ∧
    Blank intPlatform [' '] ∧ Blank intPlatform [] ∧
    Follows intPlatform ['2'] ([' '] ++ (['x'] ++ ([] ++ '^' :: ['3']))) ∧
    ((∃ e', parse (fresh intPlatform) (String.mk (['2'] ++ [' '] ++ ['x'] ++ [] ++ '^' :: ['3']))
        = some (false, e') ∧
      e'.errorString = "Unexpected character at end" ∧ e'.unread = '^' :: ['3'] ∧
      e'.isValid = false ∧
      eval e' (intPlatform.ofInt 3) (intPlatform.ofInt 5) = intPlatform.qQNaN) ∧
    (∃ e', parse (fresh intPlatform) (String.mk (['2'] ++ '*' :: (['x'] ++ '^' :: ['3'])))
        = some (true, e') ∧
      e'.m_root = .binary .Mul (.number (intPlatform.ofInt 2))
        (.binary .Pow (.leaf intPlatform .Variable) (.number (intPlatform.ofInt 3))) ∧
      e'.errorString = "" ∧ e'.isValid = true) ∧
    (∃ e', parse (fresh intPlatform) "2x^2" = some (false, e') ∧
      e'.errorString = "Unexpected character at end") ∧
    (∃ e', parse (fresh intPlatform) "2*x^2" = some (true, e') ∧
      e'.m_root = .binary .Mul (.number (intPlatform.ofInt 2))
        (.binary .Pow (.leaf intPlatform .Variable) (.number (intPlatform.ofInt 2)))) ∧
    (∃ e', parse (fresh intPlatform) "(1)(2)^(3)" = some (false, e') ∧
      e'.errorString = "Unexpected character at end")) :=
  ⟨primary_digit '2' (by decide), Primary.x, primary_digit '3' (by decide),
    by simp [Blank, isSpace], by simp [Blank],
    follows_cons _ _ (by simp [isDigit]) (by decide),
    C25_implicit_right_factor_takes_no_exponent (primary_digit '2' (by decide)) Primary.x
      (primary_digit '3' (by decide)) (by simp [Blank, isSpace]) (by simp [Blank])
      (follows_cons _ _ (by simp [isDigit]) (by decide)) (fresh intPlatform)
      (intPlatform.ofInt 3) (intPlatform.ofInt 5)⟩

/-- The derivation for `a^b c`, primaries with only whitespace between `b` and `c`: the
call of `parsePower` made for the exponent multiplies `b` and `c`. -/
theorem parse_pow_implicit {a b c ws : List Char} {na nb nc : Node A}
    (ha : Primary A a na) (hb : Primary A b nb) (hc : Primary A c nc) (hw : Blank A ws)
    (hf : Follows A b (ws ++ c)) (e : ExpressionParser A) :
    parse e (String.mk (a ++ '^' :: (b ++ (ws ++ c)))) =
      some (true, ⟨a ++ '^' :: (b ++ (ws ++ c)), [], "", true,
        .binary .Pow na (.binary .Mul nb nc)⟩) := by
  have hn : normalize A (a ++ '^' :: (b ++ (ws ++ c))) = a ++ '^' :: (b ++ (ws ++ c)) := by
    have h := normalize_between ha hc ('^' :: (b ++ ws)) (by
      have h1 := no_backslash_of_primary hb
      have h2 := hw.no_backslash
      simp [h1, h2])
    simpa using h
  have hsp : isSpace A '^' = false := by simp [isSpace]
  have hdg : isDigit A '^' = false := by simp [isDigit]
  refine parse_of_step (r := []) hn ?_ rfl
  have uc : Step .unary ⟨a ++ '^' :: (b ++ (ws ++ c)), c, "", false, .nullptr⟩ nc
      ⟨a ++ '^' :: (b ++ (ws ++ c)), [], "", false, .nullptr⟩ :=
    step_iff_result.mpr (unary_primary_end hc _ _ _ _)
  have ub : Step .unary ⟨a ++ '^' :: (b ++ (ws ++ c)), b ++ (ws ++ c), "", false, .nullptr⟩ nb
      ⟨a ++ '^' :: (b ++ (ws ++ c)), ws ++ c, "", false, .nullptr⟩ :=
    step_iff_result.mpr (unary_primary hb hf _ _ _ _)
  have ua : Step .unary ⟨a ++ '^' :: (b ++ (ws ++ c)), a ++ '^' :: (b ++ (ws ++ c)), "", false,
      .nullptr⟩ na ⟨a ++ '^' :: (b ++ (ws ++ c)), '^' :: (b ++ (ws ++ c)), "", false, .nullptr⟩ :=
    step_iff_result.mpr (unary_primary ha (follows_cons a _ hdg (by decide)) _ _ _ _)
  have hi := hc.implicitStart_mk [] (a ++ '^' :: (b ++ (ws ++ c))) "" false (.nullptr : Node A)
  rw [List.append_nil] at hi
  have hd : (ws ++ c).dropWhile (isSpace A) = c := by
    rw [hw.dropWhile, hc.dropWhile_self]
  obtain ⟨h, t, rfl, hh⟩ := hc.head
  have pb := rule_power_mul ub hb.isNull hd (hh.ne '^') hi uc hc.isNull
  have pa := rule_power_pow ua ha.isNull (dropWhile_head hsp)
    (by rw [hb.dropWhile_space]; exact pb) (binary_isNull _ _ _)
  exact rule_expression (rule_term pa (binary_isNull _ _ _) rule_termLoop_end)
    (binary_isNull _ _ _) rule_expressionLoop_end

theorem parse_x_pow_2y (e : ExpressionParser A) :
    parse e "x^2y" = some (true, ⟨['x', '^', '2', 'y'], [], "", true,
      .binary .Pow (.leaf A .Variable)
        (.binary .Mul (.number (A.ofInt 2)) (.leaf A .VariableY))⟩) :=
  parse_pow_implicit Primary.x (primary_digit '2' (by decide)) Primary.y
    (show Blank A [] by simp [Blank]) (follows_cons _ _ (by simp [isDigit]) (by decide)) e

/-- C26: an implicit factor written after an exponent is absorbed into the exponent.  For
primaries `a`, `b`, `c` (variables or numbers), `b` and `c` with nothing or whitespace
between them and `b` ending before what follows it, `parse("a^bc")` succeeds with the tree
`Pow(a, Mul(b, c))`, which is not `Mul(Pow(a, b), c)`.  `parse("x^2y")` builds
`Pow(x, Mul(2, y))` and, on a platform exact on small integers, evaluates at `(2, 3)` to
`2^(2*3) = 64` and not to 12. -/
theorem C26_implicit_factor_joins_exponent (hA : A.Exact) {a b c ws : List Char}
    {na nb nc : Node A} (ha : Primary A a na) (hb : Primary A b nb) (hc : Primary A c nc)
    (hw : Blank A ws) (hf : Follows A b (ws ++ c)) (e : ExpressionParser A) :
    (∃ e', parse e (String.mk (a ++ ['^'] ++ b ++ ws ++ c)) = some (true, e') ∧
      e'.m_root = .binary .Pow na (.binary .Mul nb nc) ∧
      e'.m_root ≠ .binary .Mul (.binary .Pow na nb) nc ∧
      e'.errorString = "" ∧ e'.isValid = true) ∧
    (∃ e', parse e "x^2y" = some (true, e') ∧
      e'.m_root = .binary .Pow (.leaf A .Variable)
        (.binary .Mul (.number (A.ofInt 2)) (.leaf A .VariableY)) ∧
      eval e' (A.ofInt 2) (A.ofInt 3) = A.ofInt 64 ∧
      eval e' (A.ofInt 2) (A.ofInt 3) ≠ A.ofInt 12) := by
  have e1 : a ++ ['^'] ++ b ++ ws ++ c = a ++ '^' :: (b ++ (ws ++ c)) := by simp
  rw [e1]
  refine ⟨⟨_, parse_pow_implicit ha hb hc hw hf e, rfl, ?_, rfl, rfl⟩,
    ⟨_, parse_x_pow_2y e, rfl, ?_⟩⟩
  · simp [Node.binary]
  · have h1 := hA.mul_ofInt 2 3 (by norm_num) (by norm_num) (by norm_num) (by norm_num)
    have h2 := hA.pow_ofInt 2 6 (by norm_num) (by norm_num) (by norm_num)
    simp only [Nat.cast_ofNat] at h1 h2
    norm_num at h1 h2
    have hv : eval (⟨['x', '^', '2', 'y'], [], "", true,
        .binary .Pow (.leaf A .Variable)
          (.binary .Mul (.number (A.ofInt 2)) (.leaf A .VariableY))⟩ : ExpressionParser A)
        (A.ofInt 2) (A.ofInt 3) = A.ofInt 64 := by
      simp [eval, evalNode, Node.isNull, Node.binary, Node.number, Node.leaf, h1, h2]
    refine ⟨hv, ?_⟩
    rw [hv]
    intro h
    have := hA.ofInt_inj 64 12 (by norm_num) (by norm_num) h
    norm_num at this

/-- Witness of C26 on the integer platform, with `a = 2`, `b = x`, `c = 3` and a space
between `b` and `c`. -/
theorem C26_implicit_factor_joins_exponent_witness :
    intPlatform.Exact ∧ Primary intPlatform ['2'] (.number (intPlatform.ofInt 2)) ∧
    Primary intPlatform ['x'] (.leaf intPlatform .Variable) ∧
    Primary intPlatform ['3'] (.number (intPlatform.ofInt 3)) ∧
    Blank intPlatform [' '] ∧ Follows intPlatform ['x'] ([' '] ++ ['3']) ∧
    ((∃ e', parse (fresh intPlatform) (String.mk (['2'] ++ ['^'] ++ ['x'] ++ [' '] ++ ['3']))
        = some (true, e') ∧
      e'.m_root = .binary .Pow (.number (intPlatform.ofInt 2))
        (.binary .Mul (.leaf intPlatform .Variable) (.number (intPlatform.ofInt 3))) ∧
      e'.m_root ≠ .binary .Mul (.binary .Pow (.number (intPlatform.ofInt 2))
        (.leaf intPlatform .Variable)) (.number (intPlatform.ofInt 3)) ∧
      e'.errorString = "" ∧ e'.isValid = true) ∧
    (∃ e', parse (fresh intPlatform) "x^2y" = some (true, e') ∧
      e'.m_root = .binary .Pow (.leaf intPlatform .Variable)
        (.binary .Mul (.number (intPlatform.ofInt 2)) (.leaf intPlatform .VariableY)) ∧
      eval e' (intPlatform.ofInt 2) (intPlatform.ofInt 3) = intPlatform.ofInt 64 ∧
      eval e' (intPlatform.ofInt 2) (intPlatform.ofInt 3) ≠ intPlatform.ofInt 12)) :=
  ⟨intPlatform_exact, primary_digit '2' (by decide), Primary.x, primary_digit '3' (by decide),
    by simp [Blank, isSpace], Or.inl rfl,
    C26_implicit_factor_joins_exponent intPlatform_exact (primary_digit '2' (by decide))
      Primary.x (primary_digit '3' (by decide)) (by simp [Blank, isSpace]) (Or.inl rfl)
      (fresh intPlatform)⟩

/-- Characters that do not occur in `before` cannot complete an occurrence of it. -/
theorem isPrefixOf_append_of_not_mem (post : List Char) :
    ∀ (before s : List Char), (∀ c ∈ post, c ∉ before) →
      before.isPrefixOf (s ++ post) = before.isPrefixOf s := by
  intro before
  induction before with
  | nil => intro s _; simp
  | cons b bs ih =>
    intro s h
    cases s with
    | nil =>
      cases post with
      | nil => rfl
      | cons k T =>
        have hk : b ≠ k := fun hh => h k (List.mem_cons_self _ _) (hh ▸ List.mem_cons_self _ _)
        simp [List.isPrefixOf, hk]
    | cons c cs =>
      have := ih cs (fun c hc hm => h c hc (List.mem_cons_of_mem _ hm))
      show (b :: bs).isPrefixOf (c :: (cs ++ post)) = (b :: bs).isPrefixOf (c :: cs)
      rw [List.isPrefixOf_cons₂, List.isPrefixOf_cons₂, this]

theorem isPrefixOf_length : ∀ (before s : List Char), before.isPrefixOf s = true →
    before.length ≤ s.length := by
  intro before s h
  exact List.IsPrefix.length_le ( List.isPrefixOf_iff_prefix.mp h)

/-- `replace` leaves a text without a backslash in front of the input in place. -/
theorem replaceFrom_front (ps after : List Char) (s : List Char) :
    ∀ pre : List Char, '\\' ∉ pre →
      replaceFrom ('\\' :: ps) after 0 (pre ++ s) = pre ++ replaceFrom ('\\' :: ps) after 0 s := by
  intro pre
  induction pre with
  | nil => intro _; rfl
  | cons c t ih =>
    intro h
    have hc : c ≠ '\\' := fun hh => h (hh ▸ List.mem_cons_self _ _)
    have ht : '\\' ∉ t := fun hh => h (List.mem_cons_of_mem _ hh)
    have hne : ('\\' == c) = false := by
      simpa using fun hh : '\\' = c => hc hh.symm
    simp [replaceFrom, List.isPrefixOf, hne, ih ht]

/-- `replace` leaves a text behind the input in place when none of its characters occurs
in the text that is looked for. -/
theorem replaceFrom_back (ps after post : List Char) (hp : ∀ c ∈ post, c ∉ '\\' :: ps) :
    ∀ (s : List Char) (k : Nat), k ≤ s.length →
      replaceFrom ('\\' :: ps) after k (s ++ post) = replaceFrom ('\\' :: ps) after k s ++ post := by
  intro s
  induction s with
  | nil =>
    intro k hk
    have hk0 : k = 0 := by simpa using hk
    subst hk0
    have hb : '\\' ∉ post := fun h => hp _ h (List.mem_cons_self _ _)
    rw [List.nil_append, replaceFrom_no_backslash ps after post hb]
    cases post <;> rfl
  | cons c cs ih =>
    intro k hk
    cases k with
    | succ k =>
      have hk2 : k ≤ cs.length := by simpa using hk
      simp only [List.cons_append, replaceFrom]
      exact ih k hk2
    | zero =>
      have hpre : ('\\' :: ps).isPrefixOf (c :: (cs ++ post)) =
          ('\\' :: ps).isPrefixOf (c :: cs) :=
        isPrefixOf_append_of_not_mem post ('\\' :: ps) (c :: cs) hp
      show (if ('\\' :: ps).isPrefixOf (c :: (cs ++ post)) = true then
          after ++ replaceFrom ('\\' :: ps) after (('\\' :: ps).length - 1) (cs ++ post)
        else c :: replaceFrom ('\\' :: ps) after 0 (cs ++ post)) =
        (if ('\\' :: ps).isPrefixOf (c :: cs) = true then
          after ++ replaceFrom ('\\' :: ps) after (('\\' :: ps).length - 1) cs
        else c :: replaceFrom ('\\' :: ps) after 0 cs) ++ post
      rw [hpre]
      by_cases hm : ('\\' :: ps).isPrefixOf (c :: cs) = true
      · have hl := isPrefixOf_length _ _ hm
        simp only [List.length_cons] at hl
        rw [if_pos hm, if_pos hm, ih _ (by simp only [List.length_cons]; omega),
          List.append_assoc]
      · rw [if_neg hm, if_neg hm, ih 0 (Nat.zero_le _)]
        rfl

/-- One `replace` call of `parse` on a text between a prefix without a backslash and a
suffix of characters that do not occur in the macro. -/
theorem replace_context (before after : String) (hb : ∃ ps, before.data = '\\' :: ps)
    {pre post : List Char} (hpre : '\\' ∉ pre) (hpost : ∀ c ∈ post, c ∉ before.data)
    (s : List Char) :
    replace before after (pre ++ (s ++ post)) = pre ++ (replace before after s ++ post) := by
  obtain ⟨ps, hps⟩ := hb
  unfold replace
  rw [hps] at hpost ⊢
  rw [replaceFrom_front ps _ _ pre hpre, replaceFrom_back ps _ post hpost s 0 (Nat.zero_le _)]

/-- The preprocessing of a text between a prefix and a suffix of whitespace and
parentheses, the whole neither starting nor ending with whitespace: only the text in the
middle is rewritten. -/
theorem normalize_context {pre post : List Char}
    (hpre : ∀ c ∈ pre, isSpace A c = true ∨ c = '(' ∨ c = ')')
    (hpost : ∀ c ∈ post, isSpace A c = true ∨ c = '(' ∨ c = ')')
    (s : List Char) (ht : trimmed A (pre ++ (s ++ post)) = pre ++ (s ++ post)) :
    normalize A (pre ++ (s ++ post)) =
      pre ++ (replace "\\ln" "log" (replace "\\log" "log" (replace "\\exp" "exp"
        (replace "\\sqrt" "sqrt" (replace "\\tan" "tan" (replace "\\cos" "cos"
          (replace "\\sin" "sin" s)))))) ++ post) := by
  have h1 : '\\' ∉ pre := by
    intro h
    rcases hpre _ h with h | h | h
    · simp [isSpace] at h
    · exact absurd h (by decide)
    · exact absurd h (by decide)
  have h2 : ∀ (m : String), (∀ c ∈ m.data, isSpace A c = false ∧ c ≠ '(' ∧ c ≠ ')') →
      ∀ c ∈ post, c ∉ m.data := by
    intro m hm c hc hcm
    have := hm c hcm
    rcases hpost c hc with h | h | h
    · rw [h] at this
      exact absurd this.1 (by simp)
    · exact this.2.1 h
    · exact this.2.2 h
  unfold normalize
  rw [ht, replace_context "\\sin" "sin" ⟨_, rfl⟩ h1 (h2 _ (by simp [isSpace])),
    replace_context "\\cos" "cos" ⟨_, rfl⟩ h1 (h2 _ (by simp [isSpace])),
    replace_context "\\tan" "tan" ⟨_, rfl⟩ h1 (h2 _ (by simp [isSpace])),
    replace_context "\\sqrt" "sqrt" ⟨_, rfl⟩ h1 (h2 _ (by simp [isSpace])),
    replace_context "\\exp" "exp" ⟨_, rfl⟩ h1 (h2 _ (by simp [isSpace])),
    replace_context "\\log" "log" ⟨_, rfl⟩ h1 (h2 _ (by simp [isSpace])),
    replace_context "\\ln" "log" ⟨_, rfl⟩ h1 (h2 _ (by simp [isSpace]))]

/-- A text that `parse` accepts on its own, macros included, is read in the same way inside
a longer input: with whitespace `u` in front of its preprocessed form, whatever the input
before that, and with whitespace `w` and a stop text `X` behind it, `parseExpression`
returns the same tree without an error and leaves exactly `X` unread once the whitespace
is skipped. -/
theorem parsed_in_context {text : String} {e0 e1 : ExpressionParser A}
    (hi : parse e0 text = some (true, e1)) (J : List Char) {u w X : List Char}
    (hu : Blank A u) (hw : Blank A w) (hX : StopText A X) :
    ∃ q', Step .expression (⟨J, u ++ (normalize A text.data ++ (w ++ X)), "", false, .nullptr⟩ :
        ExpressionParser A) e1.m_root q' ∧ q'.m_error = "" ∧ q'.skipSpaces.unread = X ∧
      q'.m_root = .nullptr ∧ q'.m_parsed = false ∧ e1.m_root.isNull = false := by
  obtain ⟨q0, s0, he0, ha0⟩ := parse_true_inv hi
  rw [parseStart_mk] at s0
  have hW : Within A X (⟨normalize A text.data, normalize A text.data, "", false, .nullptr⟩ :
      ExpressionParser A) ⟨J, normalize A text.data ++ (w ++ X), "", false, .nullptr⟩ :=
    ⟨hX, rfl, w, hw, rfl⟩
  obtain ⟨q', s', wq⟩ := s0.within X he0 _ hW
  have s'' : Step .expression (⟨J, u ++ (normalize A text.data ++ (w ++ X)), "", false,
      .nullptr⟩ : ExpressionParser A) e1.m_root q' := by
    refine s'.of_skip ?_
    rw [skipSpaces_mk, skipSpaces_mk, hu.dropWhile]
  have hq0 : ∀ c ∈ q0.unread, isSpace A c = true := by
    have : q0.unread.dropWhile (isSpace A) = [] := by
      simpa [ExpressionParser.atEnd] using ha0
    exact fun c hc => List.dropWhile_eq_nil_iff.mp this c hc
  have hfr := s''.frame
  obtain ⟨_, herr, w', hw', hu'⟩ := wq
  refine ⟨q', s'', by rw [herr, he0], ?_, hfr.2.2, hfr.2.1, s0.no_null he0 (fun h => h)⟩
  rw [skipSpaces_unread, hu', dropWhile_all_append hq0, dropWhile_all_append hw',
    dropWhile_stopText hX]

/-- `parsePrimary` at a parenthesised group that is closed: the tree of the group is the
tree of what is inside. -/
theorem rule_primary_closed {J R T : List Char} {n : Node A} {q' : ExpressionParser A}
    (hs : Step .expression (⟨J, R, "", false, .nullptr⟩ : ExpressionParser A) n q')
    (hn : n.isNull = false) (hu : q'.skipSpaces.unread = ')' :: T) :
    Step .unary (⟨J, '(' :: R, "", false, .nullptr⟩ : ExpressionParser A) n
      (q'.skipSpaces.advance 1) := by
  have hp : (⟨J, '(' :: R, "", false, .nullptr⟩ : ExpressionParser A).skipSpaces
      = ⟨J, '(' :: R, "", false, .nullptr⟩ := by
    rw [skipSpaces_mk, dropWhile_head (by simp [isSpace])]
  refine Step.unary_primary (Or.inr ?_) ?_
  · rw [hp]
    exact (by decide : '(' ≠ '-')
  · rw [hp]
    refine Step.primary_paren ?_ ?_ ?_ hn ?_ ?_
    · rw [hp]; rfl
    · rw [hp]; rfl
    · rw [hp]; exact hs
    · unfold ExpressionParser.atEnd; rw [hu]; rfl
    · unfold ExpressionParser.cur; rw [hu]; rfl

/-- The preprocessing of a text put in parentheses: the parentheses and the whitespace at
the ends of the text stay, the text between them is preprocessed as it is on its own. -/
theorem normalize_paren (s : List Char) :
    ∃ w1 w2, Blank A w1 ∧ Blank A w2 ∧
      normalize A ('(' :: (s ++ [')'])) = '(' :: (w1 ++ (normalize A s ++ (w2 ++ [')']))) := by
  obtain ⟨w1, w2, hw1, hw2, es⟩ := trimmed_decomp (A := A) s
  refine ⟨w1, w2, hw1, hw2, ?_⟩
  have e1 : '(' :: (s ++ [')']) = ('(' :: w1) ++ (trimmed A s ++ (w2 ++ [')'])) := by
    conv_lhs => rw [es]
    simp
  have ht : trimmed A (('(' :: w1) ++ (trimmed A s ++ (w2 ++ [')']))) =
      ('(' :: w1) ++ (trimmed A s ++ (w2 ++ [')'])) := by
    have e2 : ('(' :: w1) ++ (trimmed A s ++ (w2 ++ [')'])) =
        '(' :: ((w1 ++ (trimmed A s ++ w2)) ++ [')']) := by simp
    rw [e2]
    exact trimmed_of_ends (by simp [isSpace]) (by simp [isSpace])
  rw [e1, @normalize_context A ('(' :: w1) (w2 ++ [')']) ?_ ?_ _ ht]
  · rfl
  · intro c hc
    rcases List.mem_cons.mp hc with h | h
    · exact Or.inr (Or.inl h)
    · exact Or.inl (hw1 c h)
  · intro c hc
    rcases List.mem_append.mp hc with h | h
    · exact Or.inl (hw2 c h)
    · exact Or.inr (Or.inr (by simpa using h))

/-- A text that parses, put in parentheses, parses to the same tree. -/
theorem parse_paren {text : String} {e0 e1 : ExpressionParser A}
    (hi : parse e0 text = some (true, e1)) (e : ExpressionParser A) :
    ∃ e2, parse e ("(" ++ text ++ ")") = some (true, e2) ∧ e2.m_root = e1.m_root ∧
      e2.m_error = "" ∧ e2.m_parsed = true := by
  obtain ⟨w1, w2, hw1, hw2, hn⟩ := normalize_paren (A := A) text.data
  have hd : ("(" ++ text ++ ")").data = '(' :: (text.data ++ [')']) := by
    simp [String.data_append]
  obtain ⟨q', s', he', hu', _, _, hnn⟩ := parsed_in_context hi
    ('(' :: (w1 ++ (normalize A text.data ++ (w2 ++ [')'])))) hw1 hw2
    (stopText_cons terminator_paren [])
  have su := rule_primary_closed s' hnn hu'
  have hq : (q'.skipSpaces.advance 1).unread = [] := by
    rw [advance_unread, hu']
    rfl
  have sx := rule_expression_of_unary su hnn hq
  have hs : Step .expression (parseStart e ("(" ++ text ++ ")")) e1.m_root
      (q'.skipSpaces.advance 1) := by
    rw [parseStart_mk, hd, hn]
    exact sx
  refine parse_of_step_ok hs (by rw [advance_error, skipSpaces_error, he']) ?_
  unfold ExpressionParser.atEnd
  rw [skipSpaces_unread, hq]
  rfl

/-- C27: parentheses are transparent.  For every text for which `parse` succeeds,
`parse` of the text put in parentheses succeeds as well and builds exactly the same tree,
no node being created for the group; so `eval` gives the same result at every `(x, y)`. -/
theorem C27_parentheses_are_transparent (e0 e : ExpressionParser A) (text : String)
    (e1 : ExpressionParser A) (h : parse e0 text = some (true, e1)) (x y : A.Double) :
    ∃ e2, parse e ("(" ++ text ++ ")") = some (true, e2) ∧ e2.m_root = e1.m_root ∧
      e2.errorString = "" ∧ e2.isValid = true ∧ eval e2 x y = eval e1 x y ∧
      eval1 e2 x = eval1 e1 x := by
  obtain ⟨e2, h2, hr, he, hp⟩ := parse_paren h e
  exact ⟨e2, h2, hr, he, hp, by simp only [eval, hr], by simp only [eval1, eval, hr]⟩

/-- Witness of C27 on the integer platform: `1+2` and `(1+2)`. -/
theorem C27_parentheses_are_transparent_witness :
    parse (fresh intPlatform) "1+2" = some (true, ⟨['1', '+', '2'], [], "", true,
      .binary .Add (.number (intPlatform.ofInt 1)) (.number (intPlatform.ofInt 2))⟩) ∧
    ∃ e2, parse (fresh intPlatform) ("(" ++ "1+2" ++ ")") = some (true, e2) ∧
      e2.m_root = (⟨['1', '+', '2'], [], "", true,
        .binary .Add (.number (intPlatform.ofInt 1)) (.number (intPlatform.ofInt 2))⟩ :
          ExpressionParser intPlatform).m_root ∧
      e2.errorString = "" ∧ e2.isValid = true ∧
      eval e2 (intPlatform.ofInt 3) (intPlatform.ofInt 5) =
        eval (⟨['1', '+', '2'], [], "", true,
          .binary .Add (.number (intPlatform.ofInt 1)) (.number (intPlatform.ofInt 2))⟩ :
            ExpressionParser intPlatform) (intPlatform.ofInt 3) (intPlatform.ofInt 5) ∧
      eval1 e2 (intPlatform.ofInt 3) =
        eval1 (⟨['1', '+', '2'], [], "", true,
          .binary .Add (.number (intPlatform.ofInt 1)) (.number (intPlatform.ofInt 2))⟩ :
            ExpressionParser intPlatform) (intPlatform.ofInt 3) :=
  ⟨parse_1_add_2 _,
    C27_parentheses_are_transparent (fresh intPlatform) (fresh intPlatform) "1+2" _
      (parse_1_add_2 (fresh intPlatform)) (intPlatform.ofInt 3) (intPlatform.ofInt 5)⟩

/-- Every macro starts with a backslash, which only letters follow. -/
theorem macros_data {m c : String} (h : (m, c) ∈ macros) :
    ∃ t, m.data = '\\' :: t ∧ '\\' ∉ t ∧ ∀ k ∈ t, isSpace A k = false := by
  simp only [macros, List.mem_cons, List.mem_singleton, List.not_mem_nil, or_false,
    Prod.mk.injEq] at h
  rcases h with ⟨rfl, _⟩ | ⟨rfl, _⟩ | ⟨rfl, _⟩ | ⟨rfl, _⟩ | ⟨rfl, _⟩ | ⟨rfl, _⟩ | ⟨rfl, _⟩ <;>
    exact ⟨_, rfl, by decide, by simp [isSpace]⟩

theorem IsSymbol.facts {c : Char} (h : IsSymbol c) :
    isSpace A c = false ∧ isDigit A c = false ∧ c ≠ '.' ∧ c ≠ '\\' ∧
      foldCase A c ∉ ['s', 'c', 't', 'e', 'l'] := by
  simp only [IsSymbol, List.mem_cons, List.mem_singleton, List.not_mem_nil, or_false] at h
  rcases h with rfl | rfl | rfl | rfl | rfl | rfl | rfl | rfl | rfl | rfl | rfl <;>
    simp [isSpace, isDigit, foldCase]

theorem NumberLiteral.first_char {t : List Char} (h : NumberLiteral A t) :
    ∃ d r, t = d :: r ∧ (isDigit A d = true ∨ d = '.') ∧ isSpace A d = false := by
  rcases h.start with ⟨d, r, rfl, hd⟩ | ⟨d, r, rfl, _⟩
  · exact ⟨d, r, rfl, Or.inl hd, isDigit_not_space hd⟩
  · exact ⟨'.', d :: r, rfl, Or.inr rfl, by simp [isSpace]⟩

/-- The first character of a spelling of a function name is one of `s c t e l` or its
upper-case form, and no whitespace. -/
theorem Spelling.first_letter {v : List Char} {name : String} (hn : name ∈ funcs)
    (h : Spelling v name) :
    ∃ k t, v = k :: t ∧ isSpace A k = false ∧
      (k ∈ ['s', 'c', 't', 'e', 'l'] ∨ k ∈ ['S', 'C', 'T', 'E', 'L']) := by
  have hl := h.letters (A := A) hn
  unfold Spelling at h
  simp only [funcs, List.mem_cons, List.mem_singleton, List.not_mem_nil, or_false] at hn
  rcases hn with rfl | rfl | rfl | rfl | rfl | rfl <;>
  · cases h with
    | cons hk _ =>
      refine ⟨_, _, rfl, (hl _ (List.mem_cons_self _ _)).1, ?_⟩
      rcases hk with rfl | rfl <;> simp [Char.toUpper]

/-- Whitespace inserted in front of a text that does not continue a number does not
continue it either. -/
theorem Respaced.stops {u u' : List Char} (h : Respaced A u u') (hs : Stops A u) :
    Stops A u' := by
  cases h with
  | nil => exact hs
  | insert hc _ =>
    intro k hk
    simp only [List.head?_cons, Option.some.injEq] at hk
    subst hk
    exact ⟨isSpace_not_digit hc, fun h => by rw [h] at hc; simp [isSpace] at hc⟩
  | space _ _ => exact fun k hk => hs k (by simpa using hk)
  | symbol _ _ => exact fun k hk => hs k (by simpa using hk)
  | number ht _ _ =>
    obtain ⟨d, r, rfl, _, _⟩ := ht.first_char
    exact fun k hk => hs k (by simpa using hk)
  | name hn hv _ =>
    obtain ⟨k, t, rfl, _, _⟩ := hv.first_letter (A := A) hn
    exact fun k hk => hs k (by simpa using hk)
  | command hm _ =>
    obtain ⟨t, ht, _⟩ := macros_data (A := A) hm
    rw [ht] at hs ⊢
    exact fun k hk => hs k (by simpa using hk)

theorem Aligned.toRespaced {a a' : List Char} (h : Aligned A a a') : Respaced A a a' := by
  cases h with
  | nil => exact .nil
  | symbol hc h => exact .symbol hc h
  | number ht hs _ h => exact .number ht hs h
  | name hn hv h => exact .name hn hv h
  | command hm h => exact .command hm h

/-- Neither of two aligned texts starts with whitespace. -/
theorem Aligned.dropWhile_both {a a' : List Char} (h : Aligned A a a') :
    a.dropWhile (isSpace A) = a ∧ a'.dropWhile (isSpace A) = a' := by
  cases h with
  | nil => exact ⟨rfl, rfl⟩
  | symbol hc _ => exact ⟨dropWhile_head (hc.facts (A := A)).1, dropWhile_head hc.facts.1⟩
  | number ht _ _ _ =>
    obtain ⟨d, r, rfl, _, hd⟩ := ht.first_char
    exact ⟨dropWhile_head hd, dropWhile_head hd⟩
  | name hn hv _ =>
    obtain ⟨k, t, rfl, hk, _⟩ := hv.first_letter (A := A) hn
    exact ⟨dropWhile_head hk, dropWhile_head hk⟩
  | command hm _ =>
    obtain ⟨t, ht, _⟩ := macros_data (A := A) hm
    rw [ht]
    exact ⟨dropWhile_head (by simp [isSpace]), dropWhile_head (by simp [isSpace])⟩

/-- Once the whitespace in front is skipped, a text and the text with whitespace inserted
start with the same token. -/
theorem Respaced.aligned {u u' : List Char} (h : Respaced A u u') :
    Aligned A (u.dropWhile (isSpace A)) (u'.dropWhile (isSpace A)) := by
  induction h with
  | nil => exact .nil
  | insert hc _ ih => rw [List.dropWhile_cons_of_pos hc]; exact ih
  | space hc _ ih =>
    rw [List.dropWhile_cons_of_pos hc, List.dropWhile_cons_of_pos hc]; exact ih
  | symbol hc h _ =>
    have a : Aligned A _ _ := .symbol hc h
    rw [a.dropWhile_both.1, a.dropWhile_both.2]
    exact a
  | number ht hs h _ =>
    have a : Aligned A _ _ := .number ht hs (h.stops hs) h
    rw [a.dropWhile_both.1, a.dropWhile_both.2]
    exact a
  | name hn hv h _ =>
    have a : Aligned A _ _ := .name hn hv h
    rw [a.dropWhile_both.1, a.dropWhile_both.2]
    exact a
  | command hm h _ =>
    have a : Aligned A _ _ := .command hm h
    rw [a.dropWhile_both.1, a.dropWhile_both.2]
    exact a

/-- Aligned texts have the same first character, or are both empty. -/
theorem Aligned.head_eq {a a' : List Char} (h : Aligned A a a') : a'.head? = a.head? := by
  cases h with
  | nil => rfl
  | symbol _ _ => rfl
  | number ht _ _ _ =>
    obtain ⟨d, r, rfl, _, _⟩ := ht.first_char
    rfl
  | name hn hv _ =>
    obtain ⟨k, t, rfl, _, _⟩ := hv.first_letter (A := A) hn
    rfl
  | command hm _ =>
    obtain ⟨t, ht, _⟩ := macros_data (A := A) hm
    rw [ht]
    rfl

/-- Aligned texts that start with a token of one character go on as a text and the same
text with whitespace inserted. -/
theorem Aligned.tail {a a' : List Char} (h : Aligned A a a') {k : Char}
    (hk : a.head? = some k) (hs : IsSymbol k) :
    ∃ r r', a = k :: r ∧ a' = k :: r' ∧ Respaced A r r' := by
  have hf := hs.facts (A := A)
  cases h with
  | nil => simp at hk
  | symbol hc h =>
    simp only [List.head?_cons, Option.some.injEq] at hk
    subst hk
    exact ⟨_, _, rfl, rfl, h⟩
  | number ht _ _ _ =>
    obtain ⟨d, r, rfl, hd, _⟩ := ht.first_char
    simp only [List.cons_append, List.head?_cons, Option.some.injEq] at hk
    subst hk
    rcases hd with hd | hd
    · rw [hf.2.1] at hd; cases hd
    · exact absurd hd hf.2.2.1
  | name hn hv _ =>
    obtain ⟨c, t, rfl, _, hc⟩ := hv.first_letter (A := A) hn
    simp only [List.cons_append, List.head?_cons, Option.some.injEq] at hk
    subst hk
    exfalso
    simp only [IsSymbol, List.mem_cons, List.mem_singleton, List.not_mem_nil, or_false] at hs hc
    rcases hc with (rfl | rfl | rfl | rfl | rfl) | (rfl | rfl | rfl | rfl | rfl) <;>
      simp at hs
  | command hm _ =>
    obtain ⟨t, ht, _⟩ := macros_data (A := A) hm
    rw [ht] at hk
    simp only [List.cons_append, List.head?_cons, Option.some.injEq] at hk
    subst hk
    exact absurd rfl hf.2.2.2.1

theorem NumberLiteral.numberStart {t : List Char} (ht : NumberLiteral A t) (u i : List Char)
    (e : String) (pa : Bool) (ro : Node A) :
    numberStart (⟨i, t ++ u, e, pa, ro⟩ : ExpressionParser A) := by
  rcases ht.start with ⟨d, r, rfl, hd⟩ | ⟨d, r, rfl, hd⟩
  · exact Or.inl (by simpa [cur_mk] using hd)
  · refine Or.inr ⟨rfl, ?_, ?_⟩
    · simp
    · simpa [peek_mk] using hd

theorem NumberLiteral.scanNumber {t : List Char} (ht : NumberLiteral A t) {u : List Char}
    (hu : Stops A u) (i : List Char) (e : String) (pa : Bool) (ro : Node A) :
    scanNumber (⟨i, t ++ u, e, pa, ro⟩ : ExpressionParser A) = ⟨i, u, e, pa, ro⟩ := by
  have hscan := ht.scan hu
  rcases ht.start with ⟨d, r, rfl, hd⟩ | ⟨d, r, rfl, hd⟩
  · have h7 := isDigit_ascii hd '.'
    simp only [List.cons_append] at hscan ⊢
    simp only [KGrapher.scanNumber, cur_mk, List.headD_cons, h7, if_false, skipNumber_mk, hscan]
  · simp only [List.cons_append] at hscan ⊢
    have hscan' : (d :: (r ++ u)).dropWhile (fun c => isDigit A c || c == '.') = u := by
      simpa [List.dropWhile] using hscan
    simp only [KGrapher.scanNumber, cur_mk, List.headD_cons, if_true, advance_mk,
      List.drop_succ_cons, List.drop_zero, skipNumber_mk, hscan']

/-- Among the six names, the loop over `funcs` matches a spelling of a name with that name
only. -/
theorem matchesFunc_spelling {v : List Char} {name fn : String} (hn : name ∈ funcs)
    (h : Spelling v name) (hfn : fn ∈ funcs) (i r : List Char) (e : String) (pa : Bool)
    (ro : Node A) :
    matchesFunc (⟨i, v ++ r, e, pa, ro⟩ : ExpressionParser A) fn = decide (fn = name) := by
  have hf := find_spelling (A := A) hn h i r e pa ro
  by_cases hq : matchesFunc (⟨i, v ++ r, e, pa, ro⟩ : ExpressionParser A) fn = true
  · have hl := h.length_eq
    have hm : v.map (foldCase A) = name.data := h.map_fold hn
    have h2 := hq
    simp only [matchesFunc, Bool.and_eq_true, decide_eq_true_eq, beq_iff_eq] at h2
    have e1 : fn = name := by
      refine funcs_take_two hfn hn ?_
      have h3 := mem_funcs_length hfn
      have h4 := mem_funcs_length hn
      rw [← h2.2, ← hm, ← List.map_take, ← List.map_take, List.take_take,
        List.take_append_of_le_length (by omega)]
      congr 2
      omega
    rw [hq, e1]
    simp
  · have hne : fn ≠ name := by
      rintro rfl
      exact hq (List.find?_some hf)
    simp only [Bool.not_eq_true] at hq
    rw [hq]
    simp [hne]

section
variable {p p' : ExpressionParser A} (h : RespacedStates p p')
include h

theorem RespacedStates.skipped : AlignedStates p.skipSpaces p'.skipSpaces :=
  ⟨h.1, h.2.aligned⟩

end

section
variable {p p' : ExpressionParser A} (h : AlignedStates p p')
include h

theorem AlignedStates.error_same : p'.m_error = p.m_error := h.1

theorem AlignedStates.toStates : RespacedStates p p' := ⟨h.1, h.2.toRespaced⟩

theorem AlignedStates.skipped_again : AlignedStates p.skipSpaces p'.skipSpaces := h.toStates.skipped

theorem AlignedStates.cur_same : p'.cur = p.cur := by
  unfold ExpressionParser.cur
  have := h.2.head_eq
  cases hu : p.unread <;> cases hu' : p'.unread <;> simp_all

theorem AlignedStates.atEnd_eq : p'.atEnd = p.atEnd := by
  unfold ExpressionParser.atEnd
  have := h.2.head_eq
  cases hu : p.unread <;> cases hu' : p'.unread <;> simp_all

/-- Past a token of one character the texts are again a text and the text with whitespace
inserted. -/
theorem AlignedStates.past_symbol (he : p.atEnd = false) (hs : IsSymbol p.cur) :
    RespacedStates (p.advance 1) (p'.advance 1) := by
  refine ⟨h.1, ?_⟩
  have hk : p.unread.head? = some p.cur := by
    unfold ExpressionParser.cur
    cases hu : p.unread with
    | nil => simp [ExpressionParser.atEnd, hu] at he
    | cons a t => rfl
  obtain ⟨r, r', e1, e2, hr⟩ := h.2.tail hk hs
  simp only [advance_unread, e1, e2, List.drop_succ_cons, List.drop_zero]
  exact hr

end

theorem implicitStart_congr {p p' : ExpressionParser A} (h : p'.unread = p.unread) :
    implicitStart p' = implicitStart p := by
  unfold implicitStart ExpressionParser.cur
  rw [h]

theorem numberStart_congr {p p' : ExpressionParser A} (h : p'.unread = p.unread) :
    numberStart p' ↔ numberStart p := by
  unfold numberStart ExpressionParser.cur ExpressionParser.peek
  rw [h]

theorem numberStart_head {c : Char} (h1 : isDigit A c = false) (h2 : c ≠ '.')
    (i u : List Char) (e : String) (pa : Bool) (ro : Node A) :
    ¬ numberStart (⟨i, c :: u, e, pa, ro⟩ : ExpressionParser A) := by
  rintro (h | ⟨h, _⟩)
  · rw [cur_mk, List.headD_cons, h1] at h
    cases h
  · exact h2 h

/-- A test of the loop over `funcs` that succeeds fixes the first character up to case. -/
theorem matchesFunc_head {c : Char} {u i : List Char} {e : String} {pa : Bool} {ro : Node A}
    {fn : String} (hfn : fn ∈ funcs)
    (h : matchesFunc (⟨i, c :: u, e, pa, ro⟩ : ExpressionParser A) fn = true) :
    foldCase A c ∈ ['s', 'c', 't', 'e', 'l'] := by
  simp only [matchesFunc, Bool.and_eq_true, decide_eq_true_eq, beq_iff_eq] at h
  have h2 := congrArg List.head? h.2
  simp only [funcs, List.mem_cons, List.mem_singleton, List.not_mem_nil, or_false] at hfn
  rcases hfn with rfl | rfl | rfl | rfl | rfl | rfl <;>
  · simp only [length_sin, length_cos, length_tan, length_sqrt, length_exp, length_log,
      List.take_succ_cons, List.map_cons, List.head?_cons, Option.some.injEq] at h2
    rw [h2]
    simp

section
variable {p p' : ExpressionParser A} (h : AlignedStates p p')
include h

/-- The `implicit` flag of `parsePower` is the same on aligned texts. -/
theorem AlignedStates.implicitStart_same : implicitStart p' = implicitStart p := by
  obtain ⟨i, u, e, pa, ro⟩ := p
  obtain ⟨i', u', e', pa', ro'⟩ := p'
  obtain ⟨_, ha⟩ := h
  change Aligned A u u' at ha
  cases ha with
  | nil => exact implicitStart_congr rfl
  | symbol hc _ =>
    simp only [IsSymbol, List.mem_cons, List.mem_singleton, List.not_mem_nil, or_false] at hc
    rcases hc with rfl | rfl | rfl | rfl | rfl | rfl | rfl | rfl | rfl | rfl | rfl <;>
      simp [implicitStart, cur_mk, isDigit]
  | number ht _ _ _ =>
    obtain ⟨d, r, rfl, hd, _⟩ := ht.first_char
    rcases hd with hd | rfl
    · simp [implicitStart, cur_mk, hd]
    · simp [implicitStart, cur_mk]
  | name hn hv _ =>
    have hs : ∀ fn ∈ funcs, ∀ r : List Char,
        startsWithCI A (_ ++ r) fn = decide (fn = _) :=
      fun fn hfn r => matchesFunc_spelling (A := A) hn hv hfn [] r "" false .nullptr
    obtain ⟨k, t, hk, _, _⟩ := hv.first_letter (A := A) hn
    simp only [implicitStart, hs "sin" (by decide), hs "cos" (by decide), hs "tan" (by decide),
      hs "sqrt" (by decide), hs "exp" (by decide), hs "log" (by decide)]
    subst hk
    rfl
  | command hm _ =>
    obtain ⟨t, ht, _⟩ := macros_data (A := A) hm
    rw [ht]
    simp [implicitStart, cur_mk, isDigit]

/-- The test for a number has the same outcome on aligned texts. -/
theorem AlignedStates.numberStart_same : numberStart p' ↔ numberStart p := by
  obtain ⟨i, u, e, pa, ro⟩ := p
  obtain ⟨i', u', e', pa', ro'⟩ := p'
  obtain ⟨_, ha⟩ := h
  change Aligned A u u' at ha
  cases ha with
  | nil => exact numberStart_congr rfl
  | symbol hc _ =>
    have hf := hc.facts (A := A)
    exact iff_of_false (numberStart_head hf.2.1 hf.2.2.1 _ _ _ _ _)
      (numberStart_head hf.2.1 hf.2.2.1 _ _ _ _ _)
  | number ht _ _ _ =>
    exact iff_of_true (ht.numberStart _ _ _ _ _) (ht.numberStart _ _ _ _ _)
  | name hn hv _ =>
    obtain ⟨k, t, rfl, _, _⟩ := hv.first_letter (A := A) hn
    have hl := hv.letters (A := A) hn k (List.mem_cons_self _ _)
    exact iff_of_false (numberStart_head hl.2.1 hl.2.2.2.2.2.1 _ _ _ _ _)
      (numberStart_head hl.2.1 hl.2.2.2.2.2.1 _ _ _ _ _)
  | command hm _ =>
    obtain ⟨t, ht, _⟩ := macros_data (A := A) hm
    rw [ht]
    exact iff_of_false (numberStart_head (by simp [isDigit]) (by decide) _ _ _ _ _)
      (numberStart_head (by simp [isDigit]) (by decide) _ _ _ _ _)

/-- A number is read in the same way on aligned texts: the same characters, and what
follows is again a text and the text with whitespace inserted. -/
theorem AlignedStates.scanNumber_respaced (hnum : numberStart p) :
    RespacedStates (scanNumber p) (scanNumber p') ∧
      numberText p' (scanNumber p') = numberText p (scanNumber p) := by
  obtain ⟨i, u, e, pa, ro⟩ := p
  obtain ⟨i', u', e', pa', ro'⟩ := p'
  obtain ⟨he, ha⟩ := h
  change e' = e at he
  change Aligned A u u' at ha
  cases ha with
  | nil =>
    rcases hnum with h | ⟨h, _⟩
    · simp [cur_mk, isDigit] at h
    · simp [cur_mk] at h
  | symbol hc _ =>
    have hf := hc.facts (A := A)
    exact absurd hnum (numberStart_head hf.2.1 hf.2.2.1 _ _ _ _ _)
  | number ht hs hs' hr =>
    rw [ht.scanNumber hs, ht.scanNumber hs']
    refine ⟨⟨he, hr⟩, ?_⟩
    simp only [numberText, take_length_append]
  | name hn hv _ =>
    obtain ⟨k, t, rfl, _, _⟩ := hv.first_letter (A := A) hn
    have hl := hv.letters (A := A) hn k (List.mem_cons_self _ _)
    exact absurd hnum (numberStart_head hl.2.1 hl.2.2.2.2.2.1 _ _ _ _ _)
  | command hm _ =>
    obtain ⟨t, ht, _⟩ := macros_data (A := A) hm
    rw [ht] at hnum
    exact absurd hnum (numberStart_head (by simp [isDigit]) (by decide) _ _ _ _ _)

/-- A function name is found in the same way on aligned texts, and what follows the name
is again a text and the text with whitespace inserted. -/
theorem AlignedStates.find_respaced (hnn : ¬ numberStart p) {fn : String}
    (hf : funcs.find? (matchesFunc p) = some fn) :
    funcs.find? (matchesFunc p') = some fn ∧
      RespacedStates (p.advance fn.length) (p'.advance fn.length) := by
  obtain ⟨i, u, e, pa, ro⟩ := p
  obtain ⟨i', u', e', pa', ro'⟩ := p'
  obtain ⟨he, ha⟩ := h
  change e' = e at he
  change Aligned A u u' at ha
  have hmem := (find_funcs hf).1
  cases ha with
  | nil =>
    have h1 := (find_funcs hf).2
    have h2 := mem_funcs_length hmem
    simp at h1
    omega
  | symbol hc _ =>
    exact absurd (matchesFunc_head hmem (List.find?_some hf)) (hc.facts (A := A)).2.2.2.2
  | number ht _ _ _ => exact absurd (ht.numberStart _ _ _ _ _) hnn
  | @name v nm u u' hn hv hr =>
    have h1 := find_spelling (A := A) hn hv i u e pa ro
    rw [h1] at hf
    cases hf
    refine ⟨find_spelling hn hv _ _ _ _ _, he, ?_⟩
    simp only [advance_unread, ← hv.length_eq, List.drop_left]
    exact hr
  | command hm _ =>
    obtain ⟨t, ht, _⟩ := macros_data (A := A) hm
    rw [ht] at hf
    have := matchesFunc_head hmem (List.find?_some hf)
    simp [foldCase] at this

end

theorem IsSymbol.of_eq {c k : Char} (h : c = k)
    (hk : k ∈ ['x', 'X', 'y', 'Y', '+', '-', '*', '/', '^', '(', ')'] := by decide) :
    IsSymbol c := by
  rw [h]; exact hk

theorem IsSymbol.addOp {c : Char} {t : NodeType} (h : addOp c = some t) : IsSymbol c := by
  rw [addOp_eq_some_iff] at h
  rcases h with ⟨rfl, _⟩ | ⟨_, rfl, _⟩ <;> simp [IsSymbol]

theorem IsSymbol.mulOp {c : Char} {t : NodeType} (h : mulOp c = some t) : IsSymbol c := by
  rw [mulOp_eq_some_iff] at h
  rcases h with ⟨rfl, _⟩ | ⟨_, rfl, _⟩ <;> simp [IsSymbol]

/-- A call that ends without an error takes the same path and returns the same tree when
whitespace is inserted between the tokens of its text; what is left unread is then what
was left unread before, with whitespace inserted. -/
theorem Step.respaced {c : Call A} {p q : ExpressionParser A} {n : Node A} (h : Step c p n q) :
    q.m_error = "" → ∀ p', c.Related p p' → ∃ q', Step c p' n q' ∧ RespacedStates q q' := by
  induction h with
  | expression_fail _ _ he => intro hq; exact absurd hq he
  | expression_loop h1 hg h2 ih1 ih2 =>
    intro hq p' hw
    obtain ⟨q1, s1, w1⟩ := ih1 (h2.error_start hq) p' hw
    obtain ⟨q2, s2, w2⟩ := ih2 hq _ w1.skipped
    exact ⟨q2, Step.expression_loop s1 (by rw [w1.1]; exact hg) s2, w2⟩
  | expressionLoop_stop hc =>
    intro _ p' hw
    have a : AlignedStates _ p' := hw
    exact ⟨p', Step.expressionLoop_stop (by rw [a.atEnd_eq, a.cur_same]; exact hc), a.toStates⟩
  | expressionLoop_fail _ _ h1 hr =>
    intro hq
    exact absurd (h1.no_null hq (fun h => h)) (by simp [hr])
  | expressionLoop_next he ht h1 hr h2 ih1 ih2 =>
    intro hq p' hw
    have a : AlignedStates _ p' := hw
    obtain ⟨q1, s1, w1⟩ := ih1 (h2.error_start hq) _
      (a.past_symbol he (IsSymbol.addOp ht)).skipped.toStates
    obtain ⟨q2, s2, w2⟩ := ih2 hq _ w1.skipped
    exact ⟨q2, Step.expressionLoop_next (by rw [a.atEnd_eq]; exact he)
      (by rw [a.cur_same]; exact ht) s1 hr s2, w2⟩
  | term_fail _ _ he => intro hq; exact absurd hq he
  | term_loop h1 hg h2 ih1 ih2 =>
    intro hq p' hw
    obtain ⟨q1, s1, w1⟩ := ih1 (h2.error_start hq) p' hw
    obtain ⟨q2, s2, w2⟩ := ih2 hq _ w1.skipped
    exact ⟨q2, Step.term_loop s1 (by rw [w1.1]; exact hg) s2, w2⟩
  | termLoop_stop hc =>
    intro _ p' hw
    have a : AlignedStates _ p' := hw
    exact ⟨p', Step.termLoop_stop (by rw [a.atEnd_eq, a.cur_same]; exact hc), a.toStates⟩
  | termLoop_fail _ _ h1 hr =>
    intro hq
    exact absurd (h1.no_null hq (fun h => h)) (by simp [hr])
  | termLoop_next he ht h1 hr h2 ih1 ih2 =>
    intro hq p' hw
    have a : AlignedStates _ p' := hw
    obtain ⟨q1, s1, w1⟩ := ih1 (h2.error_start hq) _
      (a.past_symbol he (IsSymbol.mulOp ht)).skipped.toStates
    obtain ⟨q2, s2, w2⟩ := ih2 hq _ w1.skipped
    exact ⟨q2, Step.termLoop_next (by rw [a.atEnd_eq]; exact he)
      (by rw [a.cur_same]; exact ht) s1 hr s2, w2⟩
  | factor _ ih =>
    intro hq p' hw
    obtain ⟨q1, s1, w1⟩ := ih hq p' hw
    exact ⟨q1, Step.factor s1, w1⟩
  | power_fail _ _ he => intro hq; exact absurd hq he
  | power_pow_fail _ _ _ _ h2 hx =>
    intro hq
    exact absurd (h2.no_null hq (fun h => h)) (by simp [hx])
  | power_pow h1 hg he hc h2 hx ih1 ih2 =>
    intro hq p' hw
    obtain ⟨q1, s1, w1⟩ := ih1 (h2.error_start hq) p' hw
    have a := w1.skipped
    obtain ⟨q2, s2, w2⟩ := ih2 hq _ (a.past_symbol he (IsSymbol.of_eq hc)).skipped.toStates
    exact ⟨q2, Step.power_pow s1 (by rw [w1.1]; exact hg) (by rw [a.atEnd_eq]; exact he)
      (by rw [a.cur_same]; exact hc) s2 hx, w2⟩
  | power_implicit_fail _ _ _ _ _ h2 hr =>
    intro hq
    exact absurd (h2.no_null hq (fun h => h)) (by simp [hr])
  | power_implicit h1 hg he hc hi h2 hr ih1 ih2 =>
    intro hq p' hw
    obtain ⟨q1, s1, w1⟩ := ih1 (h2.error_start hq) p' hw
    have a := w1.skipped
    obtain ⟨q2, s2, w2⟩ := ih2 hq _ a.toStates
    exact ⟨q2, Step.power_implicit s1 (by rw [w1.1]; exact hg) (by rw [a.atEnd_eq]; exact he)
      (by rw [a.cur_same]; exact hc) (by rw [a.implicitStart_same]; exact hi) s2 hr, w2⟩
  | power_plain h1 hg hc ih1 =>
    intro hq p' hw
    obtain ⟨q1, s1, w1⟩ := ih1 hq p' hw
    have a := w1.skipped
    exact ⟨_, Step.power_plain s1 (by rw [w1.1]; exact hg)
      (by rw [a.atEnd_eq, a.cur_same, a.implicitStart_same]; exact hc), a.toStates⟩
  | unary_neg_fail _ _ h1 hc =>
    intro hq
    exact absurd (h1.no_null hq (fun h => h)) (by simp [hc])
  | unary_neg he hc h1 hn ih1 =>
    intro hq p' hw
    have a := RespacedStates.skipped hw
    obtain ⟨q1, s1, w1⟩ := ih1 hq _ (a.past_symbol he (IsSymbol.of_eq hc))
    exact ⟨q1, Step.unary_neg (by rw [a.atEnd_eq]; exact he) (by rw [a.cur_same]; exact hc) s1 hn,
      w1⟩
  | unary_primary hc h1 ih1 =>
    intro hq p' hw
    have a := RespacedStates.skipped hw
    obtain ⟨q1, s1, w1⟩ := ih1 hq _ a.toStates
    exact ⟨q1, Step.unary_primary (by rw [a.atEnd_eq, a.cur_same]; exact hc) s1, w1⟩
  | function_noparen => intro hq; exact absurd hq (expected_paren_ne _)
  | function_arg_fail _ _ h1 ha =>
    intro hq
    exact absurd (h1.no_null hq (fun h => h)) (by simp [ha])
  | function_noclose => intro hq; exact absurd hq (by simp)
  | function_ok he hc h1 ha he2 hc2 hft ih1 =>
    intro hq p' hw
    have a := RespacedStates.skipped hw
    obtain ⟨q1, s1, w1⟩ := ih1 hq _ (a.past_symbol he (IsSymbol.of_eq hc))
    have a2 := w1.skipped
    exact ⟨_, Step.function_ok (by rw [a.atEnd_eq]; exact he) (by rw [a.cur_same]; exact hc) s1 ha
      (by rw [a2.atEnd_eq]; exact he2) (by rw [a2.cur_same]; exact hc2) hft,
      a2.past_symbol he2 (IsSymbol.of_eq hc2)⟩
  | function_unknown => intro hq; exact absurd hq (unknown_function_ne _)
  | primary_end => intro hq; exact absurd hq (by simp)
  | primary_x he hx =>
    intro _ p' hw
    have a := RespacedStates.skipped hw
    exact ⟨_, Step.primary_x (by rw [a.atEnd_eq]; exact he) (by rw [a.cur_same]; exact hx),
      a.past_symbol he (hx.elim (fun h => IsSymbol.of_eq h) (fun h => IsSymbol.of_eq h))⟩
  | primary_y he hx hy =>
    intro _ p' hw
    have a := RespacedStates.skipped hw
    exact ⟨_, Step.primary_y (by rw [a.atEnd_eq]; exact he) (by rw [a.cur_same]; exact hx)
      (by rw [a.cur_same]; exact hy),
      a.past_symbol he (hy.elim (fun h => IsSymbol.of_eq h) (fun h => IsSymbol.of_eq h))⟩
  | primary_paren_fail _ _ h1 hi =>
    intro hq
    exact absurd (h1.no_null hq (fun h => h)) (by simp [hi])
  | primary_paren_noclose => intro hq; exact absurd hq (by simp)
  | primary_paren he hc h1 hi he2 hc2 ih1 =>
    intro hq p' hw
    have a := RespacedStates.skipped hw
    obtain ⟨q1, s1, w1⟩ := ih1 hq _ (a.past_symbol he (IsSymbol.of_eq hc))
    have a2 := w1.skipped
    exact ⟨_, Step.primary_paren (by rw [a.atEnd_eq]; exact he) (by rw [a.cur_same]; exact hc) s1 hi
      (by rw [a2.atEnd_eq]; exact he2) (by rw [a2.cur_same]; exact hc2),
      a2.past_symbol he2 (IsSymbol.of_eq hc2)⟩
  | primary_number_invalid => intro hq; exact absurd hq (by simp)
  | primary_number he hx hy hp hnum htd =>
    intro _ p' hw
    have a := RespacedStates.skipped hw
    have hs := a.scanNumber_respaced hnum
    exact ⟨_, Step.primary_number (by rw [a.atEnd_eq]; exact he) (by rw [a.cur_same]; exact hx)
      (by rw [a.cur_same]; exact hy) (by rw [a.cur_same]; exact hp)
      (a.numberStart_same.mpr hnum) (by rw [hs.2]; exact htd), hs.1⟩
  | primary_function he hx hy hp hnum hfind h1 ih1 =>
    intro hq p' hw
    have a := RespacedStates.skipped hw
    obtain ⟨hf', hadv⟩ := a.find_respaced hnum hfind
    obtain ⟨q1, s1, w1⟩ := ih1 hq _ hadv
    exact ⟨q1, Step.primary_function (by rw [a.atEnd_eq]; exact he) (by rw [a.cur_same]; exact hx)
      (by rw [a.cur_same]; exact hy) (by rw [a.cur_same]; exact hp)
      (fun h => hnum (a.numberStart_same.mp h)) hf' s1, w1⟩
  | primary_unexpected => intro hq; exact absurd hq (unexpected_character_ne _)

theorem NumberLiteral.chars_not_space {t : List Char} (h : NumberLiteral A t) :
    ∀ c ∈ t, isSpace A c = false := by
  intro c hc
  rcases h.chars c hc with h | rfl
  · exact isDigit_not_space h
  · simp [isSpace]

theorem macros_not_space {m c : String} (h : (m, c) ∈ macros) :
    ∀ k ∈ m.data, isSpace A k = false := by
  obtain ⟨t, ht, _, hl⟩ := macros_data (A := A) h
  rw [ht]
  intro k hk
  rcases List.mem_cons.mp hk with rfl | hk
  · simp [isSpace]
  · exact hl k hk

theorem blank_cons {c : Char} {u : List Char} :
    Blank A (c :: u) ↔ isSpace A c = true ∧ Blank A u := by
  simp [Blank]

theorem blank_append {t u : List Char} : Blank A (t ++ u) ↔ Blank A t ∧ Blank A u := by
  simp only [Blank, List.mem_append]
  exact ⟨fun h => ⟨fun c hc => h c (Or.inl hc), fun c hc => h c (Or.inr hc)⟩,
    fun h c hc => hc.elim (h.1 c) (h.2 c)⟩

/-- A text that starts with a token is not all whitespace. -/
theorem not_blank_token {t : List Char} (hne : t ≠ []) (ht : ∀ c ∈ t, isSpace A c = false)
    (u : List Char) : ¬ Blank A (t ++ u) := by
  intro h
  cases t with
  | nil => exact hne rfl
  | cons k r =>
    have h1 := h k (by simp)
    rw [ht k (List.mem_cons_self _ _)] at h1
    cases h1

theorem NumberLiteral.nonempty {t : List Char} (h : NumberLiteral A t) : t ≠ [] := by
  obtain ⟨d, r, rfl, _, _⟩ := h.first_char
  simp

theorem Spelling.ne_nil {v : List Char} {name : String} (hn : name ∈ funcs)
    (h : Spelling v name) : v ≠ [] := by
  obtain ⟨k, t, rfl, _⟩ := h.first hn
  simp

theorem Spelling.letters_not_space {v : List Char} {name : String} (hn : name ∈ funcs)
    (h : Spelling v name) : ∀ c ∈ v, isSpace A c = false :=
  fun c hc => (h.letters (A := A) hn c hc).1

theorem macros_ne_nil {m c : String} (h : (m, c) ∈ macros) : m.data ≠ [] := by
  simp only [macros, List.mem_cons, List.mem_singleton, List.not_mem_nil, or_false,
    Prod.mk.injEq] at h
  rcases h with ⟨rfl, _⟩ | ⟨rfl, _⟩ | ⟨rfl, _⟩ | ⟨rfl, _⟩ | ⟨rfl, _⟩ | ⟨rfl, _⟩ | ⟨rfl, _⟩ <;>
    decide

/-- Whitespace inserted into whitespace gives whitespace, and only whitespace does. -/
theorem Respaced.blank_iff {u u' : List Char} (h : Respaced A u u') :
    Blank A u' ↔ Blank A u := by
  induction h with
  | nil => rfl
  | insert hc _ ih => rw [blank_cons, ih]; simp [hc]
  | space hc _ ih => rw [blank_cons, blank_cons, ih]
  | symbol hc _ _ =>
    have hf := (hc.facts (A := A)).1
    simp [blank_cons, hf]
  | number ht _ _ _ =>
    exact iff_of_false (not_blank_token ht.nonempty ht.chars_not_space _)
      (not_blank_token ht.nonempty ht.chars_not_space _)
  | name hn hv _ _ =>
    exact iff_of_false (not_blank_token (hv.ne_nil hn) (hv.letters_not_space hn) _)
      (not_blank_token (hv.ne_nil hn) (hv.letters_not_space hn) _)
  | command hm _ _ =>
    exact iff_of_false (not_blank_token (macros_ne_nil hm) (macros_not_space hm) _)
      (not_blank_token (macros_ne_nil hm) (macros_not_space hm) _)

theorem rdropWhile_blank {u : List Char} (h : Blank A u) : u.rdropWhile (isSpace A) = [] := by
  have := rdropWhile_append_blank h []
  simpa using this

theorem rdropWhile_eq_nil {u : List Char} (h : u.rdropWhile (isSpace A) = []) : Blank A u := by
  intro c hc
  exact List.rdropWhile_eq_nil_iff.mp h c hc

/-- Removing whitespace from the end leaves a text in front as it is, unless whitespace
is all that follows it. -/
theorem rdropWhile_append_not_blank (pre : List Char) {u : List Char} (h : ¬ Blank A u) :
    (pre ++ u).rdropWhile (isSpace A) = pre ++ u.rdropWhile (isSpace A) := by
  have hne : u.reverse.dropWhile (isSpace A) ≠ [] := by
    intro h0
    apply h
    intro c hc
    exact List.dropWhile_eq_nil_iff.mp h0 c (List.mem_reverse.mpr hc)
  unfold List.rdropWhile
  rw [List.reverse_append, dropWhile_append_of_ne_nil _ hne, List.reverse_append,
    List.reverse_reverse]

/-- Removing whitespace from the end leaves a token in front as it is. -/
theorem rdropWhile_token {t : List Char} (ht : ∀ c ∈ t, isSpace A c = false) (u : List Char) :
    (t ++ u).rdropWhile (isSpace A) = t ++ u.rdropWhile (isSpace A) := by
  by_cases hb : Blank A u
  · rw [rdropWhile_append_blank hb, rdropWhile_blank hb, List.append_nil]
    rcases List.eq_nil_or_concat' t with rfl | ⟨l, a, rfl⟩
    · rfl
    · rw [List.rdropWhile_concat_neg]
      simp [ht a (by simp)]
  · exact rdropWhile_append_not_blank t hb

theorem Stops.trimmed_end {u : List Char} (h : Stops A u) :
    Stops A (u.rdropWhile (isSpace A)) := by
  intro k hk
  obtain ⟨r, hr⟩ := List.rdropWhile_prefix (isSpace A) u
  cases hd : u.rdropWhile (isSpace A) with
  | nil => rw [hd] at hk; simp at hk
  | cons a t =>
    rw [hd] at hk hr
    simp only [List.head?_cons, Option.some.injEq] at hk
    subst hk
    exact h a (by rw [← hr]; rfl)

/-- Removing the whitespace at the end of both texts keeps them a text and the text with
whitespace inserted. -/
theorem Respaced.rdropWhile {u u' : List Char} (h : Respaced A u u') :
    Respaced A (u.rdropWhile (isSpace A)) (u'.rdropWhile (isSpace A)) := by
  induction h with
  | nil => exact .nil
  | @insert c u u' hc h ih =>
    by_cases hb : Blank A u'
    · rw [rdropWhile_blank (blank_cons.mpr ⟨hc, hb⟩), rdropWhile_blank (h.blank_iff.mp hb)]
      exact .nil
    · have := rdropWhile_append_not_blank [c] hb
      simp only [List.singleton_append] at this
      rw [this]
      exact .insert hc ih
  | @space c u u' hc h ih =>
    by_cases hb : Blank A u
    · rw [rdropWhile_blank (blank_cons.mpr ⟨hc, hb⟩),
        rdropWhile_blank (blank_cons.mpr ⟨hc, h.blank_iff.mpr hb⟩)]
      exact .nil
    · have h1 := rdropWhile_append_not_blank [c] hb
      have h2 := rdropWhile_append_not_blank [c] (fun hb' => hb (h.blank_iff.mp hb'))
      simp only [List.singleton_append] at h1 h2
      rw [h1, h2]
      exact .space hc ih
  | @symbol c u u' hc h ih =>
    have hf : ∀ k ∈ [c], isSpace A k = false := by
      intro k hk
      rw [List.mem_singleton.mp hk]
      exact (hc.facts (A := A)).1
    have h1 := rdropWhile_token hf u
    have h2 := rdropWhile_token hf u'
    simp only [List.singleton_append] at h1 h2
    rw [h1, h2]
    exact .symbol hc ih
  | number ht hs h ih =>
    rw [rdropWhile_token ht.chars_not_space, rdropWhile_token ht.chars_not_space]
    exact .number ht hs.trimmed_end ih
  | name hn hv h ih =>
    rw [rdropWhile_token (hv.letters_not_space hn), rdropWhile_token (hv.letters_not_space hn)]
    exact .name hn hv ih
  | command hm h ih =>
    rw [rdropWhile_token (macros_not_space hm), rdropWhile_token (macros_not_space hm)]
    exact .command hm ih

/-- `trimmed` keeps a text and the text with whitespace inserted in that relation. -/
theorem Respaced.trimmed {s s' : List Char} (h : Respaced A s s') :
    Respaced A (trimmed A s) (trimmed A s') :=
  h.aligned.toRespaced.rdropWhile

theorem macros_backslash {m c : String} (h : (m, c) ∈ macros) :
    ∃ ps, m.data = '\\' :: ps := by
  simp only [macros, List.mem_cons, List.mem_singleton, List.not_mem_nil, or_false,
    Prod.mk.injEq] at h
  rcases h with ⟨rfl, _⟩ | ⟨rfl, _⟩ | ⟨rfl, _⟩ | ⟨rfl, _⟩ | ⟨rfl, _⟩ | ⟨rfl, _⟩ | ⟨rfl, _⟩ <;>
    exact ⟨_, rfl⟩

/-- A `replace` call of `parse` passes over a text without a backslash. -/
theorem replace_token {m c : String} (hm : (m, c) ∈ macros) {t : List Char} (ht : '\\' ∉ t)
    (u : List Char) : replace m c (t ++ u) = t ++ replace m c u := by
  obtain ⟨ps, hps⟩ := macros_backslash hm
  unfold replace
  rw [hps]
  exact replaceFrom_front ps _ u t ht

theorem replace_cons {m c : String} (hm : (m, c) ∈ macros) {k : Char} (hk : k ≠ '\\')
    (u : List Char) : replace m c (k :: u) = k :: replace m c u :=
  @replace_token m c hm [k] (by simpa using hk.symm) u

/-- A `replace` call of `parse` on a text that starts with a macro: its own macro is
replaced by the function name, any of the other six is left. -/
theorem replace_command {m c m' c' : String} (hm : (m, c) ∈ macros) (hm' : (m', c') ∈ macros)
    (u : List Char) :
    replace m c (m'.data ++ u) = (if m' = m then c.data else m'.data) ++ replace m c u := by
  simp only [macros, List.mem_cons, List.mem_singleton, List.not_mem_nil, or_false,
    Prod.mk.injEq] at hm hm'
  rcases hm with ⟨rfl, rfl⟩ | ⟨rfl, rfl⟩ | ⟨rfl, rfl⟩ | ⟨rfl, rfl⟩ | ⟨rfl, rfl⟩ | ⟨rfl, rfl⟩
      | ⟨rfl, rfl⟩ <;>
    rcases hm' with ⟨rfl, rfl⟩ | ⟨rfl, rfl⟩ | ⟨rfl, rfl⟩ | ⟨rfl, rfl⟩ | ⟨rfl, rfl⟩ | ⟨rfl, rfl⟩
      | ⟨rfl, rfl⟩ <;>
    simp [replace, replaceFrom, List.isPrefixOf]

/-- What a `replace` call of `parse` returns starts as its argument does, or with a letter. -/
theorem Stops.replaced {m c : String} (hm : (m, c) ∈ macros) {u : List Char} (h : Stops A u) :
    Stops A (replace m c u) := by
  cases u with
  | nil => exact h
  | cons k r =>
    by_cases hk : k = '\\'
    · subst hk
      simp only [macros, List.mem_cons, List.mem_singleton, List.not_mem_nil, or_false,
        Prod.mk.injEq] at hm
      rcases hm with ⟨rfl, rfl⟩ | ⟨rfl, rfl⟩ | ⟨rfl, rfl⟩ | ⟨rfl, rfl⟩ | ⟨rfl, rfl⟩
          | ⟨rfl, rfl⟩ | ⟨rfl, rfl⟩ <;>
      · intro a ha
        simp only [KGrapher.replace, replaceFrom] at ha
        split at ha <;>
          · simp only [List.cons_append, List.head?_cons, Option.some.injEq] at ha
            subst ha
            simp [isDigit]
    · rw [replace_cons hm hk]
      exact fun a ha => h a (by simpa using ha)

theorem NumberLiteral.free_of_backslash {t : List Char} (h : NumberLiteral A t) : '\\' ∉ t := by
  intro hm
  rcases h.chars _ hm with h | h
  · simp [isDigit] at h
  · exact absurd h (by decide)

theorem Spelling.without_backslash {v : List Char} {name : String} (hn : name ∈ funcs)
    (h : Spelling v name) : '\\' ∉ v :=
  fun hm => (h.letters (A := intPlatform) hn _ hm).2.2.2.2.2.2.1 rfl

theorem spelling_self (name : String) : Spelling name.data name := by
  unfold Spelling
  exact List.forall₂_same.mpr fun _ _ => Or.inl rfl

/-- Each `replace` call of `parse` keeps a text and the text with whitespace inserted in
that relation: the macro it replaces becomes the function name in both. -/
theorem Respaced.replace {m c : String} (hm : (m, c) ∈ macros) {u u' : List Char}
    (h : Respaced A u u') : Respaced A (replace m c u) (replace m c u') := by
  have hsp : ∀ k : Char, isSpace A k = true → k ≠ '\\' := by
    rintro k hk rfl
    simp [isSpace] at hk
  induction h with
  | nil => exact .nil
  | insert hc _ ih =>
    rw [replace_cons hm (hsp _ hc)]
    exact .insert hc ih
  | space hc _ ih =>
    rw [replace_cons hm (hsp _ hc), replace_cons hm (hsp _ hc)]
    exact .space hc ih
  | symbol hc _ ih =>
    have hf := (hc.facts (A := A)).2.2.2.1
    rw [replace_cons hm hf, replace_cons hm hf]
    exact .symbol hc ih
  | number ht hs _ ih =>
    rw [replace_token hm ht.free_of_backslash, replace_token hm ht.free_of_backslash]
    exact .number ht (hs.replaced hm) ih
  | name hn hv _ ih =>
    rw [replace_token hm (hv.without_backslash hn), replace_token hm (hv.without_backslash hn)]
    exact .name hn hv ih
  | @command m' c' u u' hm' _ ih =>
    rw [replace_command hm hm', replace_command hm hm']
    by_cases he : m' = m
    · rw [if_pos he]
      exact .name (macros_name hm) (spelling_self c) ih
    · rw [if_neg he]
      exact .command hm' ih

/-- The preprocessing of `parse` keeps a text and the text with whitespace inserted in
that relation, the macros now written as function names. -/
theorem Respaced.normalize {s s' : List Char} (h : Respaced A s s') :
    Respaced A (normalize A s) (normalize A s') := by
  unfold KGrapher.normalize
  exact Respaced.replace (by decide) (Respaced.replace (by decide) (Respaced.replace (by decide)
    (Respaced.replace (by decide) (Respaced.replace (by decide) (Respaced.replace (by decide)
      (Respaced.replace (by decide) h.trimmed))))))

/-- A text that parses still parses, to the same tree, with whitespace inserted between
its tokens. -/
theorem parse_respaced {text text' : String} {e0 e1 : ExpressionParser A}
    (hp : parse e0 text = some (true, e1)) (hr : Respaced A text.data text'.data)
    (e : ExpressionParser A) :
    ∃ e2, parse e text' = some (true, e2) ∧ e2.m_root = e1.m_root ∧ e2.m_error = "" ∧
      e2.m_parsed = true := by
  obtain ⟨q, hs, he, ha⟩ := parse_true_inv hp
  have hrel : RespacedStates (parseStart e0 text) (parseStart e text') := by
    rw [parseStart_mk, parseStart_mk]
    exact ⟨rfl, hr.normalize⟩
  obtain ⟨q', hs', hw⟩ := hs.respaced he _ hrel
  refine parse_of_step_ok hs' (by rw [hw.1, he]) ?_
  rw [hw.skipped.atEnd_eq]
  exact ha

theorem parse_2x_add_sin_y (e : ExpressionParser A) :
    parse e "2x+sin(y)" = some (true, ⟨['2', 'x', '+', 's', 'i', 'n', '(', 'y', ')'], [], "",
      true, .binary .Add (.binary .Mul (.number (A.ofInt 2)) (.leaf A .Variable))
        (.unary .Sin (.leaf A .VariableY))⟩) := by
  simp [parse_eq, parseStart_mk, parseFinish, normalize, trimmed, replace, replaceFrom,
    List.rdropWhile, result_expression, result_expressionLoop, result_term, result_termLoop,
    result_factor, result_power, result_unary, result_function, result_primary,
    skipSpaces_mk, advance_mk, setError_mk, atEnd_mk, cur_mk, peek_mk, skipNumber_mk,
    isSpace, isDigit, implicitStart, numberStart, scanNumber, numberText, toDouble,
    funcs, matchesFunc, startsWithCI, foldCase, funcType,
    length_sin, length_cos, length_tan, length_sqrt, length_exp, length_log,
    Node.isNull, Node.binary, Node.number, Node.leaf, Node.unary]

theorem numberLiteral_digit (c : Char) (hc : 48 ≤ c.toNat ∧ c.toNat ≤ 57) :
    NumberLiteral A [c] := by
  have hd : isDigit A c = true := by
    unfold isDigit
    rw [if_pos (by omega)]
    simpa using hc
  exact ⟨fun k hk => Or.inl (by rw [List.mem_singleton.mp hk]; exact hd), Or.inl ⟨c, [], rfl, hd⟩⟩

/-- The text ` 2 x + sin ( y ) ` is the text `2x+sin(y)` with whitespace inserted between
its tokens and at both ends. -/
theorem respaced_2x_add_sin_y :
    Respaced A ['2', 'x', '+', 's', 'i', 'n', '(', 'y', ')']
      [' ', '2', ' ', 'x', ' ', '+', ' ', 's', 'i', 'n', ' ', '(', ' ', 'y', ' ', ')', ' '] := by
  have sp : isSpace A ' ' = true := by simp [isSpace]
  refine .insert sp ?_
  refine @Respaced.number A ['2'] ['x', '+', 's', 'i', 'n', '(', 'y', ')']
    [' ', 'x', ' ', '+', ' ', 's', 'i', 'n', ' ', '(', ' ', 'y', ' ', ')', ' ']
    (numberLiteral_digit '2' (by decide)) ?_ ?_
  · intro k hk
    simp only [List.head?_cons, Option.some.injEq] at hk
    subst hk
    simp [isDigit]
  refine .insert sp (.symbol (by simp [IsSymbol]) (.insert sp (.symbol (by simp [IsSymbol])
    (.insert sp ?_))))
  refine @Respaced.name A ['s', 'i', 'n'] "sin" ['(', 'y', ')'] [' ', '(', ' ', 'y', ' ', ')', ' ']
    (by decide) (spelling_self "sin") ?_
  exact .insert sp (.symbol (by simp [IsSymbol]) (.insert sp (.symbol (by simp [IsSymbol])
    (.insert sp (.symbol (by simp [IsSymbol]) (.insert sp .nil))))))

theorem respaced_blank {w : List Char} (hw : Blank A w) : Respaced A w w := by
  induction w with
  | nil => exact .nil
  | cons c t ih =>
    exact .space (hw c (List.mem_cons_self _ _)) (ih fun k hk => hw k (List.mem_cons_of_mem _ hk))

theorem respaced_of_dropWhile :
    ∀ u : List Char, Respaced A (u.dropWhile (isSpace A)) (u.dropWhile (isSpace A)) →
      Respaced A u u
  | [], h => h
  | c :: u, h => by
    cases hc : isSpace A c
    · rw [dropWhile_head hc] at h
      exact h
    · rw [List.dropWhile_cons_of_pos hc] at h
      exact .space hc (respaced_of_dropWhile u h)

theorem Stops.before_blank {u w : List Char} (h : Stops A u) (hw : Blank A w) :
    Stops A (u ++ w) := by
  cases u with
  | nil =>
    intro k hk
    have hs : isSpace A k = true := hw k (List.mem_of_mem_head? hk)
    exact ⟨isSpace_not_digit hs, fun h => by rw [h] at hs; simp [isSpace] at hs⟩
  | cons a t => exact fun k hk => h k (by simpa using hk)

/-- Whitespace added at the end of both texts keeps them in the relation. -/
theorem Respaced.append_blank {u u' w : List Char} (h : Respaced A u u') (hw : Blank A w) :
    Respaced A (u ++ w) (u' ++ w) := by
  induction h with
  | nil => exact respaced_blank hw
  | insert hc _ ih => exact .insert hc ih
  | space hc _ ih => exact .space hc ih
  | symbol hc _ ih => exact .symbol hc ih
  | number ht hs _ ih =>
    rw [List.append_assoc, List.append_assoc]
    exact .number ht (hs.before_blank hw) ih
  | name hn hv _ ih =>
    rw [List.append_assoc, List.append_assoc]
    exact .name hn hv ih
  | command hm _ ih =>
    rw [List.append_assoc, List.append_assoc]
    exact .command hm ih

theorem Respaced.after_blank {u u' : List Char} (h : Respaced A u u') :
    ∀ {w : List Char}, Blank A w → Respaced A (w ++ u) (w ++ u')
  | [], _ => h
  | c :: _, hw =>
    .space (hw c (List.mem_cons_self _ _))
      (Respaced.after_blank h fun k hk => hw k (List.mem_cons_of_mem _ hk))

/-- An ASCII character that folds to `c` is `c` or the upper-case form of `c`. -/
theorem fold_ascii {k c : Char} (hk : k.toNat < 128) (h : foldCase A k = c) :
    k = c ∨ k = c.toUpper := by
  unfold foldCase at h
  rw [if_pos hk] at h
  split_ifs at h with hu
  · right
    have e : k = Char.ofNat k.toNat := (Char.ofNat_toNat k).symm
    generalize k.toNat = n at hu h e
    subst e
    subst h
    obtain ⟨h1, h2⟩ := hu
    interval_cases n <;> decide
  · exact Or.inl h

theorem spelling_of_fold : ∀ (v cs : List Char), (∀ k ∈ v, k.toNat < 128) →
    v.map (foldCase A) = cs → List.Forall₂ (fun k c => k = c ∨ k = c.toUpper) v cs
  | [], cs, _, h => by
    rw [List.map_nil] at h
    rw [← h]
    exact .nil
  | k :: v, cs, ha, h => by
    rw [List.map_cons] at h
    rw [← h]
    exact .cons (fold_ascii (ha k (List.mem_cons_self _ _)) rfl)
      (spelling_of_fold v _ (fun c hc => ha c (List.mem_cons_of_mem _ hc)) rfl)

theorem head_dropWhile_not {q : Char → Bool} :
    ∀ (l : List Char) (c : Char), (l.dropWhile q).head? = some c → q c = false
  | [], c, h => by simp at h
  | a :: l, c, h => by
    cases ha : q a
    · rw [dropWhile_head ha] at h
      simp only [List.head?_cons, Option.some.injEq] at h
      rw [← h]; exact ha
    · rw [List.dropWhile_cons_of_pos ha] at h
      exact head_dropWhile_not l c h

theorem stops_dropWhile (l : List Char) :
    Stops A (l.dropWhile (fun c => isDigit A c || c == '.')) := by
  intro c hc
  have := head_dropWhile_not l c hc
  simp only [Bool.or_eq_false_iff, beq_eq_false_iff_ne, ne_eq] at this
  exact this

/-- What `parsePrimary` reads as a number is a number literal, and what follows does not
continue it. -/
theorem numberStart_literal {p : ExpressionParser A} (h : numberStart p) :
    ∃ t, NumberLiteral A t ∧ p.unread = t ++ (scanNumber p).unread ∧
      Stops A (scanNumber p).unread := by
  obtain ⟨i, u, e, pa, ro⟩ := p
  have hall : ∀ l : List Char, ∀ c ∈ l.takeWhile (fun c => isDigit A c || c == '.'),
      isDigit A c = true ∨ c = '.' := by
    intro l c hc
    have := List.mem_takeWhile_imp hc
    simpa using this
  rcases h with h | ⟨h1, h2, h3⟩
  · cases u with
    | nil => simp [cur_mk, isDigit] at h
    | cons d r =>
      have hd : isDigit A d = true := by simpa [cur_mk] using h
      have hdot : d ≠ '.' := isDigit_ascii hd '.'
      have hP : (fun c => isDigit A c || c == '.') d = true := by simp [hd]
      refine ⟨(d :: r).takeWhile (fun c => isDigit A c || c == '.'), ⟨hall _, ?_⟩, ?_, ?_⟩
      · exact Or.inl ⟨d, _, @List.takeWhile_cons_of_pos _ (fun c => isDigit A c || c == '.') d r hP, hd⟩
      · simp only [KGrapher.scanNumber, cur_mk, List.headD_cons, hdot, if_false, skipNumber_mk]
        exact (List.takeWhile_append_dropWhile _ _).symm
      · simp only [KGrapher.scanNumber, cur_mk, List.headD_cons, hdot, if_false, skipNumber_mk]
        exact stops_dropWhile _
  · cases u with
    | nil => simp at h2
    | cons a r =>
      have ha : a = '.' := by simpa [cur_mk] using h1
      subst ha
      cases r with
      | nil => simp at h2
      | cons d r =>
        have hd : isDigit A d = true := by simpa [peek_mk] using h3
        have hP : (fun c => isDigit A c || c == '.') d = true := by simp [hd]
        refine ⟨'.' :: (d :: r).takeWhile (fun c => isDigit A c || c == '.'), ⟨?_, ?_⟩, ?_, ?_⟩
        · intro c hc
          rcases List.mem_cons.mp hc with rfl | hc
          · exact Or.inr rfl
          · exact hall _ c hc
        · exact Or.inr ⟨d, _, congrArg (List.cons '.')
            (@List.takeWhile_cons_of_pos _ (fun c => isDigit A c || c == '.') d r hP), hd⟩
        · simp only [KGrapher.scanNumber, cur_mk, List.headD_cons, if_true, advance_mk,
            List.drop_succ_cons, List.drop_zero, skipNumber_mk, List.cons_append]
          rw [List.takeWhile_append_dropWhile]
        · simp only [KGrapher.scanNumber, cur_mk, List.headD_cons, if_true, advance_mk,
            List.drop_succ_cons, List.drop_zero, skipNumber_mk]
          exact stops_dropWhile _

theorem covered_skip {p : ExpressionParser A} (h : Covered A p.skipSpaces.unread) :
    Covered A p.unread := by
  intro ha
  refine respaced_of_dropWhile _ (h fun c hc => ha c ?_)
  exact (List.dropWhile_suffix _).subset hc

theorem covered_symbol {p : ExpressionParser A} (he : p.atEnd = false) (hs : IsSymbol p.cur)
    (h : Covered A (p.advance 1).unread) : Covered A p.unread := by
  obtain ⟨i, u, e, pa, ro⟩ := p
  cases u with
  | nil => simp [atEnd_mk] at he
  | cons k r =>
    intro ha
    exact .symbol hs (h fun c hc => ha c (List.mem_cons_of_mem _ hc))

theorem covered_number {p : ExpressionParser A} (hn : numberStart p)
    (h : Covered A (scanNumber p).unread) : Covered A p.unread := by
  obtain ⟨t, ht, hu, hs⟩ := numberStart_literal hn
  intro ha
  rw [hu] at ha ⊢
  exact .number ht hs (h fun c hc => ha c (List.mem_append_right _ hc))

theorem covered_name {p : ExpressionParser A} {fn : String}
    (hf : funcs.find? (matchesFunc p) = some fn)
    (h : Covered A (p.advance fn.length).unread) : Covered A p.unread := by
  have hmem := (find_funcs hf).1
  have hm := List.find?_some hf
  simp only [matchesFunc, Bool.and_eq_true, decide_eq_true_eq, beq_iff_eq] at hm
  intro ha
  have hu : p.unread = p.unread.take fn.length ++ (p.advance fn.length).unread := by
    rw [advance_unread, List.take_append_drop]
  have hv : Spelling (p.unread.take fn.length) fn :=
    spelling_of_fold (A := A) _ _ (fun k hk => ha k (List.mem_of_mem_take hk)) hm.2
  rw [hu]
  refine .name hmem hv (h fun c hc => ha c ?_)
  rw [hu]
  exact List.mem_append_right _ hc

/-- A call that ends without an error has read tokens and whitespace only: if what it
leaves unread is covered, so is what it started with. -/
theorem Step.covered {c : Call A} {p q : ExpressionParser A} {n : Node A} (h : Step c p n q) :
    q.m_error = "" → Covered A q.unread → Covered A p.unread := by
  induction h with
  | expression_fail _ _ he => intro hq; exact absurd hq he
  | expression_loop h1 hg h2 ih1 ih2 =>
    intro hq hc
    exact ih1 (h2.error_start hq) (covered_skip (ih2 hq hc))
  | expressionLoop_stop => intro _ hc; exact hc
  | expressionLoop_fail _ _ h1 hr =>
    intro hq
    exact absurd (h1.no_null hq (fun h => h)) (by simp [hr])
  | expressionLoop_next he ht h1 hr h2 ih1 ih2 =>
    intro hq hc
    exact covered_symbol he (IsSymbol.addOp ht)
      (covered_skip (ih1 (h2.error_start hq) (covered_skip (ih2 hq hc))))
  | term_fail _ _ he => intro hq; exact absurd hq he
  | term_loop h1 hg h2 ih1 ih2 =>
    intro hq hc
    exact ih1 (h2.error_start hq) (covered_skip (ih2 hq hc))
  | termLoop_stop => intro _ hc; exact hc
  | termLoop_fail _ _ h1 hr =>
    intro hq
    exact absurd (h1.no_null hq (fun h => h)) (by simp [hr])
  | termLoop_next he ht h1 hr h2 ih1 ih2 =>
    intro hq hc
    exact covered_symbol he (IsSymbol.mulOp ht)
      (covered_skip (ih1 (h2.error_start hq) (covered_skip (ih2 hq hc))))
  | factor _ ih => exact ih
  | power_fail _ _ he => intro hq; exact absurd hq he
  | power_pow_fail _ _ _ _ h2 hx =>
    intro hq
    exact absurd (h2.no_null hq (fun h => h)) (by simp [hx])
  | power_pow h1 hg he hc h2 hx ih1 ih2 =>
    intro hq hcov
    exact ih1 (h2.error_start hq) (covered_skip (covered_symbol he (IsSymbol.of_eq hc)
      (covered_skip (ih2 hq hcov))))
  | power_implicit_fail _ _ _ _ _ h2 hr =>
    intro hq
    exact absurd (h2.no_null hq (fun h => h)) (by simp [hr])
  | power_implicit h1 hg he hc hi h2 hr ih1 ih2 =>
    intro hq hcov
    exact ih1 (h2.error_start hq) (covered_skip (ih2 hq hcov))
  | power_plain h1 hg hc ih1 =>
    intro hq hcov
    exact ih1 hq (covered_skip hcov)
  | unary_neg_fail _ _ h1 hc =>
    intro hq
    exact absurd (h1.no_null hq (fun h => h)) (by simp [hc])
  | unary_neg he hc h1 hn ih1 =>
    intro hq hcov
    exact covered_skip (covered_symbol he (IsSymbol.of_eq hc) (ih1 hq hcov))
  | unary_primary hc h1 ih1 =>
    intro hq hcov
    exact covered_skip (ih1 hq hcov)
  | function_noparen => intro hq; exact absurd hq (expected_paren_ne _)
  | function_arg_fail _ _ h1 ha =>
    intro hq
    exact absurd (h1.no_null hq (fun h => h)) (by simp [ha])
  | function_noclose => intro hq; exact absurd hq (by simp)
  | function_ok he hc h1 ha he2 hc2 hft ih1 =>
    intro hq hcov
    exact covered_skip (covered_symbol he (IsSymbol.of_eq hc)
      (ih1 hq (covered_skip (covered_symbol he2 (IsSymbol.of_eq hc2) hcov))))
  | function_unknown => intro hq; exact absurd hq (unknown_function_ne _)
  | primary_end => intro hq; exact absurd hq (by simp)
  | primary_x he hx =>
    intro _ hcov
    exact covered_skip (covered_symbol he
      (hx.elim (fun h => IsSymbol.of_eq h) (fun h => IsSymbol.of_eq h)) hcov)
  | primary_y he hx hy =>
    intro _ hcov
    exact covered_skip (covered_symbol he
      (hy.elim (fun h => IsSymbol.of_eq h) (fun h => IsSymbol.of_eq h)) hcov)
  | primary_paren_fail _ _ h1 hi =>
    intro hq
    exact absurd (h1.no_null hq (fun h => h)) (by simp [hi])
  | primary_paren_noclose => intro hq; exact absurd hq (by simp)
  | primary_paren he hc h1 hi he2 hc2 ih1 =>
    intro hq hcov
    exact covered_skip (covered_symbol he (IsSymbol.of_eq hc)
      (ih1 hq (covered_skip (covered_symbol he2 (IsSymbol.of_eq hc2) hcov))))
  | primary_number_invalid => intro hq; exact absurd hq (by simp)
  | primary_number he hx hy hp hnum htd =>
    intro _ hcov
    exact covered_skip (covered_number hnum hcov)
  | primary_function he hx hy hp hnum hfind h1 ih1 =>
    intro hq hcov
    exact covered_skip (covered_name hfind (ih1 hq hcov))
  | primary_unexpected => intro hq; exact absurd hq (unexpected_character_ne _)

/-- Every text of ASCII characters without a backslash that parses is a sequence of tokens
and whitespace: whitespace can be inserted between any two of its tokens. -/
theorem parse_covered {text : String} {e0 e1 : ExpressionParser A}
    (hp : parse e0 text = some (true, e1)) (ha : ∀ c ∈ text.data, c.toNat < 128)
    (hb : '\\' ∉ text.data) : Respaced A text.data text.data := by
  obtain ⟨q, hs, he, hend⟩ := parse_true_inv hp
  rw [parseStart_mk, normalize_of_no_backslash (trimmed_no_backslash hb)] at hs
  have hq : Blank A q.unread := by
    have : q.unread.dropWhile (isSpace A) = [] := by
      simpa [ExpressionParser.atEnd] using hend
    exact fun c hc => List.dropWhile_eq_nil_iff.mp this c hc
  have hc : Covered A (trimmed A text.data) := hs.covered he fun _ => respaced_blank hq
  obtain ⟨w1, w2, hw1, hw2, es⟩ := trimmed_decomp (A := A) text.data
  have ht : Respaced A (trimmed A text.data) (trimmed A text.data) := by
    refine hc fun c hc => ha c ?_
    rw [es]
    exact List.mem_append_right _ (List.mem_append_left _ hc)
  have := (ht.append_blank hw2).after_blank hw1
  rw [← es] at this
  exact this

/-- C23: whitespace is insignificant between tokens.  For every text that parses
successfully, every text that is the same with any amount of whitespace inserted between
two adjacent tokens or at either end parses successfully as well, to the same tree, and so
evaluates to the same values.  The tokens are the number literals (each the whole run of
digits and dots), the variables, the operators, the parentheses, the function names in
any spelling, and the macros of the preprocessing.  A text of ASCII characters without a
backslash that parses is such a sequence of tokens and whitespace, so that whitespace can
be inserted between any two of its tokens. -/
theorem C23_whitespace_between_tokens (e0 e : ExpressionParser A) (text : String)
    (e1 : ExpressionParser A) (hp : parse e0 text = some (true, e1)) (x y : A.Double) :
    (∀ text' : String, Respaced A text.data text'.data →
      ∃ e2, parse e text' = some (true, e2) ∧ e2.m_root = e1.m_root ∧ e2.errorString = "" ∧
        e2.isValid = true ∧ eval e2 x y = eval e1 x y) ∧
    ((∀ c ∈ text.data, c.toNat < 128) → '\\' ∉ text.data → Respaced A text.data text.data) := by
  refine ⟨fun text' hr => ?_, parse_covered hp⟩
  obtain ⟨e2, h2, hroot, he, hv⟩ := parse_respaced hp hr e
  exact ⟨e2, h2, hroot, he, hv, by simp only [eval, hroot]⟩

/-- Witness of C23 on the integer platform: `2x+sin(y)`, and ` 2 x + sin ( y ) ` as a text
with whitespace inserted. -/
theorem C23_whitespace_between_tokens_witness :
    parse (fresh intPlatform) "2x+sin(y)" = some (true,
      ⟨['2', 'x', '+', 's', 'i', 'n', '(', 'y', ')'], [], "", true,
        .binary .Add (.binary .Mul (.number (intPlatform.ofInt 2)) (.leaf intPlatform .Variable))
          (.unary .Sin (.leaf intPlatform .VariableY))⟩) ∧
    Respaced intPlatform "2x+sin(y)".data " 2 x + sin ( y ) ".data ∧
    ((∀ text' : String, Respaced intPlatform "2x+sin(y)".data text'.data →
      ∃ e2, parse (fresh intPlatform) text' = some (true, e2) ∧
        e2.m_root = (⟨['2', 'x', '+', 's', 'i', 'n', '(', 'y', ')'], [], "", true,
          .binary .Add (.binary .Mul (.number (intPlatform.ofInt 2))
            (.leaf intPlatform .Variable))
            (.unary .Sin (.leaf intPlatform .VariableY))⟩ : ExpressionParser intPlatform).m_root ∧
        e2.errorString = "" ∧ e2.isValid = true ∧
        eval e2 (intPlatform.ofInt 3) (intPlatform.ofInt 0) =
          eval (⟨['2', 'x', '+', 's', 'i', 'n', '(', 'y', ')'], [], "", true,
            .binary .Add (.binary .Mul (.number (intPlatform.ofInt 2))
              (.leaf intPlatform .Variable))
              (.unary .Sin (.leaf intPlatform .VariableY))⟩ : ExpressionParser intPlatform)
            (intPlatform.ofInt 3) (intPlatform.ofInt 0)) ∧
    ((∀ c ∈ "2x+sin(y)".data, c.toNat < 128) → '\\' ∉ "2x+sin(y)".data →
      Respaced intPlatform "2x+sin(y)".data "2x+sin(y)".data)) :=
  ⟨parse_2x_add_sin_y _, respaced_2x_add_sin_y,
    C23_whitespace_between_tokens (fresh intPlatform) (fresh intPlatform) "2x+sin(y)" _
      (parse_2x_add_sin_y (fresh intPlatform)) (intPlatform.ofInt 3) (intPlatform.ofInt 0)⟩

end KGrapher
